import Mathlib

/-!
sandvox: isosurface extraction (Marching Cubes and Surface Nets).

A shallow embedding of the mesh extraction core of `src/main.cpp` together with
the properties of it that are established below.

Modelling conventions.
* `float` values are exact rationals (`ℚ`); the literal `0.0001` is `1/10000`.
* `int`, `size_t` and `unsigned int` values are unbounded integers: container
  sizes and indices are taken to stay below `2^31`, so no arithmetic wraps.
* `std::vector::push_back` is `xs ++ [x]`.
* Reading an array cell that was never written, or outside the array, is
  undefined behaviour in the source and is `none` here.
-/

set_option autoImplicit false

/-! ## Lookup tables (`main.cpp`, lines 59-381) -/

/-- Edge mask per cube configuration (`unsigned short MC_EDGETABLE[256]`). -/
def MC_EDGETABLE : List Nat :=
  [0x000, 0x109, 0x203, 0x30a, 0x406, 0x50f, 0x605, 0x70c,
   0x80c, 0x905, 0xa0f, 0xb06, 0xc0a, 0xd03, 0xe09, 0xf00,
   0x190, 0x099, 0x393, 0x29a, 0x596, 0x49f, 0x795, 0x69c,
   0x99c, 0x895, 0xb9f, 0xa96, 0xd9a, 0xc93, 0xf99, 0xe90,
   0x230, 0x339, 0x033, 0x13a, 0x636, 0x73f, 0x435, 0x53c,
   0xa3c, 0xb35, 0x83f, 0x936, 0xe3a, 0xf33, 0xc39, 0xd30,
   0x3a0, 0x2a9, 0x1a3, 0x0aa, 0x7a6, 0x6af, 0x5a5, 0x4ac,
   0xbac, 0xaa5, 0x9af, 0x8a6, 0xfaa, 0xea3, 0xda9, 0xca0,
   0x460, 0x569, 0x663, 0x76a, 0x066, 0x16f, 0x265, 0x36c,
   0xc6c, 0xd65, 0xe6f, 0xf66, 0x86a, 0x963, 0xa69, 0xb60,
   0x5f0, 0x4f9, 0x7f3, 0x6fa, 0x1f6, 0x0ff, 0x3f5, 0x2fc,
   0xdfc, 0xcf5, 0xfff, 0xef6, 0x9fa, 0x8f3, 0xbf9, 0xaf0,
   0x650, 0x759, 0x453, 0x55a, 0x256, 0x35f, 0x055, 0x15c,
   0xe5c, 0xf55, 0xc5f, 0xd56, 0xa5a, 0xb53, 0x859, 0x950,
   0x7c0, 0x6c9, 0x5c3, 0x4ca, 0x3c6, 0x2cf, 0x1c5, 0x0cc,
   0xfcc, 0xec5, 0xdcf, 0xcc6, 0xbca, 0xac3, 0x9c9, 0x8c0,
   0x8c0, 0x9c9, 0xac3, 0xbca, 0xcc6, 0xdcf, 0xec5, 0xfcc,
   0x0cc, 0x1c5, 0x2cf, 0x3c6, 0x4ca, 0x5c3, 0x6c9, 0x7c0,
   0x950, 0x859, 0xb53, 0xa5a, 0xd56, 0xc5f, 0xf55, 0xe5c,
   0x15c, 0x055, 0x35f, 0x256, 0x55a, 0x453, 0x759, 0x650,
   0xaf0, 0xbf9, 0x8f3, 0x9fa, 0xef6, 0xfff, 0xcf5, 0xdfc,
   0x2fc, 0x3f5, 0x0ff, 0x1f6, 0x6fa, 0x7f3, 0x4f9, 0x5f0,
   0xb60, 0xa69, 0x963, 0x86a, 0xf66, 0xe6f, 0xd65, 0xc6c,
   0x36c, 0x265, 0x16f, 0x066, 0x76a, 0x663, 0x569, 0x460,
   0xca0, 0xda9, 0xea3, 0xfaa, 0x8a6, 0x9af, 0xaa5, 0xbac,
   0x4ac, 0x5a5, 0x6af, 0x7a6, 0x0aa, 0x1a3, 0x2a9, 0x3a0,
   0xd30, 0xc39, 0xf33, 0xe3a, 0x936, 0x83f, 0xb35, 0xa3c,
   0x53c, 0x435, 0x73f, 0x636, 0x13a, 0x033, 0x339, 0x230,
   0xe90, 0xf99, 0xc93, 0xd9a, 0xa96, 0xb9f, 0x895, 0x99c,
   0x69c, 0x795, 0x49f, 0x596, 0x29a, 0x393, 0x099, 0x190,
   0xf00, 0xe09, 0xd03, 0xc0a, 0xb06, 0xa0f, 0x905, 0x80c,
   0x70c, 0x605, 0x50f, 0x406, 0x30a, 0x203, 0x109, 0x000]

/-- Triangle list per cube configuration (`signed char MC_TRITABLE[256][16]`). -/
def MC_TRITABLE : List (List Int) :=
  [([-1, -1, -1, -1, -1, -1, -1, -1, -1, -1, -1, -1, -1, -1, -1, -1] : List Int),
   ([0, 8, 3, -1, -1, -1, -1, -1, -1, -1, -1, -1, -1, -1, -1, -1] : List Int),
   ([0, 1, 9, -1, -1, -1, -1, -1, -1, -1, -1, -1, -1, -1, -1, -1] : List Int),
   ([1, 8, 3, 9, 8, 1, -1, -1, -1, -1, -1, -1, -1, -1, -1, -1] : List Int),
   ([1, 2, 10, -1, -1, -1, -1, -1, -1, -1, -1, -1, -1, -1, -1, -1] : List Int),
   ([0, 8, 3, 1, 2, 10, -1, -1, -1, -1, -1, -1, -1, -1, -1, -1] : List Int),
   ([9, 2, 10, 0, 2, 9, -1, -1, -1, -1, -1, -1, -1, -1, -1, -1] : List Int),
   ([2, 8, 3, 2, 10, 8, 10, 9, 8, -1, -1, -1, -1, -1, -1, -1] : List Int),
   ([3, 11, 2, -1, -1, -1, -1, -1, -1, -1, -1, -1, -1, -1, -1, -1] : List Int),
   ([0, 11, 2, 8, 11, 0, -1, -1, -1, -1, -1, -1, -1, -1, -1, -1] : List Int),
   ([1, 9, 0, 2, 3, 11, -1, -1, -1, -1, -1, -1, -1, -1, -1, -1] : List Int),
   ([1, 11, 2, 1, 9, 11, 9, 8, 11, -1, -1, -1, -1, -1, -1, -1] : List Int),
   ([3, 10, 1, 11, 10, 3, -1, -1, -1, -1, -1, -1, -1, -1, -1, -1] : List Int),
   ([0, 10, 1, 0, 8, 10, 8, 11, 10, -1, -1, -1, -1, -1, -1, -1] : List Int),
   ([3, 9, 0, 3, 11, 9, 11, 10, 9, -1, -1, -1, -1, -1, -1, -1] : List Int),
   ([9, 8, 10, 10, 8, 11, -1, -1, -1, -1, -1, -1, -1, -1, -1, -1] : List Int),
   ([4, 7, 8, -1, -1, -1, -1, -1, -1, -1, -1, -1, -1, -1, -1, -1] : List Int),
   ([4, 3, 0, 7, 3, 4, -1, -1, -1, -1, -1, -1, -1, -1, -1, -1] : List Int),
   ([0, 1, 9, 8, 4, 7, -1, -1, -1, -1, -1, -1, -1, -1, -1, -1] : List Int),
   ([4, 1, 9, 4, 7, 1, 7, 3, 1, -1, -1, -1, -1, -1, -1, -1] : List Int),
   ([1, 2, 10, 8, 4, 7, -1, -1, -1, -1, -1, -1, -1, -1, -1, -1] : List Int),
   ([3, 4, 7, 3, 0, 4, 1, 2, 10, -1, -1, -1, -1, -1, -1, -1] : List Int),
   ([9, 2, 10, 9, 0, 2, 8, 4, 7, -1, -1, -1, -1, -1, -1, -1] : List Int),
   ([2, 10, 9, 2, 9, 7, 2, 7, 3, 7, 9, 4, -1, -1, -1, -1] : List Int),
   ([8, 4, 7, 3, 11, 2, -1, -1, -1, -1, -1, -1, -1, -1, -1, -1] : List Int),
   ([11, 4, 7, 11, 2, 4, 2, 0, 4, -1, -1, -1, -1, -1, -1, -1] : List Int),
   ([9, 0, 1, 8, 4, 7, 2, 3, 11, -1, -1, -1, -1, -1, -1, -1] : List Int),
   ([4, 7, 11, 9, 4, 11, 9, 11, 2, 9, 2, 1, -1, -1, -1, -1] : List Int),
   ([3, 10, 1, 3, 11, 10, 7, 8, 4, -1, -1, -1, -1, -1, -1, -1] : List Int),
   ([1, 11, 10, 1, 4, 11, 1, 0, 4, 7, 11, 4, -1, -1, -1, -1] : List Int),
   ([4, 7, 8, 9, 0, 11, 9, 11, 10, 11, 0, 3, -1, -1, -1, -1] : List Int),
   ([4, 7, 11, 4, 11, 9, 9, 11, 10, -1, -1, -1, -1, -1, -1, -1] : List Int),
   ([9, 5, 4, -1, -1, -1, -1, -1, -1, -1, -1, -1, -1, -1, -1, -1] : List Int),
   ([9, 5, 4, 0, 8, 3, -1, -1, -1, -1, -1, -1, -1, -1, -1, -1] : List Int),
   ([0, 5, 4, 1, 5, 0, -1, -1, -1, -1, -1, -1, -1, -1, -1, -1] : List Int),
   ([8, 5, 4, 8, 3, 5, 3, 1, 5, -1, -1, -1, -1, -1, -1, -1] : List Int),
   ([1, 2, 10, 9, 5, 4, -1, -1, -1, -1, -1, -1, -1, -1, -1, -1] : List Int),
   ([3, 0, 8, 1, 2, 10, 4, 9, 5, -1, -1, -1, -1, -1, -1, -1] : List Int),
   ([5, 2, 10, 5, 4, 2, 4, 0, 2, -1, -1, -1, -1, -1, -1, -1] : List Int),
   ([2, 10, 5, 3, 2, 5, 3, 5, 4, 3, 4, 8, -1, -1, -1, -1] : List Int),
   ([9, 5, 4, 2, 3, 11, -1, -1, -1, -1, -1, -1, -1, -1, -1, -1] : List Int),
   ([0, 11, 2, 0, 8, 11, 4, 9, 5, -1, -1, -1, -1, -1, -1, -1] : List Int),
   ([0, 5, 4, 0, 1, 5, 2, 3, 11, -1, -1, -1, -1, -1, -1, -1] : List Int),
   ([2, 1, 5, 2, 5, 8, 2, 8, 11, 4, 8, 5, -1, -1, -1, -1] : List Int),
   ([10, 3, 11, 10, 1, 3, 9, 5, 4, -1, -1, -1, -1, -1, -1, -1] : List Int),
   ([4, 9, 5, 0, 8, 1, 8, 10, 1, 8, 11, 10, -1, -1, -1, -1] : List Int),
   ([5, 4, 0, 5, 0, 11, 5, 11, 10, 11, 0, 3, -1, -1, -1, -1] : List Int),
   ([5, 4, 8, 5, 8, 10, 10, 8, 11, -1, -1, -1, -1, -1, -1, -1] : List Int),
   ([9, 7, 8, 5, 7, 9, -1, -1, -1, -1, -1, -1, -1, -1, -1, -1] : List Int),
   ([9, 3, 0, 9, 5, 3, 5, 7, 3, -1, -1, -1, -1, -1, -1, -1] : List Int),
   ([0, 7, 8, 0, 1, 7, 1, 5, 7, -1, -1, -1, -1, -1, -1, -1] : List Int),
   ([1, 5, 3, 3, 5, 7, -1, -1, -1, -1, -1, -1, -1, -1, -1, -1] : List Int),
   ([9, 7, 8, 9, 5, 7, 10, 1, 2, -1, -1, -1, -1, -1, -1, -1] : List Int),
   ([10, 1, 2, 9, 5, 0, 5, 3, 0, 5, 7, 3, -1, -1, -1, -1] : List Int),
   ([8, 0, 2, 8, 2, 5, 8, 5, 7, 10, 5, 2, -1, -1, -1, -1] : List Int),
   ([2, 10, 5, 2, 5, 3, 3, 5, 7, -1, -1, -1, -1, -1, -1, -1] : List Int),
   ([7, 9, 5, 7, 8, 9, 3, 11, 2, -1, -1, -1, -1, -1, -1, -1] : List Int),
   ([9, 5, 7, 9, 7, 2, 9, 2, 0, 2, 7, 11, -1, -1, -1, -1] : List Int),
   ([2, 3, 11, 0, 1, 8, 1, 7, 8, 1, 5, 7, -1, -1, -1, -1] : List Int),
   ([11, 2, 1, 11, 1, 7, 7, 1, 5, -1, -1, -1, -1, -1, -1, -1] : List Int),
   ([9, 5, 8, 8, 5, 7, 10, 1, 3, 10, 3, 11, -1, -1, -1, -1] : List Int),
   ([5, 7, 0, 5, 0, 9, 7, 11, 0, 1, 0, 10, 11, 10, 0, -1] : List Int),
   ([11, 10, 0, 11, 0, 3, 10, 5, 0, 8, 0, 7, 5, 7, 0, -1] : List Int),
   ([11, 10, 5, 7, 11, 5, -1, -1, -1, -1, -1, -1, -1, -1, -1, -1] : List Int),
   ([10, 6, 5, -1, -1, -1, -1, -1, -1, -1, -1, -1, -1, -1, -1, -1] : List Int),
   ([0, 8, 3, 5, 10, 6, -1, -1, -1, -1, -1, -1, -1, -1, -1, -1] : List Int),
   ([9, 0, 1, 5, 10, 6, -1, -1, -1, -1, -1, -1, -1, -1, -1, -1] : List Int),
   ([1, 8, 3, 1, 9, 8, 5, 10, 6, -1, -1, -1, -1, -1, -1, -1] : List Int),
   ([1, 6, 5, 2, 6, 1, -1, -1, -1, -1, -1, -1, -1, -1, -1, -1] : List Int),
   ([1, 6, 5, 1, 2, 6, 3, 0, 8, -1, -1, -1, -1, -1, -1, -1] : List Int),
   ([9, 6, 5, 9, 0, 6, 0, 2, 6, -1, -1, -1, -1, -1, -1, -1] : List Int),
   ([5, 9, 8, 5, 8, 2, 5, 2, 6, 3, 2, 8, -1, -1, -1, -1] : List Int),
   ([2, 3, 11, 10, 6, 5, -1, -1, -1, -1, -1, -1, -1, -1, -1, -1] : List Int),
   ([11, 0, 8, 11, 2, 0, 10, 6, 5, -1, -1, -1, -1, -1, -1, -1] : List Int),
   ([0, 1, 9, 2, 3, 11, 5, 10, 6, -1, -1, -1, -1, -1, -1, -1] : List Int),
   ([5, 10, 6, 1, 9, 2, 9, 11, 2, 9, 8, 11, -1, -1, -1, -1] : List Int),
   ([6, 3, 11, 6, 5, 3, 5, 1, 3, -1, -1, -1, -1, -1, -1, -1] : List Int),
   ([0, 8, 11, 0, 11, 5, 0, 5, 1, 5, 11, 6, -1, -1, -1, -1] : List Int),
   ([3, 11, 6, 0, 3, 6, 0, 6, 5, 0, 5, 9, -1, -1, -1, -1] : List Int),
   ([6, 5, 9, 6, 9, 11, 11, 9, 8, -1, -1, -1, -1, -1, -1, -1] : List Int),
   ([5, 10, 6, 4, 7, 8, -1, -1, -1, -1, -1, -1, -1, -1, -1, -1] : List Int),
   ([4, 3, 0, 4, 7, 3, 6, 5, 10, -1, -1, -1, -1, -1, -1, -1] : List Int),
   ([1, 9, 0, 5, 10, 6, 8, 4, 7, -1, -1, -1, -1, -1, -1, -1] : List Int),
   ([10, 6, 5, 1, 9, 7, 1, 7, 3, 7, 9, 4, -1, -1, -1, -1] : List Int),
   ([6, 1, 2, 6, 5, 1, 4, 7, 8, -1, -1, -1, -1, -1, -1, -1] : List Int),
   ([1, 2, 5, 5, 2, 6, 3, 0, 4, 3, 4, 7, -1, -1, -1, -1] : List Int),
   ([8, 4, 7, 9, 0, 5, 0, 6, 5, 0, 2, 6, -1, -1, -1, -1] : List Int),
   ([7, 3, 9, 7, 9, 4, 3, 2, 9, 5, 9, 6, 2, 6, 9, -1] : List Int),
   ([3, 11, 2, 7, 8, 4, 10, 6, 5, -1, -1, -1, -1, -1, -1, -1] : List Int),
   ([5, 10, 6, 4, 7, 2, 4, 2, 0, 2, 7, 11, -1, -1, -1, -1] : List Int),
   ([0, 1, 9, 4, 7, 8, 2, 3, 11, 5, 10, 6, -1, -1, -1, -1] : List Int),
   ([9, 2, 1, 9, 11, 2, 9, 4, 11, 7, 11, 4, 5, 10, 6, -1] : List Int),
   ([8, 4, 7, 3, 11, 5, 3, 5, 1, 5, 11, 6, -1, -1, -1, -1] : List Int),
   ([5, 1, 11, 5, 11, 6, 1, 0, 11, 7, 11, 4, 0, 4, 11, -1] : List Int),
   ([0, 5, 9, 0, 6, 5, 0, 3, 6, 11, 6, 3, 8, 4, 7, -1] : List Int),
   ([6, 5, 9, 6, 9, 11, 4, 7, 9, 7, 11, 9, -1, -1, -1, -1] : List Int),
   ([10, 4, 9, 6, 4, 10, -1, -1, -1, -1, -1, -1, -1, -1, -1, -1] : List Int),
   ([4, 10, 6, 4, 9, 10, 0, 8, 3, -1, -1, -1, -1, -1, -1, -1] : List Int),
   ([10, 0, 1, 10, 6, 0, 6, 4, 0, -1, -1, -1, -1, -1, -1, -1] : List Int),
   ([8, 3, 1, 8, 1, 6, 8, 6, 4, 6, 1, 10, -1, -1, -1, -1] : List Int),
   ([1, 4, 9, 1, 2, 4, 2, 6, 4, -1, -1, -1, -1, -1, -1, -1] : List Int),
   ([3, 0, 8, 1, 2, 9, 2, 4, 9, 2, 6, 4, -1, -1, -1, -1] : List Int),
   ([0, 2, 4, 4, 2, 6, -1, -1, -1, -1, -1, -1, -1, -1, -1, -1] : List Int),
   ([8, 3, 2, 8, 2, 4, 4, 2, 6, -1, -1, -1, -1, -1, -1, -1] : List Int),
   ([10, 4, 9, 10, 6, 4, 11, 2, 3, -1, -1, -1, -1, -1, -1, -1] : List Int),
   ([0, 8, 2, 2, 8, 11, 4, 9, 10, 4, 10, 6, -1, -1, -1, -1] : List Int),
   ([3, 11, 2, 0, 1, 6, 0, 6, 4, 6, 1, 10, -1, -1, -1, -1] : List Int),
   ([6, 4, 1, 6, 1, 10, 4, 8, 1, 2, 1, 11, 8, 11, 1, -1] : List Int),
   ([9, 6, 4, 9, 3, 6, 9, 1, 3, 11, 6, 3, -1, -1, -1, -1] : List Int),
   ([8, 11, 1, 8, 1, 0, 11, 6, 1, 9, 1, 4, 6, 4, 1, -1] : List Int),
   ([3, 11, 6, 3, 6, 0, 0, 6, 4, -1, -1, -1, -1, -1, -1, -1] : List Int),
   ([6, 4, 8, 11, 6, 8, -1, -1, -1, -1, -1, -1, -1, -1, -1, -1] : List Int),
   ([7, 10, 6, 7, 8, 10, 8, 9, 10, -1, -1, -1, -1, -1, -1, -1] : List Int),
   ([0, 7, 3, 0, 10, 7, 0, 9, 10, 6, 7, 10, -1, -1, -1, -1] : List Int),
   ([10, 6, 7, 1, 10, 7, 1, 7, 8, 1, 8, 0, -1, -1, -1, -1] : List Int),
   ([10, 6, 7, 10, 7, 1, 1, 7, 3, -1, -1, -1, -1, -1, -1, -1] : List Int),
   ([1, 2, 6, 1, 6, 8, 1, 8, 9, 8, 6, 7, -1, -1, -1, -1] : List Int),
   ([2, 6, 9, 2, 9, 1, 6, 7, 9, 0, 9, 3, 7, 3, 9, -1] : List Int),
   ([7, 8, 0, 7, 0, 6, 6, 0, 2, -1, -1, -1, -1, -1, -1, -1] : List Int),
   ([7, 3, 2, 6, 7, 2, -1, -1, -1, -1, -1, -1, -1, -1, -1, -1] : List Int),
   ([2, 3, 11, 10, 6, 8, 10, 8, 9, 8, 6, 7, -1, -1, -1, -1] : List Int),
   ([2, 0, 7, 2, 7, 11, 0, 9, 7, 6, 7, 10, 9, 10, 7, -1] : List Int),
   ([1, 8, 0, 1, 7, 8, 1, 10, 7, 6, 7, 10, 2, 3, 11, -1] : List Int),
   ([11, 2, 1, 11, 1, 7, 10, 6, 1, 6, 7, 1, -1, -1, -1, -1] : List Int),
   ([8, 9, 6, 8, 6, 7, 9, 1, 6, 11, 6, 3, 1, 3, 6, -1] : List Int),
   ([0, 9, 1, 11, 6, 7, -1, -1, -1, -1, -1, -1, -1, -1, -1, -1] : List Int),
   ([7, 8, 0, 7, 0, 6, 3, 11, 0, 11, 6, 0, -1, -1, -1, -1] : List Int),
   ([7, 11, 6, -1, -1, -1, -1, -1, -1, -1, -1, -1, -1, -1, -1, -1] : List Int),
   ([7, 6, 11, -1, -1, -1, -1, -1, -1, -1, -1, -1, -1, -1, -1, -1] : List Int),
   ([3, 0, 8, 11, 7, 6, -1, -1, -1, -1, -1, -1, -1, -1, -1, -1] : List Int),
   ([0, 1, 9, 11, 7, 6, -1, -1, -1, -1, -1, -1, -1, -1, -1, -1] : List Int),
   ([8, 1, 9, 8, 3, 1, 11, 7, 6, -1, -1, -1, -1, -1, -1, -1] : List Int),
   ([10, 1, 2, 6, 11, 7, -1, -1, -1, -1, -1, -1, -1, -1, -1, -1] : List Int),
   ([1, 2, 10, 3, 0, 8, 6, 11, 7, -1, -1, -1, -1, -1, -1, -1] : List Int),
   ([2, 9, 0, 2, 10, 9, 6, 11, 7, -1, -1, -1, -1, -1, -1, -1] : List Int),
   ([6, 11, 7, 2, 10, 3, 10, 8, 3, 10, 9, 8, -1, -1, -1, -1] : List Int),
   ([7, 2, 3, 6, 2, 7, -1, -1, -1, -1, -1, -1, -1, -1, -1, -1] : List Int),
   ([7, 0, 8, 7, 6, 0, 6, 2, 0, -1, -1, -1, -1, -1, -1, -1] : List Int),
   ([2, 7, 6, 2, 3, 7, 0, 1, 9, -1, -1, -1, -1, -1, -1, -1] : List Int),
   ([1, 6, 2, 1, 8, 6, 1, 9, 8, 8, 7, 6, -1, -1, -1, -1] : List Int),
   ([10, 7, 6, 10, 1, 7, 1, 3, 7, -1, -1, -1, -1, -1, -1, -1] : List Int),
   ([10, 7, 6, 1, 7, 10, 1, 8, 7, 1, 0, 8, -1, -1, -1, -1] : List Int),
   ([0, 3, 7, 0, 7, 10, 0, 10, 9, 6, 10, 7, -1, -1, -1, -1] : List Int),
   ([7, 6, 10, 7, 10, 8, 8, 10, 9, -1, -1, -1, -1, -1, -1, -1] : List Int),
   ([6, 8, 4, 11, 8, 6, -1, -1, -1, -1, -1, -1, -1, -1, -1, -1] : List Int),
   ([3, 6, 11, 3, 0, 6, 0, 4, 6, -1, -1, -1, -1, -1, -1, -1] : List Int),
   ([8, 6, 11, 8, 4, 6, 9, 0, 1, -1, -1, -1, -1, -1, -1, -1] : List Int),
   ([9, 4, 6, 9, 6, 3, 9, 3, 1, 11, 3, 6, -1, -1, -1, -1] : List Int),
   ([6, 8, 4, 6, 11, 8, 2, 10, 1, -1, -1, -1, -1, -1, -1, -1] : List Int),
   ([1, 2, 10, 3, 0, 11, 0, 6, 11, 0, 4, 6, -1, -1, -1, -1] : List Int),
   ([4, 11, 8, 4, 6, 11, 0, 2, 9, 2, 10, 9, -1, -1, -1, -1] : List Int),
   ([10, 9, 3, 10, 3, 2, 9, 4, 3, 11, 3, 6, 4, 6, 3, -1] : List Int),
   ([8, 2, 3, 8, 4, 2, 4, 6, 2, -1, -1, -1, -1, -1, -1, -1] : List Int),
   ([0, 4, 2, 4, 6, 2, -1, -1, -1, -1, -1, -1, -1, -1, -1, -1] : List Int),
   ([1, 9, 0, 2, 3, 4, 2, 4, 6, 4, 3, 8, -1, -1, -1, -1] : List Int),
   ([1, 9, 4, 1, 4, 2, 2, 4, 6, -1, -1, -1, -1, -1, -1, -1] : List Int),
   ([8, 1, 3, 8, 6, 1, 8, 4, 6, 6, 10, 1, -1, -1, -1, -1] : List Int),
   ([10, 1, 0, 10, 0, 6, 6, 0, 4, -1, -1, -1, -1, -1, -1, -1] : List Int),
   ([4, 6, 3, 4, 3, 8, 6, 10, 3, 0, 3, 9, 10, 9, 3, -1] : List Int),
   ([10, 9, 4, 6, 10, 4, -1, -1, -1, -1, -1, -1, -1, -1, -1, -1] : List Int),
   ([4, 9, 5, 7, 6, 11, -1, -1, -1, -1, -1, -1, -1, -1, -1, -1] : List Int),
   ([0, 8, 3, 4, 9, 5, 11, 7, 6, -1, -1, -1, -1, -1, -1, -1] : List Int),
   ([5, 0, 1, 5, 4, 0, 7, 6, 11, -1, -1, -1, -1, -1, -1, -1] : List Int),
   ([11, 7, 6, 8, 3, 4, 3, 5, 4, 3, 1, 5, -1, -1, -1, -1] : List Int),
   ([9, 5, 4, 10, 1, 2, 7, 6, 11, -1, -1, -1, -1, -1, -1, -1] : List Int),
   ([6, 11, 7, 1, 2, 10, 0, 8, 3, 4, 9, 5, -1, -1, -1, -1] : List Int),
   ([7, 6, 11, 5, 4, 10, 4, 2, 10, 4, 0, 2, -1, -1, -1, -1] : List Int),
   ([3, 4, 8, 3, 5, 4, 3, 2, 5, 10, 5, 2, 11, 7, 6, -1] : List Int),
   ([7, 2, 3, 7, 6, 2, 5, 4, 9, -1, -1, -1, -1, -1, -1, -1] : List Int),
   ([9, 5, 4, 0, 8, 6, 0, 6, 2, 6, 8, 7, -1, -1, -1, -1] : List Int),
   ([3, 6, 2, 3, 7, 6, 1, 5, 0, 5, 4, 0, -1, -1, -1, -1] : List Int),
   ([6, 2, 8, 6, 8, 7, 2, 1, 8, 4, 8, 5, 1, 5, 8, -1] : List Int),
   ([9, 5, 4, 10, 1, 6, 1, 7, 6, 1, 3, 7, -1, -1, -1, -1] : List Int),
   ([1, 6, 10, 1, 7, 6, 1, 0, 7, 8, 7, 0, 9, 5, 4, -1] : List Int),
   ([4, 0, 10, 4, 10, 5, 0, 3, 10, 6, 10, 7, 3, 7, 10, -1] : List Int),
   ([7, 6, 10, 7, 10, 8, 5, 4, 10, 4, 8, 10, -1, -1, -1, -1] : List Int),
   ([6, 9, 5, 6, 11, 9, 11, 8, 9, -1, -1, -1, -1, -1, -1, -1] : List Int),
   ([3, 6, 11, 0, 6, 3, 0, 5, 6, 0, 9, 5, -1, -1, -1, -1] : List Int),
   ([0, 11, 8, 0, 5, 11, 0, 1, 5, 5, 6, 11, -1, -1, -1, -1] : List Int),
   ([6, 11, 3, 6, 3, 5, 5, 3, 1, -1, -1, -1, -1, -1, -1, -1] : List Int),
   ([1, 2, 10, 9, 5, 11, 9, 11, 8, 11, 5, 6, -1, -1, -1, -1] : List Int),
   ([0, 11, 3, 0, 6, 11, 0, 9, 6, 5, 6, 9, 1, 2, 10, -1] : List Int),
   ([11, 8, 5, 11, 5, 6, 8, 0, 5, 10, 5, 2, 0, 2, 5, -1] : List Int),
   ([6, 11, 3, 6, 3, 5, 2, 10, 3, 10, 5, 3, -1, -1, -1, -1] : List Int),
   ([5, 8, 9, 5, 2, 8, 5, 6, 2, 3, 8, 2, -1, -1, -1, -1] : List Int),
   ([9, 5, 6, 9, 6, 0, 0, 6, 2, -1, -1, -1, -1, -1, -1, -1] : List Int),
   ([1, 5, 8, 1, 8, 0, 5, 6, 8, 3, 8, 2, 6, 2, 8, -1] : List Int),
   ([1, 5, 6, 2, 1, 6, -1, -1, -1, -1, -1, -1, -1, -1, -1, -1] : List Int),
   ([1, 3, 6, 1, 6, 10, 3, 8, 6, 5, 6, 9, 8, 9, 6, -1] : List Int),
   ([10, 1, 0, 10, 0, 6, 9, 5, 0, 5, 6, 0, -1, -1, -1, -1] : List Int),
   ([0, 3, 8, 5, 6, 10, -1, -1, -1, -1, -1, -1, -1, -1, -1, -1] : List Int),
   ([10, 5, 6, -1, -1, -1, -1, -1, -1, -1, -1, -1, -1, -1, -1, -1] : List Int),
   ([11, 5, 10, 7, 5, 11, -1, -1, -1, -1, -1, -1, -1, -1, -1, -1] : List Int),
   ([11, 5, 10, 11, 7, 5, 8, 3, 0, -1, -1, -1, -1, -1, -1, -1] : List Int),
   ([5, 11, 7, 5, 10, 11, 1, 9, 0, -1, -1, -1, -1, -1, -1, -1] : List Int),
   ([10, 7, 5, 10, 11, 7, 9, 8, 1, 8, 3, 1, -1, -1, -1, -1] : List Int),
   ([11, 1, 2, 11, 7, 1, 7, 5, 1, -1, -1, -1, -1, -1, -1, -1] : List Int),
   ([0, 8, 3, 1, 2, 7, 1, 7, 5, 7, 2, 11, -1, -1, -1, -1] : List Int),
   ([9, 7, 5, 9, 2, 7, 9, 0, 2, 2, 11, 7, -1, -1, -1, -1] : List Int),
   ([7, 5, 2, 7, 2, 11, 5, 9, 2, 3, 2, 8, 9, 8, 2, -1] : List Int),
   ([2, 5, 10, 2, 3, 5, 3, 7, 5, -1, -1, -1, -1, -1, -1, -1] : List Int),
   ([8, 2, 0, 8, 5, 2, 8, 7, 5, 10, 2, 5, -1, -1, -1, -1] : List Int),
   ([9, 0, 1, 5, 10, 3, 5, 3, 7, 3, 10, 2, -1, -1, -1, -1] : List Int),
   ([9, 8, 2, 9, 2, 1, 8, 7, 2, 10, 2, 5, 7, 5, 2, -1] : List Int),
   ([1, 3, 5, 3, 7, 5, -1, -1, -1, -1, -1, -1, -1, -1, -1, -1] : List Int),
   ([0, 8, 7, 0, 7, 1, 1, 7, 5, -1, -1, -1, -1, -1, -1, -1] : List Int),
   ([9, 0, 3, 9, 3, 5, 5, 3, 7, -1, -1, -1, -1, -1, -1, -1] : List Int),
   ([9, 8, 7, 5, 9, 7, -1, -1, -1, -1, -1, -1, -1, -1, -1, -1] : List Int),
   ([5, 8, 4, 5, 10, 8, 10, 11, 8, -1, -1, -1, -1, -1, -1, -1] : List Int),
   ([5, 0, 4, 5, 11, 0, 5, 10, 11, 11, 3, 0, -1, -1, -1, -1] : List Int),
   ([0, 1, 9, 8, 4, 10, 8, 10, 11, 10, 4, 5, -1, -1, -1, -1] : List Int),
   ([10, 11, 4, 10, 4, 5, 11, 3, 4, 9, 4, 1, 3, 1, 4, -1] : List Int),
   ([2, 5, 1, 2, 8, 5, 2, 11, 8, 4, 5, 8, -1, -1, -1, -1] : List Int),
   ([0, 4, 11, 0, 11, 3, 4, 5, 11, 2, 11, 1, 5, 1, 11, -1] : List Int),
   ([0, 2, 5, 0, 5, 9, 2, 11, 5, 4, 5, 8, 11, 8, 5, -1] : List Int),
   ([9, 4, 5, 2, 11, 3, -1, -1, -1, -1, -1, -1, -1, -1, -1, -1] : List Int),
   ([2, 5, 10, 3, 5, 2, 3, 4, 5, 3, 8, 4, -1, -1, -1, -1] : List Int),
   ([5, 10, 2, 5, 2, 4, 4, 2, 0, -1, -1, -1, -1, -1, -1, -1] : List Int),
   ([3, 10, 2, 3, 5, 10, 3, 8, 5, 4, 5, 8, 0, 1, 9, -1] : List Int),
   ([5, 10, 2, 5, 2, 4, 1, 9, 2, 9, 4, 2, -1, -1, -1, -1] : List Int),
   ([8, 4, 5, 8, 5, 3, 3, 5, 1, -1, -1, -1, -1, -1, -1, -1] : List Int),
   ([0, 4, 5, 1, 0, 5, -1, -1, -1, -1, -1, -1, -1, -1, -1, -1] : List Int),
   ([8, 4, 5, 8, 5, 3, 9, 0, 5, 0, 3, 5, -1, -1, -1, -1] : List Int),
   ([9, 4, 5, -1, -1, -1, -1, -1, -1, -1, -1, -1, -1, -1, -1, -1] : List Int),
   ([4, 11, 7, 4, 9, 11, 9, 10, 11, -1, -1, -1, -1, -1, -1, -1] : List Int),
   ([0, 8, 3, 4, 9, 7, 9, 11, 7, 9, 10, 11, -1, -1, -1, -1] : List Int),
   ([1, 10, 11, 1, 11, 4, 1, 4, 0, 7, 4, 11, -1, -1, -1, -1] : List Int),
   ([3, 1, 4, 3, 4, 8, 1, 10, 4, 7, 4, 11, 10, 11, 4, -1] : List Int),
   ([4, 11, 7, 9, 11, 4, 9, 2, 11, 9, 1, 2, -1, -1, -1, -1] : List Int),
   ([9, 7, 4, 9, 11, 7, 9, 1, 11, 2, 11, 1, 0, 8, 3, -1] : List Int),
   ([11, 7, 4, 11, 4, 2, 2, 4, 0, -1, -1, -1, -1, -1, -1, -1] : List Int),
   ([11, 7, 4, 11, 4, 2, 8, 3, 4, 3, 2, 4, -1, -1, -1, -1] : List Int),
   ([2, 9, 10, 2, 7, 9, 2, 3, 7, 7, 4, 9, -1, -1, -1, -1] : List Int),
   ([9, 10, 7, 9, 7, 4, 10, 2, 7, 8, 7, 0, 2, 0, 7, -1] : List Int),
   ([3, 7, 10, 3, 10, 2, 7, 4, 10, 1, 10, 0, 4, 0, 10, -1] : List Int),
   ([1, 10, 2, 8, 7, 4, -1, -1, -1, -1, -1, -1, -1, -1, -1, -1] : List Int),
   ([4, 9, 1, 4, 1, 7, 7, 1, 3, -1, -1, -1, -1, -1, -1, -1] : List Int),
   ([4, 9, 1, 4, 1, 7, 0, 8, 1, 8, 7, 1, -1, -1, -1, -1] : List Int),
   ([4, 0, 3, 7, 4, 3, -1, -1, -1, -1, -1, -1, -1, -1, -1, -1] : List Int),
   ([4, 8, 7, -1, -1, -1, -1, -1, -1, -1, -1, -1, -1, -1, -1, -1] : List Int),
   ([9, 10, 8, 10, 11, 8, -1, -1, -1, -1, -1, -1, -1, -1, -1, -1] : List Int),
   ([3, 0, 9, 3, 9, 11, 11, 9, 10, -1, -1, -1, -1, -1, -1, -1] : List Int),
   ([0, 1, 10, 0, 10, 8, 8, 10, 11, -1, -1, -1, -1, -1, -1, -1] : List Int),
   ([3, 1, 10, 11, 3, 10, -1, -1, -1, -1, -1, -1, -1, -1, -1, -1] : List Int),
   ([1, 2, 11, 1, 11, 9, 9, 11, 8, -1, -1, -1, -1, -1, -1, -1] : List Int),
   ([3, 0, 9, 3, 9, 11, 1, 2, 9, 2, 11, 9, -1, -1, -1, -1] : List Int),
   ([0, 2, 11, 8, 0, 11, -1, -1, -1, -1, -1, -1, -1, -1, -1, -1] : List Int),
   ([3, 2, 11, -1, -1, -1, -1, -1, -1, -1, -1, -1, -1, -1, -1, -1] : List Int),
   ([2, 3, 8, 2, 8, 10, 10, 8, 9, -1, -1, -1, -1, -1, -1, -1] : List Int),
   ([9, 10, 2, 0, 9, 2, -1, -1, -1, -1, -1, -1, -1, -1, -1, -1] : List Int),
   ([2, 3, 8, 2, 8, 10, 0, 1, 8, 1, 10, 8, -1, -1, -1, -1] : List Int),
   ([1, 10, 2, -1, -1, -1, -1, -1, -1, -1, -1, -1, -1, -1, -1, -1] : List Int),
   ([1, 3, 8, 9, 1, 8, -1, -1, -1, -1, -1, -1, -1, -1, -1, -1] : List Int),
   ([0, 9, 1, -1, -1, -1, -1, -1, -1, -1, -1, -1, -1, -1, -1, -1] : List Int),
   ([0, 3, 8, -1, -1, -1, -1, -1, -1, -1, -1, -1, -1, -1, -1, -1] : List Int),
   ([-1, -1, -1, -1, -1, -1, -1, -1, -1, -1, -1, -1, -1, -1, -1, -1] : List Int)]

/-- Lattice offset `{x, y, z}` of each cube corner. -/
def MC_VERTINDEX : List (List Nat) :=
  [[0, 0, 0],
   [1, 0, 0],
   [1, 1, 0],
   [0, 1, 0],
   [0, 0, 1],
   [1, 0, 1],
   [1, 1, 1],
   [0, 1, 1]]

/-- The two corners joined by each cube edge. -/
def MC_EDGEINDEX : List (List Nat) :=
  [[0, 1],
   [1, 2],
   [2, 3],
   [3, 0],
   [4, 5],
   [5, 6],
   [6, 7],
   [7, 4],
   [0, 4],
   [1, 5],
   [2, 6],
   [3, 7]]

/-- The access `MC_EDGETABLE[c]`. -/
def edgeTable (c : Nat) : Nat := MC_EDGETABLE.getD c 0

/-- The access `MC_TRITABLE[c]`, one row of sixteen entries. -/
def triRow (c : Nat) : List Int := MC_TRITABLE.getD c []

/-- The access `MC_TRITABLE[c][i]`. -/
def triTable (c i : Nat) : Int := (triRow c).getD i (-1)

/-- The access `MC_VERTINDEX[v][k]`. -/
def vertIndex (v k : Nat) : Nat := (MC_VERTINDEX.getD v []).getD k 0

/-- The access `MC_EDGEINDEX[e][k]`. -/
def edgeIndex (e k : Nat) : Nat := (MC_EDGEINDEX.getD e []).getD k 0

/-- Number of set bits of a 16-bit value (an `unsigned short` table entry). -/
def popcount (n : Nat) : Nat := ((List.range 16).filter (fun i => n.testBit i)).length

/-! ## Data model (`main.cpp`, lines 383-416) -/

/-- A `glm::vec3` with exact components. -/
structure Vec3 where
  x : ℚ
  y : ℚ
  z : ℚ
  deriving DecidableEq, Repr

namespace Vec3

/-- The default constructed vector `vec3()`. -/
def zero : Vec3 := ⟨0, 0, 0⟩

/-- Componentwise sum `a + b`. -/
def add (a b : Vec3) : Vec3 := ⟨a.x + b.x, a.y + b.y, a.z + b.z⟩

/-- Componentwise difference `a - b`. -/
def sub (a b : Vec3) : Vec3 := ⟨a.x - b.x, a.y - b.y, a.z - b.z⟩

/-- Scaling `a * k`. -/
def smul (a : Vec3) (k : ℚ) : Vec3 := ⟨a.x * k, a.y * k, a.z * k⟩

/-- Division `a / k`. -/
def sdiv (a : Vec3) (k : ℚ) : Vec3 := ⟨a.x / k, a.y / k, a.z / k⟩

/-- The constructor call `vec3(x, y, z)` on `int` arguments. -/
def ofNat (x y z : Nat) : Vec3 := ⟨(x : ℚ), (y : ℚ), (z : ℚ)⟩

end Vec3

/-- One lattice sample: iso value and gradient estimate. -/
structure GridVertex where
  iso : ℚ
  nx : ℚ
  ny : ℚ
  nz : ℚ
  deriving DecidableEq, Repr

/-- One mesh vertex. -/
structure TerrainVertex where
  position : Vec3
  normal : Vec3
  deriving DecidableEq, Repr

/-- The local array `const GridVertex* grid[2][2][2]` of `CubeGenerator::generate`,
indexed `grid[z][y][x]`. -/
def cornerGrid (v000 v100 v110 v010 v001 v101 v111 v011 : GridVertex)
    (z y x : Nat) : GridVertex :=
  match z, y, x with
  | 0, 0, 0 => v000
  | 0, 0, _ => v100
  | 0, _, 0 => v010
  | 0, _, _ => v110
  | _, 0, 0 => v001
  | _, 0, _ => v101
  | _, _, 0 => v011
  | _, _, _ => v111

namespace MarchingCubes

/-- The configuration index computed at the top of `CubeGenerator<0>::generate`
(lines 510-520; the statements of `CubeGenerator<Lod>::generate` are the same). -/
def cubeindex (v000 v100 v110 v010 v001 v101 v111 v011 : GridVertex) (isolevel : ℚ) : Nat :=
  let cubeindex := 0
  let cubeindex := if v000.iso < isolevel then cubeindex ||| (1 <<< 0) else cubeindex
  let cubeindex := if v100.iso < isolevel then cubeindex ||| (1 <<< 1) else cubeindex
  let cubeindex := if v110.iso < isolevel then cubeindex ||| (1 <<< 2) else cubeindex
  let cubeindex := if v010.iso < isolevel then cubeindex ||| (1 <<< 3) else cubeindex
  let cubeindex := if v001.iso < isolevel then cubeindex ||| (1 <<< 4) else cubeindex
  let cubeindex := if v101.iso < isolevel then cubeindex ||| (1 <<< 5) else cubeindex
  let cubeindex := if v111.iso < isolevel then cubeindex ||| (1 <<< 6) else cubeindex
  let cubeindex := if v011.iso < isolevel then cubeindex ||| (1 <<< 7) else cubeindex
  cubeindex

end MarchingCubes

namespace SurfaceNets

/-- The configuration index computed in the first pass of `generateSDF`
(lines 870-880). -/
def cubeindex (v000 v100 v110 v010 v001 v101 v111 v011 : GridVertex) (isolevel : ℚ) : Nat :=
  let cubeindex := 0
  let cubeindex := if v000.iso < isolevel then cubeindex ||| (1 <<< 0) else cubeindex
  let cubeindex := if v100.iso < isolevel then cubeindex ||| (1 <<< 1) else cubeindex
  let cubeindex := if v110.iso < isolevel then cubeindex ||| (1 <<< 2) else cubeindex
  let cubeindex := if v010.iso < isolevel then cubeindex ||| (1 <<< 3) else cubeindex
  let cubeindex := if v001.iso < isolevel then cubeindex ||| (1 <<< 4) else cubeindex
  let cubeindex := if v101.iso < isolevel then cubeindex ||| (1 <<< 5) else cubeindex
  let cubeindex := if v111.iso < isolevel then cubeindex ||| (1 <<< 6) else cubeindex
  let cubeindex := if v011.iso < isolevel then cubeindex ||| (1 <<< 7) else cubeindex
  cubeindex

end SurfaceNets

/-! ## Marching Cubes at depth 0 (`main.cpp`, lines 501-588) -/

namespace MarchingCubes

/-- The vertex pushed for edge `i` (lines 547-572); `normalize` stands for
`glm::normalize` and `grid` for the local array `grid[z][y][x]`. -/
def edgeVertex (normalize : Vec3 → Vec3) (grid : Nat → Nat → Nat → GridVertex)
    (isolevel : ℚ) (offset : Vec3) (scale : ℚ) (i : Nat) : TerrainVertex :=
  let e0 := edgeIndex i 0
  let e1 := edgeIndex i 1
  let p0x := vertIndex e0 0
  let p0y := vertIndex e0 1
  let p0z := vertIndex e0 2
  let p1x := vertIndex e1 0
  let p1y := vertIndex e1 1
  let p1z := vertIndex e1 2
  let g0 := grid p0z p0y p0x
  let g1 := grid p1z p1y p1x
  let t : ℚ :=
    if |g0.iso - g1.iso| > 1 / 10000 then (isolevel - g0.iso) / (g1.iso - g0.iso) else 0
  let px : ℚ := (p0x : ℚ) + (((p1x : Int) - (p0x : Int) : Int) : ℚ) * t
  let py : ℚ := (p0y : ℚ) + (((p1y : Int) - (p0y : Int) : Int) : ℚ) * t
  let pz : ℚ := (p0z : ℚ) + (((p1z : Int) - (p0z : Int) : Int) : ℚ) * t
  let nx := g0.nx + (g1.nx - g0.nx) * t
  let ny := g0.ny + (g1.ny - g0.ny) * t
  let nz := g0.nz + (g1.nz - g0.nz) * t
  { position := ((Vec3.mk px py pz).smul scale).add offset
    normal := normalize ⟨nx, ny, nz⟩ }

/-- One iteration of the vertex loop (lines 541-574) on the vertex buffer and the
local array `int edges[12]`, whose cells start unassigned. -/
def vertexStep (normalize : Vec3 → Vec3) (grid : Nat → Nat → Nat → GridVertex)
    (edgemask : Nat) (isolevel : ℚ) (offset : Vec3) (scale : ℚ)
    (st : List TerrainVertex × (Nat → Option Nat)) (i : Nat) :
    List TerrainVertex × (Nat → Option Nat) :=
  if edgemask &&& (1 <<< i) ≠ 0 then
    (st.1 ++ [edgeVertex normalize grid isolevel offset scale i],
      fun j => if j = i then some st.1.length else st.2 j)
  else st

/-- The read `edges[k]` for a table entry `k`: undefined outside `0..11` and on a
cell the vertex loop did not assign. -/
def readEdge (edges : Nat → Option Nat) (k : Int) : Option Nat :=
  if 0 ≤ k ∧ k < 12 then edges k.toNat else none

/-- The index loop (lines 577-585) over the remaining values of `i`. -/
def addIndices (cubeindex : Nat) (edges : Nat → Option Nat) :
    List Nat → List Nat → Option (List Nat)
  | [], ib => some ib
  | i :: rest, ib =>
    if triTable cubeindex i < 0 then some ib
    else
      match readEdge edges (triTable cubeindex (i + 0)),
            readEdge edges (triTable cubeindex (i + 2)),
            readEdge edges (triTable cubeindex (i + 1)) with
      | some a, some b, some d => addIndices cubeindex edges rest (ib ++ [a, b, d])
      | _, _, _ => none

/-- `CubeGenerator<0>::generate`: the vertex and index buffers after the call, or
`none` when the call reads an unassigned or out-of-range cell of `edges`. -/
def CubeGenerator0.generate (normalize : Vec3 → Vec3)
    (vb : List TerrainVertex) (ib : List Nat)
    (v000 v100 v110 v010 v001 v101 v111 v011 : GridVertex)
    (isolevel : ℚ) (offset : Vec3) (scale : ℚ) :
    Option (List TerrainVertex × List Nat) :=
  let cubeindex := cubeindex v000 v100 v110 v010 v001 v101 v111 v011 isolevel
  let edgemask := edgeTable cubeindex
  if edgemask ≠ 0 then
    let grid := cornerGrid v000 v100 v110 v010 v001 v101 v111 v011
    let st := (List.range 12).foldl
      (vertexStep normalize grid edgemask isolevel offset scale) (vb, fun _ => none)
    match addIndices cubeindex st.2 [0, 3, 6, 9, 12] ib with
    | some ib1 => some (st.1, ib1)
    | none => none
  else some (vb, ib)

end MarchingCubes

/-! ## Vocabulary of the statements about one cube -/

/-- The edges flagged in an edge mask, in increasing order. -/
def flaggedEdges (edgemask : Nat) : List Nat :=
  (List.range 12).filter (fun i => edgemask.testBit i)

/-- The number of flagged edges below edge `e`: the position, among the vertices
of one cube, of the vertex created for `e`. -/
def edgeSlot (edgemask e : Nat) : Nat :=
  ((List.range e).filter (fun i => edgemask.testBit i)).length

/-- The complete triples of a triangle table row that come before its first
negative entry. -/
def completeTriples : List Int → List (Int × Int × Int)
  | a :: b :: d :: rest =>
    if 0 ≤ a ∧ 0 ≤ b ∧ 0 ≤ d then (a, b, d) :: completeTriples rest else []
  | _ => []

/-! ## Lattice sampling and `MarchingCubes::generateSDF<0>` (lines 404-416, 590-642) -/

/-! The `vec3` helpers of `glm` used by the extraction code. -/

namespace Vec3

/-- The constructor call `vec3(s)`, all components equal. -/
def splat (s : ℚ) : Vec3 := ⟨s, s, s⟩

/-- The call `glm::dot(a, b)`. -/
def dot (a b : Vec3) : ℚ := a.x * b.x + a.y * b.y + a.z * b.z

/-- The call `glm::cross(a, b)`. -/
def cross (a b : Vec3) : Vec3 :=
  ⟨a.y * b.z - b.y * a.z, a.z * b.x - b.z * a.x, a.x * b.y - b.x * a.y⟩

/-- The call `glm::mix(a, b, t)`, the linear blend `a + t (b - a)`. -/
def mix (a b : Vec3) (t : ℚ) : Vec3 :=
  ⟨a.x + t * (b.x - a.x), a.y + t * (b.y - a.y), a.z + t * (b.z - a.z)⟩

/-- The call `glm::clamp(a, lo, hi)` on vectors, componentwise `min(max(a, lo), hi)`. -/
def clamp (a lo hi : Vec3) : Vec3 :=
  ⟨min (max a.x lo.x) hi.x, min (max a.y lo.y) hi.y, min (max a.z lo.z) hi.z⟩

end Vec3

/-- `evaluateSDF` (finite differences, `DUAL` is 0): the iso value at `p` and the
three forward differences with step `0.01`. -/
def evaluateSDF (f : Vec3 → ℚ) (p : Vec3) : GridVertex :=
  let grad : ℚ := 1 / 100
  let iso := f p
  let nx := f (p.add ⟨grad, 0, 0⟩) - iso
  let ny := f (p.add ⟨0, grad, 0⟩) - iso
  let nz := f (p.add ⟨0, 0, grad⟩) - iso
  { iso := iso, nx := nx, ny := ny, nz := nz }

/-- The points at which one call `evaluateSDF(f, p)` evaluates the field, in order. -/
def evaluateSDFPoints (p : Vec3) : List Vec3 :=
  let grad : ℚ := 1 / 100
  [p, p.add ⟨grad, 0, 0⟩, p.add ⟨0, grad, 0⟩, p.add ⟨0, 0, grad⟩]

/-- A heap array `new T[size]`: a cell holds `none` until it is written. -/
structure Buf (α : Type) where
  size : Nat
  cells : Nat → Option α

namespace Buf

/-- The allocation `new T[size]` of a type without default initialisation. -/
def alloc {α : Type} (size : Nat) : Buf α := ⟨size, fun _ => none⟩

/-- The allocation `new T[size]` of a type whose default constructor yields `d`. -/
def allocInit {α : Type} (size : Nat) (d : α) : Buf α := ⟨size, fun _ => some d⟩

/-- The assignment `b[i] = v`; `none` outside the array. -/
def write {α : Type} (b : Buf α) (i : Nat) (v : α) : Option (Buf α) :=
  if i < b.size then some ⟨b.size, fun j => if j = i then some v else b.cells j⟩ else none

/-- The read `b[i]`; `none` outside the array or on a cell never written. -/
def read {α : Type} (b : Buf α) (i : Nat) : Option α :=
  if i < b.size then b.cells i else none

end Buf

/-- What an extraction call does that the statements below observe: it allocates
a lattice array, and it evaluates the field at a point. -/
inductive Event where
  | alloc (cells : Int)
  | eval (p : Vec3)
  deriving DecidableEq, Repr

/-- The object handed to the caller: the uploaded vertex and index buffers. -/
structure Geometry where
  vb : List TerrainVertex
  ib : List Nat
  deriving DecidableEq, Repr

/-- How an extraction call ends: the `assert` on the lattice dimensions fails, the
call runs into undefined behaviour, or it returns the pair
`(unique_ptr<Geometry>, unsigned int)`. -/
inductive Result where
  | assertionFailure
  | undefined
  | value (geometry : Option Geometry) (count : Nat)
  deriving DecidableEq, Repr

/-- One extraction call: its events in order, the local vectors `vb` and `ib` when
it ends, and how it ends. -/
structure Run where
  trace : List Event
  vb : List TerrainVertex
  ib : List Nat
  result : Result
  deriving DecidableEq, Repr

/-- The lattice point `min + vec3(x, y, z) * cubesize`. -/
def latticePoint (min : Vec3) (cubesize : ℚ) (x y z : Nat) : Vec3 :=
  min.add ((Vec3.ofNat x y z).smul cubesize)

/-- The sampling loops (lines 605-608 and 850-853): `z` outermost, `x` innermost,
each iteration evaluating the field and assigning `grid[x + sizeX * (y + sizeY * z)]`. -/
def sampleLattice (f : Vec3 → ℚ) (min : Vec3) (cubesize : ℚ) (sizeX sizeY sizeZ : Nat)
    (st : Buf GridVertex × List Event) : Option (Buf GridVertex × List Event) :=
  (List.range sizeZ).foldlM (fun st z =>
    (List.range sizeY).foldlM (fun st y =>
      (List.range sizeX).foldlM (fun st x =>
        let p := latticePoint min cubesize x y z
        match st.1.write (x + sizeX * (y + sizeY * z)) (evaluateSDF f p) with
        | some grid => some (grid, st.2 ++ (evaluateSDFPoints p).map Event.eval)
        | none => none) st) st) st

namespace MarchingCubes

/-- The body of the cube loop (lines 614-623) at depth 0: eight lattice reads, then
`CubeGenerator<0>::generate`. -/
def cubeStep (normalize : Vec3 → Vec3) (grid : Buf GridVertex) (isolevel : ℚ) (min : Vec3)
    (cubesize : ℚ) (sizeX sizeY : Nat) (st : List TerrainVertex × List Nat) (x y z : Nat) :
    Option (List TerrainVertex × List Nat) :=
  match grid.read ((x + 0) + sizeX * ((y + 0) + sizeY * (z + 0))),
        grid.read ((x + 1) + sizeX * ((y + 0) + sizeY * (z + 0))),
        grid.read ((x + 1) + sizeX * ((y + 1) + sizeY * (z + 0))),
        grid.read ((x + 0) + sizeX * ((y + 1) + sizeY * (z + 0))),
        grid.read ((x + 0) + sizeX * ((y + 0) + sizeY * (z + 1))),
        grid.read ((x + 1) + sizeX * ((y + 0) + sizeY * (z + 1))),
        grid.read ((x + 1) + sizeX * ((y + 1) + sizeY * (z + 1))),
        grid.read ((x + 0) + sizeX * ((y + 1) + sizeY * (z + 1))) with
  | some v000, some v100, some v110, some v010, some v001, some v101, some v111, some v011 =>
    CubeGenerator0.generate normalize st.1 st.2 v000 v100 v110 v010 v001 v101 v111 v011
      isolevel (latticePoint min cubesize x y z) cubesize
  | _, _, _, _, _, _, _, _ => none

/-- The cube loops (lines 610-624): every cube with `x + 1 < sizeX`, `y + 1 < sizeY`,
`z + 1 < sizeZ`, `z` outermost. -/
def cubeLoop (normalize : Vec3 → Vec3) (grid : Buf GridVertex) (isolevel : ℚ) (min : Vec3)
    (cubesize : ℚ) (sizeX sizeY sizeZ : Nat) (st : List TerrainVertex × List Nat) :
    Option (List TerrainVertex × List Nat) :=
  (List.range (sizeZ - 1)).foldlM (fun st z =>
    (List.range (sizeY - 1)).foldlM (fun st y =>
      (List.range (sizeX - 1)).foldlM (fun st x =>
        cubeStep normalize grid isolevel min cubesize sizeX sizeY st x y z) st) st) st

/-- `MarchingCubes::generateSDF<0>`. The `Buffer` and `Geometry` objects are
represented by the data uploaded into them. -/
def generateSDF0 (normalize : Vec3 → Vec3) (f : Vec3 → ℚ) (isolevel : ℚ) (min max : Vec3)
    (cubesize : ℚ) : Run :=
  let sizeX : Int := ⌈(max.x - min.x) / cubesize⌉
  let sizeY : Int := ⌈(max.y - min.y) / cubesize⌉
  let sizeZ : Int := ⌈(max.z - min.z) / cubesize⌉
  if sizeX > 0 ∧ sizeY > 0 ∧ sizeZ > 0 then
    let trace := [Event.alloc (sizeX * sizeY * sizeZ)]
    let grid : Buf GridVertex := Buf.alloc (sizeX * sizeY * sizeZ).toNat
    match sampleLattice f min cubesize sizeX.toNat sizeY.toNat sizeZ.toNat (grid, trace) with
    | none => ⟨trace, [], [], Result.undefined⟩
    | some (grid, trace) =>
      match cubeLoop normalize grid isolevel min cubesize sizeX.toNat sizeY.toNat sizeZ.toNat
          ([], []) with
      | none => ⟨trace, [], [], Result.undefined⟩
      | some (vb, ib) =>
        if ib = [] then ⟨trace, vb, ib, Result.value none 0⟩
        else ⟨trace, vb, ib, Result.value (some ⟨vb, ib⟩) ib.length⟩
  else ⟨[], [], [], Result.assertionFailure⟩

end MarchingCubes

/-! ## Surface Nets (`main.cpp`, lines 645-980) -/

namespace SurfaceNets

/-- A traits policy: `Traits<F>::intersect(g0, g1, f, isolevel, corner, v0, v1)` and
`Traits<F>::average(points, count, v0, v1, corner)`, the array `points` of length
`count` being a list. -/
structure Traits where
  intersect : GridVertex → GridVertex → (Vec3 → ℚ) → ℚ → Vec3 → Vec3 → Vec3 → Vec3 × Vec3
  average : List (Vec3 × Vec3) → Vec3 → Vec3 → Vec3 → Vec3 × Vec3

/-- `NaiveTraits<F>::intersect` (lines 649-657). -/
def NaiveTraits.intersect (g0 g1 : GridVertex) (_f : Vec3 → ℚ) (isolevel : ℚ)
    (_corner v0 v1 : Vec3) : Vec3 × Vec3 :=
  let t : ℚ :=
    if |g0.iso - g1.iso| > 1 / 10000 then (isolevel - g0.iso) / (g1.iso - g0.iso) else 0
  (Vec3.mix v0 v1 t, Vec3.mix ⟨g0.nx, g0.ny, g0.nz⟩ ⟨g1.nx, g1.ny, g1.nz⟩ t)

/-- `NaiveTraits<F>::average` (lines 659-673). -/
def NaiveTraits.average (points : List (Vec3 × Vec3)) (_v0 _v1 _corner : Vec3) :
    Vec3 × Vec3 :=
  let acc := points.foldl (fun acc pt => (acc.1.add pt.1, acc.2.add pt.2))
    (Vec3.zero, Vec3.zero)
  let n : ℚ := 1 / (points.length : ℚ)
  (acc.1.smul n, acc.2.smul n)

/-- The policy `NaiveTraits`. -/
def NaiveTraits : Traits := ⟨NaiveTraits.intersect, NaiveTraits.average⟩

/-- `normalLerp` (lines 793-800). -/
def normalLerp (normalize : Vec3 → Vec3) (v : TerrainVertex) (avgp qn : Vec3) :
    TerrainVertex :=
  let k := Vec3.dot (v.position.sub avgp) (v.position.sub avgp)
  let k := 1 - (1 - k) * (1 - k)
  { position := v.position
    normal := normalize (Vec3.mix v.normal qn (min (max k 0) 1)) }

/-- `pushQuad` (lines 802-833). -/
def pushQuad (normalize : Vec3 → Vec3) (st : List TerrainVertex × List Nat)
    (v0 v1 v2 v3 : Vec3 × TerrainVertex) (flip : Bool) : List TerrainVertex × List Nat :=
  let offset := st.1.length
  let qn := (normalize (Vec3.cross (v1.2.position.sub v0.2.position)
    (v2.2.position.sub v0.2.position))).smul (if flip then -1 else 1)
  let vb := st.1 ++ [normalLerp normalize v0.2 v0.1 qn]
  let vb := vb ++ [normalLerp normalize v1.2 v1.1 qn]
  let vb := vb ++ [normalLerp normalize v2.2 v2.1 qn]
  let vb := vb ++ [normalLerp normalize v3.2 v3.1 qn]
  if flip then
    (vb, st.2 ++ [offset + 0] ++ [offset + 2] ++ [offset + 1] ++
      [offset + 0] ++ [offset + 3] ++ [offset + 2])
  else
    (vb, st.2 ++ [offset + 0] ++ [offset + 1] ++ [offset + 2] ++
      [offset + 0] ++ [offset + 2] ++ [offset + 3])

/-- One iteration of the edge loop of the first pass (lines 893-914) on the pairs
collected so far (`ev[0..ecount)`) and their running sum `evavg`. -/
def edgeStep (traits : Traits) (f : Vec3 → ℚ) (grid : Buf GridVertex) (edgemask : Nat)
    (isolevel : ℚ) (corner : Vec3) (cubesize : ℚ) (sizeX sizeY x y z : Nat)
    (st : List (Vec3 × Vec3) × Vec3) (i : Nat) : Option (List (Vec3 × Vec3) × Vec3) :=
  if edgemask &&& (1 <<< i) ≠ 0 then
    let e0 := edgeIndex i 0
    let e1 := edgeIndex i 1
    let p0x := vertIndex e0 0
    let p0y := vertIndex e0 1
    let p0z := vertIndex e0 2
    let p1x := vertIndex e1 0
    let p1y := vertIndex e1 1
    let p1z := vertIndex e1 2
    match grid.read ((x + p0x) + sizeX * ((y + p0y) + sizeY * (z + p0z))),
          grid.read ((x + p1x) + sizeX * ((y + p1y) + sizeY * (z + p1z))) with
    | some g0, some g1 =>
      let gt := traits.intersect g0 g1 f isolevel corner
        ((Vec3.ofNat p0x p0y p0z).smul cubesize) ((Vec3.ofNat p1x p1y p1z).smul cubesize)
      some (st.1 ++ [gt], st.2.add gt.1)
    | _, _ => none
  else some st

/-- The body of the first pass (lines 861-919): the representative vertex of an
active cube is stored in `gv`. -/
def cellStep (normalize : Vec3 → Vec3) (traits : Traits) (f : Vec3 → ℚ)
    (grid : Buf GridVertex) (isolevel : ℚ) (min : Vec3) (cubesize : ℚ) (sizeX sizeY : Nat)
    (gv : Buf (Vec3 × TerrainVertex)) (x y z : Nat) : Option (Buf (Vec3 × TerrainVertex)) :=
  match grid.read ((x + 0) + sizeX * ((y + 0) + sizeY * (z + 0))),
        grid.read ((x + 1) + sizeX * ((y + 0) + sizeY * (z + 0))),
        grid.read ((x + 1) + sizeX * ((y + 1) + sizeY * (z + 0))),
        grid.read ((x + 0) + sizeX * ((y + 1) + sizeY * (z + 0))),
        grid.read ((x + 0) + sizeX * ((y + 0) + sizeY * (z + 1))),
        grid.read ((x + 1) + sizeX * ((y + 0) + sizeY * (z + 1))),
        grid.read ((x + 1) + sizeX * ((y + 1) + sizeY * (z + 1))),
        grid.read ((x + 0) + sizeX * ((y + 1) + sizeY * (z + 1))) with
  | some v000, some v100, some v110, some v010, some v001, some v101, some v111, some v011 =>
    let cubeindex := cubeindex v000 v100 v110 v010 v001 v101 v111 v011 isolevel
    let edgemask := edgeTable cubeindex
    if edgemask ≠ 0 then
      let corner := ((Vec3.ofNat x y z).smul cubesize).add min
      match (List.range 12).foldlM
          (edgeStep traits f grid edgemask isolevel corner cubesize sizeX sizeY x y z)
          ([], Vec3.zero) with
      | some (ev, evavg) =>
        let ga := traits.average ev Vec3.zero (Vec3.splat cubesize) corner
        gv.write (x + sizeX * (y + sizeY * z))
          (corner.add (evavg.sdiv (ev.length : ℚ)),
            { position := corner.add ga.1, normal := normalize ga.2 })
      | none => none
    else some gv
  | _, _, _, _, _, _, _, _ => none

/-- The body of the second pass (lines 926-960): one quad per lattice edge from
`(x, y, z)` to its `+1` neighbour along which the side of the isolevel changes. -/
def quadStep (normalize : Vec3 → Vec3) (grid : Buf GridVertex)
    (gv : Buf (Vec3 × TerrainVertex)) (isolevel : ℚ) (sizeX sizeY : Nat)
    (st : List TerrainVertex × List Nat) (x y z : Nat) :
    Option (List TerrainVertex × List Nat) :=
  match grid.read ((x + 0) + sizeX * ((y + 0) + sizeY * (z + 0))),
        grid.read ((x + 1) + sizeX * ((y + 0) + sizeY * (z + 0))),
        grid.read ((x + 0) + sizeX * ((y + 1) + sizeY * (z + 0))),
        grid.read ((x + 0) + sizeX * ((y + 0) + sizeY * (z + 1))) with
  | some v000, some v100, some v010, some v001 =>
    let st1 : Option (List TerrainVertex × List Nat) :=
      if decide (v000.iso < isolevel) ≠ decide (v100.iso < isolevel) then
        match gv.read ((x + 0) + sizeX * ((y + 0) + sizeY * (z + 0))),
              gv.read ((x + 0) + sizeX * ((y - 1) + sizeY * (z + 0))),
              gv.read ((x + 0) + sizeX * ((y - 1) + sizeY * (z - 1))),
              gv.read ((x + 0) + sizeX * ((y + 0) + sizeY * (z - 1))) with
        | some a, some b, some c, some d =>
          some (pushQuad normalize st a b c d (!decide (v000.iso < isolevel)))
        | _, _, _, _ => none
      else some st
    let st2 : Option (List TerrainVertex × List Nat) :=
      match st1 with
      | some st =>
        if decide (v000.iso < isolevel) ≠ decide (v010.iso < isolevel) then
          match gv.read ((x + 0) + sizeX * ((y + 0) + sizeY * (z + 0))),
                gv.read ((x - 1) + sizeX * ((y + 0) + sizeY * (z + 0))),
                gv.read ((x - 1) + sizeX * ((y + 0) + sizeY * (z - 1))),
                gv.read ((x + 0) + sizeX * ((y + 0) + sizeY * (z - 1))) with
          | some a, some b, some c, some d =>
            some (pushQuad normalize st a b c d (decide (v000.iso < isolevel)))
          | _, _, _, _ => none
        else some st
      | none => none
    match st2 with
    | some st =>
      if decide (v000.iso < isolevel) ≠ decide (v001.iso < isolevel) then
        match gv.read ((x + 0) + sizeX * ((y + 0) + sizeY * (z + 0))),
              gv.read ((x - 1) + sizeX * ((y + 0) + sizeY * (z + 0))),
              gv.read ((x - 1) + sizeX * ((y - 1) + sizeY * (z + 0))),
              gv.read ((x + 0) + sizeX * ((y - 1) + sizeY * (z + 0))) with
        | some a, some b, some c, some d =>
          some (pushQuad normalize st a b c d (!decide (v000.iso < isolevel)))
        | _, _, _, _ => none
      else some st
    | none => none
  | _, _, _, _ => none

/-- The loops of the first pass (lines 857-920), over the cubes with `x + 1 < sizeX`,
`y + 1 < sizeY`, `z + 1 < sizeZ`. -/
def cellLoop (normalize : Vec3 → Vec3) (traits : Traits) (f : Vec3 → ℚ)
    (grid : Buf GridVertex) (isolevel : ℚ) (min : Vec3) (cubesize : ℚ)
    (sizeX sizeY sizeZ : Nat) (gv : Buf (Vec3 × TerrainVertex)) :
    Option (Buf (Vec3 × TerrainVertex)) :=
  (List.range (sizeZ - 1)).foldlM (fun gv z =>
    (List.range (sizeY - 1)).foldlM (fun gv y =>
      (List.range (sizeX - 1)).foldlM (fun gv x =>
        cellStep normalize traits f grid isolevel min cubesize sizeX sizeY gv x y z)
        gv) gv) gv

/-- The loops of the second pass (lines 922-961), over the lattice points with
`1 ≤ x`, `x + 1 < sizeX` and likewise for `y` and `z`. -/
def quadLoop (normalize : Vec3 → Vec3) (grid : Buf GridVertex)
    (gv : Buf (Vec3 × TerrainVertex)) (isolevel : ℚ) (sizeX sizeY sizeZ : Nat)
    (st : List TerrainVertex × List Nat) : Option (List TerrainVertex × List Nat) :=
  (List.range' 1 (sizeZ - 1 - 1)).foldlM (fun st z =>
    (List.range' 1 (sizeY - 1 - 1)).foldlM (fun st y =>
      (List.range' 1 (sizeX - 1 - 1)).foldlM (fun st x =>
        quadStep normalize grid gv isolevel sizeX sizeY st x y z) st) st) st

/-- `SurfaceNets::generateSDF<Traits>`. The array `gv` of pairs is value
initialised, every component zero. -/
def generateSDF (normalize : Vec3 → Vec3) (traits : Traits) (f : Vec3 → ℚ) (isolevel : ℚ)
    (min max : Vec3) (cubesize : ℚ) : Run :=
  let sizeX : Int := ⌈(max.x - min.x) / cubesize⌉
  let sizeY : Int := ⌈(max.y - min.y) / cubesize⌉
  let sizeZ : Int := ⌈(max.z - min.z) / cubesize⌉
  if sizeX > 0 ∧ sizeY > 0 ∧ sizeZ > 0 then
    let trace := [Event.alloc (sizeX * sizeY * sizeZ)]
    let grid : Buf GridVertex := Buf.alloc (sizeX * sizeY * sizeZ).toNat
    match sampleLattice f min cubesize sizeX.toNat sizeY.toNat sizeZ.toNat (grid, trace) with
    | none => ⟨trace, [], [], Result.undefined⟩
    | some (grid, trace) =>
      let trace := trace ++ [Event.alloc (sizeX * sizeY * sizeZ)]
      let gv : Buf (Vec3 × TerrainVertex) := Buf.allocInit (sizeX * sizeY * sizeZ).toNat
        (Vec3.zero, { position := Vec3.zero, normal := Vec3.zero })
      match cellLoop normalize traits f grid isolevel min cubesize
          sizeX.toNat sizeY.toNat sizeZ.toNat gv with
      | none => ⟨trace, [], [], Result.undefined⟩
      | some gv =>
        match quadLoop normalize grid gv isolevel sizeX.toNat sizeY.toNat sizeZ.toNat
            ([], []) with
        | none => ⟨trace, [], [], Result.undefined⟩
        | some (vb, ib) =>
          if ib = [] then ⟨trace, vb, ib, Result.value none 0⟩
          else ⟨trace, vb, ib, Result.value (some ⟨vb, ib⟩) ib.length⟩
  else ⟨[], [], [], Result.assertionFailure⟩

end SurfaceNets

/-! ## Marching Cubes at depth above 0 (`main.cpp`, lines 420-499) -/

namespace MarchingCubes

/-- The read `*grid[z][y][x]` of the local array `grid[2][2][2]`; `none` outside the
array. -/
def gridAt (grid : Nat → Nat → Nat → GridVertex) (z y x : Nat) : Option GridVertex :=
  if z < 2 ∧ y < 2 ∧ x < 2 then some (grid z y x) else none

/-- The value assigned to `tgrid[z][y][x]` by the body of the tessellation loops
(lines 464-477). -/
def tgridCell (grid : Nat → Nat → Nat → GridVertex) (z y x : Nat) : Option GridVertex :=
  let x0 := x >>> 1
  let x1 := x0 + (x &&& 1)
  let y0 := y >>> 1
  let y1 := y0 + (y &&& 1)
  let z0 := z >>> 1
  let z1 := z0 + (z &&& 1)
  match gridAt grid z0 y0 x0, gridAt grid z0 y0 x1, gridAt grid z0 y1 x0, gridAt grid z0 y1 x1,
        gridAt grid z1 y0 x0, gridAt grid z1 y0 x1, gridAt grid z1 y1 x0, gridAt grid z1 y1 x1
  with
  | some g000, some g001, some g010, some g011, some g100, some g101, some g110, some g111 =>
    some
      { iso := (g000.iso + g001.iso + g010.iso + g011.iso +
          g100.iso + g101.iso + g110.iso + g111.iso) / 8
        nx := g000.nx
        ny := g000.ny
        nz := g000.nz }
  | _, _, _, _, _, _, _, _ => none

/-- The read `tgrid[z][y][x]` of the local array `tgrid[3][3][3]` after the
tessellation loops (lines 460-478); `none` outside the array. -/
def tgrid (grid : Nat → Nat → Nat → GridVertex) (z y x : Nat) : Option GridVertex :=
  if z < 3 ∧ y < 3 ∧ x < 3 then tgridCell grid z y x else none

/-- The template `CubeGenerator<Lod>::generate` on a state `st`, with the body of the
specialisation `CubeGenerator<0>` as the parameter `leaf`: at `Lod > 0` a cube with
nonzero edge mask is tessellated into `tgrid` and its eight octants are generated at
`Lod - 1`, `z` outermost and `x` innermost. -/
def CubeGenerator.generateWith {σ : Type}
    (leaf : σ → GridVertex → GridVertex → GridVertex → GridVertex → GridVertex → GridVertex →
      GridVertex → GridVertex → ℚ → Vec3 → ℚ → Option σ) :
    Nat → σ → GridVertex → GridVertex → GridVertex → GridVertex → GridVertex → GridVertex →
      GridVertex → GridVertex → ℚ → Vec3 → ℚ → Option σ
  | 0, st, v000, v100, v110, v010, v001, v101, v111, v011, isolevel, offset, scale =>
    leaf st v000 v100 v110 v010 v001 v101 v111 v011 isolevel offset scale
  | Lod + 1, st, v000, v100, v110, v010, v001, v101, v111, v011, isolevel, offset, scale =>
    let cubeindex := cubeindex v000 v100 v110 v010 v001 v101 v111 v011 isolevel
    let edgemask := edgeTable cubeindex
    if edgemask ≠ 0 then
      let grid := cornerGrid v000 v100 v110 v010 v001 v101 v111 v011
      (List.range 2).foldlM (fun st z =>
        (List.range 2).foldlM (fun st y =>
          (List.range 2).foldlM (fun st x =>
            match tgrid grid (z + 0) (y + 0) (x + 0), tgrid grid (z + 0) (y + 0) (x + 1),
                  tgrid grid (z + 0) (y + 1) (x + 1), tgrid grid (z + 0) (y + 1) (x + 0),
                  tgrid grid (z + 1) (y + 0) (x + 0), tgrid grid (z + 1) (y + 0) (x + 1),
                  tgrid grid (z + 1) (y + 1) (x + 1), tgrid grid (z + 1) (y + 1) (x + 0) with
            | some t000, some t100, some t110, some t010,
              some t001, some t101, some t111, some t011 =>
              CubeGenerator.generateWith leaf Lod st t000 t100 t110 t010 t001 t101 t111 t011
                isolevel (offset.add ((Vec3.ofNat x y z).smul (scale / 2))) (scale / 2)
            | _, _, _, _, _, _, _, _ => none) st) st) st
    else some st

/-- `CubeGenerator<Lod>::generate` on the vertex and index buffers. -/
def CubeGenerator.generate (normalize : Vec3 → Vec3) (Lod : Nat)
    (vb : List TerrainVertex) (ib : List Nat)
    (v000 v100 v110 v010 v001 v101 v111 v011 : GridVertex)
    (isolevel : ℚ) (offset : Vec3) (scale : ℚ) : Option (List TerrainVertex × List Nat) :=
  CubeGenerator.generateWith
    (fun st v000 v100 v110 v010 v001 v101 v111 v011 isolevel offset scale =>
      CubeGenerator0.generate normalize st.1 st.2 v000 v100 v110 v010 v001 v101 v111 v011
        isolevel offset scale)
    Lod (vb, ib) v000 v100 v110 v010 v001 v101 v111 v011 isolevel offset scale

/-- The number of calls of `CubeGenerator<0>::generate` that one call of
`CubeGenerator<Lod>::generate` makes, added to `count`. -/
def CubeGenerator.leafCalls (Lod : Nat) (count : Nat)
    (v000 v100 v110 v010 v001 v101 v111 v011 : GridVertex)
    (isolevel : ℚ) (offset : Vec3) (scale : ℚ) : Option Nat :=
  CubeGenerator.generateWith
    (fun (n : Nat) _ _ _ _ _ _ _ _ _ _ _ => some (n + 1))
    Lod count v000 v100 v110 v010 v001 v101 v111 v011 isolevel offset scale

end MarchingCubes

/-! ## The entry point `generateWorld` (`main.cpp`, lines 1206-1249) -/

/-- `generateWorld` (lines 1206-1249). The field `World::mkworld()` and the traits that
depend on `rand`, `glm::smoothstep` or the solver of `eigen.hpp` are parameters. -/
def generateWorld (normalize : Vec3 → Vec3) (world : Vec3 → ℚ)
    (adjustableConstant adjustableHeight adjustableRandom adjustableRandomRight
      dualContouring : SurfaceNets.Traits) (index : Int) : Run :=
  let isolevel : ℚ := 1 / 100
  let min : Vec3 := ⟨-40, -16, -16⟩
  let max : Vec3 := ⟨40, 16, 16⟩
  if index + 1 = 1 then
    MarchingCubes.generateSDF0 normalize world isolevel min max 1
  else if index + 1 = 2 then
    SurfaceNets.generateSDF normalize SurfaceNets.NaiveTraits world isolevel min max 1
  else if index + 1 = 3 then
    SurfaceNets.generateSDF normalize adjustableConstant world isolevel min max 1
  else if index + 1 = 4 then
    SurfaceNets.generateSDF normalize adjustableHeight world isolevel min max 1
  else if index + 1 = 5 then
    SurfaceNets.generateSDF normalize adjustableRandom world isolevel min max 1
  else if index + 1 = 6 then
    SurfaceNets.generateSDF normalize adjustableRandomRight world isolevel min max 1
  else if index + 1 = 7 then
    SurfaceNets.generateSDF normalize dualContouring world isolevel min max 1
  else if index + 1 = 8 then
    SurfaceNets.generateSDF normalize dualContouring world isolevel min max (1 / 2)
  else ⟨[], [], [], Result.value none 0⟩

/-! ## The traits `DualContouringTraits` (`main.cpp`, lines 708-791) -/

namespace SurfaceNets

/-- The bracket of the loop in `DualContouringTraits::intersect`: the locals `mint`,
`miniso`, `maxt` and `maxiso`. -/
structure Bracket where
  mint : ℚ
  miniso : ℚ
  maxt : ℚ
  maxiso : ℚ
  deriving DecidableEq, Repr

/-- The parameter `t` computed at the top of an iteration (line 722). -/
def DualContouringTraits.probe (isolevel : ℚ) (b : Bracket) : ℚ :=
  (isolevel - b.miniso) / (b.maxiso - b.miniso) * (b.maxt - b.mint) + b.mint

/-- One iteration of the loop of `intersect` (lines 720-729). A zero divisor
`maxiso - miniso` gives `none`: the float quotient is then infinite or not a number,
which the exact arithmetic of the model does not represent. -/
def DualContouringTraits.bracketStep (f : Vec3 → ℚ) (isolevel : ℚ) (corner v0 v1 : Vec3)
    (b : Bracket) : Option Bracket :=
  if b.maxiso - b.miniso = 0 then none
  else
    let t := DualContouringTraits.probe isolevel b
    let iso := (evaluateSDF f ((Vec3.mix v0 v1 t).add corner)).iso
    if iso < isolevel then some { b with mint := t, miniso := iso }
    else some { b with maxt := t, maxiso := iso }

/-- The part of `DualContouringTraits::intersect` after the test of the order of the
two iso values (lines 715-735). -/
def DualContouringTraits.intersectOrdered (normalize : Vec3 → Vec3) (g0 g1 : GridVertex)
    (f : Vec3 → ℚ) (isolevel : ℚ) (corner v0 v1 : Vec3) : Option (Vec3 × Vec3) :=
  match (List.range 10).foldlM
      (fun b _ => DualContouringTraits.bracketStep f isolevel corner v0 v1 b)
      ({ mint := 0, miniso := g0.iso, maxt := 1, maxiso := g1.iso } : Bracket) with
  | some b =>
    let t := (b.mint + b.maxt) / 2
    let g := evaluateSDF f ((Vec3.mix v0 v1 t).add corner)
    some (Vec3.mix v0 v1 t, normalize ⟨g.nx, g.ny, g.nz⟩)
  | none => none

/-- `DualContouringTraits<F>::intersect` (lines 710-736): when `g0.iso > g1.iso` the
function calls itself with the two ends exchanged. -/
def DualContouringTraits.intersect (normalize : Vec3 → Vec3) (g0 g1 : GridVertex)
    (f : Vec3 → ℚ) (isolevel : ℚ) (corner v0 v1 : Vec3) : Option (Vec3 × Vec3) :=
  if g0.iso > g1.iso then
    DualContouringTraits.intersect normalize g1 g0 f isolevel corner v1 v0
  else DualContouringTraits.intersectOrdered normalize g0 g1 f isolevel corner v0 v1
termination_by (if g0.iso > g1.iso then 1 else 0 : Nat)
decreasing_by
  rename_i h
  have h' : ¬ g1.iso > g0.iso := not_lt.mpr (le_of_lt h)
  simp [h, h']

/-- The data handed to the solver `calcPoint` of `eigen.hpp`: `ata[6]`, `atb[3]`,
`btb` and `pt[3]`. -/
structure QEF where
  ata0 : ℚ
  ata1 : ℚ
  ata2 : ℚ
  ata3 : ℚ
  ata4 : ℚ
  ata5 : ℚ
  atb : Vec3
  btb : ℚ
  pt : Vec3
  deriving DecidableEq, Repr

/-- The accumulators before the loop of `average`, all zero (lines 740-742). -/
def QEF.zero : QEF := ⟨0, 0, 0, 0, 0, 0, Vec3.zero, 0, Vec3.zero⟩

/-- One iteration of the accumulation loop of `DualContouringTraits::average`
(lines 744-765) on the pair `(p, n)`. -/
def DualContouringTraits.accumulate (q : QEF) (pn : Vec3 × Vec3) : QEF :=
  let p := pn.1
  let n := pn.2
  let d : ℚ := p.x * n.x + p.y * n.y + p.z * n.z
  { ata0 := q.ata0 + n.x * n.x
    ata1 := q.ata1 + n.x * n.y
    ata2 := q.ata2 + n.x * n.z
    ata3 := q.ata3 + n.y * n.y
    ata4 := q.ata4 + n.y * n.z
    ata5 := q.ata5 + n.z * n.z
    atb := ⟨q.atb.x + n.x * d, q.atb.y + n.y * d, q.atb.z + n.z * d⟩
    btb := q.btb + d * d
    pt := ⟨q.pt.x + p.x, q.pt.y + p.y, q.pt.z + p.z⟩ }

/-- The arguments `ata`, `atb`, `btb`, `pt` of the call of `calcPoint` (lines 744-769):
the accumulators after the loop, `pt` divided by `count`. -/
def DualContouringTraits.solverInput (points : List (Vec3 × Vec3)) : QEF :=
  let q := points.foldl DualContouringTraits.accumulate QEF.zero
  { q with pt := ⟨q.pt.x / (points.length : ℚ), q.pt.y / (points.length : ℚ),
      q.pt.z / (points.length : ℚ)⟩ }

/-- `DualContouringTraits<F>::average` (lines 738-790). The solver `calcPoint` of
`eigen.hpp` is a parameter: from the data and the box `[v0, v1]` it yields the
minimiser `mp`. -/
def DualContouringTraits.average (calcPoint : QEF → Vec3 → Vec3 → Vec3)
    (points : List (Vec3 × Vec3)) (v0 v1 corner : Vec3) : Vec3 × Vec3 :=
  let mp := calcPoint (DualContouringTraits.solverInput points) v0 v1
  (Vec3.clamp mp v0 v1, (NaiveTraits.average points v0 v1 corner).2)

end SurfaceNets

/-! ## The fields of `World` and the blend functions (`main.cpp`, lines 1099-1204) -/

namespace Vec3

/-- The call `glm::abs(a)`, componentwise. -/
def abs (a : Vec3) : Vec3 := ⟨|a.x|, |a.y|, |a.z|⟩

/-- The call `glm::max(a, s)` of a vector and a scalar, componentwise. -/
def maxs (a : Vec3) (s : ℚ) : Vec3 := ⟨max a.x s, max a.y s, max a.z s⟩

end Vec3

/-- The call `glm::smoothstep(edge0, edge1, x)`: Hermite interpolation of
`clamp((x - edge0) / (edge1 - edge0), 0, 1)`. -/
def smoothstep (edge0 edge1 x : ℚ) : ℚ :=
  let t := min (max ((x - edge0) / (edge1 - edge0)) 0) 1
  t * t * (3 - 2 * t)

namespace World

/-- `mksphere` (lines 1099-1102); `length` stands for `glm::length`. -/
def mksphere (length : Vec3 → ℚ) (radius : ℚ) : Vec3 → ℚ := fun p =>
  length p - radius

/-- `mkbox` (lines 1104-1107); `length` stands for `glm::length`. -/
def mkbox (length : Vec3 → ℚ) (ex ey ez : ℚ) : Vec3 → ℚ := fun p =>
  let d := (Vec3.abs p).sub ⟨ex, ey, ez⟩
  min (max d.x (max d.y d.z)) 0 + length (Vec3.maxs d 0)

/-- `mkunion` (lines 1114-1118). -/
def mkunion (t u : Vec3 → ℚ) : Vec3 → ℚ := fun p => min (t p) (u p)

/-- `mksubtract` (lines 1120-1124). -/
def mksubtract (t u : Vec3 → ℚ) : Vec3 → ℚ := fun p => max (t p) (-u p)

/-- `mkintersect` (lines 1126-1130). -/
def mkintersect (t u : Vec3 → ℚ) : Vec3 → ℚ := fun p => max (t p) (u p)

end World

/-- `AdjustableLerpKRandom::operator()` (lines 1190-1196); `r0`, `r1`, `r2` are the
values of the three calls of `rand()` and `randMax` is `RAND_MAX`. -/
def AdjustableLerpKRandom (randMax r0 r1 r2 : Nat) (_corner smoothpt centerpt : Vec3) : Vec3 :=
  Vec3.clamp
    (Vec3.mix smoothpt
      (centerpt.add
        ((((Vec3.mk ((r0 : ℚ) / (randMax : ℚ)) ((r1 : ℚ) / (randMax : ℚ))
          ((r2 : ℚ) / (randMax : ℚ))).smul 2).sub (Vec3.splat 1)).smul (3 / 10)))
      (1 / 2))
    (Vec3.splat 0) (Vec3.splat 1)

/-- `AdjustableLerpKRandomRight::operator()` (lines 1198-1204). -/
def AdjustableLerpKRandomRight (randMax r0 r1 r2 : Nat) (corner smoothpt centerpt : Vec3) :
    Vec3 :=
  Vec3.mix smoothpt (AdjustableLerpKRandom randMax r0 r1 r2 corner smoothpt centerpt)
    (smoothstep 3 4 corner.x)

/-! ## The glyph atlas of `ui/font.cpp`

`FontAtlas` packs glyph bitmaps into a texture used as a ring buffer of rows. The model
keeps what the layout code reads and writes: the dimensions of the texture (the arguments
of the constructor, read back through `texture->getWidth()` and `texture->getHeight()`)
and the five layout fields. The glyph maps and the contents of the texture are left out.

The fields are declared in `ui/font.hpp`, which is not among the sources, so the number
of values of their unsigned types is a parameter: `posMod` for `layoutPosition` and
`lineMod` for `layoutBegin`, `layoutEnd`, `layoutLineBegin` and `layoutLineEnd`. The
pair returned by `layoutBitmap` is `pair<unsigned int, unsigned long long>`, built from
`layoutPosition` and `layoutLineBegin`, which stands for `2 ^ 32` and `2 ^ 64`. The
arguments `width`, `height` and the dimensions of the texture are `unsigned int`. -/

/-- Layout state of `FontAtlas` together with the dimensions of its texture. -/
structure FontAtlas where
  atlasWidth : Nat
  atlasHeight : Nat
  layoutBegin : Nat
  layoutEnd : Nat
  layoutLineBegin : Nat
  layoutLineEnd : Nat
  layoutPosition : Nat
deriving DecidableEq

/-- Subtraction `x - y` of an unsigned type with `m` values. -/
def wrapSub (m x y : Nat) : Nat :=
  (x + m - y % m) % m

/-- `FontAtlas::FontAtlas(atlasWidth, atlasHeight)`. -/
def FontAtlas.create (lineMod atlasWidth atlasHeight : Nat) : FontAtlas :=
  { atlasWidth := atlasWidth
    atlasHeight := atlasHeight
    layoutBegin := 0
    layoutEnd := atlasHeight % lineMod
    layoutLineBegin := 0
    layoutLineEnd := 0
    layoutPosition := 0 }

/-- The four `assert`s at the top of `FontAtlas::flush`. -/
def FontAtlas.flushAsserts (lineMod : Nat) (a : FontAtlas) : Prop :=
  a.layoutBegin < a.layoutEnd ∧
  a.layoutLineBegin ≤ a.layoutLineEnd ∧
  (a.layoutBegin ≤ a.layoutLineBegin ∧ a.layoutLineEnd ≤ a.layoutEnd) ∧
  wrapSub lineMod a.layoutEnd a.layoutBegin ≤ a.atlasHeight

instance (lineMod : Nat) (a : FontAtlas) : Decidable (FontAtlas.flushAsserts lineMod a) := by
  unfold FontAtlas.flushAsserts
  infer_instance

/-- The statements of `FontAtlas::flush` after its assertions. `layoutHeight`,
`layoutDesiredHeight` and `difference` are `unsigned int`. Erasing the glyphs of the
freed rows and clearing those rows in the texture touch no layout field. -/
def FontAtlas.flushBody (lineMod : Nat) (a : FontAtlas) : FontAtlas :=
  let layoutHeight := wrapSub lineMod a.layoutEnd a.layoutLineEnd % 2 ^ 32
  let layoutDesiredHeight := a.atlasHeight / 3
  if layoutHeight < layoutDesiredHeight then
    let difference := layoutDesiredHeight - layoutHeight
    { a with
      layoutBegin := (a.layoutBegin + difference) % lineMod
      layoutEnd := (a.layoutEnd + difference) % lineMod }
  else a

/-- `FontAtlas::flush` with its assertions enabled: `none` when one of them fails. -/
def FontAtlas.flush (lineMod : Nat) (a : FontAtlas) : Option FontAtlas :=
  if FontAtlas.flushAsserts lineMod a then some (a.flushBody lineMod) else none

/-- `isRangeValid(start, size, wrap)`, with `start` an `unsigned long long`; `none` when
`wrap` is 0, a division by zero. -/
def isRangeValid (start size wrap : Nat) : Option Bool :=
  if wrap = 0 then none
  else some (start % 2 ^ 64 / wrap == wrapSub (2 ^ 64) (start % 2 ^ 64 + size) 1 / wrap)

/-- `FontAtlas::layoutBitmap(width, height)`: the state after the call and the returned
optional pair. The result is `none` when `isRangeValid` divides by zero. -/
def FontAtlas.layoutBitmap (posMod lineMod : Nat) (a : FontAtlas) (width height : Nat) :
    Option (FontAtlas × Option (Nat × Nat)) := do
  let sameLine ←
    if (a.layoutPosition + width) % posMod ≤ a.atlasWidth ∧
        (a.layoutLineBegin + height) % lineMod ≤ a.layoutEnd then
      isRangeValid a.layoutLineBegin height a.atlasHeight
    else some false
  if sameLine then
    some ({ a with
            layoutPosition := (a.layoutPosition + width) % posMod
            layoutLineEnd := max a.layoutLineEnd ((a.layoutLineBegin + height) % lineMod) },
          some (a.layoutPosition % 2 ^ 32, a.layoutLineBegin % 2 ^ 64))
  else if width ≤ a.atlasWidth ∧ (a.layoutLineEnd + height) % lineMod ≤ a.layoutEnd then do
    let valid ← isRangeValid a.layoutLineEnd height a.atlasHeight
    if valid then
      some ({ a with
              layoutPosition := width % posMod
              layoutLineBegin := a.layoutLineEnd
              layoutLineEnd := (a.layoutLineEnd + height) % lineMod },
            some (0, a.layoutLineEnd % 2 ^ 64))
    else
      let lineWrap :=
        (a.layoutLineEnd + height) % lineMod / a.atlasHeight * a.atlasHeight % 2 ^ 64
      if (lineWrap + height) % 2 ^ 64 ≤ a.layoutEnd then
        some ({ a with
                layoutPosition := width % posMod
                layoutLineBegin := lineWrap % lineMod
                layoutLineEnd := (lineWrap + height) % 2 ^ 64 % lineMod },
              some (0, lineWrap))
      else some (a, none)
  else some (a, none)

/-- Texel rectangle that `FontAtlas::addBitmap` uploads for a result `(x, y)` of
`layoutBitmap(width, height)`: columns from `x`, rows from `y % texture->getHeight()`. -/
def FontAtlas.texels (atlasHeight : Nat) (r : Nat × Nat) (width height : Nat)
    (col row : Nat) : Prop :=
  (r.1 ≤ col ∧ col < r.1 + width) ∧
  (r.2 % atlasHeight ≤ row ∧ row < r.2 % atlasHeight + height)

instance (atlasHeight : Nat) (r : Nat × Nat) (width height col row : Nat) :
    Decidable (FontAtlas.texels atlasHeight r width height col row) := by
  unfold FontAtlas.texels
  infer_instance

/-! ## The UTF-8 decoder of `ui/renderer.cpp`

`utf8decode` is a table-driven automaton: `utf8d` maps each byte to a character class
(entries 0 to 255) and each pair of a state and a class to the next state (entries from
256). The states are multiples of 12. Values of `uint32_t` are naturals, reduced modulo
`2 ^ 32` where an operation can exceed them; reading `utf8d` outside its 364 entries is
`none`. -/

/-- `UTF8_ACCEPT`. -/
def UTF8_ACCEPT : Nat := 0

/-- `UTF8_REJECT`. -/
def UTF8_REJECT : Nat := 12

/-- The table `utf8d`, one row of the source per line. -/
def utf8d : List Nat :=
  List.flatten [
    ([0, 0, 0, 0, 0, 0, 0, 0, 0, 0, 0, 0, 0, 0, 0, 0, 0, 0, 0, 0, 0, 0, 0, 0, 0, 0, 0, 0, 0, 0, 0, 0] : List Nat),
    ([0, 0, 0, 0, 0, 0, 0, 0, 0, 0, 0, 0, 0, 0, 0, 0, 0, 0, 0, 0, 0, 0, 0, 0, 0, 0, 0, 0, 0, 0, 0, 0] : List Nat),
    ([0, 0, 0, 0, 0, 0, 0, 0, 0, 0, 0, 0, 0, 0, 0, 0, 0, 0, 0, 0, 0, 0, 0, 0, 0, 0, 0, 0, 0, 0, 0, 0] : List Nat),
    ([0, 0, 0, 0, 0, 0, 0, 0, 0, 0, 0, 0, 0, 0, 0, 0, 0, 0, 0, 0, 0, 0, 0, 0, 0, 0, 0, 0, 0, 0, 0, 0] : List Nat),
    ([1, 1, 1, 1, 1, 1, 1, 1, 1, 1, 1, 1, 1, 1, 1, 1, 9, 9, 9, 9, 9, 9, 9, 9, 9, 9, 9, 9, 9, 9, 9, 9] : List Nat),
    ([7, 7, 7, 7, 7, 7, 7, 7, 7, 7, 7, 7, 7, 7, 7, 7, 7, 7, 7, 7, 7, 7, 7, 7, 7, 7, 7, 7, 7, 7, 7, 7] : List Nat),
    ([8, 8, 2, 2, 2, 2, 2, 2, 2, 2, 2, 2, 2, 2, 2, 2, 2, 2, 2, 2, 2, 2, 2, 2, 2, 2, 2, 2, 2, 2, 2, 2] : List Nat),
    ([10, 3, 3, 3, 3, 3, 3, 3, 3, 3, 3, 3, 3, 4, 3, 3, 11, 6, 6, 6, 5, 8, 8, 8, 8, 8, 8, 8, 8, 8, 8, 8] : List Nat),
    ([0, 12, 24, 36, 60, 96, 84, 12, 12, 12, 48, 72, 12, 12, 12, 12, 12, 12, 12, 12, 12, 12, 12, 12] : List Nat),
    ([12, 0, 12, 12, 12, 12, 12, 0, 12, 0, 12, 12, 12, 24, 12, 12, 12, 12, 12, 24, 12, 24, 12, 12] : List Nat),
    ([12, 12, 12, 12, 12, 12, 12, 24, 12, 12, 12, 12, 12, 24, 12, 12, 12, 12, 12, 12, 12, 24, 12, 12] : List Nat),
    ([12, 12, 12, 12, 12, 12, 12, 36, 12, 36, 12, 12, 12, 36, 12, 12, 12, 12, 12, 36, 12, 36, 12, 12] : List Nat),
    ([12, 36, 12, 12, 12, 12, 12, 12, 12, 12, 12, 12] : List Nat)]

/-- `utf8decode(&state, &codep, byte)`: the values of `*state` (also the returned value)
and `*codep` after the call. -/
def utf8decode (state codep byte : Nat) : Option (Nat × Nat) := do
  let type ← utf8d[byte]?
  let codep1 :=
    if state ≠ UTF8_ACCEPT then ((byte &&& 0x3f) ||| (codep <<< 6)) % 2 ^ 32
    else (0xff >>> type) &&& byte
  let state1 ← utf8d[(256 + state + type) % 2 ^ 32]?
  some (state1, codep1)

/-- The decoding loop of `Renderer::text` without the drawing: the bytes are passed to
`utf8decode` in order, each call starting from the state and code point the previous one
left; the result lists the state and code point after every byte. -/
def utf8feed (state codep : Nat) : List Nat → Option (List (Nat × Nat))
  | [] => some []
  | byte :: rest => do
    let r ← utf8decode state codep byte
    let tr ← utf8feed r.1 r.2 rest
    some (r :: tr)

/-! ## Definitions used in the statements and proofs -/

/-- The number with bit `k` set exactly when `bk` holds. -/
def bitsToNat (b0 b1 b2 b3 b4 b5 b6 b7 : Bool) : Nat :=
  (if b0 then 1 else 0) + (if b1 then 2 else 0) + (if b2 then 4 else 0) +
  (if b3 then 8 else 0) + (if b4 then 16 else 0) + (if b5 then 32 else 0) +
  (if b6 then 64 else 0) + (if b7 then 128 else 0)

/-- The array `edges` after the vertex loop of a cube whose first vertex has index
`base`. -/
def edgesAfter (edgemask base : Nat) : Nat → Option Nat :=
  fun e => if e < 12 ∧ edgemask.testBit e = true then some (base + edgeSlot edgemask e) else none

/-- The slots of the triangles of a configuration, relative to the cube's first
vertex. -/
def triangleSlots (c : Nat) : List Nat :=
  (completeTriples (triRow c)).flatMap fun t =>
    [edgeSlot (edgeTable c) t.1.toNat, edgeSlot (edgeTable c) t.2.2.toNat,
      edgeSlot (edgeTable c) t.2.1.toNat]

/-- The interpolation parameter as the specification states it: the quotient when
the two iso values differ by more than `0.0001`, and 0 otherwise. -/
def interpolationParameter (iso0 iso1 isolevel : ℚ) : ℚ :=
  if |iso0 - iso1| > 1 / 10000 then (isolevel - iso0) / (iso1 - iso0) else 0

/-- The position of cube corner `v` in the unit cube, `MC_VERTINDEX[v]`. -/
def cornerPoint (v : Nat) : Vec3 := Vec3.ofNat (vertIndex v 0) (vertIndex v 1) (vertIndex v 2)

/-- The lattice sample at cube corner `v`, the cell `grid[z][y][x]` of `MC_VERTINDEX[v]`. -/
def cornerSample (grid : Nat → Nat → Nat → GridVertex) (v : Nat) : GridVertex :=
  grid (vertIndex v 2) (vertIndex v 1) (vertIndex v 0)

/-- The gradient estimate stored in a lattice sample. -/
def GridVertex.gradient (g : GridVertex) : Vec3 := ⟨g.nx, g.ny, g.nz⟩

/-- The lattice dimension along one axis, `ceil((max - min) / cubesize)`. -/
def latticeSize (lo hi cubesize : ℚ) : Int := ⌈(hi - lo) / cubesize⌉

/-- The lattice points `(x, y, z)` in the order the loops visit them: `z` outermost,
`x` innermost. -/
def scanOrder (lx ly lz : List Nat) : List (Nat × Nat × Nat) :=
  lz.flatMap fun z => ly.flatMap fun y => lx.map fun x => (x, y, z)

/-- The lattice sample at `(x, y, z)`. -/
def sampleAt (f : Vec3 → ℚ) (min : Vec3) (cubesize : ℚ) (x y z : Nat) : GridVertex :=
  evaluateSDF f (latticePoint min cubesize x y z)

/-- The lattice holds the sample of every point with `x < sizeX`, `y < sizeY`,
`z < sizeZ` at index `x + sizeX * (y + sizeY * z)`. -/
def Sampled (f : Vec3 → ℚ) (min : Vec3) (cubesize : ℚ) (sizeX sizeY sizeZ : Nat)
    (grid : Buf GridVertex) : Prop :=
  ∀ x y z, x < sizeX → y < sizeY → z < sizeZ →
    grid.read (x + sizeX * (y + sizeY * z)) = some (sampleAt f min cubesize x y z)

/-- The body of the sampling loops. -/
def sampleStep (f : Vec3 → ℚ) (min : Vec3) (cubesize : ℚ) (sizeX sizeY : Nat)
    (st : Buf GridVertex × List Event) (x y z : Nat) : Option (Buf GridVertex × List Event) :=
  match st.1.write (x + sizeX * (y + sizeY * z))
      (evaluateSDF f (latticePoint min cubesize x y z)) with
  | some grid =>
    some (grid, st.2 ++ (evaluateSDFPoints (latticePoint min cubesize x y z)).map Event.eval)
  | none => none

/-- The configuration index of the cube at `(x, y, z)`, from the lattice samples at
its eight corners. -/
def cubeConfig (f : Vec3 → ℚ) (min : Vec3) (cubesize isolevel : ℚ) (x y z : Nat) : Nat :=
  MarchingCubes.cubeindex (sampleAt f min cubesize x y z) (sampleAt f min cubesize (x + 1) y z)
    (sampleAt f min cubesize (x + 1) (y + 1) z) (sampleAt f min cubesize x (y + 1) z)
    (sampleAt f min cubesize x y (z + 1)) (sampleAt f min cubesize (x + 1) y (z + 1))
    (sampleAt f min cubesize (x + 1) (y + 1) (z + 1)) (sampleAt f min cubesize x (y + 1) (z + 1))
    isolevel

/-- A mesh is well formed when its indices come in triples and each refers to a
vertex of the mesh. -/
def WellFormed (st : List TerrainVertex × List Nat) : Prop :=
  st.2.length % 3 = 0 ∧ ∀ i ∈ st.2, i < st.1.length

/-- Every lattice sample is below the isolevel, or every lattice sample is at or
above it. -/
def UniformSide (f : Vec3 → ℚ) (min : Vec3) (cubesize isolevel : ℚ)
    (sizeX sizeY sizeZ : Nat) : Prop :=
  (∀ x y z, x < sizeX → y < sizeY → z < sizeZ → f (latticePoint min cubesize x y z) < isolevel) ∨
  (∀ x y z, x < sizeX → y < sizeY → z < sizeZ →
    ¬ f (latticePoint min cubesize x y z) < isolevel)

/-- The field `x + y + z - 1/2`, whose zero set is a plane through the lattice. -/
def planeField (p : Vec3) : ℚ := p.x + p.y + p.z - 1 / 2

/-- The field that is 1 everywhere. -/
def constantField (_p : Vec3) : ℚ := 1

/-- The rows of the two tables side by side: the configuration index, its edge mask
and its triangle row. -/
def tableRows : List (Nat × Nat × List Int) :=
  List.zip (List.range 256) (List.zip MC_EDGETABLE MC_TRITABLE)

/-- The triples the index loop of `generate` reads from a triangle row, for the
remaining values of `i`. -/
def scanTriples (row : List Int) : List Nat → List (Int × Int × Int)
  | [] => []
  | i :: rest =>
    if row.getD i (-1) < 0 then []
    else (row.getD (i + 0) (-1), row.getD (i + 1) (-1), row.getD (i + 2) (-1)) ::
      scanTriples row rest

/-! ## Vocabulary of the statements about depth, quads and `generateWorld` -/

/-- The blend weight of `normalLerp` as the specification states it, for the squared
distance `d`: `clamp(1 - (1 - d)^2, 0, 1)`. -/
def blendWeight (d : ℚ) : ℚ := min (max (1 - (1 - d) ^ 2) 0) 1

/-- The squared distance `|p - a|^2`. -/
def distSq (p a : Vec3) : ℚ := Vec3.dot (p.sub a) (p.sub a)

/-- The local `qn` of `pushQuad` (line 808): the quad normal that is blended into the
normals of the four corners. -/
def SurfaceNets.quadNormal (normalize : Vec3 → Vec3) (v0 v1 v2 : Vec3 × TerrainVertex)
    (flip : Bool) : Vec3 :=
  (normalize (Vec3.cross (v1.2.position.sub v0.2.position)
    (v2.2.position.sub v0.2.position))).smul (if flip then -1 else 1)

/-- A gv entry whose vertex position is `p`, all other components zero. -/
def cornerAt (p : Vec3) : Vec3 × TerrainVertex :=
  (Vec3.zero, { position := p, normal := Vec3.zero })

/-- Trilinear interpolation of eight corner values `c z y x` at `(u, v, w)` in the
unit cube. -/
def trilinear (c : Nat → Nat → Nat → ℚ) (u v w : ℚ) : ℚ :=
  c 0 0 0 * (1 - u) * (1 - v) * (1 - w) + c 0 0 1 * u * (1 - v) * (1 - w) +
  c 0 1 0 * (1 - u) * v * (1 - w) + c 0 1 1 * u * v * (1 - w) +
  c 1 0 0 * (1 - u) * (1 - v) * w + c 1 0 1 * u * (1 - v) * w +
  c 1 1 0 * (1 - u) * v * w + c 1 1 1 * u * v * w

/-- The coarse coordinates that contribute to the fine coordinate `x` of `0, 1, 2`:
`x / 2` alone when `x` is even, both 0 and 1 when it is odd. -/
def contributing (x : Nat) : List Nat := if x % 2 = 0 then [x / 2] else [0, 1]

/-- The mean of the coarse corner iso values that contribute to the fine lattice
point `(x, y, z)`. -/
def contributingMean (grid : Nat → Nat → Nat → GridVertex) (z y x : Nat) : ℚ :=
  (((contributing z).flatMap fun k => (contributing y).flatMap fun j =>
      (contributing x).map fun i => (grid k j i).iso).sum) /
    (((contributing z).length * (contributing y).length * (contributing x).length : Nat) : ℚ)

/-- The fine lattice point `tgrid[z][y][x]` as the specification states it: the
trilinear blend of the coarse iso values at `(x/2, y/2, z/2)` and the normal of the
coarse corner `(x div 2, y div 2, z div 2)`. -/
def tgridValue (grid : Nat → Nat → Nat → GridVertex) (z y x : Nat) : GridVertex :=
  { iso := trilinear (fun k j i => (grid k j i).iso) ((x : ℚ) / 2) ((y : ℚ) / 2) ((z : ℚ) / 2)
    nx := (grid (z / 2) (y / 2) (x / 2)).nx
    ny := (grid (z / 2) (y / 2) (x / 2)).ny
    nz := (grid (z / 2) (y / 2) (x / 2)).nz }

/-- The octants of a cube in the order the recursion visits them, as `(x, y, z)`. -/
def octants : List (Nat × Nat × Nat) :=
  [(0, 0, 0), (1, 0, 0), (0, 1, 0), (1, 1, 0), (0, 0, 1), (1, 0, 1), (0, 1, 1), (1, 1, 1)]

/-- Corner `i`, in the order of `MC_VERTINDEX`, of the octant `o` of the tessellated
cube: the fine lattice point at `o + MC_VERTINDEX[i]`. -/
def octantCorner (grid : Nat → Nat → Nat → GridVertex) (o : Nat × Nat × Nat) (i : Nat) :
    GridVertex :=
  tgridValue grid (o.2.2 + vertIndex i 2) (o.2.1 + vertIndex i 1) (o.1 + vertIndex i 0)

/-- The offset handed to the recursive call for octant `o`. -/
def octantOffset (offset : Vec3) (scale : ℚ) (o : Nat × Nat × Nat) : Vec3 :=
  offset.add ((Vec3.ofNat o.1 o.2.1 o.2.2).smul (scale / 2))

/-- The point `p` lies in the closed box `[lo, lo + size]^3`. -/
def InBox (lo : Vec3) (size : ℚ) (p : Vec3) : Prop :=
  (lo.x ≤ p.x ∧ p.x ≤ lo.x + size) ∧ (lo.y ≤ p.y ∧ p.y ≤ lo.y + size) ∧
    (lo.z ≤ p.z ∧ p.z ≤ lo.z + size)

/-- The point `p` lies in the open box `(lo, lo + size)^3`. -/
def InInterior (lo : Vec3) (size : ℚ) (p : Vec3) : Prop :=
  (lo.x < p.x ∧ p.x < lo.x + size) ∧ (lo.y < p.y ∧ p.y < lo.y + size) ∧
    (lo.z < p.z ∧ p.z < lo.z + size)

/-- The state `st'` extends the buffers of `st` by at most `12 n` vertices and at
most `15 n` indices. -/
def Appends (n : Nat) (st st' : List TerrainVertex × List Nat) : Prop :=
  ∃ vs is, st' = (st.1 ++ vs, st.2 ++ is) ∧ vs.length ≤ 12 * n ∧ is.length ≤ 15 * n

/-- The field is below the isolevel at corner `k` of the cube at the lattice origin,
and at no other of its eight corners. -/
def OnlyCornerBelow (f : Vec3 → ℚ) (min : Vec3) (cubesize isolevel : ℚ) (k : Nat) : Prop :=
  ∀ i, i < 8 →
    (f (latticePoint min cubesize (vertIndex i 0) (vertIndex i 1) (vertIndex i 2)) < isolevel ↔
      i = k)

/-! ## Vocabulary of the statements about Surface Nets -/

/-- Whether the lattice sample at `(x, y, z)` lies below the isolevel. -/
def below (f : Vec3 → ℚ) (min : Vec3) (cubesize isolevel : ℚ) (x y z : Nat) : Bool :=
  decide ((sampleAt f min cubesize x y z).iso < isolevel)

/-- The lattice point `p` is one of the eight corners of the cube at `c`. -/
def CubeHas (c p : Nat × Nat × Nat) : Prop :=
  (c.1 ≤ p.1 ∧ p.1 ≤ c.1 + 1) ∧ (c.2.1 ≤ p.2.1 ∧ p.2.1 ≤ c.2.1 + 1) ∧
    (c.2.2 ≤ p.2.2 ∧ p.2.2 ≤ c.2.2 + 1)

namespace SurfaceNets

/-- The pair that `Traits::intersect` returns for edge `i` of the cube at `(x, y, z)`
(lines 895-912). -/
def edgePair (traits : Traits) (f : Vec3 → ℚ) (min : Vec3) (cubesize isolevel : ℚ)
    (x y z i : Nat) : Vec3 × Vec3 :=
  traits.intersect
    (sampleAt f min cubesize (x + vertIndex (edgeIndex i 0) 0) (y + vertIndex (edgeIndex i 0) 1)
      (z + vertIndex (edgeIndex i 0) 2))
    (sampleAt f min cubesize (x + vertIndex (edgeIndex i 1) 0) (y + vertIndex (edgeIndex i 1) 1)
      (z + vertIndex (edgeIndex i 1) 2))
    f isolevel (((Vec3.ofNat x y z).smul cubesize).add min)
    ((Vec3.ofNat (vertIndex (edgeIndex i 0) 0) (vertIndex (edgeIndex i 0) 1)
      (vertIndex (edgeIndex i 0) 2)).smul cubesize)
    ((Vec3.ofNat (vertIndex (edgeIndex i 1) 0) (vertIndex (edgeIndex i 1) 1)
      (vertIndex (edgeIndex i 1) 2)).smul cubesize)

/-- The pairs `ev[0..ecount)` of the cube at `(x, y, z)`, one per flagged edge. -/
def edgePairs (traits : Traits) (f : Vec3 → ℚ) (min : Vec3) (cubesize isolevel : ℚ)
    (x y z : Nat) : List (Vec3 × Vec3) :=
  (flaggedEdges (edgeTable (cubeConfig f min cubesize isolevel x y z))).map
    (edgePair traits f min cubesize isolevel x y z)

/-- The entry that the first pass stores in `gv` for an active cube at `(x, y, z)`
(lines 889-918): the mean intersection point and the representative vertex. -/
def cellVertex (normalize : Vec3 → Vec3) (traits : Traits) (f : Vec3 → ℚ) (min : Vec3)
    (cubesize isolevel : ℚ) (x y z : Nat) : Vec3 × TerrainVertex :=
  let corner := ((Vec3.ofNat x y z).smul cubesize).add min
  let ev := edgePairs traits f min cubesize isolevel x y z
  let evavg := ev.foldl (fun acc gt => acc.add gt.1) Vec3.zero
  let ga := traits.average ev Vec3.zero (Vec3.splat cubesize) corner
  (corner.add (evavg.sdiv (ev.length : ℚ)),
    { position := corner.add ga.1, normal := normalize ga.2 })

/-- The entry of `gv` for the cube at `(x, y, z)`. -/
def gvEntry (gv : Buf (Vec3 × TerrainVertex)) (sizeX sizeY x y z : Nat) : Vec3 × TerrainVertex :=
  (gv.cells (x + sizeX * (y + sizeY * z))).getD
    (Vec3.zero, { position := Vec3.zero, normal := Vec3.zero })

/-- The quads that the second pass emits at the lattice point `(x, y, z)`, on the
entries of `gv` (lines 933-958). -/
def stitch (normalize : Vec3 → Vec3) (f : Vec3 → ℚ) (min : Vec3) (cubesize isolevel : ℚ)
    (gv : Buf (Vec3 × TerrainVertex)) (sizeX sizeY : Nat) (st : List TerrainVertex × List Nat)
    (x y z : Nat) : List TerrainVertex × List Nat :=
  let st :=
    if below f min cubesize isolevel x y z ≠ below f min cubesize isolevel (x + 1) y z then
      pushQuad normalize st (gvEntry gv sizeX sizeY x y z) (gvEntry gv sizeX sizeY x (y - 1) z)
        (gvEntry gv sizeX sizeY x (y - 1) (z - 1)) (gvEntry gv sizeX sizeY x y (z - 1))
        (!below f min cubesize isolevel x y z)
    else st
  let st :=
    if below f min cubesize isolevel x y z ≠ below f min cubesize isolevel x (y + 1) z then
      pushQuad normalize st (gvEntry gv sizeX sizeY x y z) (gvEntry gv sizeX sizeY (x - 1) y z)
        (gvEntry gv sizeX sizeY (x - 1) y (z - 1)) (gvEntry gv sizeX sizeY x y (z - 1))
        (below f min cubesize isolevel x y z)
    else st
  if below f min cubesize isolevel x y z ≠ below f min cubesize isolevel x y (z + 1) then
    pushQuad normalize st (gvEntry gv sizeX sizeY x y z) (gvEntry gv sizeX sizeY (x - 1) y z)
      (gvEntry gv sizeX sizeY (x - 1) (y - 1) z) (gvEntry gv sizeX sizeY x (y - 1) z)
      (!below f min cubesize isolevel x y z)
  else st

/-- The cube at `c` was processed by the first pass, has a nonzero edge mask, and its
entry of `gv` is the vertex the first pass computed for it. -/
def Computed (normalize : Vec3 → Vec3) (traits : Traits) (f : Vec3 → ℚ) (min : Vec3)
    (cubesize isolevel : ℚ) (sizeX sizeY sizeZ : Nat) (gv : Buf (Vec3 × TerrainVertex))
    (c : Nat × Nat × Nat) : Prop :=
  (c.1 + 1 < sizeX ∧ c.2.1 + 1 < sizeY ∧ c.2.2 + 1 < sizeZ) ∧
  edgeTable (cubeConfig f min cubesize isolevel c.1 c.2.1 c.2.2) ≠ 0 ∧
  gv.read (c.1 + sizeX * (c.2.1 + sizeY * c.2.2)) =
    some (cellVertex normalize traits f min cubesize isolevel c.1 c.2.1 c.2.2) ∧
  gvEntry gv sizeX sizeY c.1 c.2.1 c.2.2 =
    cellVertex normalize traits f min cubesize isolevel c.1 c.2.1 c.2.2

/-- A mesh made of quads: four vertices and six indices per quad, every index below
the vertex count. -/
def QuadMesh (st : List TerrainVertex × List Nat) : Prop :=
  ∃ q, st.1.length = 4 * q ∧ st.2.length = 6 * q ∧ ∀ i ∈ st.2, i < st.1.length

end SurfaceNets

/-! ## Vocabulary of the statements about the traits and the fields -/

/-- Every component of `p` lies in `[0, 1]`. -/
def InUnit (p : Vec3) : Prop :=
  (0 ≤ p.x ∧ p.x ≤ 1) ∧ (0 ≤ p.y ∧ p.y ≤ 1) ∧ (0 ≤ p.z ∧ p.z ≤ 1)

/-- Every component of `p` lies between the components of `lo` and `hi`. -/
def Between (lo hi p : Vec3) : Prop :=
  (lo.x ≤ p.x ∧ p.x ≤ hi.x) ∧ (lo.y ≤ p.y ∧ p.y ≤ hi.y) ∧ (lo.z ≤ p.z ∧ p.z ≤ hi.z)

/-- The quadratic form `x^T A x` of the symmetric matrix whose six distinct entries
`xx, xy, xz, yy, yz, zz` are `ata[0..5]`. -/
def QEF.quadratic (q : SurfaceNets.QEF) (x : Vec3) : ℚ :=
  q.ata0 * x.x * x.x + 2 * q.ata1 * x.x * x.y + 2 * q.ata2 * x.x * x.z +
    q.ata3 * x.y * x.y + 2 * q.ata4 * x.y * x.z + q.ata5 * x.z * x.z

/-- The sum of the squared distances `(n . (x - p))^2` from `x` to the planes through
the points `p` with normals `n`. -/
def planeError (points : List (Vec3 × Vec3)) (x : Vec3) : ℚ :=
  (points.map fun pn => (Vec3.dot pn.2 (x.sub pn.1)) ^ 2).sum

/-- The invariant of the loop of `DualContouringTraits::intersect`. -/
def SurfaceNets.Bracket.Valid (isolevel : ℚ) (b : SurfaceNets.Bracket) : Prop :=
  (0 ≤ b.mint ∧ b.mint ≤ b.maxt ∧ b.maxt ≤ 1) ∧ b.miniso < isolevel ∧ isolevel ≤ b.maxiso

/-- The bracket of `DualContouringTraits::intersect` after `n` iterations. -/
def SurfaceNets.DualContouringTraits.bracketAfter (f : Vec3 → ℚ) (isolevel : ℚ)
    (corner v0 v1 : Vec3) (g0 g1 : GridVertex) (n : Nat) : Option SurfaceNets.Bracket :=
  (List.range n).foldlM
    (fun b _ => SurfaceNets.DualContouringTraits.bracketStep f isolevel corner v0 v1 b)
    ({ mint := 0, miniso := g0.iso, maxt := 1, maxiso := g1.iso } : SurfaceNets.Bracket)

/-- The componentwise sum of two sets of accumulators. -/
def SurfaceNets.QEF.add (a b : SurfaceNets.QEF) : SurfaceNets.QEF :=
  { ata0 := a.ata0 + b.ata0
    ata1 := a.ata1 + b.ata1
    ata2 := a.ata2 + b.ata2
    ata3 := a.ata3 + b.ata3
    ata4 := a.ata4 + b.ata4
    ata5 := a.ata5 + b.ata5
    atb := ⟨a.atb.x + b.atb.x, a.atb.y + b.atb.y, a.atb.z + b.atb.z⟩
    btb := a.btb + b.btb
    pt := ⟨a.pt.x + b.pt.x, a.pt.y + b.pt.y, a.pt.z + b.pt.z⟩ }

/-- The accumulators as the specification states them, as sums over the samples
`(p, n)`: the entries of the sum of `n n^T`, the sum of `n (n . p)`, the sum of
`(n . p)^2` and the sum of the points `p`. -/
def qefSums (points : List (Vec3 × Vec3)) : SurfaceNets.QEF :=
  { ata0 := (points.map fun pn => pn.2.x * pn.2.x).sum
    ata1 := (points.map fun pn => pn.2.x * pn.2.y).sum
    ata2 := (points.map fun pn => pn.2.x * pn.2.z).sum
    ata3 := (points.map fun pn => pn.2.y * pn.2.y).sum
    ata4 := (points.map fun pn => pn.2.y * pn.2.z).sum
    ata5 := (points.map fun pn => pn.2.z * pn.2.z).sum
    atb := ⟨(points.map fun pn => pn.2.x * Vec3.dot pn.2 pn.1).sum,
      (points.map fun pn => pn.2.y * Vec3.dot pn.2 pn.1).sum,
      (points.map fun pn => pn.2.z * Vec3.dot pn.2 pn.1).sum⟩
    btb := (points.map fun pn => (Vec3.dot pn.2 pn.1) ^ 2).sum
    pt := ⟨(points.map fun pn => pn.1.x).sum, (points.map fun pn => pn.1.y).sum,
      (points.map fun pn => pn.1.z).sum⟩ }

/-- The arguments `(g0, g1, v0, v1)` with which the loop of
`DualContouringTraits::intersect` runs: exchanged when `g0.iso > g1.iso`. -/
def SurfaceNets.DualContouringTraits.ordered (g0 g1 : GridVertex) (v0 v1 : Vec3) :
    GridVertex × GridVertex × Vec3 × Vec3 :=
  if g0.iso > g1.iso then (g1, g0, v1, v0) else (g0, g1, v0, v1)

/-- The bracket after an iteration that probes the field at parameter `t` and finds
the iso value `iso`: the end on whose side `iso` falls moves to `t`. -/
def SurfaceNets.Bracket.moved (isolevel : ℚ) (b : SurfaceNets.Bracket) (t iso : ℚ) :
    SurfaceNets.Bracket :=
  if iso < isolevel then { b with mint := t, miniso := iso }
  else { b with maxt := t, maxiso := iso }

/-! ## Vocabulary of the statements about the UTF-8 decoder -/

/-- Unicode scalar values: code points up to `0x10FFFF` that are not surrogates. -/
def isScalar (c : Nat) : Prop :=
  c ≤ 0x10FFFF ∧ ¬ (0xD800 ≤ c ∧ c ≤ 0xDFFF)

instance (c : Nat) : Decidable (isScalar c) := by
  unfold isScalar
  infer_instance

/-- The UTF-8 encoding of the Unicode standard (the spec's side): one byte below `0x80`,
two below `0x800`, three below `0x10000`, four otherwise, always the shortest form. -/
def utf8encode (c : Nat) : List Nat :=
  if c < 0x80 then [c]
  else if c < 0x800 then [0xC0 + c / 64, 0x80 + c % 64]
  else if c < 0x10000 then [0xE0 + c / 4096, 0x80 + c / 64 % 64, 0x80 + c % 64]
  else [0xF0 + c / 262144, 0x80 + c / 4096 % 64, 0x80 + c / 64 % 64, 0x80 + c % 64]

/-- A trace of `utf8feed` returns to `UTF8_ACCEPT` with code point `c` at its last entry
and at no earlier one. -/
def FirstAccept (tr : List (Nat × Nat)) (c : Nat) : Prop :=
  (∀ p ∈ tr.dropLast, p.1 ≠ UTF8_ACCEPT) ∧ tr.getLast? = some (UTF8_ACCEPT, c)

/-- The character class of a byte, by ranges. -/
def byteClass (b : Nat) : Nat :=
  if b < 0x80 then 0 else if b < 0x90 then 1 else if b < 0xA0 then 9
  else if b < 0xC0 then 7 else if b < 0xC2 then 8 else if b < 0xE0 then 2
  else if b = 0xE0 then 10 else if b = 0xED then 4 else if b < 0xF0 then 3
  else if b = 0xF0 then 11 else if b < 0xF4 then 6 else if b = 0xF4 then 5 else 8

/-- The transition of the automaton from a state on a character class. -/
def classNext (s t : Nat) : Nat :=
  if s = 0 then
    (if t = 0 then 0 else if t = 2 then 24 else if t = 3 then 36 else if t = 4 then 60
     else if t = 5 then 96 else if t = 6 then 84 else if t = 10 then 48
     else if t = 11 then 72 else 12)
  else if s = 24 then (if t = 1 ∨ t = 7 ∨ t = 9 then 0 else 12)
  else if s = 36 then (if t = 1 ∨ t = 7 ∨ t = 9 then 24 else 12)
  else if s = 48 then (if t = 7 then 24 else 12)
  else if s = 60 then (if t = 1 ∨ t = 9 then 24 else 12)
  else if s = 72 then (if t = 7 ∨ t = 9 then 36 else 12)
  else if s = 84 then (if t = 1 ∨ t = 7 ∨ t = 9 then 36 else 12)
  else if s = 96 then (if t = 1 then 36 else 12)
  else 12

/-- The state after a lead byte read in `UTF8_ACCEPT`. -/
def leadNext (b : Nat) : Nat :=
  if b < 0x80 then 0 else if 0xC2 ≤ b ∧ b ≤ 0xDF then 24 else if b = 0xE0 then 48
  else if b = 0xED then 60 else if 0xE1 ≤ b ∧ b ≤ 0xEF then 36 else if b = 0xF0 then 72
  else if 0xF1 ≤ b ∧ b ≤ 0xF3 then 84 else if b = 0xF4 then 96 else 12

/-- The smallest byte a state between two characters continues on. -/
def contLo (s : Nat) : Nat :=
  if s = 48 then 0xA0 else if s = 72 then 0x90 else 0x80

/-- The largest byte a state between two characters continues on. -/
def contHi (s : Nat) : Nat :=
  if s = 60 then 0x9F else if s = 96 then 0x8F else 0xBF

/-- The state after a continuation byte. -/
def contNext (s : Nat) : Nat :=
  if s = 24 then 0 else if s = 36 ∨ s = 48 ∨ s = 60 then 24 else 36

/-- The transition of the automaton by byte ranges. -/
def specNext (s b : Nat) : Nat :=
  if s = 0 then leadNext b
  else if s = 12 then 12
  else if contLo s ≤ b ∧ b ≤ contHi s then contNext s else 12

/-- The bits of a lead byte that belong to the code point. -/
def leadBits (b : Nat) : Nat :=
  if b < 0x80 then b else if b < 0xE0 then b - 0xC0 else if b < 0xF0 then b - 0xE0
  else b - 0xF0

/-! ## Vocabulary of the statements about the sphere field -/

/-- The Euclidean distance of `p` to the origin differs from `r` by at most `c`, stated
on squares: `|p| <= r + c`, and `r - c <= |p|`. The statement is meant for `r + c >= 0`. -/
def DistanceWithin (p : Vec3) (r c : ℚ) : Prop :=
  Vec3.dot p p ≤ (r + c) ^ 2 ∧ (r - c ≤ 0 ∨ (r - c) ^ 2 ≤ Vec3.dot p p)

instance (p : Vec3) (r c : ℚ) : Decidable (DistanceWithin p r c) := by
  unfold DistanceWithin
  infer_instance

/-- The vertices that `CubeGenerator<0>::generate` appends for the cube at the lattice
position `p`: one for each flagged edge, in increasing order of the edge. -/
def cubeVertices (normalize : Vec3 → Vec3) (f : Vec3 → ℚ) (min : Vec3)
    (cubesize isolevel : ℚ) (p : Nat × Nat × Nat) : List TerrainVertex :=
  (flaggedEdges (edgeTable (cubeConfig f min cubesize isolevel p.1 p.2.1 p.2.2))).map
    (MarchingCubes.edgeVertex normalize
      (cornerGrid (sampleAt f min cubesize p.1 p.2.1 p.2.2)
        (sampleAt f min cubesize (p.1 + 1) p.2.1 p.2.2)
        (sampleAt f min cubesize (p.1 + 1) (p.2.1 + 1) p.2.2)
        (sampleAt f min cubesize p.1 (p.2.1 + 1) p.2.2)
        (sampleAt f min cubesize p.1 p.2.1 (p.2.2 + 1))
        (sampleAt f min cubesize (p.1 + 1) p.2.1 (p.2.2 + 1))
        (sampleAt f min cubesize (p.1 + 1) (p.2.1 + 1) (p.2.2 + 1))
        (sampleAt f min cubesize p.1 (p.2.1 + 1) (p.2.2 + 1)))
      isolevel (latticePoint min cubesize p.1 p.2.1 p.2.2) cubesize)

/-! ## Theorems -/

set_option maxRecDepth 1000000

open MarchingCubes

/-! ### The configuration index -/

theorem bitsToNat_spec :
    ∀ b0 b1 b2 b3 b4 b5 b6 b7 : Bool,
      bitsToNat b0 b1 b2 b3 b4 b5 b6 b7 < 256 ∧
      ∀ i : Fin 8, (bitsToNat b0 b1 b2 b3 b4 b5 b6 b7).testBit i =
        [b0, b1, b2, b3, b4, b5, b6, b7].getD i false := by
  decide!

/-- The configuration index has bit `k` set exactly when corner `k` is below the
isolevel. -/
theorem MarchingCubes.cubeindex_eq (v000 v100 v110 v010 v001 v101 v111 v011 : GridVertex)
    (isolevel : ℚ) :
    MarchingCubes.cubeindex v000 v100 v110 v010 v001 v101 v111 v011 isolevel =
      bitsToNat (decide (v000.iso < isolevel)) (decide (v100.iso < isolevel))
        (decide (v110.iso < isolevel)) (decide (v010.iso < isolevel))
        (decide (v001.iso < isolevel)) (decide (v101.iso < isolevel))
        (decide (v111.iso < isolevel)) (decide (v011.iso < isolevel)) := by
  unfold MarchingCubes.cubeindex bitsToNat
  by_cases h0 : v000.iso < isolevel <;> by_cases h1 : v100.iso < isolevel <;>
  by_cases h2 : v110.iso < isolevel <;> by_cases h3 : v010.iso < isolevel <;>
  by_cases h4 : v001.iso < isolevel <;> by_cases h5 : v101.iso < isolevel <;>
  by_cases h6 : v111.iso < isolevel <;> by_cases h7 : v011.iso < isolevel <;>
  simp only [h0, h1, h2, h3, h4, h5, h6, h7, if_true, if_false, decide_True, decide_False] <;>
  rfl

/-- Both extractors compute the same configuration index. -/
theorem SurfaceNets.cubeindex_eq_marching :
    SurfaceNets.cubeindex = MarchingCubes.cubeindex := rfl

/-! ### One call of `CubeGenerator<0>::generate` -/

/-- The test `edgemask & (1 << i)` reads bit `i` of the mask. -/
theorem mask_test_iff (edgemask i : Nat) :
    edgemask &&& (1 <<< i) ≠ 0 ↔ edgemask.testBit i = true := by
  rw [Nat.one_shiftLeft, Nat.and_two_pow]
  cases edgemask.testBit i <;> simp

theorem vertexLoop_range (normalize : Vec3 → Vec3) (grid : Nat → Nat → Nat → GridVertex)
    (edgemask : Nat) (isolevel : ℚ) (offset : Vec3) (scale : ℚ) (vb : List TerrainVertex)
    (n : Nat) :
    (List.range n).foldl (vertexStep normalize grid edgemask isolevel offset scale)
        (vb, fun _ => none) =
      (vb ++ ((List.range n).filter (fun i => edgemask.testBit i)).map
          (edgeVertex normalize grid isolevel offset scale),
        fun e => if e < n ∧ edgemask.testBit e = true
          then some (vb.length + edgeSlot edgemask e) else none) := by
  induction n with
  | zero => simp
  | succ n ih =>
    rw [List.range_succ, List.foldl_append, ih]
    simp only [List.foldl_cons, List.foldl_nil, vertexStep, mask_test_iff]
    cases hb : edgemask.testBit n
    · simp only [Bool.false_eq_true, if_false, List.filter_append, List.filter_cons, hb,
        List.filter_nil, List.append_nil]
      refine Prod.ext rfl ?_
      funext e
      by_cases he : e = n
      · subst he
        simp [hb]
      · have : e < n + 1 ↔ e < n := by omega
        simp [this]
    · simp only [if_true, List.filter_append, List.filter_cons, List.filter_nil, hb,
        List.map_append, List.map_cons, List.map_nil, List.append_assoc, List.length_append,
        List.length_map]
      refine Prod.ext rfl ?_
      funext e
      by_cases he : e = n
      · subst he
        simp [hb, edgeSlot]
      · have : e < n + 1 ↔ e < n := by omega
        simp [he, this]

theorem table_row (c : Nat) (hc : c < 256) : (c, edgeTable c, triRow c) ∈ tableRows := by
  have hE : MC_EDGETABLE.length = 256 := by rfl
  have hT : MC_TRITABLE.length = 256 := by rfl
  have hlen : c < tableRows.length := by
    simp [tableRows, hE, hT, hc]
  have hget : tableRows[c] = (c, edgeTable c, triRow c) := by
    simp [tableRows, edgeTable, triRow, List.getD_eq_getElem?_getD, hE, hT, hc]
  rw [← hget]
  exact List.getElem_mem hlen

/-- What the proofs below read off the tables, row by row. -/
theorem tableRows_facts :
    ∀ r ∈ tableRows,
      scanTriples r.2.2 [0, 3, 6, 9, 12] = completeTriples r.2.2 ∧
      (∀ t ∈ completeTriples r.2.2, ∀ e ∈ [t.1, t.2.1, t.2.2],
        0 ≤ e ∧ e < 12 ∧ r.2.1.testBit e.toNat = true) ∧
      (r.2.1 = 0 ↔ completeTriples r.2.2 = []) ∧
      (r.2.1 = 0 ↔ r.1 = 0 ∨ r.1 = 255) ∧
      r.2.1 < 4096 := by
  decide!

theorem table_facts (c : Nat) (hc : c < 256) :
    scanTriples (triRow c) [0, 3, 6, 9, 12] = completeTriples (triRow c) ∧
      (∀ t ∈ completeTriples (triRow c), ∀ e ∈ [t.1, t.2.1, t.2.2],
        0 ≤ e ∧ e < 12 ∧ (edgeTable c).testBit e.toNat = true) ∧
      (edgeTable c = 0 ↔ completeTriples (triRow c) = []) ∧
      (edgeTable c = 0 ↔ c = 0 ∨ c = 255) ∧
      edgeTable c < 4096 :=
  tableRows_facts _ (table_row c hc)

theorem tableRows_edge_bits :
    ∀ r ∈ tableRows, ∀ i : Fin 12,
      (r.2.1.testBit i = true ↔
        r.1.testBit (edgeIndex i 0) ≠ r.1.testBit (edgeIndex i 1)) := by
  decide!

theorem tableRows_entries :
    ∀ r ∈ tableRows, ∀ e ∈ r.2.2, 0 ≤ e → e < 12 ∧ r.2.1.testBit e.toNat = true := by
  decide!

theorem tableRows_popcount :
    ∀ r ∈ tableRows,
      popcount r.2.1 % 2 = popcount r.1 % 2 ∧
        (r.2.1 ≠ 0 → 3 ≤ popcount r.2.1 ∧ popcount r.2.1 ≤ 12) := by
  decide!

theorem flagged_slot_lookup (p : Nat → Bool) (e : Nat) (hp : p e = true) (n : Nat)
    (hn : e < n) :
    ((List.range n).filter p)[((List.range e).filter p).length]? = some e := by
  induction n with
  | zero => omega
  | succ n ih =>
    rw [List.range_succ, List.filter_append]
    by_cases hen : e = n
    · subst hen
      rw [List.getElem?_append_right (le_refl _)]
      simp [hp]
    · have h := ih (by omega)
      have hlt : ((List.range e).filter p).length < ((List.range n).filter p).length := by
        by_contra hc
        rw [List.getElem?_eq_none (by omega)] at h
        cases h
      rw [List.getElem?_append_left hlt]
      exact h

theorem edgeSlot_lookup (edgemask e : Nat) (he : e < 12) (hb : edgemask.testBit e = true) :
    (flaggedEdges edgemask).get? (edgeSlot edgemask e) = some e := by
  rw [List.get?_eq_getElem?]
  exact flagged_slot_lookup (fun i => edgemask.testBit i) e hb 12 he

theorem edgeSlot_lt (edgemask e : Nat) (he : e < 12) (hb : edgemask.testBit e = true) :
    edgeSlot edgemask e < (flaggedEdges edgemask).length := by
  have h := edgeSlot_lookup edgemask e he hb
  rw [List.get?_eq_getElem?] at h
  by_contra hc
  rw [List.getElem?_eq_none (by omega)] at h
  cases h

theorem readEdge_edgesAfter (edgemask base : Nat) (k : Int)
    (hk : 0 ≤ k ∧ k < 12 ∧ edgemask.testBit k.toNat = true) :
    readEdge (edgesAfter edgemask base) k = some (base + edgeSlot edgemask k.toNat) := by
  have h12 : k.toNat < 12 := by omega
  simp [readEdge, edgesAfter, hk.1, hk.2.1, hk.2.2, h12]

/-- The index loop appends, for every triple it reads, the vertex indices of its
first, third and second edge, when all edges of these triples are flagged. -/
theorem addIndices_scan (c edgemask base : Nat) (is ib : List Nat)
    (h : ∀ t ∈ scanTriples (triRow c) is, ∀ e ∈ [t.1, t.2.1, t.2.2],
      0 ≤ e ∧ e < 12 ∧ edgemask.testBit e.toNat = true) :
    addIndices c (edgesAfter edgemask base) is ib =
      some (ib ++ (scanTriples (triRow c) is).flatMap fun t =>
        [base + edgeSlot edgemask t.1.toNat, base + edgeSlot edgemask t.2.2.toNat,
          base + edgeSlot edgemask t.2.1.toNat]) := by
  induction is generalizing ib with
  | nil => simp [addIndices, scanTriples]
  | cons i rest ih =>
    simp only [addIndices, scanTriples, triTable] at h ⊢
    by_cases hneg : (triRow c).getD i (-1) < 0
    · rw [if_pos hneg, if_pos hneg]
      simp
    · rw [if_neg hneg] at h ⊢
      rw [if_neg hneg]
      have ht := h _ (List.mem_cons_self _ _)
      rw [readEdge_edgesAfter _ _ _ (ht _ (by simp)),
        readEdge_edgesAfter _ _ _ (ht _ (by simp)),
        readEdge_edgesAfter _ _ _ (ht _ (by simp))]
      simp only
      rw [ih _ (fun t htm => h t (List.mem_cons_of_mem _ htm))]
      simp

theorem addIndices_table :
    ∀ c : Fin 256,
      addIndices c (edgesAfter (edgeTable c) 0) [0, 3, 6, 9, 12] [] = some (triangleSlots c) := by
  intro c
  obtain ⟨h1, h2, -, -, -⟩ := table_facts c c.2
  rw [addIndices_scan c (edgeTable c) 0 _ _ (by rw [h1]; exact h2), h1]
  simp [triangleSlots]

theorem edgeTable_zero_triples :
    ∀ c : Fin 256, edgeTable c = 0 → completeTriples (triRow c) = [] :=
  fun c h => (table_facts c c.2).2.2.1.mp h

theorem popcount_eq_flagged (edgemask : Nat) (h : edgemask < 4096) :
    (flaggedEdges edgemask).length = popcount edgemask := by
  have hr : List.range 16 = List.range 12 ++ [12, 13, 14, 15] := by decide
  have hbit : ∀ i, 12 ≤ i → edgemask.testBit i = false := fun i hi =>
    Nat.testBit_lt_two_pow (lt_of_lt_of_le h
      (Nat.pow_le_pow_right (show 0 < 2 by decide) hi))
  unfold popcount flaggedEdges
  rw [hr, List.filter_append]
  simp [hbit]

theorem edgeTable_flagged_length :
    ∀ c : Fin 256, (flaggedEdges (edgeTable c)).length = popcount (edgeTable c) :=
  fun c => popcount_eq_flagged _ (table_facts c c.2).2.2.2.2

theorem triples_slot_lookup :
    ∀ c : Fin 256, ∀ t ∈ completeTriples (triRow c),
      (flaggedEdges (edgeTable c)).get? (edgeSlot (edgeTable c) t.1.toNat) = some t.1.toNat ∧
      (flaggedEdges (edgeTable c)).get? (edgeSlot (edgeTable c) t.2.1.toNat) = some t.2.1.toNat ∧
      (flaggedEdges (edgeTable c)).get? (edgeSlot (edgeTable c) t.2.2.toNat) = some t.2.2.toNat := by
  intro c t ht
  have h := (table_facts c c.2).2.1 t ht
  have h1 := h t.1 (by simp)
  have h2 := h t.2.1 (by simp)
  have h3 := h t.2.2 (by simp)
  exact ⟨edgeSlot_lookup _ _ (by omega) h1.2.2, edgeSlot_lookup _ _ (by omega) h2.2.2,
    edgeSlot_lookup _ _ (by omega) h3.2.2⟩

theorem triangleSlots_facts :
    ∀ c : Fin 256,
      (∀ s ∈ triangleSlots c, s < (flaggedEdges (edgeTable c)).length) ∧
      (triangleSlots c).length % 3 = 0 ∧
      (edgeTable c ≠ 0 → triangleSlots c ≠ []) ∧
      (edgeTable c = 0 → triangleSlots c = [] ∧ flaggedEdges (edgeTable c) = []) := by
  intro c
  obtain ⟨-, h2, h3, -, -⟩ := table_facts c c.2
  refine ⟨?_, ?_, ?_, ?_⟩
  · intro s hs
    simp only [triangleSlots, List.mem_flatMap] at hs
    obtain ⟨t, ht, hst⟩ := hs
    have h := h2 t ht
    have h1 := h t.1 (by simp)
    have h2' := h t.2.1 (by simp)
    have h3' := h t.2.2 (by simp)
    simp only [List.mem_cons, List.mem_singleton, List.not_mem_nil, or_false] at hst
    rcases hst with rfl | rfl | rfl
    · exact edgeSlot_lt _ _ (by omega) h1.2.2
    · exact edgeSlot_lt _ _ (by omega) h3'.2.2
    · exact edgeSlot_lt _ _ (by omega) h2'.2.2
  · unfold triangleSlots
    induction completeTriples (triRow c) with
    | nil => rfl
    | cons t ts ih =>
      simp only [List.flatMap_cons, List.length_append, List.length_cons, List.length_nil]
      omega
  · intro hne he
    apply hne
    rw [h3]
    cases hc : completeTriples (triRow c) with
    | nil => rfl
    | cons t ts =>
      simp [triangleSlots, hc] at he
  · intro h0
    have hc := h3.mp h0
    refine ⟨by simp [triangleSlots, hc], ?_⟩
    rw [h0]
    decide

theorem edgeTable_eq_zero_iff (c : Nat) (hc : c < 256) : edgeTable c = 0 ↔ c = 0 ∨ c = 255 :=
  (table_facts c hc).2.2.2.1

theorem MarchingCubes.cubeindex_lt (v000 v100 v110 v010 v001 v101 v111 v011 : GridVertex)
    (isolevel : ℚ) :
    MarchingCubes.cubeindex v000 v100 v110 v010 v001 v101 v111 v011 isolevel < 256 := by
  rw [MarchingCubes.cubeindex_eq]
  exact (bitsToNat_spec _ _ _ _ _ _ _ _).1

theorem triangleSlots_shift (c base : Nat) :
    (triangleSlots c).map (fun s => base + s) =
      (completeTriples (triRow c)).flatMap fun t =>
        [base + edgeSlot (edgeTable c) t.1.toNat, base + edgeSlot (edgeTable c) t.2.2.toNat,
          base + edgeSlot (edgeTable c) t.2.1.toNat] := by
  unfold triangleSlots
  induction completeTriples (triRow c) with
  | nil => rfl
  | cons t ts ih => simp only [List.flatMap_cons, List.map_append, ih]; rfl

/-- What one call of `CubeGenerator<0>::generate` does to the two buffers, for a
configuration `c < 256`. -/
theorem generate_eq (normalize : Vec3 → Vec3) (vb : List TerrainVertex) (ib : List Nat)
    (v000 v100 v110 v010 v001 v101 v111 v011 : GridVertex)
    (isolevel : ℚ) (offset : Vec3) (scale : ℚ) :
    CubeGenerator0.generate normalize vb ib v000 v100 v110 v010 v001 v101 v111 v011
        isolevel offset scale =
      some
        (vb ++ (flaggedEdges
            (edgeTable (cubeindex v000 v100 v110 v010 v001 v101 v111 v011 isolevel))).map
            (edgeVertex normalize (cornerGrid v000 v100 v110 v010 v001 v101 v111 v011)
              isolevel offset scale),
          ib ++ (triangleSlots
            (cubeindex v000 v100 v110 v010 v001 v101 v111 v011 isolevel)).map
              (fun s => vb.length + s)) := by
  have hlt := MarchingCubes.cubeindex_lt v000 v100 v110 v010 v001 v101 v111 v011 isolevel
  unfold CubeGenerator0.generate
  generalize cubeindex v000 v100 v110 v010 v001 v101 v111 v011 isolevel = c at hlt
  simp only
  by_cases h : edgeTable c = 0
  · have ht := edgeTable_zero_triples ⟨c, hlt⟩ h
    simp only [h, ne_eq, not_true_eq_false, if_false]
    simp only [triangleSlots, ht]
    simp [flaggedEdges]
  · rw [if_pos h, vertexLoop_range]
    have he : (fun e => if e < 12 ∧ (edgeTable c).testBit e = true
        then some (vb.length + edgeSlot (edgeTable c) e) else none) =
        edgesAfter (edgeTable c) vb.length := rfl
    simp only [he]
    obtain ⟨h1, h2, -, -, -⟩ := table_facts c hlt
    rw [addIndices_scan c (edgeTable c) vb.length _ _ (by rw [h1]; exact h2), h1,
      triangleSlots_shift]
    rfl

theorem created_vertex_lookup (vb : List TerrainVertex) (ev : Nat → TerrainVertex)
    (edgemask e : Nat)
    (h : (flaggedEdges edgemask).get? (edgeSlot edgemask e) = some e) :
    (vb ++ (flaggedEdges edgemask).map ev).get? (vb.length + edgeSlot edgemask e) =
      some (ev e) := by
  simp only [List.get?_eq_getElem?] at h ⊢
  rw [List.getElem?_append_right (by omega)]
  simp [h]

theorem int_step_cast (p0 p1 : Nat) (t : ℚ) :
    (p0 : ℚ) + (((p1 : Int) - (p0 : Int) : Int) : ℚ) * t = (p0 : ℚ) + t * ((p1 : ℚ) - (p0 : ℚ)) := by
  push_cast
  ring

/-! ### Loops over the lattice -/

theorem foldlM_map_option {σ α β : Type} (h : α → β) (g : σ → β → Option σ) (l : List α)
    (s : σ) : (l.map h).foldlM g s = l.foldlM (fun st a => g st (h a)) s := by
  induction l generalizing s with
  | nil => rfl
  | cons a l ih =>
    simp only [List.map_cons, List.foldlM_cons]
    cases g s (h a) with
    | none => rfl
    | some s' => exact ih s'

theorem foldlM_flatMap_option {σ α β : Type} (h : α → List β) (g : σ → β → Option σ)
    (l : List α) (s : σ) :
    (l.flatMap h).foldlM g s = l.foldlM (fun st a => (h a).foldlM g st) s := by
  induction l generalizing s with
  | nil => rfl
  | cons a l ih =>
    simp only [List.flatMap_cons, List.foldlM_append, List.foldlM_cons]
    cases (h a).foldlM g s with
    | none => rfl
    | some s' => exact ih s'

/-- Three nested loops are one loop over the points in scan order. -/
theorem nested_loops_eq_scan {σ : Type} (g : σ → Nat → Nat → Nat → Option σ)
    (lx ly lz : List Nat) (s : σ) :
    lz.foldlM (fun st z => ly.foldlM (fun st y => lx.foldlM (fun st x => g st x y z) st) st) s =
      (scanOrder lx ly lz).foldlM (fun st p => g st p.1 p.2.1 p.2.2) s := by
  unfold scanOrder
  rw [foldlM_flatMap_option]
  congr 1
  funext st z
  rw [foldlM_flatMap_option]
  congr 1
  funext st y
  rw [foldlM_map_option]

theorem mem_scanOrder (lx ly lz : List Nat) (p : Nat × Nat × Nat) :
    p ∈ scanOrder lx ly lz ↔ p.1 ∈ lx ∧ p.2.1 ∈ ly ∧ p.2.2 ∈ lz := by
  obtain ⟨x, y, z⟩ := p
  simp only [scanOrder, List.mem_flatMap, List.mem_map, Prod.mk.injEq]
  constructor
  · rintro ⟨z', hz, y', hy, x', hx, rfl, rfl, rfl⟩
    exact ⟨hx, hy, hz⟩
  · rintro ⟨hx, hy, hz⟩
    exact ⟨z, hz, y, hy, x, hx, rfl, rfl, rfl⟩

/-- A loop whose body succeeds and keeps an invariant on every element succeeds and
keeps the invariant. -/
theorem foldlM_invariant {σ α : Type} (P : σ → Prop) (g : σ → α → Option σ) (l : List α)
    (hstep : ∀ a ∈ l, ∀ s, P s → ∃ s', g s a = some s' ∧ P s') (s : σ) (hs : P s) :
    ∃ s', l.foldlM g s = some s' ∧ P s' := by
  induction l generalizing s with
  | nil => exact ⟨s, rfl, hs⟩
  | cons a l ih =>
    obtain ⟨s1, h1, hp1⟩ := hstep a (List.mem_cons_self a l) s hs
    obtain ⟨s2, h2, hp2⟩ := ih (fun b hb => hstep b (List.mem_cons_of_mem a hb)) s1 hp1
    exact ⟨s2, by simp only [List.foldlM_cons, h1]; exact h2, hp2⟩

theorem lattice_index_lt {sizeX sizeY sizeZ x y z : Nat} (hx : x < sizeX) (hy : y < sizeY)
    (hz : z < sizeZ) : x + sizeX * (y + sizeY * z) < sizeX * sizeY * sizeZ := by
  have h1 : y + sizeY * z + 1 ≤ sizeY * sizeZ := by
    calc y + sizeY * z + 1 ≤ sizeY + sizeY * z := by omega
      _ = sizeY * (z + 1) := by ring
      _ ≤ sizeY * sizeZ := Nat.mul_le_mul_left _ hz
  calc x + sizeX * (y + sizeY * z) < sizeX + sizeX * (y + sizeY * z) := by omega
    _ = sizeX * (y + sizeY * z + 1) := by ring
    _ ≤ sizeX * (sizeY * sizeZ) := Nat.mul_le_mul_left _ h1
    _ = sizeX * sizeY * sizeZ := by ring

theorem lattice_index_decode {sizeX sizeY x y z : Nat} (hx : x < sizeX) (hy : y < sizeY) :
    (x + sizeX * (y + sizeY * z)) % sizeX = x ∧
      ((x + sizeX * (y + sizeY * z)) / sizeX) % sizeY = y ∧
      ((x + sizeX * (y + sizeY * z)) / sizeX) / sizeY = z := by
  have hsx : 0 < sizeX := by omega
  have hsy : 0 < sizeY := by omega
  have hd : (x + sizeX * (y + sizeY * z)) / sizeX = y + sizeY * z := by
    rw [Nat.add_mul_div_left _ _ hsx, Nat.div_eq_of_lt hx, Nat.zero_add]
  refine ⟨?_, ?_, ?_⟩
  · rw [Nat.add_mul_mod_self_left, Nat.mod_eq_of_lt hx]
  · rw [hd, Nat.add_mul_mod_self_left, Nat.mod_eq_of_lt hy]
  · rw [hd, Nat.add_mul_div_left _ _ hsy, Nat.div_eq_of_lt hy, Nat.zero_add]

theorem sampleLattice_eq_scan (f : Vec3 → ℚ) (min : Vec3) (cubesize : ℚ)
    (sizeX sizeY sizeZ : Nat) (st : Buf GridVertex × List Event) :
    sampleLattice f min cubesize sizeX sizeY sizeZ st =
      (scanOrder (List.range sizeX) (List.range sizeY) (List.range sizeZ)).foldlM
        (fun st p => sampleStep f min cubesize sizeX sizeY st p.1 p.2.1 p.2.2) st :=
  nested_loops_eq_scan (sampleStep f min cubesize sizeX sizeY) _ _ _ st

theorem sample_scan (f : Vec3 → ℚ) (min : Vec3) (cubesize : ℚ) (sizeX sizeY sizeZ : Nat)
    (l : List (Nat × Nat × Nat))
    (hl : ∀ p ∈ l, p.1 < sizeX ∧ p.2.1 < sizeY ∧ p.2.2 < sizeZ)
    (b : Buf GridVertex) (tr : List Event) (hb : b.size = sizeX * sizeY * sizeZ) :
    ∃ b' tr', l.foldlM (fun st p => sampleStep f min cubesize sizeX sizeY st p.1 p.2.1 p.2.2)
        (b, tr) = some (b', tr') ∧ b'.size = sizeX * sizeY * sizeZ ∧
      (∀ k, (∃ p ∈ l, p.1 + sizeX * (p.2.1 + sizeY * p.2.2) = k) →
        b'.cells k = some (sampleAt f min cubesize (k % sizeX) ((k / sizeX) % sizeY)
          ((k / sizeX) / sizeY))) ∧
      (∀ k, (¬ ∃ p ∈ l, p.1 + sizeX * (p.2.1 + sizeY * p.2.2) = k) →
        b'.cells k = b.cells k) := by
  induction l generalizing b tr with
  | nil =>
    refine ⟨b, tr, rfl, hb, ?_, ?_⟩
    · rintro k ⟨p, hp, _⟩
      exact absurd hp (List.not_mem_nil p)
    · intro k _
      rfl
  | cons p l ih =>
    obtain ⟨x, y, z⟩ := p
    obtain ⟨hx, hy, hz⟩ := hl (x, y, z) (List.mem_cons_self _ _)
    have hlt : x + sizeX * (y + sizeY * z) < b.size := by
      rw [hb]
      exact lattice_index_lt hx hy hz
    obtain ⟨b', tr', hfold, hsize, hwritten, hkept⟩ :=
      ih (fun q hq => hl q (List.mem_cons_of_mem _ hq))
        ⟨b.size, fun j => if j = x + sizeX * (y + sizeY * z)
          then some (evaluateSDF f (latticePoint min cubesize x y z)) else b.cells j⟩
        (tr ++ (evaluateSDFPoints (latticePoint min cubesize x y z)).map Event.eval) hb
    refine ⟨b', tr', ?_, hsize, ?_, ?_⟩
    · simp only [List.foldlM_cons, sampleStep, Buf.write, hlt, if_true]
      exact hfold
    · rintro k ⟨q, hq, hk⟩
      by_cases hex : ∃ q ∈ l, q.1 + sizeX * (q.2.1 + sizeY * q.2.2) = k
      · exact hwritten k hex
      · rw [hkept k hex]
        rcases List.mem_cons.mp hq with rfl | hq'
        · obtain ⟨d1, d2, d3⟩ := lattice_index_decode (z := z) hx hy
          simp only at hk
          subst hk
          simp only [if_true, sampleAt, d1, d2, d3]
        · exact absurd ⟨q, hq', hk⟩ hex
    · intro k hk
      have hex : ¬ ∃ q ∈ l, q.1 + sizeX * (q.2.1 + sizeY * q.2.2) = k :=
        fun ⟨q, hq, e⟩ => hk ⟨q, List.mem_cons_of_mem _ hq, e⟩
      rw [hkept k hex]
      have hne : k ≠ x + sizeX * (y + sizeY * z) :=
        fun e => hk ⟨(x, y, z), List.mem_cons_self _ _, e.symm⟩
      simp only [hne, if_false]

/-- The sampling loops succeed and fill the lattice. -/
theorem sampleLattice_sampled (f : Vec3 → ℚ) (min : Vec3) (cubesize : ℚ)
    (sizeX sizeY sizeZ : Nat) (b : Buf GridVertex) (tr : List Event)
    (hb : b.size = sizeX * sizeY * sizeZ) :
    ∃ grid tr', sampleLattice f min cubesize sizeX sizeY sizeZ (b, tr) = some (grid, tr') ∧
      Sampled f min cubesize sizeX sizeY sizeZ grid := by
  rw [sampleLattice_eq_scan]
  obtain ⟨b', tr', hfold, hsize, hwritten, _⟩ :=
    sample_scan f min cubesize sizeX sizeY sizeZ
      (scanOrder (List.range sizeX) (List.range sizeY) (List.range sizeZ))
      (fun p hp => by
        rw [mem_scanOrder] at hp
        simpa only [List.mem_range] using hp) b tr hb
  refine ⟨b', tr', hfold, ?_⟩
  intro x y z hx hy hz
  have hmem : (x, y, z) ∈ scanOrder (List.range sizeX) (List.range sizeY) (List.range sizeZ) := by
    rw [mem_scanOrder]
    simpa only [List.mem_range] using ⟨hx, hy, hz⟩
  have hc := hwritten _ ⟨(x, y, z), hmem, rfl⟩
  obtain ⟨d1, d2, d3⟩ := lattice_index_decode (z := z) hx hy
  rw [d1, d2, d3] at hc
  unfold Buf.read
  rw [if_pos (by rw [hsize]; exact lattice_index_lt hx hy hz)]
  exact hc

/-- One call of `CubeGenerator<0>::generate` succeeds; it appends vertices and a
multiple of three indices, each of them the index of one of the appended vertices;
it appends an index exactly when the edge mask is nonzero, and nothing when it is
zero. -/
theorem generate_step (normalize : Vec3 → Vec3) (vb : List TerrainVertex) (ib : List Nat)
    (v000 v100 v110 v010 v001 v101 v111 v011 : GridVertex)
    (isolevel : ℚ) (offset : Vec3) (scale : ℚ) :
    ∃ vs is,
      CubeGenerator0.generate normalize vb ib v000 v100 v110 v010 v001 v101 v111 v011
        isolevel offset scale = some (vb ++ vs, ib ++ is) ∧
      is.length % 3 = 0 ∧
      (∀ i ∈ is, vb.length ≤ i ∧ i < vb.length + vs.length) ∧
      (edgeTable (cubeindex v000 v100 v110 v010 v001 v101 v111 v011 isolevel) ≠ 0 → is ≠ []) ∧
      (edgeTable (cubeindex v000 v100 v110 v010 v001 v101 v111 v011 isolevel) = 0 →
        vs = [] ∧ is = []) := by
  have hlt := MarchingCubes.cubeindex_lt v000 v100 v110 v010 v001 v101 v111 v011 isolevel
  have hgen := generate_eq normalize vb ib v000 v100 v110 v010 v001 v101 v111 v011
    isolevel offset scale
  generalize cubeindex v000 v100 v110 v010 v001 v101 v111 v011 isolevel = c at hlt hgen ⊢
  have facts : (∀ s ∈ triangleSlots c, s < (flaggedEdges (edgeTable c)).length) ∧
      (triangleSlots c).length % 3 = 0 ∧
      (edgeTable c ≠ 0 → triangleSlots c ≠ []) ∧
      (edgeTable c = 0 → triangleSlots c = [] ∧ flaggedEdges (edgeTable c) = []) :=
    triangleSlots_facts ⟨c, hlt⟩
  obtain ⟨f1, f2, f3, f4⟩ := facts
  refine ⟨_, _, hgen, ?_, ?_, ?_, ?_⟩
  · rw [List.length_map]
    exact f2
  · intro i hi
    obtain ⟨s, hs, rfl⟩ := List.mem_map.mp hi
    have := f1 s hs
    rw [List.length_map]
    omega
  · intro h0 he
    exact f3 h0 (List.map_eq_nil_iff.mp he)
  · intro h0
    obtain ⟨e1, e2⟩ := f4 h0
    rw [e1, e2]
    exact ⟨rfl, rfl⟩

theorem cubeStep_eq (normalize : Vec3 → Vec3) (f : Vec3 → ℚ) (grid : Buf GridVertex)
    (isolevel : ℚ) (min : Vec3) (cubesize : ℚ) (sizeX sizeY sizeZ : Nat)
    (hS : Sampled f min cubesize sizeX sizeY sizeZ grid)
    (st : List TerrainVertex × List Nat) (x y z : Nat)
    (hx : x + 1 < sizeX) (hy : y + 1 < sizeY) (hz : z + 1 < sizeZ) :
    cubeStep normalize grid isolevel min cubesize sizeX sizeY st x y z =
      CubeGenerator0.generate normalize st.1 st.2
        (sampleAt f min cubesize x y z) (sampleAt f min cubesize (x + 1) y z)
        (sampleAt f min cubesize (x + 1) (y + 1) z) (sampleAt f min cubesize x (y + 1) z)
        (sampleAt f min cubesize x y (z + 1)) (sampleAt f min cubesize (x + 1) y (z + 1))
        (sampleAt f min cubesize (x + 1) (y + 1) (z + 1))
        (sampleAt f min cubesize x (y + 1) (z + 1))
        isolevel (latticePoint min cubesize x y z) cubesize := by
  unfold cubeStep
  simp only [Nat.add_zero]
  rw [hS x y z (by omega) (by omega) (by omega),
    hS (x + 1) y z (by omega) (by omega) (by omega),
    hS (x + 1) (y + 1) z (by omega) (by omega) (by omega),
    hS x (y + 1) z (by omega) (by omega) (by omega),
    hS x y (z + 1) (by omega) (by omega) (by omega),
    hS (x + 1) y (z + 1) (by omega) (by omega) (by omega),
    hS (x + 1) (y + 1) (z + 1) (by omega) (by omega) (by omega),
    hS x (y + 1) (z + 1) (by omega) (by omega) (by omega)]

theorem cubeLoop_eq_scan (normalize : Vec3 → Vec3) (grid : Buf GridVertex) (isolevel : ℚ)
    (min : Vec3) (cubesize : ℚ) (sizeX sizeY sizeZ : Nat) (st : List TerrainVertex × List Nat) :
    cubeLoop normalize grid isolevel min cubesize sizeX sizeY sizeZ st =
      (scanOrder (List.range (sizeX - 1)) (List.range (sizeY - 1))
        (List.range (sizeZ - 1))).foldlM
        (fun st p => cubeStep normalize grid isolevel min cubesize sizeX sizeY st p.1 p.2.1 p.2.2)
        st :=
  nested_loops_eq_scan (cubeStep normalize grid isolevel min cubesize sizeX sizeY) _ _ _ st

theorem cube_scan (normalize : Vec3 → Vec3) (f : Vec3 → ℚ) (grid : Buf GridVertex)
    (isolevel : ℚ) (min : Vec3) (cubesize : ℚ) (sizeX sizeY sizeZ : Nat)
    (hS : Sampled f min cubesize sizeX sizeY sizeZ grid)
    (l : List (Nat × Nat × Nat))
    (hl : ∀ p ∈ l, p.1 + 1 < sizeX ∧ p.2.1 + 1 < sizeY ∧ p.2.2 + 1 < sizeZ)
    (st : List TerrainVertex × List Nat) :
    ∃ st', l.foldlM
        (fun st p => cubeStep normalize grid isolevel min cubesize sizeX sizeY st p.1 p.2.1 p.2.2)
        st = some st' ∧
      (WellFormed st → WellFormed st') ∧
      (st'.2 = [] → st.2 = [] ∧
        ∀ p ∈ l, edgeTable (cubeConfig f min cubesize isolevel p.1 p.2.1 p.2.2) = 0) ∧
      ((∀ p ∈ l, edgeTable (cubeConfig f min cubesize isolevel p.1 p.2.1 p.2.2) = 0) →
        st' = st) := by
  induction l generalizing st with
  | nil =>
    exact ⟨st, rfl, id, fun h => ⟨h, fun p hp => absurd hp (List.not_mem_nil p)⟩, fun _ => rfl⟩
  | cons p l ih =>
    obtain ⟨x, y, z⟩ := p
    obtain ⟨hx, hy, hz⟩ := hl (x, y, z) (List.mem_cons_self _ _)
    obtain ⟨vs, is, hgen, h3, hrange, hne, hzero⟩ := generate_step normalize st.1 st.2
      (sampleAt f min cubesize x y z) (sampleAt f min cubesize (x + 1) y z)
      (sampleAt f min cubesize (x + 1) (y + 1) z) (sampleAt f min cubesize x (y + 1) z)
      (sampleAt f min cubesize x y (z + 1)) (sampleAt f min cubesize (x + 1) y (z + 1))
      (sampleAt f min cubesize (x + 1) (y + 1) (z + 1))
      (sampleAt f min cubesize x (y + 1) (z + 1))
      isolevel (latticePoint min cubesize x y z) cubesize
    have hstep := cubeStep_eq normalize f grid isolevel min cubesize sizeX sizeY sizeZ hS st
      x y z hx hy hz
    rw [hgen] at hstep
    obtain ⟨st', hfold, hwf, hempty, hsame⟩ :=
      ih (fun q hq => hl q (List.mem_cons_of_mem _ hq)) (st.1 ++ vs, st.2 ++ is)
    refine ⟨st', ?_, ?_, ?_, ?_⟩
    · simp only [List.foldlM_cons, hstep]
      exact hfold
    · intro hw
      apply hwf
      refine ⟨?_, ?_⟩
      · have := hw.1
        simp only [List.length_append]
        omega
      · intro i hi
        simp only [List.length_append]
        rcases List.mem_append.mp hi with h | h
        · have := hw.2 i h
          omega
        · exact (hrange i h).2
    · intro he
      obtain ⟨h1, h2⟩ := hempty he
      obtain ⟨h1a, h1b⟩ := List.append_eq_nil.mp h1
      refine ⟨h1a, ?_⟩
      intro q hq
      rcases List.mem_cons.mp hq with rfl | hq'
      · by_contra hc
        exact hne hc h1b
      · exact h2 q hq'
    · intro hall
      have h0 := hzero (hall (x, y, z) (List.mem_cons_self _ _))
      have := hsame (fun q hq => hall q (List.mem_cons_of_mem _ hq))
      rw [this, h0.1, h0.2]
      simp

theorem toNat_mul3 (a b c : Int) (ha : 0 < a) (hb : 0 < b) (hc : 0 < c) :
    (a * b * c).toNat = a.toNat * b.toNat * c.toNat := by
  lift a to ℕ using ha.le
  lift b to ℕ using hb.le
  lift c to ℕ using hc.le
  norm_cast

/-- With positive lattice dimensions `generateSDF<0>` samples the lattice, runs the
cube loops to their end and returns according to whether an index was produced. -/
theorem MarchingCubes.generateSDF0_run (normalize : Vec3 → Vec3) (f : Vec3 → ℚ) (isolevel : ℚ)
    (min max : Vec3) (cubesize : ℚ)
    (hx : 0 < latticeSize min.x max.x cubesize) (hy : 0 < latticeSize min.y max.y cubesize)
    (hz : 0 < latticeSize min.z max.z cubesize) :
    ∃ grid tr vb ib,
      Sampled f min cubesize (latticeSize min.x max.x cubesize).toNat
        (latticeSize min.y max.y cubesize).toNat (latticeSize min.z max.z cubesize).toNat grid ∧
      cubeLoop normalize grid isolevel min cubesize (latticeSize min.x max.x cubesize).toNat
        (latticeSize min.y max.y cubesize).toNat (latticeSize min.z max.z cubesize).toNat
        ([], []) = some (vb, ib) ∧
      generateSDF0 normalize f isolevel min max cubesize =
        ⟨tr, vb, ib,
          if ib = [] then Result.value none 0 else Result.value (some ⟨vb, ib⟩) ib.length⟩ := by
  unfold latticeSize at *
  obtain ⟨grid, tr, hsample, hS⟩ := sampleLattice_sampled f min cubesize
    ⌈(max.x - min.x) / cubesize⌉.toNat ⌈(max.y - min.y) / cubesize⌉.toNat
    ⌈(max.z - min.z) / cubesize⌉.toNat
    (Buf.alloc (⌈(max.x - min.x) / cubesize⌉ * ⌈(max.y - min.y) / cubesize⌉ *
      ⌈(max.z - min.z) / cubesize⌉).toNat)
    [Event.alloc (⌈(max.x - min.x) / cubesize⌉ * ⌈(max.y - min.y) / cubesize⌉ *
      ⌈(max.z - min.z) / cubesize⌉)]
    (toNat_mul3 _ _ _ hx hy hz)
  obtain ⟨st', hloop, -, -, -⟩ := cube_scan normalize f grid isolevel min cubesize
    ⌈(max.x - min.x) / cubesize⌉.toNat ⌈(max.y - min.y) / cubesize⌉.toNat
    ⌈(max.z - min.z) / cubesize⌉.toNat hS
    (scanOrder (List.range (⌈(max.x - min.x) / cubesize⌉.toNat - 1))
      (List.range (⌈(max.y - min.y) / cubesize⌉.toNat - 1))
      (List.range (⌈(max.z - min.z) / cubesize⌉.toNat - 1)))
    (fun p hp => by
      rw [mem_scanOrder] at hp
      simp only [List.mem_range] at hp
      omega) ([], [])
  rw [← cubeLoop_eq_scan] at hloop
  obtain ⟨vb, ib⟩ := st'
  refine ⟨grid, tr, vb, ib, hS, hloop, ?_⟩
  unfold generateSDF0
  simp only [gt_iff_lt, hx, hy, hz, and_self, if_true, hsample, hloop]
  split_ifs <;> rfl

theorem bitsToNat_extremes :
    ∀ b0 b1 b2 b3 b4 b5 b6 b7 : Bool,
      (bitsToNat b0 b1 b2 b3 b4 b5 b6 b7 = 255 ↔
        (b0 = true ∧ b1 = true ∧ b2 = true ∧ b3 = true ∧ b4 = true ∧ b5 = true ∧ b6 = true ∧
          b7 = true)) ∧
      (bitsToNat b0 b1 b2 b3 b4 b5 b6 b7 = 0 ↔
        (b0 = false ∧ b1 = false ∧ b2 = false ∧ b3 = false ∧ b4 = false ∧ b5 = false ∧
          b6 = false ∧ b7 = false)) := by
  intro b0 b1 b2 b3 b4 b5 b6 b7
  cases b0 <;> cases b1 <;> cases b2 <;> cases b3 <;> cases b4 <;> cases b5 <;> cases b6 <;>
    cases b7 <;> decide

theorem cubeConfig_of_uniform (f : Vec3 → ℚ) (min : Vec3) (cubesize isolevel : ℚ)
    (sizeX sizeY sizeZ : Nat) (hU : UniformSide f min cubesize isolevel sizeX sizeY sizeZ)
    (x y z : Nat) (hx : x + 1 < sizeX) (hy : y + 1 < sizeY) (hz : z + 1 < sizeZ) :
    edgeTable (cubeConfig f min cubesize isolevel x y z) = 0 := by
  have hlt : cubeConfig f min cubesize isolevel x y z < 256 := MarchingCubes.cubeindex_lt _ _ _ _ _ _ _ _ _
  rw [edgeTable_eq_zero_iff _ hlt]
  unfold cubeConfig
  rw [MarchingCubes.cubeindex_eq]
  rcases hU with h | h
  · right
    rw [(bitsToNat_extremes _ _ _ _ _ _ _ _).1]
    simp only [decide_eq_true_eq]
    exact ⟨h _ _ _ (by omega) (by omega) (by omega), h _ _ _ (by omega) (by omega) (by omega),
      h _ _ _ (by omega) (by omega) (by omega), h _ _ _ (by omega) (by omega) (by omega),
      h _ _ _ (by omega) (by omega) (by omega), h _ _ _ (by omega) (by omega) (by omega),
      h _ _ _ (by omega) (by omega) (by omega), h _ _ _ (by omega) (by omega) (by omega)⟩
  · left
    rw [(bitsToNat_extremes _ _ _ _ _ _ _ _).2]
    simp only [decide_eq_false_iff_not]
    exact ⟨h _ _ _ (by omega) (by omega) (by omega), h _ _ _ (by omega) (by omega) (by omega),
      h _ _ _ (by omega) (by omega) (by omega), h _ _ _ (by omega) (by omega) (by omega),
      h _ _ _ (by omega) (by omega) (by omega), h _ _ _ (by omega) (by omega) (by omega),
      h _ _ _ (by omega) (by omega) (by omega), h _ _ _ (by omega) (by omega) (by omega)⟩

theorem uniform_of_config (f : Vec3 → ℚ) (min : Vec3) (cubesize isolevel : ℚ) (x y z : Nat)
    (h0 : edgeTable (cubeConfig f min cubesize isolevel x y z) = 0) :
    (∀ dx dy dz, dx ≤ 1 → dy ≤ 1 → dz ≤ 1 →
      f (latticePoint min cubesize (x + dx) (y + dy) (z + dz)) < isolevel) ∨
    (∀ dx dy dz, dx ≤ 1 → dy ≤ 1 → dz ≤ 1 →
      ¬ f (latticePoint min cubesize (x + dx) (y + dy) (z + dz)) < isolevel) := by
  have hlt : cubeConfig f min cubesize isolevel x y z < 256 := MarchingCubes.cubeindex_lt _ _ _ _ _ _ _ _ _
  rw [edgeTable_eq_zero_iff _ hlt] at h0
  unfold cubeConfig at h0
  rw [MarchingCubes.cubeindex_eq] at h0
  have hcases : ∀ d : Nat, d ≤ 1 → d = 0 ∨ d = 1 := fun d hd => by omega
  rcases h0 with h | h
  · right
    rw [(bitsToNat_extremes _ _ _ _ _ _ _ _).2] at h
    simp only [decide_eq_false_iff_not] at h
    obtain ⟨a0, a1, a2, a3, a4, a5, a6, a7⟩ := h
    intro dx dy dz hdx hdy hdz
    rcases hcases dx hdx with rfl | rfl <;> rcases hcases dy hdy with rfl | rfl <;>
      rcases hcases dz hdz with rfl | rfl <;> assumption
  · left
    rw [(bitsToNat_extremes _ _ _ _ _ _ _ _).1] at h
    simp only [decide_eq_true_eq] at h
    obtain ⟨a0, a1, a2, a3, a4, a5, a6, a7⟩ := h
    intro dx dy dz hdx hdy hdz
    rcases hcases dx hdx with rfl | rfl <;> rcases hcases dy hdy with rfl | rfl <;>
      rcases hcases dz hdz with rfl | rfl <;> assumption

theorem SurfaceNets.cellStep_inactive (normalize : Vec3 → Vec3) (traits : SurfaceNets.Traits)
    (f : Vec3 → ℚ) (grid : Buf GridVertex) (isolevel : ℚ) (min : Vec3) (cubesize : ℚ)
    (sizeX sizeY sizeZ : Nat) (hS : Sampled f min cubesize sizeX sizeY sizeZ grid)
    (gv : Buf (Vec3 × TerrainVertex)) (x y z : Nat)
    (hx : x + 1 < sizeX) (hy : y + 1 < sizeY) (hz : z + 1 < sizeZ)
    (h0 : edgeTable (cubeConfig f min cubesize isolevel x y z) = 0) :
    SurfaceNets.cellStep normalize traits f grid isolevel min cubesize sizeX sizeY gv x y z =
      some gv := by
  unfold SurfaceNets.cellStep
  simp only [Nat.add_zero]
  rw [hS x y z (by omega) (by omega) (by omega),
    hS (x + 1) y z (by omega) (by omega) (by omega),
    hS (x + 1) (y + 1) z (by omega) (by omega) (by omega),
    hS x (y + 1) z (by omega) (by omega) (by omega),
    hS x y (z + 1) (by omega) (by omega) (by omega),
    hS (x + 1) y (z + 1) (by omega) (by omega) (by omega),
    hS (x + 1) (y + 1) (z + 1) (by omega) (by omega) (by omega),
    hS x (y + 1) (z + 1) (by omega) (by omega) (by omega)]
  simp only
  rw [if_neg]
  rw [SurfaceNets.cubeindex_eq_marching]
  exact not_not.mpr h0

theorem SurfaceNets.quadStep_inactive (normalize : Vec3 → Vec3) (f : Vec3 → ℚ)
    (grid : Buf GridVertex) (gv : Buf (Vec3 × TerrainVertex)) (isolevel : ℚ) (min : Vec3)
    (cubesize : ℚ) (sizeX sizeY sizeZ : Nat)
    (hS : Sampled f min cubesize sizeX sizeY sizeZ grid)
    (hU : UniformSide f min cubesize isolevel sizeX sizeY sizeZ)
    (st : List TerrainVertex × List Nat) (x y z : Nat)
    (hx : x + 1 < sizeX) (hy : y + 1 < sizeY) (hz : z + 1 < sizeZ) :
    SurfaceNets.quadStep normalize grid gv isolevel sizeX sizeY st x y z = some st := by
  unfold SurfaceNets.quadStep
  simp only [Nat.add_zero]
  rw [hS x y z (by omega) (by omega) (by omega),
    hS (x + 1) y z (by omega) (by omega) (by omega),
    hS x (y + 1) z (by omega) (by omega) (by omega),
    hS x y (z + 1) (by omega) (by omega) (by omega)]
  have e : ∀ a b c : Nat, (sampleAt f min cubesize a b c).iso = f (latticePoint min cubesize a b c) :=
    fun _ _ _ => rfl
  simp only [e]
  rcases hU with h | h
  · have a0 := h x y z (by omega) (by omega) (by omega)
    have a1 := h (x + 1) y z (by omega) (by omega) (by omega)
    have a2 := h x (y + 1) z (by omega) (by omega) (by omega)
    have a3 := h x y (z + 1) (by omega) (by omega) (by omega)
    simp [a0, a1, a2, a3]
  · have a0 := h x y z (by omega) (by omega) (by omega)
    have a1 := h (x + 1) y z (by omega) (by omega) (by omega)
    have a2 := h x (y + 1) z (by omega) (by omega) (by omega)
    have a3 := h x y (z + 1) (by omega) (by omega) (by omega)
    simp [a0, a1, a2, a3]

theorem SurfaceNets.cellLoop_uniform (normalize : Vec3 → Vec3) (traits : SurfaceNets.Traits)
    (f : Vec3 → ℚ) (grid : Buf GridVertex) (isolevel : ℚ) (min : Vec3) (cubesize : ℚ)
    (sizeX sizeY sizeZ : Nat) (hS : Sampled f min cubesize sizeX sizeY sizeZ grid)
    (hU : UniformSide f min cubesize isolevel sizeX sizeY sizeZ)
    (gv : Buf (Vec3 × TerrainVertex)) :
    SurfaceNets.cellLoop normalize traits f grid isolevel min cubesize sizeX sizeY sizeZ gv =
      some gv := by
  unfold SurfaceNets.cellLoop
  rw [nested_loops_eq_scan
    (SurfaceNets.cellStep normalize traits f grid isolevel min cubesize sizeX sizeY)]
  obtain ⟨gv', hfold, rfl⟩ := foldlM_invariant (fun s => s = gv)
    (fun s (p : Nat × Nat × Nat) =>
      SurfaceNets.cellStep normalize traits f grid isolevel min cubesize sizeX sizeY s
        p.1 p.2.1 p.2.2)
    (scanOrder (List.range (sizeX - 1)) (List.range (sizeY - 1)) (List.range (sizeZ - 1)))
    (fun p hp s hs => by
      rw [mem_scanOrder] at hp
      simp only [List.mem_range] at hp
      subst hs
      exact ⟨s, SurfaceNets.cellStep_inactive normalize traits f grid isolevel min cubesize
        sizeX sizeY sizeZ hS s p.1 p.2.1 p.2.2 (by omega) (by omega) (by omega)
        (cubeConfig_of_uniform f min cubesize isolevel sizeX sizeY sizeZ hU _ _ _
          (by omega) (by omega) (by omega)), rfl⟩) gv rfl
  exact hfold

theorem SurfaceNets.quadLoop_uniform (normalize : Vec3 → Vec3) (f : Vec3 → ℚ)
    (grid : Buf GridVertex) (gv : Buf (Vec3 × TerrainVertex)) (isolevel : ℚ) (min : Vec3)
    (cubesize : ℚ) (sizeX sizeY sizeZ : Nat)
    (hS : Sampled f min cubesize sizeX sizeY sizeZ grid)
    (hU : UniformSide f min cubesize isolevel sizeX sizeY sizeZ)
    (st : List TerrainVertex × List Nat) :
    SurfaceNets.quadLoop normalize grid gv isolevel sizeX sizeY sizeZ st = some st := by
  unfold SurfaceNets.quadLoop
  rw [nested_loops_eq_scan (SurfaceNets.quadStep normalize grid gv isolevel sizeX sizeY)]
  obtain ⟨st', hfold, rfl⟩ := foldlM_invariant (fun s => s = st)
    (fun s (p : Nat × Nat × Nat) =>
      SurfaceNets.quadStep normalize grid gv isolevel sizeX sizeY s p.1 p.2.1 p.2.2)
    (scanOrder (List.range' 1 (sizeX - 1 - 1)) (List.range' 1 (sizeY - 1 - 1))
      (List.range' 1 (sizeZ - 1 - 1)))
    (fun p hp s hs => by
      rw [mem_scanOrder] at hp
      simp only [List.mem_range'_1] at hp
      subst hs
      exact ⟨s, SurfaceNets.quadStep_inactive normalize f grid gv isolevel min cubesize
        sizeX sizeY sizeZ hS hU s p.1 p.2.1 p.2.2 (by omega) (by omega) (by omega), rfl⟩) st rfl
  exact hfold

/-- On a lattice whose samples all lie on one side of the isolevel,
`SurfaceNets::generateSDF` emits nothing and returns the empty result. -/
theorem SurfaceNets.generateSDF_uniform (normalize : Vec3 → Vec3) (traits : SurfaceNets.Traits)
    (f : Vec3 → ℚ) (isolevel : ℚ) (min max : Vec3) (cubesize : ℚ)
    (hx : 0 < latticeSize min.x max.x cubesize) (hy : 0 < latticeSize min.y max.y cubesize)
    (hz : 0 < latticeSize min.z max.z cubesize)
    (hU : UniformSide f min cubesize isolevel (latticeSize min.x max.x cubesize).toNat
      (latticeSize min.y max.y cubesize).toNat (latticeSize min.z max.z cubesize).toNat) :
    ∃ tr, SurfaceNets.generateSDF normalize traits f isolevel min max cubesize =
      ⟨tr, [], [], Result.value none 0⟩ := by
  unfold latticeSize at *
  obtain ⟨grid, tr, hsample, hS⟩ := sampleLattice_sampled f min cubesize
    ⌈(max.x - min.x) / cubesize⌉.toNat ⌈(max.y - min.y) / cubesize⌉.toNat
    ⌈(max.z - min.z) / cubesize⌉.toNat
    (Buf.alloc (⌈(max.x - min.x) / cubesize⌉ * ⌈(max.y - min.y) / cubesize⌉ *
      ⌈(max.z - min.z) / cubesize⌉).toNat)
    [Event.alloc (⌈(max.x - min.x) / cubesize⌉ * ⌈(max.y - min.y) / cubesize⌉ *
      ⌈(max.z - min.z) / cubesize⌉)]
    (toNat_mul3 _ _ _ hx hy hz)
  refine ⟨tr ++ [Event.alloc (⌈(max.x - min.x) / cubesize⌉ * ⌈(max.y - min.y) / cubesize⌉ *
      ⌈(max.z - min.z) / cubesize⌉)], ?_⟩
  unfold SurfaceNets.generateSDF
  simp only [gt_iff_lt, hx, hy, hz, and_self, if_true, hsample,
    SurfaceNets.cellLoop_uniform normalize traits f grid isolevel min cubesize _ _ _ hS hU,
    SurfaceNets.quadLoop_uniform normalize f grid _ isolevel min cubesize _ _ _ hS hU]

theorem MarchingCubes.generateSDF0_assert (normalize : Vec3 → Vec3) (f : Vec3 → ℚ)
    (isolevel : ℚ) (min max : Vec3) (cubesize : ℚ) :
    ((generateSDF0 normalize f isolevel min max cubesize).result = Result.assertionFailure ↔
      (latticeSize min.x max.x cubesize ≤ 0 ∨ latticeSize min.y max.y cubesize ≤ 0 ∨
        latticeSize min.z max.z cubesize ≤ 0)) ∧
    ((generateSDF0 normalize f isolevel min max cubesize).result = Result.assertionFailure →
      (generateSDF0 normalize f isolevel min max cubesize).trace = []) := by
  unfold generateSDF0 latticeSize
  simp only
  by_cases h : ⌈(max.x - min.x) / cubesize⌉ > 0 ∧ ⌈(max.y - min.y) / cubesize⌉ > 0 ∧
      ⌈(max.z - min.z) / cubesize⌉ > 0
  · rw [if_pos h]
    have hn : ¬ (⌈(max.x - min.x) / cubesize⌉ ≤ 0 ∨ ⌈(max.y - min.y) / cubesize⌉ ≤ 0 ∨
        ⌈(max.z - min.z) / cubesize⌉ ≤ 0) := by omega
    have hr : ∀ r : Run, r.result ≠ Result.assertionFailure →
        ((r.result = Result.assertionFailure ↔
          (⌈(max.x - min.x) / cubesize⌉ ≤ 0 ∨ ⌈(max.y - min.y) / cubesize⌉ ≤ 0 ∨
            ⌈(max.z - min.z) / cubesize⌉ ≤ 0)) ∧
          (r.result = Result.assertionFailure → r.trace = [])) :=
      fun r hne => ⟨⟨fun e => absurd e hne, fun e => absurd e hn⟩, fun e => absurd e hne⟩
    apply hr
    split
    · simp
    · split
      · simp
      · split_ifs <;> simp
  · rw [if_neg h]
    refine ⟨⟨fun _ => by omega, fun _ => rfl⟩, fun _ => rfl⟩

theorem SurfaceNets.generateSDF_assert (normalize : Vec3 → Vec3) (traits : SurfaceNets.Traits)
    (f : Vec3 → ℚ) (isolevel : ℚ) (min max : Vec3) (cubesize : ℚ) :
    ((SurfaceNets.generateSDF normalize traits f isolevel min max cubesize).result =
        Result.assertionFailure ↔
      (latticeSize min.x max.x cubesize ≤ 0 ∨ latticeSize min.y max.y cubesize ≤ 0 ∨
        latticeSize min.z max.z cubesize ≤ 0)) ∧
    ((SurfaceNets.generateSDF normalize traits f isolevel min max cubesize).result =
        Result.assertionFailure →
      (SurfaceNets.generateSDF normalize traits f isolevel min max cubesize).trace = []) := by
  unfold SurfaceNets.generateSDF latticeSize
  simp only
  by_cases h : ⌈(max.x - min.x) / cubesize⌉ > 0 ∧ ⌈(max.y - min.y) / cubesize⌉ > 0 ∧
      ⌈(max.z - min.z) / cubesize⌉ > 0
  · rw [if_pos h]
    have hn : ¬ (⌈(max.x - min.x) / cubesize⌉ ≤ 0 ∨ ⌈(max.y - min.y) / cubesize⌉ ≤ 0 ∨
        ⌈(max.z - min.z) / cubesize⌉ ≤ 0) := by omega
    have hr : ∀ r : Run, r.result ≠ Result.assertionFailure →
        ((r.result = Result.assertionFailure ↔
          (⌈(max.x - min.x) / cubesize⌉ ≤ 0 ∨ ⌈(max.y - min.y) / cubesize⌉ ≤ 0 ∨
            ⌈(max.z - min.z) / cubesize⌉ ≤ 0)) ∧
          (r.result = Result.assertionFailure → r.trace = [])) :=
      fun r hne => ⟨⟨fun e => absurd e hne, fun e => absurd e hn⟩, fun e => absurd e hne⟩
    apply hr
    split
    · simp
    · split
      · simp
      · split
        · simp
        · split_ifs <;> simp
  · rw [if_neg h]
    refine ⟨⟨fun _ => by omega, fun _ => rfl⟩, fun _ => rfl⟩

theorem latticeSize_two_pos : 0 < latticeSize 0 2 1 := by
  norm_num [latticeSize]

theorem constantField_uniform (sizeX sizeY sizeZ : Nat) :
    UniformSide constantField ⟨0, 0, 0⟩ 1 0 sizeX sizeY sizeZ :=
  Or.inr fun _ _ _ _ _ _ => by norm_num [constantField]

/-! ### `normalLerp` and `pushQuad` -/

theorem blendWeight_eq (d : ℚ) : 1 - (1 - d) ^ 2 = d * (2 - d) := by ring

/-- What one call of `pushQuad` does to the two buffers. -/
theorem SurfaceNets.pushQuad_eq (normalize : Vec3 → Vec3) (st : List TerrainVertex × List Nat)
    (v0 v1 v2 v3 : Vec3 × TerrainVertex) (flip : Bool) :
    SurfaceNets.pushQuad normalize st v0 v1 v2 v3 flip =
      (st.1 ++
        [SurfaceNets.normalLerp normalize v0.2 v0.1
            (SurfaceNets.quadNormal normalize v0 v1 v2 flip),
          SurfaceNets.normalLerp normalize v1.2 v1.1
            (SurfaceNets.quadNormal normalize v0 v1 v2 flip),
          SurfaceNets.normalLerp normalize v2.2 v2.1
            (SurfaceNets.quadNormal normalize v0 v1 v2 flip),
          SurfaceNets.normalLerp normalize v3.2 v3.1
            (SurfaceNets.quadNormal normalize v0 v1 v2 flip)],
        st.2 ++
          (if flip = true then
            [st.1.length + 0, st.1.length + 2, st.1.length + 1,
              st.1.length + 0, st.1.length + 3, st.1.length + 2]
          else
            [st.1.length + 0, st.1.length + 1, st.1.length + 2,
              st.1.length + 0, st.1.length + 2, st.1.length + 3])) := by
  unfold SurfaceNets.pushQuad SurfaceNets.quadNormal
  cases flip <;> simp

/-! ### `CubeGenerator<Lod>::generate` at depth above 0 -/

theorem tgridCell_eq (grid : Nat → Nat → Nat → GridVertex) :
    ∀ z y x : Fin 3, MarchingCubes.tgridCell grid z y x = some (tgridValue grid z y x) := by
  intro z y x
  fin_cases z <;> fin_cases y <;> fin_cases x <;>
    simp [MarchingCubes.tgridCell, MarchingCubes.gridAt, tgridValue, trilinear] <;> ring

theorem tgrid_eq (grid : Nat → Nat → Nat → GridVertex) (z y x : Nat)
    (hz : z < 3) (hy : y < 3) (hx : x < 3) :
    MarchingCubes.tgrid grid z y x = some (tgridValue grid z y x) := by
  unfold MarchingCubes.tgrid
  rw [if_pos ⟨hz, hy, hx⟩]
  exact tgridCell_eq grid ⟨z, hz⟩ ⟨y, hy⟩ ⟨x, hx⟩

theorem foldlM_congr_option {σ α : Type} (g g' : σ → α → Option σ) (l : List α)
    (h : ∀ a ∈ l, ∀ s, g s a = g' s a) (s : σ) : l.foldlM g s = l.foldlM g' s := by
  induction l generalizing s with
  | nil => rfl
  | cons a l ih =>
    simp only [List.foldlM_cons, h a (List.mem_cons_self a l) s]
    cases g' s a with
    | none => rfl
    | some s' => exact ih (fun b hb => h b (List.mem_cons_of_mem a hb)) s'

theorem octants_eq_scan : scanOrder (List.range 2) (List.range 2) (List.range 2) = octants := by
  decide

/-- At depth above 0 the template generates the eight octants in order, each on the
fine lattice points at the octant plus `MC_VERTINDEX[i]`. -/
theorem generateWith_succ {σ : Type}
    (leaf : σ → GridVertex → GridVertex → GridVertex → GridVertex → GridVertex → GridVertex →
      GridVertex → GridVertex → ℚ → Vec3 → ℚ → Option σ)
    (Lod : Nat) (st : σ) (v000 v100 v110 v010 v001 v101 v111 v011 : GridVertex)
    (isolevel : ℚ) (offset : Vec3) (scale : ℚ) :
    CubeGenerator.generateWith leaf (Lod + 1) st v000 v100 v110 v010 v001 v101 v111 v011
        isolevel offset scale =
      if edgeTable (cubeindex v000 v100 v110 v010 v001 v101 v111 v011 isolevel) ≠ 0 then
        octants.foldlM (fun st o =>
          CubeGenerator.generateWith leaf Lod st
            (octantCorner (cornerGrid v000 v100 v110 v010 v001 v101 v111 v011) o 0)
            (octantCorner (cornerGrid v000 v100 v110 v010 v001 v101 v111 v011) o 1)
            (octantCorner (cornerGrid v000 v100 v110 v010 v001 v101 v111 v011) o 2)
            (octantCorner (cornerGrid v000 v100 v110 v010 v001 v101 v111 v011) o 3)
            (octantCorner (cornerGrid v000 v100 v110 v010 v001 v101 v111 v011) o 4)
            (octantCorner (cornerGrid v000 v100 v110 v010 v001 v101 v111 v011) o 5)
            (octantCorner (cornerGrid v000 v100 v110 v010 v001 v101 v111 v011) o 6)
            (octantCorner (cornerGrid v000 v100 v110 v010 v001 v101 v111 v011) o 7)
            isolevel (octantOffset offset scale o) (scale / 2)) st
      else some st := by
  rw [CubeGenerator.generateWith]
  simp only
  split_ifs with h
  · rw [nested_loops_eq_scan (fun st x y z =>
      match tgrid (cornerGrid v000 v100 v110 v010 v001 v101 v111 v011) (z + 0) (y + 0) (x + 0),
            tgrid (cornerGrid v000 v100 v110 v010 v001 v101 v111 v011) (z + 0) (y + 0) (x + 1),
            tgrid (cornerGrid v000 v100 v110 v010 v001 v101 v111 v011) (z + 0) (y + 1) (x + 1),
            tgrid (cornerGrid v000 v100 v110 v010 v001 v101 v111 v011) (z + 0) (y + 1) (x + 0),
            tgrid (cornerGrid v000 v100 v110 v010 v001 v101 v111 v011) (z + 1) (y + 0) (x + 0),
            tgrid (cornerGrid v000 v100 v110 v010 v001 v101 v111 v011) (z + 1) (y + 0) (x + 1),
            tgrid (cornerGrid v000 v100 v110 v010 v001 v101 v111 v011) (z + 1) (y + 1) (x + 1),
            tgrid (cornerGrid v000 v100 v110 v010 v001 v101 v111 v011) (z + 1) (y + 1) (x + 0) with
      | some t000, some t100, some t110, some t010, some t001, some t101, some t111, some t011 =>
        CubeGenerator.generateWith leaf Lod st t000 t100 t110 t010 t001 t101 t111 t011
          isolevel (offset.add ((Vec3.ofNat x y z).smul (scale / 2))) (scale / 2)
      | _, _, _, _, _, _, _, _ => none), octants_eq_scan]
    apply foldlM_congr_option
    intro o ho s
    have hb : o.1 < 2 ∧ o.2.1 < 2 ∧ o.2.2 < 2 := by
      rw [← octants_eq_scan, mem_scanOrder] at ho
      simpa only [List.mem_range] using ho
    simp only [Nat.add_zero]
    rw [tgrid_eq _ _ _ _ (by omega) (by omega) (by omega),
      tgrid_eq _ _ _ _ (by omega) (by omega) (by omega),
      tgrid_eq _ _ _ _ (by omega) (by omega) (by omega),
      tgrid_eq _ _ _ _ (by omega) (by omega) (by omega),
      tgrid_eq _ _ _ _ (by omega) (by omega) (by omega),
      tgrid_eq _ _ _ _ (by omega) (by omega) (by omega),
      tgrid_eq _ _ _ _ (by omega) (by omega) (by omega),
      tgrid_eq _ _ _ _ (by omega) (by omega) (by omega)]
    rfl
  · rfl

theorem interval_halves (lo s t : ℚ) :
    (lo ≤ t ∧ t ≤ lo + s) ↔
      ∃ i : Nat, i < 2 ∧ (lo + (i : ℚ) * (s / 2) ≤ t ∧ t ≤ lo + (i : ℚ) * (s / 2) + s / 2) := by
  constructor
  · rintro ⟨h1, h2⟩
    by_cases h : t ≤ lo + s / 2
    · exact ⟨0, by decide, by norm_num; exact ⟨h1, h⟩⟩
    · push_neg at h
      refine ⟨1, by decide, ?_⟩
      norm_num
      exact ⟨h.le, by linarith⟩
  · rintro ⟨i, hi, h1, h2⟩
    have hcase : i = 0 ∨ i = 1 := by omega
    rcases hcase with rfl | rfl
    · norm_num at h1 h2
      exact ⟨h1, by linarith⟩
    · norm_num at h1 h2
      exact ⟨by linarith, by linarith⟩

theorem interval_halves_disjoint (lo s t : ℚ) (i j : Nat) (hi : i < 2) (hj : j < 2)
    (hne : i ≠ j)
    (h1 : lo + (i : ℚ) * (s / 2) < t ∧ t < lo + (i : ℚ) * (s / 2) + s / 2)
    (h2 : lo + (j : ℚ) * (s / 2) < t ∧ t < lo + (j : ℚ) * (s / 2) + s / 2) : False := by
  have hi' : i = 0 ∨ i = 1 := by omega
  have hj' : j = 0 ∨ j = 1 := by omega
  rcases hi' with rfl | rfl <;> rcases hj' with rfl | rfl
  · exact hne rfl
  · norm_num at h1 h2
    linarith [h1.2, h2.1]
  · norm_num at h1 h2
    linarith [h1.1, h2.2]
  · exact hne rfl

theorem mem_octants (o : Nat × Nat × Nat) : o ∈ octants ↔ o.1 < 2 ∧ o.2.1 < 2 ∧ o.2.2 < 2 := by
  rw [← octants_eq_scan, mem_scanOrder]
  simp only [List.mem_range]

theorem octants_tile (offset : Vec3) (scale : ℚ) (p : Vec3) :
    InBox offset scale p ↔ ∃ o ∈ octants, InBox (octantOffset offset scale o) (scale / 2) p := by
  simp only [InBox, octantOffset, Vec3.add, Vec3.smul, Vec3.ofNat]
  constructor
  · rintro ⟨hx, hy, hz⟩
    obtain ⟨i, hi, hxi⟩ := (interval_halves _ _ _).mp hx
    obtain ⟨j, hj, hyj⟩ := (interval_halves _ _ _).mp hy
    obtain ⟨k, hk, hzk⟩ := (interval_halves _ _ _).mp hz
    exact ⟨(i, j, k), (mem_octants _).mpr ⟨hi, hj, hk⟩, hxi, hyj, hzk⟩
  · rintro ⟨o, ho, hx, hy, hz⟩
    obtain ⟨hi, hj, hk⟩ := (mem_octants o).mp ho
    exact ⟨(interval_halves _ _ _).mpr ⟨o.1, hi, hx⟩, (interval_halves _ _ _).mpr ⟨o.2.1, hj, hy⟩,
      (interval_halves _ _ _).mpr ⟨o.2.2, hk, hz⟩⟩

theorem octants_disjoint (offset : Vec3) (scale : ℚ) (p : Vec3) (o o' : Nat × Nat × Nat)
    (ho : o ∈ octants) (ho' : o' ∈ octants) (hne : o ≠ o')
    (h : InInterior (octantOffset offset scale o) (scale / 2) p)
    (h' : InInterior (octantOffset offset scale o') (scale / 2) p) : False := by
  simp only [InInterior, octantOffset, Vec3.add, Vec3.smul, Vec3.ofNat] at h h'
  obtain ⟨hi, hj, hk⟩ := (mem_octants o).mp ho
  obtain ⟨hi', hj', hk'⟩ := (mem_octants o').mp ho'
  by_cases e1 : o.1 = o'.1
  · by_cases e2 : o.2.1 = o'.2.1
    · by_cases e3 : o.2.2 = o'.2.2
      · exact hne (Prod.ext e1 (Prod.ext e2 e3))
      · exact interval_halves_disjoint _ _ _ _ _ hk hk' e3 h.2.2 h'.2.2
    · exact interval_halves_disjoint _ _ _ _ _ hj hj' e2 h.2.1 h'.2.1
  · exact interval_halves_disjoint _ _ _ _ _ hi hi' e1 h.1 h'.1

/-- A loop whose body spends at most `m` on every element spends at most
`length * m` in all, for a cost relation `R` that composes additively. -/
theorem foldlM_budget {σ α : Type} (R : Nat → σ → σ → Prop) (hzero : ∀ s, R 0 s s)
    (htrans : ∀ a b s s' s'', R a s s' → R b s' s'' → R (a + b) s s'')
    (g : σ → α → Option σ) (m : Nat) (l : List α)
    (h : ∀ o ∈ l, ∀ s, ∃ s', g s o = some s' ∧ R m s s') (s : σ) :
    ∃ s', l.foldlM g s = some s' ∧ R (l.length * m) s s' := by
  induction l generalizing s with
  | nil => exact ⟨s, rfl, by simpa using hzero s⟩
  | cons a l ih =>
    obtain ⟨s1, h1, r1⟩ := h a (List.mem_cons_self a l) s
    obtain ⟨s2, h2, r2⟩ := ih (fun b hb => h b (List.mem_cons_of_mem a hb)) s1
    refine ⟨s2, by simp only [List.foldlM_cons, h1]; exact h2, ?_⟩
    have := htrans _ _ _ _ _ r1 r2
    have e : (a :: l).length * m = m + l.length * m := by
      simp only [List.length_cons]
      ring
    rw [e]
    exact this

/-- The template at depth `Lod` succeeds and spends at most `8 ^ Lod` times what one
call of the depth 0 body spends. -/
theorem generateWith_budget {σ : Type}
    (leaf : σ → GridVertex → GridVertex → GridVertex → GridVertex → GridVertex → GridVertex →
      GridVertex → GridVertex → ℚ → Vec3 → ℚ → Option σ)
    (R : Nat → σ → σ → Prop) (hzero : ∀ s, R 0 s s)
    (htrans : ∀ a b s s' s'', R a s s' → R b s' s'' → R (a + b) s s'')
    (hmono : ∀ a b s s', a ≤ b → R a s s' → R b s s')
    (hleaf : ∀ st v000 v100 v110 v010 v001 v101 v111 v011 isolevel offset scale,
      ∃ st', leaf st v000 v100 v110 v010 v001 v101 v111 v011 isolevel offset scale = some st' ∧
        R 1 st st')
    (Lod : Nat) :
    ∀ st v000 v100 v110 v010 v001 v101 v111 v011 isolevel offset scale,
      ∃ st', CubeGenerator.generateWith leaf Lod st v000 v100 v110 v010 v001 v101 v111 v011
          isolevel offset scale = some st' ∧ R (8 ^ Lod) st st' := by
  induction Lod with
  | zero =>
    intro st v000 v100 v110 v010 v001 v101 v111 v011 isolevel offset scale
    rw [CubeGenerator.generateWith]
    simpa using hleaf st v000 v100 v110 v010 v001 v101 v111 v011 isolevel offset scale
  | succ Lod ih =>
    intro st v000 v100 v110 v010 v001 v101 v111 v011 isolevel offset scale
    rw [generateWith_succ]
    split_ifs with h
    · obtain ⟨st', hfold, hr⟩ := foldlM_budget R hzero htrans _ (8 ^ Lod) octants
        (fun o _ s => ih s _ _ _ _ _ _ _ _ isolevel (octantOffset offset scale o) (scale / 2)) st
      refine ⟨st', hfold, ?_⟩
      have e : octants.length * 8 ^ Lod = 8 ^ (Lod + 1) := by
        simp only [octants, List.length_cons, List.length_nil]
        rw [pow_succ]
        ring
      rw [e] at hr
      exact hr
    · exact ⟨st, rfl, hmono 0 _ _ _ (Nat.zero_le _) (hzero st)⟩

theorem generateWith_inactive {σ : Type}
    (leaf : σ → GridVertex → GridVertex → GridVertex → GridVertex → GridVertex → GridVertex →
      GridVertex → GridVertex → ℚ → Vec3 → ℚ → Option σ)
    (hleaf : ∀ st v000 v100 v110 v010 v001 v101 v111 v011 isolevel offset scale,
      edgeTable (cubeindex v000 v100 v110 v010 v001 v101 v111 v011 isolevel) = 0 →
      leaf st v000 v100 v110 v010 v001 v101 v111 v011 isolevel offset scale = some st)
    (Lod : Nat) (st : σ) (v000 v100 v110 v010 v001 v101 v111 v011 : GridVertex)
    (isolevel : ℚ) (offset : Vec3) (scale : ℚ)
    (h0 : edgeTable (cubeindex v000 v100 v110 v010 v001 v101 v111 v011 isolevel) = 0) :
    CubeGenerator.generateWith leaf Lod st v000 v100 v110 v010 v001 v101 v111 v011
      isolevel offset scale = some st := by
  cases Lod with
  | zero =>
    rw [CubeGenerator.generateWith]
    exact hleaf st _ _ _ _ _ _ _ _ _ _ _ h0
  | succ Lod =>
    rw [generateWith_succ, if_neg (not_not.mpr h0)]

theorem Appends_zero (s : List TerrainVertex × List Nat) : Appends 0 s s :=
  ⟨[], [], by simp, by simp, by simp⟩

theorem Appends_trans (a b : Nat) (s s' s'' : List TerrainVertex × List Nat)
    (h1 : Appends a s s') (h2 : Appends b s' s'') : Appends (a + b) s s'' := by
  obtain ⟨vs, is, rfl, hv, hi⟩ := h1
  obtain ⟨vs', is', rfl, hv', hi'⟩ := h2
  refine ⟨vs ++ vs', is ++ is', by simp, ?_, ?_⟩
  · simp only [List.length_append]
    omega
  · simp only [List.length_append]
    omega

theorem Appends_mono (a b : Nat) (s s' : List TerrainVertex × List Nat) (hab : a ≤ b)
    (h : Appends a s s') : Appends b s s' := by
  obtain ⟨vs, is, rfl, hv, hi⟩ := h
  exact ⟨vs, is, rfl, by omega, by omega⟩

theorem completeTriples_length (row : List Int) :
    3 * (completeTriples row).length ≤ row.length := by
  induction row using completeTriples.induct with
  | case1 a b d rest h ih =>
    rw [completeTriples, if_pos h]
    simp only [List.length_cons]
    omega
  | case2 a b d rest h =>
    rw [completeTriples, if_neg h]
    simp
  | case3 l h =>
    rw [completeTriples]
    · simp
    · exact h

theorem tableRows_length : ∀ r ∈ tableRows, r.2.2.length = 16 := by
  decide!

theorem triangleSlots_length_le (c : Nat) (hc : c < 256) : (triangleSlots c).length ≤ 15 := by
  have h16 : (triRow c).length = 16 := tableRows_length _ (table_row c hc)
  have h3 := completeTriples_length (triRow c)
  have hlen : (triangleSlots c).length = 3 * (completeTriples (triRow c)).length := by
    unfold triangleSlots
    induction completeTriples (triRow c) with
    | nil => rfl
    | cons t ts ih =>
      simp only [List.flatMap_cons, List.length_append, List.length_cons, List.length_nil, ih]
      omega
  omega

theorem flaggedEdges_length_le (edgemask : Nat) : (flaggedEdges edgemask).length ≤ 12 := by
  unfold flaggedEdges
  exact le_trans (List.length_filter_le _ _) (by simp)

/-- One call of `CubeGenerator<0>::generate` appends at most 12 vertices and at most
15 indices. -/
theorem generate_leaf_budget (normalize : Vec3 → Vec3) (st : List TerrainVertex × List Nat)
    (v000 v100 v110 v010 v001 v101 v111 v011 : GridVertex)
    (isolevel : ℚ) (offset : Vec3) (scale : ℚ) :
    ∃ st', CubeGenerator0.generate normalize st.1 st.2 v000 v100 v110 v010 v001 v101 v111 v011
        isolevel offset scale = some st' ∧ Appends 1 st st' := by
  refine ⟨_, generate_eq normalize st.1 st.2 v000 v100 v110 v010 v001 v101 v111 v011
    isolevel offset scale, _, _, rfl, ?_, ?_⟩
  · rw [List.length_map]
    exact le_trans (flaggedEdges_length_le _) (by decide)
  · rw [List.length_map]
    exact le_trans (triangleSlots_length_le _
      (MarchingCubes.cubeindex_lt v000 v100 v110 v010 v001 v101 v111 v011 isolevel)) (by decide)

theorem cubeindex_uniform (v000 v100 v110 v010 v001 v101 v111 v011 : GridVertex) (isolevel : ℚ)
    (h : (v000.iso < isolevel ∧ v100.iso < isolevel ∧ v110.iso < isolevel ∧
        v010.iso < isolevel ∧ v001.iso < isolevel ∧ v101.iso < isolevel ∧
        v111.iso < isolevel ∧ v011.iso < isolevel) ∨
      (¬ v000.iso < isolevel ∧ ¬ v100.iso < isolevel ∧ ¬ v110.iso < isolevel ∧
        ¬ v010.iso < isolevel ∧ ¬ v001.iso < isolevel ∧ ¬ v101.iso < isolevel ∧
        ¬ v111.iso < isolevel ∧ ¬ v011.iso < isolevel)) :
    edgeTable (cubeindex v000 v100 v110 v010 v001 v101 v111 v011 isolevel) = 0 := by
  rw [edgeTable_eq_zero_iff _ (MarchingCubes.cubeindex_lt _ _ _ _ _ _ _ _ _),
    MarchingCubes.cubeindex_eq]
  rcases h with h | h
  · right
    rw [(bitsToNat_extremes _ _ _ _ _ _ _ _).1]
    simpa only [decide_eq_true_eq] using h
  · left
    rw [(bitsToNat_extremes _ _ _ _ _ _ _ _).2]
    simpa only [decide_eq_false_iff_not] using h

/-! ### Empty results and the smallest lattices -/

/-- On a lattice whose samples all lie on one side of the isolevel,
`MarchingCubes::generateSDF<0>` emits nothing and returns the empty result. -/
theorem MarchingCubes.generateSDF0_uniform (normalize : Vec3 → Vec3) (f : Vec3 → ℚ)
    (isolevel : ℚ) (min max : Vec3) (cubesize : ℚ)
    (hx : 0 < latticeSize min.x max.x cubesize) (hy : 0 < latticeSize min.y max.y cubesize)
    (hz : 0 < latticeSize min.z max.z cubesize)
    (hU : UniformSide f min cubesize isolevel (latticeSize min.x max.x cubesize).toNat
      (latticeSize min.y max.y cubesize).toNat (latticeSize min.z max.z cubesize).toNat) :
    ∃ tr, generateSDF0 normalize f isolevel min max cubesize =
      ⟨tr, [], [], Result.value none 0⟩ := by
  obtain ⟨grid, tr, vb, ib, hS, hloop, hrun⟩ :=
    MarchingCubes.generateSDF0_run normalize f isolevel min max cubesize hx hy hz
  rw [cubeLoop_eq_scan] at hloop
  obtain ⟨st', hfold, -, -, hsame⟩ := cube_scan normalize f grid isolevel min cubesize
    _ _ _ hS
    (scanOrder (List.range ((latticeSize min.x max.x cubesize).toNat - 1))
      (List.range ((latticeSize min.y max.y cubesize).toNat - 1))
      (List.range ((latticeSize min.z max.z cubesize).toNat - 1)))
    (fun p hp => by
      rw [mem_scanOrder] at hp
      simp only [List.mem_range] at hp
      omega) ([], [])
  rw [hloop] at hfold
  cases Option.some.inj hfold
  have hst := hsame (fun p hp => by
    rw [mem_scanOrder] at hp
    simp only [List.mem_range] at hp
    exact cubeConfig_of_uniform f min cubesize isolevel _ _ _ hU _ _ _
      (by omega) (by omega) (by omega))
  cases hst
  exact ⟨tr, by rw [hrun]; rfl⟩

/-- A lattice with a single point per axis has no cube: the result is empty. -/
theorem MarchingCubes.generateSDF0_single_point (normalize : Vec3 → Vec3) (f : Vec3 → ℚ)
    (isolevel : ℚ) (min max : Vec3) (cubesize : ℚ)
    (hx : latticeSize min.x max.x cubesize = 1) (hy : latticeSize min.y max.y cubesize = 1)
    (hz : latticeSize min.z max.z cubesize = 1) :
    ∃ tr, generateSDF0 normalize f isolevel min max cubesize =
      ⟨tr, [], [], Result.value none 0⟩ := by
  obtain ⟨grid, tr, vb, ib, hS, hloop, hrun⟩ :=
    MarchingCubes.generateSDF0_run normalize f isolevel min max cubesize
      (by rw [hx]; decide) (by rw [hy]; decide) (by rw [hz]; decide)
  rw [hx, hy, hz] at hloop
  have h0 : (1 : Int).toNat - 1 = 0 := by decide
  simp only [cubeLoop, h0, List.range_zero, List.foldlM_nil] at hloop
  cases Option.some.inj hloop
  exact ⟨tr, by rw [hrun]; rfl⟩

theorem single_corner_rows :
    ∀ k : Fin 8,
      (flaggedEdges (edgeTable (2 ^ (k : Nat)))).length = 3 ∧
      (∀ e ∈ flaggedEdges (edgeTable (2 ^ (k : Nat))),
        edgeIndex e 0 = (k : Nat) ∨ edgeIndex e 1 = (k : Nat)) ∧
      (triangleSlots (2 ^ (k : Nat))).length = 3 ∧
      (∀ s, s < 3 → s ∈ triangleSlots (2 ^ (k : Nat))) := by
  decide!

theorem bitsToNat_single :
    ∀ k : Fin 8,
      bitsToNat (decide (0 = (k : Nat))) (decide (1 = (k : Nat))) (decide (2 = (k : Nat)))
        (decide (3 = (k : Nat))) (decide (4 = (k : Nat))) (decide (5 = (k : Nat)))
        (decide (6 = (k : Nat))) (decide (7 = (k : Nat))) = 2 ^ (k : Nat) := by
  decide

theorem single_corner_config (f : Vec3 → ℚ) (min : Vec3) (cubesize isolevel : ℚ) (k : Nat)
    (hk : k < 8) (h : OnlyCornerBelow f min cubesize isolevel k) :
    cubeConfig f min cubesize isolevel 0 0 0 = 2 ^ k := by
  unfold cubeConfig
  rw [MarchingCubes.cubeindex_eq]
  have e : ∀ a b c : Nat, (sampleAt f min cubesize a b c).iso =
      f (latticePoint min cubesize a b c) := fun _ _ _ => rfl
  simp only [e]
  have h0 := h 0 (by decide)
  have h1 := h 1 (by decide)
  have h2 := h 2 (by decide)
  have h3 := h 3 (by decide)
  have h4 := h 4 (by decide)
  have h5 := h 5 (by decide)
  have h6 := h 6 (by decide)
  have h7 := h 7 (by decide)
  simp only [vertIndex, MC_VERTINDEX, List.getD_cons_zero, List.getD_cons_succ] at h0 h1 h2 h3 h4 h5 h6 h7
  simp only [Nat.zero_add, h0, h1, h2, h3, h4, h5, h6, h7]
  exact bitsToNat_single ⟨k, hk⟩

/-- The run of `generateSDF<0>` on a lattice with two points per axis and exactly one
corner of its single cube below the isolevel. -/
theorem MarchingCubes.generateSDF0_two_points (normalize : Vec3 → Vec3) (f : Vec3 → ℚ)
    (isolevel : ℚ) (min max : Vec3) (cubesize : ℚ) (k : Nat) (hk : k < 8)
    (hx : latticeSize min.x max.x cubesize = 2) (hy : latticeSize min.y max.y cubesize = 2)
    (hz : latticeSize min.z max.z cubesize = 2)
    (h : OnlyCornerBelow f min cubesize isolevel k) :
    ∃ tr, generateSDF0 normalize f isolevel min max cubesize =
      ⟨tr,
        (flaggedEdges (edgeTable (2 ^ k))).map
          (edgeVertex normalize
            (cornerGrid (sampleAt f min cubesize 0 0 0) (sampleAt f min cubesize 1 0 0)
              (sampleAt f min cubesize 1 1 0) (sampleAt f min cubesize 0 1 0)
              (sampleAt f min cubesize 0 0 1) (sampleAt f min cubesize 1 0 1)
              (sampleAt f min cubesize 1 1 1) (sampleAt f min cubesize 0 1 1))
            isolevel (latticePoint min cubesize 0 0 0) cubesize),
        triangleSlots (2 ^ k),
        Result.value
          (some ⟨(flaggedEdges (edgeTable (2 ^ k))).map
              (edgeVertex normalize
                (cornerGrid (sampleAt f min cubesize 0 0 0) (sampleAt f min cubesize 1 0 0)
                  (sampleAt f min cubesize 1 1 0) (sampleAt f min cubesize 0 1 0)
                  (sampleAt f min cubesize 0 0 1) (sampleAt f min cubesize 1 0 1)
                  (sampleAt f min cubesize 1 1 1) (sampleAt f min cubesize 0 1 1))
                isolevel (latticePoint min cubesize 0 0 0) cubesize),
            triangleSlots (2 ^ k)⟩) 3⟩ := by
  obtain ⟨grid, tr, vb, ib, hS, hloop, hrun⟩ :=
    MarchingCubes.generateSDF0_run normalize f isolevel min max cubesize
      (by rw [hx]; decide) (by rw [hy]; decide) (by rw [hz]; decide)
  rw [hx, hy, hz] at hloop hS
  have h2 : (2 : Int).toNat = 2 := rfl
  rw [h2] at hloop hS
  have hstep := cubeStep_eq normalize f grid isolevel min cubesize 2 2 2 hS ([], []) 0 0 0
    (by decide) (by decide) (by decide)
  rw [generate_eq] at hstep
  have hc : cubeindex (sampleAt f min cubesize 0 0 0) (sampleAt f min cubesize (0 + 1) 0 0)
      (sampleAt f min cubesize (0 + 1) (0 + 1) 0) (sampleAt f min cubesize 0 (0 + 1) 0)
      (sampleAt f min cubesize 0 0 (0 + 1)) (sampleAt f min cubesize (0 + 1) 0 (0 + 1))
      (sampleAt f min cubesize (0 + 1) (0 + 1) (0 + 1))
      (sampleAt f min cubesize 0 (0 + 1) (0 + 1)) isolevel = 2 ^ k :=
    single_corner_config f min cubesize isolevel k hk h
  rw [hc] at hstep
  have hr1 : List.range (2 - 1) = [0] := rfl
  simp only [cubeLoop, hr1, List.foldlM_cons, List.foldlM_nil, hstep, Option.bind_eq_bind,
    Option.some_bind, Option.pure_def] at hloop
  have hloop' := Option.some.inj hloop
  obtain ⟨-, -, h3, -⟩ := single_corner_rows ⟨k, hk⟩
  have hvb : vb = (flaggedEdges (edgeTable (2 ^ k))).map
      (edgeVertex normalize
        (cornerGrid (sampleAt f min cubesize 0 0 0) (sampleAt f min cubesize 1 0 0)
          (sampleAt f min cubesize 1 1 0) (sampleAt f min cubesize 0 1 0)
          (sampleAt f min cubesize 0 0 1) (sampleAt f min cubesize 1 0 1)
          (sampleAt f min cubesize 1 1 1) (sampleAt f min cubesize 0 1 1))
        isolevel (latticePoint min cubesize 0 0 0) cubesize) := by
    have := congrArg Prod.fst hloop'
    simpa using this.symm
  have hib : ib = triangleSlots (2 ^ k) := by
    have := congrArg Prod.snd hloop'
    simpa using this.symm
  have hne : ib ≠ [] := by
    rw [hib]
    intro he
    rw [he] at h3
    cases h3
  have hlen : ib.length = 3 := by rw [hib]; exact h3
  refine ⟨tr, ?_⟩
  rw [hrun, if_neg hne, hlen, ← hvb, ← hib]

theorem planeField_only_corner : OnlyCornerBelow planeField ⟨0, 0, 0⟩ 1 0 0 := by
  intro i hi
  interval_cases i <;>
    norm_num [planeField, latticePoint, vertIndex, MC_VERTINDEX, Vec3.add, Vec3.smul, Vec3.ofNat]

theorem latticeSize_two : latticeSize 0 2 1 = 2 := by
  norm_num [latticeSize]

theorem latticeSize_world :
    0 < latticeSize (-40) 40 1 ∧ 0 < latticeSize (-16) 16 1 := by
  constructor <;> norm_num [latticeSize]

theorem constantField_uniform_any (min : Vec3) (cubesize isolevel : ℚ) (h : isolevel ≤ 1)
    (sizeX sizeY sizeZ : Nat) : UniformSide constantField min cubesize isolevel sizeX sizeY sizeZ :=
  Or.inr fun _ _ _ _ _ _ => by
    simp only [constantField, not_lt]
    exact h

theorem generateWorld_out_of_range (normalize : Vec3 → Vec3) (world : Vec3 → ℚ)
    (t3 t4 t5 t6 t7 : SurfaceNets.Traits) (index : Int) (h : index < 0 ∨ 7 < index) :
    generateWorld normalize world t3 t4 t5 t6 t7 index = ⟨[], [], [], Result.value none 0⟩ := by
  unfold generateWorld
  simp only
  split_ifs <;> first | rfl | omega

/-! ### The two passes of Surface Nets -/

theorem vertIndex_le_one (v k : Nat) : vertIndex v k ≤ 1 := by
  rcases Nat.lt_or_ge v 8 with h | h
  · interval_cases v <;> rcases k with _ | _ | _ | k <;> simp [vertIndex, MC_VERTINDEX]
  · have hlen : MC_VERTINDEX.length ≤ v := h
    simp [vertIndex, List.getElem?_eq_none hlen]

theorem SurfaceNets.edgeLoop_eq (traits : SurfaceNets.Traits) (f : Vec3 → ℚ)
    (grid : Buf GridVertex) (edgemask : Nat) (isolevel : ℚ) (min : Vec3) (cubesize : ℚ)
    (sizeX sizeY sizeZ : Nat) (hS : Sampled f min cubesize sizeX sizeY sizeZ grid)
    (x y z : Nat) (hx : x + 1 < sizeX) (hy : y + 1 < sizeY) (hz : z + 1 < sizeZ) (n : Nat) :
    (List.range n).foldlM
      (SurfaceNets.edgeStep traits f grid edgemask isolevel
        (((Vec3.ofNat x y z).smul cubesize).add min) cubesize sizeX sizeY x y z)
      ([], Vec3.zero) =
    some ((((List.range n).filter (fun i => edgemask.testBit i)).map
        (SurfaceNets.edgePair traits f min cubesize isolevel x y z)),
      (((List.range n).filter (fun i => edgemask.testBit i)).map
        (SurfaceNets.edgePair traits f min cubesize isolevel x y z)).foldl
          (fun acc gt => acc.add gt.1) Vec3.zero) := by
  induction n with
  | zero => rfl
  | succ n ih =>
    rw [List.range_succ, List.foldlM_append, ih]
    simp only [Option.bind_eq_bind, Option.some_bind, List.foldlM_cons, List.foldlM_nil,
      List.filter_append, List.map_append, List.foldl_append]
    unfold SurfaceNets.edgeStep
    by_cases hbit : edgemask.testBit n = true
    · have hm : edgemask &&& (1 <<< n) ≠ 0 := (mask_test_iff edgemask n).mpr hbit
      have b0 := vertIndex_le_one (edgeIndex n 0)
      have b1 := vertIndex_le_one (edgeIndex n 1)
      simp only [hm, ne_eq, not_false_eq_true, if_true]
      rw [hS _ _ _ (by have := b0 0; omega) (by have := b0 1; omega) (by have := b0 2; omega),
        hS _ _ _ (by have := b1 0; omega) (by have := b1 1; omega) (by have := b1 2; omega)]
      simp [hbit, SurfaceNets.edgePair]
    · have hm : ¬ edgemask &&& (1 <<< n) ≠ 0 := fun h => hbit ((mask_test_iff edgemask n).mp h)
      rw [if_neg hm]
      simp [hbit]

theorem SurfaceNets.cellStep_eq (normalize : Vec3 → Vec3) (traits : SurfaceNets.Traits)
    (f : Vec3 → ℚ) (grid : Buf GridVertex) (isolevel : ℚ) (min : Vec3) (cubesize : ℚ)
    (sizeX sizeY sizeZ : Nat) (hS : Sampled f min cubesize sizeX sizeY sizeZ grid)
    (gv : Buf (Vec3 × TerrainVertex)) (x y z : Nat)
    (hx : x + 1 < sizeX) (hy : y + 1 < sizeY) (hz : z + 1 < sizeZ) :
    SurfaceNets.cellStep normalize traits f grid isolevel min cubesize sizeX sizeY gv x y z =
      if edgeTable (cubeConfig f min cubesize isolevel x y z) ≠ 0 then
        gv.write (x + sizeX * (y + sizeY * z))
          (SurfaceNets.cellVertex normalize traits f min cubesize isolevel x y z)
      else some gv := by
  by_cases h0 : edgeTable (cubeConfig f min cubesize isolevel x y z) = 0
  · rw [SurfaceNets.cellStep_inactive normalize traits f grid isolevel min cubesize sizeX sizeY
      sizeZ hS gv x y z hx hy hz h0, if_neg (not_not.mpr h0)]
  · rw [if_pos h0]
    unfold SurfaceNets.cellStep
    simp only [Nat.add_zero]
    rw [hS x y z (by omega) (by omega) (by omega),
      hS (x + 1) y z (by omega) (by omega) (by omega),
      hS (x + 1) (y + 1) z (by omega) (by omega) (by omega),
      hS x (y + 1) z (by omega) (by omega) (by omega),
      hS x y (z + 1) (by omega) (by omega) (by omega),
      hS (x + 1) y (z + 1) (by omega) (by omega) (by omega),
      hS (x + 1) (y + 1) (z + 1) (by omega) (by omega) (by omega),
      hS x (y + 1) (z + 1) (by omega) (by omega) (by omega)]
    simp only
    rw [SurfaceNets.cubeindex_eq_marching]
    have hc : MarchingCubes.cubeindex (sampleAt f min cubesize x y z)
        (sampleAt f min cubesize (x + 1) y z) (sampleAt f min cubesize (x + 1) (y + 1) z)
        (sampleAt f min cubesize x (y + 1) z) (sampleAt f min cubesize x y (z + 1))
        (sampleAt f min cubesize (x + 1) y (z + 1))
        (sampleAt f min cubesize (x + 1) (y + 1) (z + 1))
        (sampleAt f min cubesize x (y + 1) (z + 1)) isolevel =
        cubeConfig f min cubesize isolevel x y z := rfl
    rw [hc, if_pos h0,
      SurfaceNets.edgeLoop_eq traits f grid _ isolevel min cubesize sizeX sizeY sizeZ hS x y z
        hx hy hz 12]
    rfl

theorem SurfaceNets.cell_scan (normalize : Vec3 → Vec3) (traits : SurfaceNets.Traits)
    (f : Vec3 → ℚ) (grid : Buf GridVertex) (isolevel : ℚ) (min : Vec3) (cubesize : ℚ)
    (sizeX sizeY sizeZ : Nat) (hS : Sampled f min cubesize sizeX sizeY sizeZ grid)
    (l : List (Nat × Nat × Nat))
    (hl : ∀ p ∈ l, p.1 + 1 < sizeX ∧ p.2.1 + 1 < sizeY ∧ p.2.2 + 1 < sizeZ)
    (gv : Buf (Vec3 × TerrainVertex)) (hgv : gv.size = sizeX * sizeY * sizeZ) :
    ∃ gv', l.foldlM (fun gv p =>
        SurfaceNets.cellStep normalize traits f grid isolevel min cubesize sizeX sizeY gv
          p.1 p.2.1 p.2.2) gv = some gv' ∧
      gv'.size = sizeX * sizeY * sizeZ ∧
      (∀ k, (∃ p ∈ l, edgeTable (cubeConfig f min cubesize isolevel p.1 p.2.1 p.2.2) ≠ 0 ∧
          p.1 + sizeX * (p.2.1 + sizeY * p.2.2) = k) →
        gv'.cells k = some (SurfaceNets.cellVertex normalize traits f min cubesize isolevel
          (k % sizeX) ((k / sizeX) % sizeY) ((k / sizeX) / sizeY))) ∧
      (∀ k, (¬ ∃ p ∈ l, edgeTable (cubeConfig f min cubesize isolevel p.1 p.2.1 p.2.2) ≠ 0 ∧
          p.1 + sizeX * (p.2.1 + sizeY * p.2.2) = k) →
        gv'.cells k = gv.cells k) := by
  induction l generalizing gv with
  | nil =>
    refine ⟨gv, rfl, hgv, ?_, ?_⟩
    · rintro k ⟨p, hp, _⟩
      exact absurd hp (List.not_mem_nil p)
    · intro k _
      rfl
  | cons p l ih =>
    obtain ⟨x, y, z⟩ := p
    obtain ⟨hx', hy', hz'⟩ := hl (x, y, z) (List.mem_cons_self _ _)
    have hx : x + 1 < sizeX := hx'
    have hy : y + 1 < sizeY := hy'
    have hz : z + 1 < sizeZ := hz'
    have hlt : x + sizeX * (y + sizeY * z) < gv.size := by
      rw [hgv]
      exact lattice_index_lt (by omega) (by omega) (by omega)
    have hstep := SurfaceNets.cellStep_eq normalize traits f grid isolevel min cubesize
      sizeX sizeY sizeZ hS gv x y z hx hy hz
    by_cases hact : edgeTable (cubeConfig f min cubesize isolevel x y z) ≠ 0
    · rw [if_pos hact] at hstep
      obtain ⟨gv', hfold, hsize, hwritten, hkept⟩ :=
        ih (fun q hq => hl q (List.mem_cons_of_mem _ hq))
          ⟨gv.size, fun j => if j = x + sizeX * (y + sizeY * z)
            then some (SurfaceNets.cellVertex normalize traits f min cubesize isolevel x y z)
            else gv.cells j⟩ hgv
      refine ⟨gv', ?_, hsize, ?_, ?_⟩
      · simp only [List.foldlM_cons, hstep, Buf.write, hlt, if_true, Option.bind_eq_bind,
          Option.some_bind]
        exact hfold
      · rintro k ⟨q, hq, hqa, hk⟩
        by_cases hex : ∃ q ∈ l, edgeTable (cubeConfig f min cubesize isolevel q.1 q.2.1 q.2.2) ≠ 0 ∧
            q.1 + sizeX * (q.2.1 + sizeY * q.2.2) = k
        · exact hwritten k hex
        · rw [hkept k hex]
          rcases List.mem_cons.mp hq with rfl | hq'
          · obtain ⟨d1, d2, d3⟩ := lattice_index_decode (z := z)
              (show x < sizeX by omega) (show y < sizeY by omega)
            simp only at hk
            subst hk
            simp only [if_true, d1, d2, d3]
          · exact absurd ⟨q, hq', hqa, hk⟩ hex
      · intro k hk
        have hex : ¬ ∃ q ∈ l, edgeTable (cubeConfig f min cubesize isolevel q.1 q.2.1 q.2.2) ≠ 0 ∧
            q.1 + sizeX * (q.2.1 + sizeY * q.2.2) = k :=
          fun ⟨q, hq, ha, e⟩ => hk ⟨q, List.mem_cons_of_mem _ hq, ha, e⟩
        rw [hkept k hex]
        have hne : k ≠ x + sizeX * (y + sizeY * z) :=
          fun e => hk ⟨(x, y, z), List.mem_cons_self _ _, hact, e.symm⟩
        simp only [hne, if_false]
    · rw [if_neg hact] at hstep
      obtain ⟨gv', hfold, hsize, hwritten, hkept⟩ :=
        ih (fun q hq => hl q (List.mem_cons_of_mem _ hq)) gv hgv
      refine ⟨gv', ?_, hsize, ?_, ?_⟩
      · simp only [List.foldlM_cons, hstep, Option.bind_eq_bind, Option.some_bind]
        exact hfold
      · rintro k ⟨q, hq, hqa, hk⟩
        rcases List.mem_cons.mp hq with rfl | hq'
        · exact absurd hqa hact
        · exact hwritten k ⟨q, hq', hqa, hk⟩
      · intro k hk
        exact hkept k fun ⟨q, hq, ha, e⟩ => hk ⟨q, List.mem_cons_of_mem _ hq, ha, e⟩

/-- The first pass succeeds; afterwards every cell of `gv` holds a value, and the
cell of a cube with nonzero edge mask holds the vertex computed for that cube. -/
theorem SurfaceNets.cellLoop_run (normalize : Vec3 → Vec3) (traits : SurfaceNets.Traits)
    (f : Vec3 → ℚ) (grid : Buf GridVertex) (isolevel : ℚ) (min : Vec3) (cubesize : ℚ)
    (sizeX sizeY sizeZ : Nat) (hS : Sampled f min cubesize sizeX sizeY sizeZ grid)
    (d : Vec3 × TerrainVertex) :
    ∃ gv, SurfaceNets.cellLoop normalize traits f grid isolevel min cubesize sizeX sizeY sizeZ
        (Buf.allocInit (sizeX * sizeY * sizeZ) d) = some gv ∧
      gv.size = sizeX * sizeY * sizeZ ∧
      (∀ k, ∃ v, gv.cells k = some v) ∧
      (∀ x y z, x + 1 < sizeX → y + 1 < sizeY → z + 1 < sizeZ →
        edgeTable (cubeConfig f min cubesize isolevel x y z) ≠ 0 →
        gv.cells (x + sizeX * (y + sizeY * z)) =
          some (SurfaceNets.cellVertex normalize traits f min cubesize isolevel x y z)) := by
  unfold SurfaceNets.cellLoop
  rw [nested_loops_eq_scan
    (SurfaceNets.cellStep normalize traits f grid isolevel min cubesize sizeX sizeY)]
  obtain ⟨gv, hfold, hsize, hwritten, hkept⟩ := SurfaceNets.cell_scan normalize traits f grid
    isolevel min cubesize sizeX sizeY sizeZ hS
    (scanOrder (List.range (sizeX - 1)) (List.range (sizeY - 1)) (List.range (sizeZ - 1)))
    (fun p hp => by
      rw [mem_scanOrder] at hp
      simp only [List.mem_range] at hp
      omega)
    (Buf.allocInit (sizeX * sizeY * sizeZ) d) rfl
  refine ⟨gv, hfold, hsize, ?_, ?_⟩
  · intro k
    by_cases hex : ∃ p ∈ scanOrder (List.range (sizeX - 1)) (List.range (sizeY - 1))
        (List.range (sizeZ - 1)),
        edgeTable (cubeConfig f min cubesize isolevel p.1 p.2.1 p.2.2) ≠ 0 ∧
        p.1 + sizeX * (p.2.1 + sizeY * p.2.2) = k
    · exact ⟨_, hwritten k hex⟩
    · exact ⟨d, by rw [hkept k hex]; rfl⟩
  · intro x y z hx hy hz hact
    have h := hwritten (x + sizeX * (y + sizeY * z)) ⟨(x, y, z), by
      rw [mem_scanOrder]
      simp only [List.mem_range]
      omega, hact, rfl⟩
    obtain ⟨d1, d2, d3⟩ := lattice_index_decode (z := z)
      (show x < sizeX by omega) (show y < sizeY by omega)
    rw [d1, d2, d3] at h
    exact h

theorem SurfaceNets.gv_read (gv : Buf (Vec3 × TerrainVertex)) (sizeX sizeY sizeZ : Nat)
    (hsize : gv.size = sizeX * sizeY * sizeZ) (hfull : ∀ k, ∃ v, gv.cells k = some v)
    (x y z : Nat) (hx : x < sizeX) (hy : y < sizeY) (hz : z < sizeZ) :
    gv.read (x + sizeX * (y + sizeY * z)) = some (SurfaceNets.gvEntry gv sizeX sizeY x y z) := by
  have hlt : x + sizeX * (y + sizeY * z) < gv.size := by
    rw [hsize]
    exact lattice_index_lt hx hy hz
  obtain ⟨v, hv⟩ := hfull (x + sizeX * (y + sizeY * z))
  simp only [Buf.read, hlt, if_true, SurfaceNets.gvEntry, hv, Option.getD_some]

theorem SurfaceNets.quadStep_eq (normalize : Vec3 → Vec3) (f : Vec3 → ℚ)
    (grid : Buf GridVertex) (gv : Buf (Vec3 × TerrainVertex)) (isolevel : ℚ) (min : Vec3)
    (cubesize : ℚ) (sizeX sizeY sizeZ : Nat)
    (hS : Sampled f min cubesize sizeX sizeY sizeZ grid)
    (hsize : gv.size = sizeX * sizeY * sizeZ) (hfull : ∀ k, ∃ v, gv.cells k = some v)
    (st : List TerrainVertex × List Nat) (x y z : Nat)
    (hx : x + 1 < sizeX) (hy : y + 1 < sizeY) (hz : z + 1 < sizeZ) :
    SurfaceNets.quadStep normalize grid gv isolevel sizeX sizeY st x y z =
      some (SurfaceNets.stitch normalize f min cubesize isolevel gv sizeX sizeY st x y z) := by
  have hr := fun a b c ha hb hc =>
    SurfaceNets.gv_read gv sizeX sizeY sizeZ hsize hfull a b c ha hb hc
  unfold SurfaceNets.quadStep SurfaceNets.stitch
  simp only [Nat.add_zero]
  rw [hS x y z (by omega) (by omega) (by omega),
    hS (x + 1) y z (by omega) (by omega) (by omega),
    hS x (y + 1) z (by omega) (by omega) (by omega),
    hS x y (z + 1) (by omega) (by omega) (by omega)]
  simp only [hr x y z (by omega) (by omega) (by omega),
    hr x (y - 1) z (by omega) (by omega) (by omega),
    hr x (y - 1) (z - 1) (by omega) (by omega) (by omega),
    hr x y (z - 1) (by omega) (by omega) (by omega),
    hr (x - 1) y z (by omega) (by omega) (by omega),
    hr (x - 1) y (z - 1) (by omega) (by omega) (by omega),
    hr (x - 1) (y - 1) z (by omega) (by omega) (by omega), below]
  split_ifs <;> rfl

theorem SurfaceNets.pushQuad_quadMesh (normalize : Vec3 → Vec3)
    (st : List TerrainVertex × List Nat) (v0 v1 v2 v3 : Vec3 × TerrainVertex) (flip : Bool)
    (h : SurfaceNets.QuadMesh st) :
    SurfaceNets.QuadMesh (SurfaceNets.pushQuad normalize st v0 v1 v2 v3 flip) := by
  obtain ⟨q, hv, hi, hlt⟩ := h
  rw [SurfaceNets.pushQuad_eq]
  refine ⟨q + 1, ?_, ?_, ?_⟩
  · simp only [List.length_append, List.length_cons, List.length_nil]
    omega
  · cases flip <;> simp only [List.length_append, List.length_cons, List.length_nil] <;>
      simp <;> omega
  · intro i hi'
    simp only [List.length_append, List.length_cons, List.length_nil]
    rcases List.mem_append.mp hi' with h1 | h1
    · have := hlt i h1
      omega
    · cases flip <;> simp at h1 <;> omega

theorem SurfaceNets.stitch_quadMesh (normalize : Vec3 → Vec3) (f : Vec3 → ℚ) (min : Vec3)
    (cubesize isolevel : ℚ) (gv : Buf (Vec3 × TerrainVertex)) (sizeX sizeY : Nat)
    (st : List TerrainVertex × List Nat) (x y z : Nat) (h : SurfaceNets.QuadMesh st) :
    SurfaceNets.QuadMesh
      (SurfaceNets.stitch normalize f min cubesize isolevel gv sizeX sizeY st x y z) := by
  unfold SurfaceNets.stitch
  simp only
  split_ifs <;>
    first
      | exact h
      | exact SurfaceNets.pushQuad_quadMesh _ _ _ _ _ _ _ h
      | exact SurfaceNets.pushQuad_quadMesh _ _ _ _ _ _ _
          (SurfaceNets.pushQuad_quadMesh _ _ _ _ _ _ _ h)
      | exact SurfaceNets.pushQuad_quadMesh _ _ _ _ _ _ _
          (SurfaceNets.pushQuad_quadMesh _ _ _ _ _ _ _
            (SurfaceNets.pushQuad_quadMesh _ _ _ _ _ _ _ h))

/-- The second pass succeeds on the output of the first, and builds a mesh of quads. -/
theorem SurfaceNets.quadLoop_run (normalize : Vec3 → Vec3) (f : Vec3 → ℚ)
    (grid : Buf GridVertex) (gv : Buf (Vec3 × TerrainVertex)) (isolevel : ℚ) (min : Vec3)
    (cubesize : ℚ) (sizeX sizeY sizeZ : Nat)
    (hS : Sampled f min cubesize sizeX sizeY sizeZ grid)
    (hsize : gv.size = sizeX * sizeY * sizeZ) (hfull : ∀ k, ∃ v, gv.cells k = some v)
    (st : List TerrainVertex × List Nat) (hst : SurfaceNets.QuadMesh st) :
    ∃ st', SurfaceNets.quadLoop normalize grid gv isolevel sizeX sizeY sizeZ st = some st' ∧
      SurfaceNets.QuadMesh st' := by
  unfold SurfaceNets.quadLoop
  rw [nested_loops_eq_scan (SurfaceNets.quadStep normalize grid gv isolevel sizeX sizeY)]
  exact foldlM_invariant SurfaceNets.QuadMesh
    (fun s (p : Nat × Nat × Nat) =>
      SurfaceNets.quadStep normalize grid gv isolevel sizeX sizeY s p.1 p.2.1 p.2.2)
    (scanOrder (List.range' 1 (sizeX - 1 - 1)) (List.range' 1 (sizeY - 1 - 1))
      (List.range' 1 (sizeZ - 1 - 1)))
    (fun p hp s hs => by
      rw [mem_scanOrder] at hp
      simp only [List.mem_range'_1] at hp
      exact ⟨_, SurfaceNets.quadStep_eq normalize f grid gv isolevel min cubesize
        sizeX sizeY sizeZ hS hsize hfull s p.1 p.2.1 p.2.2 (by omega) (by omega) (by omega),
        SurfaceNets.stitch_quadMesh normalize f min cubesize isolevel gv sizeX sizeY s _ _ _ hs⟩)
    st hst

/-- A call of `SurfaceNets::generateSDF` on a lattice with positive dimensions: both
passes run to completion. -/
theorem SurfaceNets.generateSDF_run (normalize : Vec3 → Vec3) (traits : SurfaceNets.Traits)
    (f : Vec3 → ℚ) (isolevel : ℚ) (min max : Vec3) (cubesize : ℚ)
    (hx : 0 < latticeSize min.x max.x cubesize) (hy : 0 < latticeSize min.y max.y cubesize)
    (hz : 0 < latticeSize min.z max.z cubesize) :
    ∃ grid tr gv vb ib,
      Sampled f min cubesize (latticeSize min.x max.x cubesize).toNat
        (latticeSize min.y max.y cubesize).toNat (latticeSize min.z max.z cubesize).toNat grid ∧
      SurfaceNets.cellLoop normalize traits f grid isolevel min cubesize
        (latticeSize min.x max.x cubesize).toNat (latticeSize min.y max.y cubesize).toNat
        (latticeSize min.z max.z cubesize).toNat
        (Buf.allocInit ((latticeSize min.x max.x cubesize).toNat *
          (latticeSize min.y max.y cubesize).toNat * (latticeSize min.z max.z cubesize).toNat)
          (Vec3.zero, { position := Vec3.zero, normal := Vec3.zero })) = some gv ∧
      gv.size = (latticeSize min.x max.x cubesize).toNat *
        (latticeSize min.y max.y cubesize).toNat * (latticeSize min.z max.z cubesize).toNat ∧
      (∀ k, ∃ v, gv.cells k = some v) ∧
      (∀ x y z, x + 1 < (latticeSize min.x max.x cubesize).toNat →
        y + 1 < (latticeSize min.y max.y cubesize).toNat →
        z + 1 < (latticeSize min.z max.z cubesize).toNat →
        edgeTable (cubeConfig f min cubesize isolevel x y z) ≠ 0 →
        gv.cells (x + (latticeSize min.x max.x cubesize).toNat *
            (y + (latticeSize min.y max.y cubesize).toNat * z)) =
          some (SurfaceNets.cellVertex normalize traits f min cubesize isolevel x y z)) ∧
      SurfaceNets.quadLoop normalize grid gv isolevel (latticeSize min.x max.x cubesize).toNat
        (latticeSize min.y max.y cubesize).toNat (latticeSize min.z max.z cubesize).toNat
        ([], []) = some (vb, ib) ∧
      SurfaceNets.QuadMesh (vb, ib) ∧
      SurfaceNets.generateSDF normalize traits f isolevel min max cubesize =
        ⟨tr, vb, ib,
          if ib = [] then Result.value none 0 else Result.value (some ⟨vb, ib⟩) ib.length⟩ := by
  unfold latticeSize at *
  have hn := toNat_mul3 _ _ _ hx hy hz
  obtain ⟨grid, tr, hsample, hS⟩ := sampleLattice_sampled f min cubesize
    ⌈(max.x - min.x) / cubesize⌉.toNat ⌈(max.y - min.y) / cubesize⌉.toNat
    ⌈(max.z - min.z) / cubesize⌉.toNat
    (Buf.alloc (⌈(max.x - min.x) / cubesize⌉ * ⌈(max.y - min.y) / cubesize⌉ *
      ⌈(max.z - min.z) / cubesize⌉).toNat)
    [Event.alloc (⌈(max.x - min.x) / cubesize⌉ * ⌈(max.y - min.y) / cubesize⌉ *
      ⌈(max.z - min.z) / cubesize⌉)]
    hn
  obtain ⟨gv, hcell, hsize, hfull, hact⟩ := SurfaceNets.cellLoop_run normalize traits f grid
    isolevel min cubesize _ _ _ hS (Vec3.zero, { position := Vec3.zero, normal := Vec3.zero })
  obtain ⟨st', hquad, hmesh⟩ := SurfaceNets.quadLoop_run normalize f grid gv isolevel min
    cubesize _ _ _ hS hsize hfull ([], []) ⟨0, rfl, rfl, fun i hi => absurd hi (List.not_mem_nil i)⟩
  obtain ⟨vb, ib⟩ := st'
  refine ⟨grid, tr ++ [Event.alloc (⌈(max.x - min.x) / cubesize⌉ *
    ⌈(max.y - min.y) / cubesize⌉ * ⌈(max.z - min.z) / cubesize⌉)], gv, vb, ib, hS, hcell,
    hsize, hfull, hact, hquad, hmesh, ?_⟩
  unfold SurfaceNets.generateSDF
  rw [hn] at hsample
  simp only [gt_iff_lt, hx, hy, hz, and_self, if_true, hn, hsample, hcell, hquad]
  split_ifs <;> rfl

theorem active_of_sides (f : Vec3 → ℚ) (min : Vec3) (cubesize isolevel : ℚ)
    (c p q : Nat × Nat × Nat) (hp : CubeHas c p) (hq : CubeHas c q)
    (hne : below f min cubesize isolevel p.1 p.2.1 p.2.2 ≠
      below f min cubesize isolevel q.1 q.2.1 q.2.2) :
    edgeTable (cubeConfig f min cubesize isolevel c.1 c.2.1 c.2.2) ≠ 0 := by
  intro h0
  obtain ⟨⟨p1, p2⟩, ⟨p3, p4⟩, p5, p6⟩ := hp
  obtain ⟨⟨q1, q2⟩, ⟨q3, q4⟩, q5, q6⟩ := hq
  have ep1 : c.1 + (p.1 - c.1) = p.1 := by omega
  have ep2 : c.2.1 + (p.2.1 - c.2.1) = p.2.1 := by omega
  have ep3 : c.2.2 + (p.2.2 - c.2.2) = p.2.2 := by omega
  have eq1 : c.1 + (q.1 - c.1) = q.1 := by omega
  have eq2 : c.2.1 + (q.2.1 - c.2.1) = q.2.1 := by omega
  have eq3 : c.2.2 + (q.2.2 - c.2.2) = q.2.2 := by omega
  have e : ∀ a b d : Nat, below f min cubesize isolevel a b d =
      decide (f (latticePoint min cubesize a b d) < isolevel) := fun _ _ _ => rfl
  rw [e, e] at hne
  rcases uniform_of_config f min cubesize isolevel c.1 c.2.1 c.2.2 h0 with h | h
  · have a := h (p.1 - c.1) (p.2.1 - c.2.1) (p.2.2 - c.2.2) (by omega) (by omega) (by omega)
    have b := h (q.1 - c.1) (q.2.1 - c.2.1) (q.2.2 - c.2.2) (by omega) (by omega) (by omega)
    rw [ep1, ep2, ep3] at a
    rw [eq1, eq2, eq3] at b
    simp [a, b] at hne
  · have a := h (p.1 - c.1) (p.2.1 - c.2.1) (p.2.2 - c.2.2) (by omega) (by omega) (by omega)
    have b := h (q.1 - c.1) (q.2.1 - c.2.1) (q.2.2 - c.2.2) (by omega) (by omega) (by omega)
    rw [ep1, ep2, ep3] at a
    rw [eq1, eq2, eq3] at b
    simp [a, b] at hne

theorem SurfaceNets.computed_of_sides (normalize : Vec3 → Vec3) (traits : SurfaceNets.Traits)
    (f : Vec3 → ℚ) (min : Vec3) (cubesize isolevel : ℚ) (sizeX sizeY sizeZ : Nat)
    (gv : Buf (Vec3 × TerrainVertex)) (hsize : gv.size = sizeX * sizeY * sizeZ)
    (hact : ∀ x y z, x + 1 < sizeX → y + 1 < sizeY → z + 1 < sizeZ →
      edgeTable (cubeConfig f min cubesize isolevel x y z) ≠ 0 →
      gv.cells (x + sizeX * (y + sizeY * z)) =
        some (SurfaceNets.cellVertex normalize traits f min cubesize isolevel x y z))
    (c p q : Nat × Nat × Nat)
    (hc : c.1 + 1 < sizeX ∧ c.2.1 + 1 < sizeY ∧ c.2.2 + 1 < sizeZ)
    (hp : CubeHas c p) (hq : CubeHas c q)
    (hne : below f min cubesize isolevel p.1 p.2.1 p.2.2 ≠
      below f min cubesize isolevel q.1 q.2.1 q.2.2) :
    CubeHas c p ∧ CubeHas c q ∧
      SurfaceNets.Computed normalize traits f min cubesize isolevel sizeX sizeY sizeZ gv c := by
  have ha := active_of_sides f min cubesize isolevel c p q hp hq hne
  have hcell := hact c.1 c.2.1 c.2.2 hc.1 hc.2.1 hc.2.2 ha
  have hlt : c.1 + sizeX * (c.2.1 + sizeY * c.2.2) < gv.size := by
    rw [hsize]
    exact lattice_index_lt (by omega) (by omega) (by omega)
  refine ⟨hp, hq, hc, ha, ?_, ?_⟩
  · simp only [Buf.read, hlt, if_true, hcell]
  · simp only [SurfaceNets.gvEntry, hcell, Option.getD_some]

theorem latticeSize_three : latticeSize 0 3 1 = 3 := by
  norm_num [latticeSize]

theorem planeField_sides :
    below planeField ⟨0, 0, 0⟩ 1 3 1 1 1 ≠ below planeField ⟨0, 0, 0⟩ 1 3 (1 + 1) 1 1 := by
  have e : ∀ a b d : Nat, below planeField ⟨0, 0, 0⟩ 1 3 a b d =
      decide (planeField (latticePoint ⟨0, 0, 0⟩ 1 a b d) < 3) := fun _ _ _ => rfl
  rw [e, e]
  norm_num [planeField, latticePoint, Vec3.add, Vec3.smul, Vec3.ofNat]

/-! ### The fields of `World` and the blend functions -/

theorem clamp_between (a lo hi : ℚ) (h : lo ≤ hi) :
    lo ≤ min (max a lo) hi ∧ min (max a lo) hi ≤ hi :=
  ⟨le_min (le_max_right a lo) h, min_le_right _ _⟩

theorem clamp_inside (a lo hi : ℚ) (h1 : lo ≤ a) (h2 : a ≤ hi) : min (max a lo) hi = a := by
  rw [max_eq_left h1, min_eq_left h2]

theorem smoothstep_unit (edge0 edge1 x : ℚ) :
    0 ≤ smoothstep edge0 edge1 x ∧ smoothstep edge0 edge1 x ≤ 1 := by
  unfold smoothstep
  obtain ⟨h0, h1⟩ := clamp_between ((x - edge0) / (edge1 - edge0)) 0 1 zero_le_one
  generalize min (max ((x - edge0) / (edge1 - edge0)) 0) 1 = t at h0 h1
  simp only
  constructor
  · have : 0 ≤ 3 - 2 * t := by linarith
    positivity
  · nlinarith [mul_nonneg h0 h0, mul_nonneg (sub_nonneg.mpr h1) (sub_nonneg.mpr h1),
      mul_nonneg h0 (mul_nonneg (sub_nonneg.mpr h1) (sub_nonneg.mpr h1))]

theorem mix_unit (a b t : ℚ) (ha : 0 ≤ a ∧ a ≤ 1) (hb : 0 ≤ b ∧ b ≤ 1) (ht : 0 ≤ t ∧ t ≤ 1) :
    0 ≤ a + t * (b - a) ∧ a + t * (b - a) ≤ 1 := by
  obtain ⟨a0, a1⟩ := ha
  obtain ⟨b0, b1⟩ := hb
  obtain ⟨t0, t1⟩ := ht
  constructor
  · nlinarith [mul_nonneg t0 b0, mul_nonneg (sub_nonneg.mpr t1) a0]
  · nlinarith [mul_nonneg t0 (sub_nonneg.mpr b1), mul_nonneg (sub_nonneg.mpr t1) (sub_nonneg.mpr a1)]

theorem AdjustableLerpKRandom_unit (randMax r0 r1 r2 : Nat) (corner smoothpt centerpt : Vec3) :
    InUnit (AdjustableLerpKRandom randMax r0 r1 r2 corner smoothpt centerpt) := by
  unfold AdjustableLerpKRandom InUnit Vec3.clamp Vec3.splat
  exact ⟨clamp_between _ 0 1 zero_le_one, clamp_between _ 0 1 zero_le_one,
    clamp_between _ 0 1 zero_le_one⟩

/-! ### `DualContouringTraits::average` -/

theorem accumulate_fold (points : List (Vec3 × Vec3)) (q : SurfaceNets.QEF) :
    points.foldl SurfaceNets.DualContouringTraits.accumulate q =
      SurfaceNets.QEF.add q (qefSums points) := by
  induction points generalizing q with
  | nil =>
    simp [SurfaceNets.QEF.add, qefSums]
  | cons pn ps ih =>
    rw [List.foldl_cons, ih]
    simp only [SurfaceNets.QEF.add, qefSums, SurfaceNets.DualContouringTraits.accumulate,
      List.map_cons, List.sum_cons, Vec3.dot, SurfaceNets.QEF.mk.injEq, Vec3.mk.injEq]
    refine ⟨?_, ?_, ?_, ?_, ?_, ?_, ⟨?_, ?_, ?_⟩, ?_, ?_, ?_, ?_⟩ <;> ring

theorem accumulate_zero (points : List (Vec3 × Vec3)) :
    points.foldl SurfaceNets.DualContouringTraits.accumulate SurfaceNets.QEF.zero =
      qefSums points := by
  rw [accumulate_fold]
  simp [SurfaceNets.QEF.add, SurfaceNets.QEF.zero, Vec3.zero]

theorem qefSums_append (as bs : List (Vec3 × Vec3)) :
    qefSums (as ++ bs) = SurfaceNets.QEF.add (qefSums as) (qefSums bs) := by
  simp [qefSums, SurfaceNets.QEF.add, List.map_append, List.sum_append]

theorem qefSums_planeError (points : List (Vec3 × Vec3)) (x : Vec3) :
    QEF.quadratic (qefSums points) x - 2 * Vec3.dot x (qefSums points).atb +
      (qefSums points).btb = planeError points x := by
  induction points with
  | nil => simp [qefSums, QEF.quadratic, planeError, Vec3.dot]
  | cons pn ps ih =>
    have e : planeError (pn :: ps) x =
        (Vec3.dot pn.2 (x.sub pn.1)) ^ 2 + planeError ps x := by
      simp [planeError]
    rw [e, ← ih]
    simp only [qefSums, QEF.quadratic, Vec3.dot, Vec3.sub, List.map_cons, List.sum_cons]
    ring

theorem clamp_nearest (a e q : ℚ) (he : 0 ≤ e) (hq : -e ≤ q ∧ q ≤ e) :
    (a - min (max a (-e)) e) ^ 2 = (max (|a| - e) 0) ^ 2 ∧
      (max (|a| - e) 0) ^ 2 ≤ (a - q) ^ 2 := by
  obtain ⟨q0, q1⟩ := hq
  rcases le_total a (-e) with h1 | h1
  · have ha : |a| = -a := abs_of_nonpos (by linarith)
    rw [max_eq_right h1, min_eq_left (by linarith), ha, max_eq_left (by linarith)]
    exact ⟨by ring, by nlinarith⟩
  · rcases le_total a e with h2 | h2
    · have ha : |a| ≤ e := abs_le.mpr ⟨h1, h2⟩
      rw [max_eq_left h1, min_eq_left h2, max_eq_right (by linarith)]
      exact ⟨by ring, by nlinarith [sq_nonneg (a - q)]⟩
    · have ha : |a| = a := abs_of_nonneg (by linarith)
      rw [max_eq_left h1, min_eq_right h2, ha, max_eq_left (by linarith)]
      exact ⟨rfl, by nlinarith⟩

/-! ### `DualContouringTraits::intersect` -/

theorem SurfaceNets.DualContouringTraits.intersect_eq (normalize : Vec3 → Vec3)
    (g0 g1 : GridVertex) (f : Vec3 → ℚ) (isolevel : ℚ) (corner v0 v1 : Vec3) :
    SurfaceNets.DualContouringTraits.intersect normalize g0 g1 f isolevel corner v0 v1 =
      SurfaceNets.DualContouringTraits.intersectOrdered normalize
        (SurfaceNets.DualContouringTraits.ordered g0 g1 v0 v1).1
        (SurfaceNets.DualContouringTraits.ordered g0 g1 v0 v1).2.1 f isolevel corner
        (SurfaceNets.DualContouringTraits.ordered g0 g1 v0 v1).2.2.1
        (SurfaceNets.DualContouringTraits.ordered g0 g1 v0 v1).2.2.2 := by
  rw [SurfaceNets.DualContouringTraits.intersect]
  unfold SurfaceNets.DualContouringTraits.ordered
  by_cases h : g0.iso > g1.iso
  · rw [if_pos h, if_pos h, SurfaceNets.DualContouringTraits.intersect,
      if_neg (not_lt.mpr (le_of_lt h))]
  · rw [if_neg h, if_neg h]

theorem SurfaceNets.DualContouringTraits.ordered_iso (g0 g1 : GridVertex) (v0 v1 : Vec3)
    (isolevel : ℚ) (h : min g0.iso g1.iso < isolevel ∧ isolevel ≤ max g0.iso g1.iso) :
    (SurfaceNets.DualContouringTraits.ordered g0 g1 v0 v1).1.iso < isolevel ∧
      isolevel ≤ (SurfaceNets.DualContouringTraits.ordered g0 g1 v0 v1).2.1.iso := by
  unfold SurfaceNets.DualContouringTraits.ordered
  by_cases hgt : g0.iso > g1.iso
  · rw [if_pos hgt]
    rw [min_eq_right (le_of_lt hgt), max_eq_left (le_of_lt hgt)] at h
    exact h
  · rw [if_neg hgt]
    rw [min_eq_left (not_lt.mp hgt), max_eq_right (not_lt.mp hgt)] at h
    exact h

theorem SurfaceNets.DualContouringTraits.bracketAfter_succ (f : Vec3 → ℚ) (isolevel : ℚ)
    (corner v0 v1 : Vec3) (g0 g1 : GridVertex) (n : Nat) :
    SurfaceNets.DualContouringTraits.bracketAfter f isolevel corner v0 v1 g0 g1 (n + 1) =
      (SurfaceNets.DualContouringTraits.bracketAfter f isolevel corner v0 v1 g0 g1 n).bind
        (SurfaceNets.DualContouringTraits.bracketStep f isolevel corner v0 v1) := by
  unfold SurfaceNets.DualContouringTraits.bracketAfter
  rw [List.range_succ, List.foldlM_append]
  simp only [Option.bind_eq_bind, List.foldlM_cons, List.foldlM_nil, Option.pure_def,
    Option.bind_some]

theorem SurfaceNets.DualContouringTraits.bracketStep_valid (f : Vec3 → ℚ) (isolevel : ℚ)
    (corner v0 v1 : Vec3) (b : SurfaceNets.Bracket) (hb : b.Valid isolevel) :
    0 < b.maxiso - b.miniso ∧
    (b.mint ≤ SurfaceNets.DualContouringTraits.probe isolevel b ∧
      SurfaceNets.DualContouringTraits.probe isolevel b ≤ b.maxt) ∧
    SurfaceNets.DualContouringTraits.bracketStep f isolevel corner v0 v1 b =
      some (b.moved isolevel (SurfaceNets.DualContouringTraits.probe isolevel b)
        (f ((Vec3.mix v0 v1 (SurfaceNets.DualContouringTraits.probe isolevel b)).add corner))) ∧
    (b.moved isolevel (SurfaceNets.DualContouringTraits.probe isolevel b)
      (f ((Vec3.mix v0 v1 (SurfaceNets.DualContouringTraits.probe isolevel b)).add
        corner))).Valid isolevel ∧
    (b.moved isolevel (SurfaceNets.DualContouringTraits.probe isolevel b)
        (f ((Vec3.mix v0 v1 (SurfaceNets.DualContouringTraits.probe isolevel b)).add
          corner))).maxt -
      (b.moved isolevel (SurfaceNets.DualContouringTraits.probe isolevel b)
        (f ((Vec3.mix v0 v1 (SurfaceNets.DualContouringTraits.probe isolevel b)).add
          corner))).mint ≤ b.maxt - b.mint := by
  obtain ⟨⟨h0, h1, h2⟩, h3, h4⟩ := hb
  have hden : 0 < b.maxiso - b.miniso := by linarith
  have hr0 : 0 ≤ (isolevel - b.miniso) / (b.maxiso - b.miniso) :=
    div_nonneg (by linarith) hden.le
  have hr1 : (isolevel - b.miniso) / (b.maxiso - b.miniso) ≤ 1 :=
    (div_le_one hden).mpr (by linarith)
  have hw : 0 ≤ b.maxt - b.mint := by linarith
  have hp0 : b.mint ≤ SurfaceNets.DualContouringTraits.probe isolevel b := by
    unfold SurfaceNets.DualContouringTraits.probe
    nlinarith [mul_nonneg hr0 hw]
  have hp1 : SurfaceNets.DualContouringTraits.probe isolevel b ≤ b.maxt := by
    unfold SurfaceNets.DualContouringTraits.probe
    nlinarith [mul_nonneg (sub_nonneg.mpr hr1) hw]
  refine ⟨hden, ⟨hp0, hp1⟩, ?_, ?_, ?_⟩
  · unfold SurfaceNets.DualContouringTraits.bracketStep SurfaceNets.Bracket.moved
    rw [if_neg (ne_of_gt hden)]
    simp only [evaluateSDF]
    split_ifs <;> rfl
  · unfold SurfaceNets.Bracket.moved
    split_ifs with hlt
    · exact ⟨⟨by linarith, hp1, h2⟩, hlt, h4⟩
    · exact ⟨⟨h0, hp0, by linarith⟩, h3, not_lt.mp hlt⟩
  · unfold SurfaceNets.Bracket.moved
    split_ifs with hlt
    · simp only
      linarith
    · simp only
      linarith

theorem SurfaceNets.DualContouringTraits.bracketAfter_valid (f : Vec3 → ℚ) (isolevel : ℚ)
    (corner v0 v1 : Vec3) (g0 g1 : GridVertex) (h : g0.iso < isolevel ∧ isolevel ≤ g1.iso)
    (n : Nat) :
    ∃ b, SurfaceNets.DualContouringTraits.bracketAfter f isolevel corner v0 v1 g0 g1 n =
        some b ∧ b.Valid isolevel := by
  induction n with
  | zero =>
    exact ⟨_, rfl, ⟨le_refl 0, zero_le_one, le_refl 1⟩, h.1, h.2⟩
  | succ n ih =>
    obtain ⟨b, hb, hv⟩ := ih
    obtain ⟨-, -, hstep, hv', -⟩ :=
      SurfaceNets.DualContouringTraits.bracketStep_valid f isolevel corner v0 v1 b hv
    exact ⟨_, by rw [SurfaceNets.DualContouringTraits.bracketAfter_succ, hb,
      Option.some_bind, hstep], hv'⟩

theorem SurfaceNets.DualContouringTraits.intersectOrdered_eq (normalize : Vec3 → Vec3)
    (g0 g1 : GridVertex) (f : Vec3 → ℚ) (isolevel : ℚ) (corner v0 v1 : Vec3)
    (b : SurfaceNets.Bracket)
    (hb : SurfaceNets.DualContouringTraits.bracketAfter f isolevel corner v0 v1 g0 g1 10 =
      some b) :
    SurfaceNets.DualContouringTraits.intersectOrdered normalize g0 g1 f isolevel corner v0 v1 =
      some (Vec3.mix v0 v1 ((b.mint + b.maxt) / 2),
        normalize (evaluateSDF f
          ((Vec3.mix v0 v1 ((b.mint + b.maxt) / 2)).add corner)).gradient) := by
  unfold SurfaceNets.DualContouringTraits.bracketAfter at hb
  unfold SurfaceNets.DualContouringTraits.intersectOrdered
  rw [hb]
  rfl

theorem mix_swap (v0 v1 : Vec3) (t : ℚ) : Vec3.mix v1 v0 t = Vec3.mix v0 v1 (1 - t) := by
  simp only [Vec3.mix, Vec3.mk.injEq]
  refine ⟨?_, ?_, ?_⟩ <;> ring

theorem planeField_bracket_stuck (l : List Nat) :
    l.foldlM (fun b _ => SurfaceNets.DualContouringTraits.bracketStep planeField (-1 / 4)
        Vec3.zero ⟨0, 0, 0⟩ ⟨1, 0, 0⟩ b)
      ({ mint := 0, miniso := -1 / 2, maxt := 1 / 4, maxiso := -1 / 4 } : SurfaceNets.Bracket) =
    some { mint := 0, miniso := -1 / 2, maxt := 1 / 4, maxiso := -1 / 4 } := by
  induction l with
  | nil => rfl
  | cons a l ih =>
    have hstep : SurfaceNets.DualContouringTraits.bracketStep planeField (-1 / 4)
        Vec3.zero ⟨0, 0, 0⟩ ⟨1, 0, 0⟩
        ({ mint := 0, miniso := -1 / 2, maxt := 1 / 4, maxiso := -1 / 4 } :
          SurfaceNets.Bracket) =
        some { mint := 0, miniso := -1 / 2, maxt := 1 / 4, maxiso := -1 / 4 } := by
      norm_num [SurfaceNets.DualContouringTraits.bracketStep,
        SurfaceNets.DualContouringTraits.probe, evaluateSDF, planeField, Vec3.mix, Vec3.add,
        Vec3.zero]
    rw [List.foldlM_cons, hstep]
    exact ih

theorem planeField_bracket (n : Nat) :
    SurfaceNets.DualContouringTraits.bracketAfter planeField (-1 / 4) Vec3.zero
        ⟨0, 0, 0⟩ ⟨1, 0, 0⟩ (evaluateSDF planeField ⟨0, 0, 0⟩) (evaluateSDF planeField ⟨1, 0, 0⟩)
        (n + 1) =
      some { mint := 0, miniso := -1 / 2, maxt := 1 / 4, maxiso := -1 / 4 } := by
  unfold SurfaceNets.DualContouringTraits.bracketAfter
  have hstep : SurfaceNets.DualContouringTraits.bracketStep planeField (-1 / 4)
      Vec3.zero ⟨0, 0, 0⟩ ⟨1, 0, 0⟩
      (⟨0, (evaluateSDF planeField ⟨0, 0, 0⟩).iso, 1, (evaluateSDF planeField ⟨1, 0, 0⟩).iso⟩ :
        SurfaceNets.Bracket) =
      some { mint := 0, miniso := -1 / 2, maxt := 1 / 4, maxiso := -1 / 4 } := by
    norm_num [SurfaceNets.DualContouringTraits.bracketStep,
      SurfaceNets.DualContouringTraits.probe, evaluateSDF, planeField, Vec3.mix, Vec3.add,
      Vec3.zero]
  rw [List.range_succ_eq_map, List.foldlM_cons, hstep]
  exact planeField_bracket_stuck _

/-! ### The lattice index map -/

theorem flatMap_blocks (m c : Nat) (n : Nat) :
    (List.range n).flatMap (fun i => List.range' (m * (i + c)) m) =
      List.range' (m * c) (m * n) := by
  induction n with
  | zero => simp
  | succ n ih =>
    rw [List.range_succ, List.flatMap_append, ih]
    simp only [List.flatMap_cons, List.flatMap_nil, List.append_nil]
    have e1 : m * (n + c) = m * c + m * n := by ring
    have e2 : m * (n + 1) = m + m * n := by ring
    rw [e1, e2, List.range'_append_1]

theorem scan_indices (sizeX sizeY sizeZ : Nat) :
    (scanOrder (List.range sizeX) (List.range sizeY) (List.range sizeZ)).map
        (fun p => p.1 + sizeX * (p.2.1 + sizeY * p.2.2)) =
      List.range (sizeX * sizeY * sizeZ) := by
  unfold scanOrder
  simp only [List.map_flatMap, List.map_map]
  have hrow : ∀ y z, List.map ((fun p : Nat × Nat × Nat => p.1 + sizeX * (p.2.1 + sizeY * p.2.2)) ∘
      fun x => (x, y, z)) (List.range sizeX) = List.range' (sizeX * (y + sizeY * z)) sizeX := by
    intro y z
    rw [List.range'_eq_map_range]
    apply List.map_congr_left
    intro x _
    simp only [Function.comp_apply]
    ring
  simp only [hrow]
  have hplane : ∀ z, (List.range sizeY).flatMap
      (fun y => List.range' (sizeX * (y + sizeY * z)) sizeX) =
      List.range' (sizeX * sizeY * (z + 0)) (sizeX * sizeY) := by
    intro z
    rw [flatMap_blocks sizeX (sizeY * z) sizeY]
    congr 1
    ring
  simp only [hplane]
  rw [flatMap_blocks (sizeX * sizeY) 0 sizeZ, List.range_eq_range']
  simp

theorem lattice_index_encode (sizeX sizeY sizeZ k : Nat) (hk : k < sizeX * sizeY * sizeZ) :
    k % sizeX < sizeX ∧ (k / sizeX) % sizeY < sizeY ∧ (k / sizeX) / sizeY < sizeZ ∧
      k % sizeX + sizeX * ((k / sizeX) % sizeY + sizeY * ((k / sizeX) / sizeY)) = k := by
  have hx : 0 < sizeX := by
    rcases Nat.eq_zero_or_pos sizeX with h | h
    · rw [h] at hk
      simp at hk
    · exact h
  have hy : 0 < sizeY := by
    rcases Nat.eq_zero_or_pos sizeY with h | h
    · rw [h] at hk
      simp at hk
    · exact h
  refine ⟨Nat.mod_lt _ hx, Nat.mod_lt _ hy, ?_, ?_⟩
  · rw [Nat.div_div_eq_div_mul]
    exact Nat.div_lt_of_lt_mul hk
  · rw [Nat.mod_add_div, Nat.mod_add_div]

theorem read_some_lt {α : Type} (b : Buf α) (i : Nat) (v : α) (h : b.read i = some v) :
    i < b.size := by
  unfold Buf.read at h
  by_contra hn
  rw [if_neg hn] at h
  exact Option.noConfusion h

theorem SurfaceNets.edgePairs_length (traits : SurfaceNets.Traits) (f : Vec3 → ℚ) (min : Vec3)
    (cubesize isolevel : ℚ) (x y z : Nat)
    (hact : edgeTable (cubeConfig f min cubesize isolevel x y z) ≠ 0) :
    (SurfaceNets.edgePairs traits f min cubesize isolevel x y z).length =
        popcount (edgeTable (cubeConfig f min cubesize isolevel x y z)) ∧
      3 ≤ (SurfaceNets.edgePairs traits f min cubesize isolevel x y z).length ∧
      (SurfaceNets.edgePairs traits f min cubesize isolevel x y z).length ≤ 12 := by
  have hc : cubeConfig f min cubesize isolevel x y z < 256 :=
    MarchingCubes.cubeindex_lt _ _ _ _ _ _ _ _ _
  have hrow := table_row _ hc
  have hlen : (SurfaceNets.edgePairs traits f min cubesize isolevel x y z).length =
      popcount (edgeTable (cubeConfig f min cubesize isolevel x y z)) := by
    unfold SurfaceNets.edgePairs
    rw [List.length_map]
    exact popcount_eq_flagged _ (table_facts _ hc).2.2.2.2
  have hp := (tableRows_popcount _ hrow).2 hact
  rw [hlen]
  exact ⟨rfl, hp.1, hp.2⟩

/-! ### Where the vertices of Marching Cubes lie -/

theorem cubeindex_testBit (v000 v100 v110 v010 v001 v101 v111 v011 : GridVertex)
    (isolevel : ℚ) (k : Nat) (hk : k < 8) :
    (MarchingCubes.cubeindex v000 v100 v110 v010 v001 v101 v111 v011 isolevel).testBit k =
      decide ((cornerSample (cornerGrid v000 v100 v110 v010 v001 v101 v111 v011) k).iso <
        isolevel) := by
  have hb := (bitsToNat_spec (decide (v000.iso < isolevel)) (decide (v100.iso < isolevel))
    (decide (v110.iso < isolevel)) (decide (v010.iso < isolevel))
    (decide (v001.iso < isolevel)) (decide (v101.iso < isolevel))
    (decide (v111.iso < isolevel)) (decide (v011.iso < isolevel))).2 ⟨k, hk⟩
  rw [MarchingCubes.cubeindex_eq]
  simp only at hb
  rw [hb]
  interval_cases k <;> simp [cornerSample, cornerGrid, vertIndex, MC_VERTINDEX]

theorem edgeIndex_lt (i k : Nat) : edgeIndex i k < 8 := by
  rcases Nat.lt_or_ge i 12 with h | h
  · interval_cases i <;> rcases k with _ | _ | k <;> simp [edgeIndex, MC_EDGEINDEX]
  · have hlen : MC_EDGEINDEX.length ≤ i := h
    simp [edgeIndex, List.getElem?_eq_none hlen]

theorem mem_flaggedEdges (edgemask i : Nat) :
    i ∈ flaggedEdges edgemask ↔ i < 12 ∧ edgemask.testBit i = true := by
  simp [flaggedEdges]

theorem flagged_ends_differ (v000 v100 v110 v010 v001 v101 v111 v011 : GridVertex)
    (isolevel : ℚ) (i : Nat)
    (hi : i ∈ flaggedEdges
      (edgeTable (MarchingCubes.cubeindex v000 v100 v110 v010 v001 v101 v111 v011 isolevel))) :
    decide ((cornerSample (cornerGrid v000 v100 v110 v010 v001 v101 v111 v011)
        (edgeIndex i 0)).iso < isolevel) ≠
      decide ((cornerSample (cornerGrid v000 v100 v110 v010 v001 v101 v111 v011)
        (edgeIndex i 1)).iso < isolevel) := by
  obtain ⟨h12, hbit⟩ := (mem_flaggedEdges _ _).mp hi
  have hc := MarchingCubes.cubeindex_lt v000 v100 v110 v010 v001 v101 v111 v011 isolevel
  have h := (tableRows_edge_bits _ (table_row _ hc) ⟨i, h12⟩).mp hbit
  simp only at h
  rw [cubeindex_testBit _ _ _ _ _ _ _ _ _ _ (edgeIndex_lt i 0),
    cubeindex_testBit _ _ _ _ _ _ _ _ _ _ (edgeIndex_lt i 1)] at h
  exact h

theorem interpolationParameter_unit (iso0 iso1 isolevel : ℚ)
    (h : decide (iso0 < isolevel) ≠ decide (iso1 < isolevel)) :
    0 ≤ interpolationParameter iso0 iso1 isolevel ∧
      interpolationParameter iso0 iso1 isolevel ≤ 1 := by
  unfold interpolationParameter
  split_ifs with hg
  · by_cases h0 : iso0 < isolevel
    · have h1 : ¬ iso1 < isolevel := fun h1 => h (by simp [h0, h1])
      have hd : 0 < iso1 - iso0 := by linarith [not_lt.mp h1]
      exact ⟨div_nonneg (by linarith) hd.le, (div_le_one hd).mpr (by linarith [not_lt.mp h1])⟩
    · have h1 : iso1 < isolevel := by
        by_contra h1
        exact h (by simp [h0, h1])
      have hd : 0 < iso0 - iso1 := by linarith [not_lt.mp h0]
      have e : (isolevel - iso0) / (iso1 - iso0) = (iso0 - isolevel) / (iso0 - iso1) := by
        rw [← neg_sub iso0 isolevel, ← neg_sub iso0 iso1, neg_div_neg_eq]
      rw [e]
      exact ⟨div_nonneg (by linarith [not_lt.mp h0]) hd.le, (div_le_one hd).mpr (by linarith)⟩
  · exact ⟨le_refl 0, zero_le_one⟩

theorem edgeVertex_position (normalize : Vec3 → Vec3) (grid : Nat → Nat → Nat → GridVertex)
    (isolevel : ℚ) (offset : Vec3) (scale : ℚ) (i : Nat) :
    (edgeVertex normalize grid isolevel offset scale i).position =
      offset.add ((Vec3.mix (cornerPoint (edgeIndex i 0)) (cornerPoint (edgeIndex i 1))
        (interpolationParameter (cornerSample grid (edgeIndex i 0)).iso
          (cornerSample grid (edgeIndex i 1)).iso isolevel)).smul scale) := by
  simp only [edgeVertex, interpolationParameter, cornerSample, cornerPoint, Vec3.mix, Vec3.add,
    Vec3.smul, Vec3.ofNat, Vec3.mk.injEq]
  push_cast
  refine ⟨?_, ?_, ?_⟩ <;> ring

theorem cornerPoint_unit (v : Nat) : InUnit (cornerPoint v) := by
  have h0 := vertIndex_le_one v 0
  have h1 := vertIndex_le_one v 1
  have h2 := vertIndex_le_one v 2
  unfold cornerPoint Vec3.ofNat InUnit
  simp only
  refine ⟨⟨?_, ?_⟩, ⟨?_, ?_⟩, ?_, ?_⟩
  · positivity
  · exact_mod_cast h0
  · positivity
  · exact_mod_cast h1
  · positivity
  · exact_mod_cast h2

theorem mix_in_box (offset : Vec3) (scale : ℚ) (hs : 0 ≤ scale) (a b : Vec3) (t : ℚ)
    (ha : InUnit a) (hb : InUnit b) (ht : 0 ≤ t ∧ t ≤ 1) :
    InBox offset scale (offset.add ((Vec3.mix a b t).smul scale)) := by
  obtain ⟨x0, x1⟩ := mix_unit a.x b.x t ha.1 hb.1 ht
  obtain ⟨y0, y1⟩ := mix_unit a.y b.y t ha.2.1 hb.2.1 ht
  obtain ⟨z0, z1⟩ := mix_unit a.z b.z t ha.2.2 hb.2.2 ht
  simp only [InBox, Vec3.add, Vec3.smul, Vec3.mix]
  refine ⟨⟨?_, ?_⟩, ⟨?_, ?_⟩, ?_, ?_⟩
  · nlinarith [mul_nonneg x0 hs]
  · nlinarith [mul_nonneg (sub_nonneg.mpr x1) hs]
  · nlinarith [mul_nonneg y0 hs]
  · nlinarith [mul_nonneg (sub_nonneg.mpr y1) hs]
  · nlinarith [mul_nonneg z0 hs]
  · nlinarith [mul_nonneg (sub_nonneg.mpr z1) hs]

theorem generate_leaf_in_box (normalize : Vec3 → Vec3) (st : List TerrainVertex × List Nat)
    (v000 v100 v110 v010 v001 v101 v111 v011 : GridVertex)
    (isolevel : ℚ) (offset : Vec3) (scale : ℚ) (hs : 0 ≤ scale) :
    ∃ vs is, CubeGenerator0.generate normalize st.1 st.2 v000 v100 v110 v010 v001 v101 v111 v011
        isolevel offset scale = some (st.1 ++ vs, st.2 ++ is) ∧
      ∀ v ∈ vs, InBox offset scale v.position := by
  refine ⟨_, _, generate_eq normalize st.1 st.2 v000 v100 v110 v010 v001 v101 v111 v011
    isolevel offset scale, ?_⟩
  intro v hv
  obtain ⟨i, hi, rfl⟩ := List.mem_map.mp hv
  rw [edgeVertex_position]
  exact mix_in_box offset scale hs _ _ _ (cornerPoint_unit _) (cornerPoint_unit _)
    (interpolationParameter_unit _ _ _
      (flagged_ends_differ v000 v100 v110 v010 v001 v101 v111 v011 isolevel i hi))

theorem generate_in_box_aux (normalize : Vec3 → Vec3) (d : Nat) :
    ∀ (st : List TerrainVertex × List Nat)
      (v000 v100 v110 v010 v001 v101 v111 v011 : GridVertex)
      (isolevel : ℚ) (offset : Vec3) (scale : ℚ), 0 ≤ scale →
      ∃ vs is,
        CubeGenerator.generateWith
          (fun st v000 v100 v110 v010 v001 v101 v111 v011 isolevel offset scale =>
            CubeGenerator0.generate normalize st.1 st.2 v000 v100 v110 v010 v001 v101 v111 v011
              isolevel offset scale)
          d st v000 v100 v110 v010 v001 v101 v111 v011 isolevel offset scale =
          some (st.1 ++ vs, st.2 ++ is) ∧
        ∀ v ∈ vs, InBox offset scale v.position := by
  induction d with
  | zero =>
    intro st v000 v100 v110 v010 v001 v101 v111 v011 isolevel offset scale hs
    exact generate_leaf_in_box normalize st v000 v100 v110 v010 v001 v101 v111 v011 isolevel
      offset scale hs
  | succ d ih =>
    intro st v000 v100 v110 v010 v001 v101 v111 v011 isolevel offset scale hs
    rw [generateWith_succ]
    by_cases hm : edgeTable (cubeindex v000 v100 v110 v010 v001 v101 v111 v011 isolevel) ≠ 0
    · rw [if_pos hm]
      obtain ⟨s', hfold, vs, is, hs', hbox⟩ := foldlM_invariant
        (fun s : List TerrainVertex × List Nat =>
          ∃ vs is, s = (st.1 ++ vs, st.2 ++ is) ∧ ∀ v ∈ vs, InBox offset scale v.position)
        (fun s (o : Nat × Nat × Nat) =>
          CubeGenerator.generateWith
            (fun st v000 v100 v110 v010 v001 v101 v111 v011 isolevel offset scale =>
              CubeGenerator0.generate normalize st.1 st.2 v000 v100 v110 v010 v001 v101 v111
                v011 isolevel offset scale)
            d s
            (octantCorner (cornerGrid v000 v100 v110 v010 v001 v101 v111 v011) o 0)
            (octantCorner (cornerGrid v000 v100 v110 v010 v001 v101 v111 v011) o 1)
            (octantCorner (cornerGrid v000 v100 v110 v010 v001 v101 v111 v011) o 2)
            (octantCorner (cornerGrid v000 v100 v110 v010 v001 v101 v111 v011) o 3)
            (octantCorner (cornerGrid v000 v100 v110 v010 v001 v101 v111 v011) o 4)
            (octantCorner (cornerGrid v000 v100 v110 v010 v001 v101 v111 v011) o 5)
            (octantCorner (cornerGrid v000 v100 v110 v010 v001 v101 v111 v011) o 6)
            (octantCorner (cornerGrid v000 v100 v110 v010 v001 v101 v111 v011) o 7)
            isolevel (octantOffset offset scale o) (scale / 2))
        octants
        (fun o ho s hP => by
          obtain ⟨vs, is, rfl, hbox⟩ := hP
          obtain ⟨vs', is', hrun, hbox'⟩ := ih (st.1 ++ vs, st.2 ++ is)
            (octantCorner (cornerGrid v000 v100 v110 v010 v001 v101 v111 v011) o 0)
            (octantCorner (cornerGrid v000 v100 v110 v010 v001 v101 v111 v011) o 1)
            (octantCorner (cornerGrid v000 v100 v110 v010 v001 v101 v111 v011) o 2)
            (octantCorner (cornerGrid v000 v100 v110 v010 v001 v101 v111 v011) o 3)
            (octantCorner (cornerGrid v000 v100 v110 v010 v001 v101 v111 v011) o 4)
            (octantCorner (cornerGrid v000 v100 v110 v010 v001 v101 v111 v011) o 5)
            (octantCorner (cornerGrid v000 v100 v110 v010 v001 v101 v111 v011) o 6)
            (octantCorner (cornerGrid v000 v100 v110 v010 v001 v101 v111 v011) o 7)
            isolevel (octantOffset offset scale o) (scale / 2) (by linarith)
          refine ⟨_, hrun, vs ++ vs', is ++ is', ?_, ?_⟩
          · simp only [List.append_assoc]
          · intro v hv
            rcases List.mem_append.mp hv with h | h
            · exact hbox v h
            · exact (octants_tile offset scale v.position).mpr ⟨o, ho, hbox' v h⟩)
        st ⟨[], [], by simp, fun v hv => absurd hv (List.not_mem_nil v)⟩
      exact ⟨vs, is, by rw [← hs']; exact hfold, hbox⟩
    · rw [if_neg hm]
      exact ⟨[], [], by simp, fun v hv => absurd hv (List.not_mem_nil v)⟩

/-! ### The representative vertex of `NaiveTraits` -/

theorem cube_sample (f : Vec3 → ℚ) (min : Vec3) (cubesize : ℚ) (x y z k : Nat) (hk : k < 8) :
    cornerSample (cornerGrid (sampleAt f min cubesize x y z) (sampleAt f min cubesize (x + 1) y z)
        (sampleAt f min cubesize (x + 1) (y + 1) z) (sampleAt f min cubesize x (y + 1) z)
        (sampleAt f min cubesize x y (z + 1)) (sampleAt f min cubesize (x + 1) y (z + 1))
        (sampleAt f min cubesize (x + 1) (y + 1) (z + 1))
        (sampleAt f min cubesize x (y + 1) (z + 1))) k =
      sampleAt f min cubesize (x + vertIndex k 0) (y + vertIndex k 1) (z + vertIndex k 2) := by
  interval_cases k <;> simp [cornerSample, cornerGrid, vertIndex, MC_VERTINDEX]

theorem SurfaceNets.naive_edgePair (f : Vec3 → ℚ) (min : Vec3) (cubesize isolevel : ℚ)
    (x y z i : Nat) :
    (SurfaceNets.edgePair SurfaceNets.NaiveTraits f min cubesize isolevel x y z i).1 =
      (Vec3.mix (cornerPoint (edgeIndex i 0)) (cornerPoint (edgeIndex i 1))
        (interpolationParameter
          (sampleAt f min cubesize (x + vertIndex (edgeIndex i 0) 0)
            (y + vertIndex (edgeIndex i 0) 1) (z + vertIndex (edgeIndex i 0) 2)).iso
          (sampleAt f min cubesize (x + vertIndex (edgeIndex i 1) 0)
            (y + vertIndex (edgeIndex i 1) 1) (z + vertIndex (edgeIndex i 1) 2)).iso
          isolevel)).smul cubesize := by
  simp only [SurfaceNets.edgePair, SurfaceNets.NaiveTraits, SurfaceNets.NaiveTraits.intersect,
    interpolationParameter, cornerPoint, Vec3.mix, Vec3.smul, Vec3.ofNat, Vec3.mk.injEq]
  refine ⟨?_, ?_, ?_⟩ <;> ring

theorem SurfaceNets.naive_edgePair_between (f : Vec3 → ℚ) (min : Vec3) (cubesize isolevel : ℚ)
    (hc : 0 ≤ cubesize) (x y z i : Nat)
    (hi : i ∈ flaggedEdges (edgeTable (cubeConfig f min cubesize isolevel x y z))) :
    Between Vec3.zero (Vec3.splat cubesize)
      (SurfaceNets.edgePair SurfaceNets.NaiveTraits f min cubesize isolevel x y z i).1 := by
  have hd := flagged_ends_differ _ _ _ _ _ _ _ _ isolevel i hi
  rw [cube_sample f min cubesize x y z _ (edgeIndex_lt i 0),
    cube_sample f min cubesize x y z _ (edgeIndex_lt i 1)] at hd
  have ht := interpolationParameter_unit _ _ _ hd
  rw [SurfaceNets.naive_edgePair]
  have hb := mix_in_box Vec3.zero cubesize hc _ _ _ (cornerPoint_unit (edgeIndex i 0))
    (cornerPoint_unit (edgeIndex i 1)) ht
  simp only [InBox, Vec3.zero, Vec3.add, zero_add] at hb
  exact hb

theorem sum_between (c : ℚ) (l : List (Vec3 × Vec3))
    (hl : ∀ pt ∈ l, Between Vec3.zero (Vec3.splat c) pt.1) (acc : Vec3 × Vec3) (k : ℚ)
    (hacc : Between Vec3.zero (Vec3.splat (k * c)) acc.1) :
    Between Vec3.zero (Vec3.splat ((k + (l.length : ℚ)) * c))
      (l.foldl (fun acc pt => (acc.1.add pt.1, acc.2.add pt.2)) acc).1 := by
  induction l generalizing acc k with
  | nil =>
    simpa using hacc
  | cons pt l ih =>
    have hpt := hl pt (List.mem_cons_self _ _)
    have h := ih (fun q hq => hl q (List.mem_cons_of_mem _ hq)) (acc.1.add pt.1, acc.2.add pt.2)
      (k + 1) (by
        simp only [Between, Vec3.zero, Vec3.splat, Vec3.add] at hacc hpt ⊢
        obtain ⟨⟨a1, a2⟩, ⟨a3, a4⟩, a5, a6⟩ := hacc
        obtain ⟨⟨b1, b2⟩, ⟨b3, b4⟩, b5, b6⟩ := hpt
        refine ⟨⟨?_, ?_⟩, ⟨?_, ?_⟩, ?_, ?_⟩ <;> linarith)
    rw [List.foldl_cons]
    have e : (k + ((pt :: l).length : ℚ)) * c = (k + 1 + (l.length : ℚ)) * c := by
      rw [List.length_cons]
      push_cast
      ring
    rw [e]
    exact h

theorem sum_fst_fold (l : List (Vec3 × Vec3)) (acc : Vec3 × Vec3) :
    (l.foldl (fun acc pt => (acc.1.add pt.1, acc.2.add pt.2)) acc).1 =
      l.foldl (fun a gt => a.add gt.1) acc.1 := by
  induction l generalizing acc with
  | nil => rfl
  | cons pt l ih =>
    rw [List.foldl_cons, List.foldl_cons, ih]

theorem SurfaceNets.naive_cellVertex_fst (normalize : Vec3 → Vec3) (f : Vec3 → ℚ) (min : Vec3)
    (cubesize isolevel : ℚ) (x y z : Nat) :
    (SurfaceNets.cellVertex normalize SurfaceNets.NaiveTraits f min cubesize isolevel x y z).1 =
      (SurfaceNets.cellVertex normalize SurfaceNets.NaiveTraits f min cubesize isolevel
        x y z).2.position := by
  simp only [SurfaceNets.cellVertex, SurfaceNets.NaiveTraits, SurfaceNets.NaiveTraits.average,
    sum_fst_fold]
  simp only [Vec3.add, Vec3.sdiv, Vec3.smul, Vec3.mk.injEq]
  refine ⟨?_, ?_, ?_⟩ <;> rw [div_eq_mul_one_div]

theorem SurfaceNets.naive_average_between (c : ℚ) (ev : List (Vec3 × Vec3))
    (hne : 0 < ev.length) (hpts : ∀ pt ∈ ev, Between Vec3.zero (Vec3.splat c) pt.1)
    (v0 v1 corner : Vec3) :
    Between Vec3.zero (Vec3.splat c) (SurfaceNets.NaiveTraits.average ev v0 v1 corner).1 := by
  have hsum := sum_between c ev hpts (Vec3.zero, Vec3.zero) 0
    (by simp [Between, Vec3.zero, Vec3.splat])
  have hn : (0 : ℚ) < (ev.length : ℚ) := by exact_mod_cast hne
  unfold SurfaceNets.NaiveTraits.average
  simp only
  generalize (ev.length : ℚ) = n at hn hsum
  generalize (List.foldl (fun acc pt => (acc.1.add pt.1, acc.2.add pt.2)) (Vec3.zero, Vec3.zero)
    ev).1 = s at hsum
  simp only [Between, Vec3.zero, Vec3.splat, zero_add] at hsum
  obtain ⟨⟨a1, a2⟩, ⟨a3, a4⟩, a5, a6⟩ := hsum
  have hinv : 0 < 1 / n := by positivity
  have e : n * c * (1 / n) = c := by
    field_simp
  simp only [Between, Vec3.smul, Vec3.zero, Vec3.splat]
  refine ⟨⟨?_, ?_⟩, ⟨?_, ?_⟩, ?_, ?_⟩
  · exact mul_nonneg a1 hinv.le
  · nlinarith [mul_le_mul_of_nonneg_right a2 hinv.le]
  · exact mul_nonneg a3 hinv.le
  · nlinarith [mul_le_mul_of_nonneg_right a4 hinv.le]
  · exact mul_nonneg a5 hinv.le
  · nlinarith [mul_le_mul_of_nonneg_right a6 hinv.le]

theorem SurfaceNets.naive_points_between (f : Vec3 → ℚ) (min : Vec3) (cubesize isolevel : ℚ)
    (hc : 0 ≤ cubesize) (x y z : Nat) :
    ∀ pt ∈ SurfaceNets.edgePairs SurfaceNets.NaiveTraits f min cubesize isolevel x y z,
      Between Vec3.zero (Vec3.splat cubesize) pt.1 := by
  intro pt hpt
  unfold SurfaceNets.edgePairs at hpt
  obtain ⟨i, hi, rfl⟩ := List.mem_map.mp hpt
  exact SurfaceNets.naive_edgePair_between f min cubesize isolevel hc x y z i hi

theorem SurfaceNets.naive_cellVertex_in_box (normalize : Vec3 → Vec3) (f : Vec3 → ℚ)
    (min : Vec3) (cubesize isolevel : ℚ) (hc : 0 < cubesize) (x y z : Nat)
    (hact : edgeTable (cubeConfig f min cubesize isolevel x y z) ≠ 0) :
    InBox (min.add ((Vec3.ofNat x y z).smul cubesize)) cubesize
      (SurfaceNets.cellVertex normalize SurfaceNets.NaiveTraits f min cubesize isolevel
        x y z).2.position := by
  obtain ⟨-, l3, -⟩ := SurfaceNets.edgePairs_length SurfaceNets.NaiveTraits f min cubesize
    isolevel x y z hact
  have hb := SurfaceNets.naive_average_between cubesize
    (SurfaceNets.edgePairs SurfaceNets.NaiveTraits f min cubesize isolevel x y z) (by omega)
    (SurfaceNets.naive_points_between f min cubesize isolevel hc.le x y z)
    Vec3.zero (Vec3.splat cubesize) (((Vec3.ofNat x y z).smul cubesize).add min)
  have hpos : (SurfaceNets.cellVertex normalize SurfaceNets.NaiveTraits f min cubesize isolevel
      x y z).2.position =
      (((Vec3.ofNat x y z).smul cubesize).add min).add
        (SurfaceNets.NaiveTraits.average
          (SurfaceNets.edgePairs SurfaceNets.NaiveTraits f min cubesize isolevel x y z)
          Vec3.zero (Vec3.splat cubesize) (((Vec3.ofNat x y z).smul cubesize).add min)).1 := rfl
  rw [hpos]
  generalize (SurfaceNets.NaiveTraits.average
    (SurfaceNets.edgePairs SurfaceNets.NaiveTraits f min cubesize isolevel x y z)
    Vec3.zero (Vec3.splat cubesize) (((Vec3.ofNat x y z).smul cubesize).add min)).1 = m at hb
  simp only [Between, Vec3.zero, Vec3.splat] at hb
  obtain ⟨⟨a1, a2⟩, ⟨a3, a4⟩, a5, a6⟩ := hb
  simp only [InBox, Vec3.add, Vec3.smul, Vec3.ofNat]
  refine ⟨⟨?_, ?_⟩, ⟨?_, ?_⟩, ?_, ?_⟩ <;> linarith

theorem SurfaceNets.normalLerp_at_position (normalize : Vec3 → Vec3) (v : TerrainVertex)
    (qn : Vec3) :
    SurfaceNets.normalLerp normalize v v.position qn =
      { position := v.position, normal := normalize v.normal } := by
  have hm : Vec3.mix v.normal qn 0 = v.normal := by
    simp [Vec3.mix]
  simp [SurfaceNets.normalLerp, Vec3.sub, Vec3.dot, hm]

/-! ### The glyph atlas -/

theorem wrapSub_of_le (m x y : Nat) (hy : y ≤ x) (hx : x < m) : wrapSub m x y = x - y := by
  unfold wrapSub
  rw [Nat.mod_eq_of_lt (lt_of_le_of_lt hy hx)]
  have e : x + m - y = x - y + m := by omega
  rw [e, Nat.add_mod_right]
  exact Nat.mod_eq_of_lt (by omega)

theorem wrapSub_add_mod (m x d y : Nat) (hy : y ≤ x) (hx : x < m) :
    wrapSub m ((x + d) % m) y = (x - y + d) % m := by
  unfold wrapSub
  rw [Nat.mod_eq_of_lt (lt_of_le_of_lt hy hx)]
  have e : (x + d) % m + m - y = (x + d) % m + (m - y) := by omega
  rw [e, Nat.mod_add_mod]
  have e2 : x + d + (m - y) = x - y + d + m := by omega
  rw [e2, Nat.add_mod_right]

theorem wrapSub_shift (m x y d : Nat) (hy : y ≤ x) (hx : x < m) :
    wrapSub m ((x + d) % m) ((y + d) % m) = x - y := by
  unfold wrapSub
  rw [Nat.mod_mod]
  have hle : (y + d) % m ≤ m := (Nat.mod_lt _ (by omega)).le
  have e : (x + d) % m + m - (y + d) % m = (x + d) % m + (m - (y + d) % m) := by omega
  rw [e, Nat.mod_add_mod]
  have h1 : (x + d + (m - (y + d) % m)) % m = (x - y + (y + d + (m - (y + d) % m))) % m := by
    congr 1
    omega
  rw [h1, Nat.add_mod]
  have h2 : (y + d + (m - (y + d) % m)) % m = 0 := by
    have h3 := Nat.mod_add_div (y + d) m
    have h4 : y + d + (m - (y + d) % m) = m * ((y + d) / m + 1) := by
      rw [Nat.mul_add, Nat.mul_one]
      omega
    rw [h4]
    exact Nat.mul_mod_right _ _
  rw [h2, Nat.add_zero, Nat.mod_mod]
  exact Nat.mod_eq_of_lt (by omega)

/-! ### The UTF-8 decoder -/

theorem utf8d_length : utf8d.length = 364 := by decide!

theorem utf8d_classes : utf8d.take 256 = (List.range 256).map byteClass := by decide!

theorem utf8d_transitions :
    utf8d.drop 256 = (List.range 108).map (fun i => classNext (i / 12 * 12) (i % 12)) := by
  decide!

theorem classNext_specNext :
    ∀ k : Fin 9, ∀ b : Fin 256,
      classNext (12 * k.val) (byteClass b.val) = specNext (12 * k.val) b.val := by
  decide!

theorem leadBits_eq :
    ∀ b : Fin 256, leadNext b.val ≠ 12 →
      (0xff >>> byteClass b.val) &&& b.val = leadBits b.val := by
  decide!

theorem utf8d_class (b : Nat) (hb : b < 256) : utf8d[b]? = some (byteClass b) := by
  rw [← List.getElem?_take_of_lt hb, utf8d_classes, List.getElem?_map, List.getElem?_range hb]
  rfl

theorem byteClass_lt : ∀ b : Fin 256, byteClass b.val < 12 := by decide!

theorem utf8d_next (k t : Nat) (hk : k < 9) (ht : t < 12) :
    utf8d[256 + 12 * k + t]? = some (classNext (12 * k) t) := by
  have h := List.getElem?_drop utf8d 256 (12 * k + t)
  rw [utf8d_transitions, List.getElem?_map, List.getElem?_range (by omega)] at h
  have e1 : (12 * k + t) / 12 * 12 = 12 * k := by omega
  have e2 : (12 * k + t) % 12 = t := by omega
  rw [Nat.add_assoc, ← h]
  simp only [Option.map_some', e1, e2]

/-- The states of the automaton: the multiples of 12 up to 96. -/
theorem state_index (s : Nat) (hs : s % 12 = 0 ∧ s ≤ 96) : ∃ k, k < 9 ∧ s = 12 * k :=
  ⟨s / 12, by omega, by omega⟩

theorem specNext_state (s b : Nat) : specNext s b % 12 = 0 ∧ specNext s b ≤ 96 := by
  unfold specNext leadNext contNext
  split_ifs <;> omega

theorem specNext_reject (s b : Nat) (h0 : s ≠ 0)
    (h : specNext s b ≠ 12) :
    (contLo s ≤ b ∧ b ≤ contHi s) ∧ specNext s b = contNext s ∧ s ≠ 12 := by
  unfold specNext at h ⊢
  rw [if_neg h0] at h ⊢
  split_ifs at h ⊢ with h1 h2
  · exact absurd rfl h
  · exact ⟨h2, rfl, h1⟩
  · exact absurd rfl h

theorem utf8decode_eq (s b cp : Nat) (hs : s % 12 = 0 ∧ s ≤ 96) (hb : b < 256) :
    utf8decode s cp b = some (specNext s b,
      if s ≠ UTF8_ACCEPT then ((b &&& 0x3f) ||| (cp <<< 6)) % 2 ^ 32
      else (0xff >>> byteClass b) &&& b) := by
  obtain ⟨k, hk, rfl⟩ := state_index s hs
  have ht := byteClass_lt ⟨b, hb⟩
  dsimp only at ht
  unfold utf8decode
  rw [utf8d_class b hb]
  simp only [Option.bind_eq_bind, Option.pure_def, Option.some_bind]
  rw [Nat.mod_eq_of_lt (show 256 + 12 * k + byteClass b < 2 ^ 32 by omega),
    utf8d_next k _ hk ht]
  simp only [Option.some_bind]
  rw [classNext_specNext ⟨k, hk⟩ ⟨b, hb⟩]

theorem cont_bits (b cp : Nat) (hb1 : 0x80 ≤ b) (hb2 : b ≤ 0xBF) (hcp : cp < 2 ^ 26) :
    ((b &&& 0x3f) ||| (cp <<< 6)) % 2 ^ 32 = cp * 64 + (b - 0x80) := by
  have h1 : b &&& 0x3f = b % 2 ^ 6 := Nat.and_pow_two_sub_one_eq_mod b 6
  have h2 : b % 2 ^ 6 < 2 ^ 6 := Nat.mod_lt _ (by decide)
  rw [h1, Nat.or_comm, Nat.shiftLeft_eq, Nat.mul_comm, ← Nat.mul_add_lt_is_or h2]
  have h3 : b % 2 ^ 6 = b - 0x80 := by omega
  rw [h3, Nat.mod_eq_of_lt (by omega)]

theorem utf8decode_lead (b cp : Nat) (hb : b < 256) (hl : leadNext b ≠ 12) :
    utf8decode 0 cp b = some (leadNext b, leadBits b) := by
  rw [utf8decode_eq 0 b cp (by decide) hb, if_neg (by decide), leadBits_eq ⟨b, hb⟩ hl]
  rfl

theorem utf8decode_cont (s b cp : Nat) (hs : s % 12 = 0 ∧ s ≤ 96) (h0 : s ≠ 0)
    (h12 : s ≠ 12) (hlo : contLo s ≤ b) (hhi : b ≤ contHi s) (hcp : cp < 2 ^ 26) :
    utf8decode s cp b = some (contNext s, cp * 64 + (b - 0x80)) := by
  have hb1 : 0x80 ≤ b := by
    unfold contLo at hlo
    split_ifs at hlo <;> omega
  have hb2 : b ≤ 0xBF := by
    unfold contHi at hhi
    split_ifs at hhi <;> omega
  rw [utf8decode_eq s b cp hs (by omega), if_pos (show s ≠ UTF8_ACCEPT from h0),
    cont_bits b cp hb1 hb2 hcp]
  unfold specNext
  rw [if_neg h0, if_neg h12, if_pos ⟨hlo, hhi⟩]

theorem utf8decode_reject (b cp : Nat) (hb : b < 256) :
    ∃ c, utf8decode 12 cp b = some (12, c) := by
  rw [utf8decode_eq 12 b cp (by decide) hb]
  exact ⟨_, rfl⟩

theorem utf8feed_lead (b cp : Nat) (bs : List Nat) (hb : b < 256) (hl : leadNext b ≠ 12) :
    utf8feed 0 cp (b :: bs) =
      (utf8feed (leadNext b) (leadBits b) bs).bind
        (fun tr => some ((leadNext b, leadBits b) :: tr)) := by
  rw [utf8feed, utf8decode_lead b cp hb hl]
  rfl

theorem utf8feed_cont (s b cp : Nat) (bs : List Nat) (hs : s % 12 = 0 ∧ s ≤ 96) (h0 : s ≠ 0)
    (h12 : s ≠ 12) (hlo : contLo s ≤ b) (hhi : b ≤ contHi s) (hcp : cp < 2 ^ 26) :
    utf8feed s cp (b :: bs) =
      (utf8feed (contNext s) (cp * 64 + (b - 0x80)) bs).bind
        (fun tr => some ((contNext s, cp * 64 + (b - 0x80)) :: tr)) := by
  rw [utf8feed, utf8decode_cont s b cp hs h0 h12 hlo hhi hcp]
  rfl

theorem utf8feed_nil (s cp : Nat) : utf8feed s cp [] = some [] := by
  rw [utf8feed]

theorem leadNext_three (b : Nat) (h1 : 0xE0 ≤ b) (h2 : b ≤ 0xEF) :
    leadNext b = (if b = 0xE0 then 48 else if b = 0xED then 60 else 36) := by
  unfold leadNext
  split_ifs <;> omega

theorem leadNext_four (b : Nat) (h1 : 0xF0 ≤ b) (h2 : b ≤ 0xF4) :
    leadNext b = (if b = 0xF0 then 72 else if b = 0xF4 then 96 else 84) := by
  unfold leadNext
  split_ifs <;> omega

theorem utf8feed_length (bs : List Nat) :
    ∀ (s cp : Nat) (tr : List (Nat × Nat)), utf8feed s cp bs = some tr →
      tr.length = bs.length := by
  induction bs with
  | nil =>
    intro s cp tr h
    rw [utf8feed_nil] at h
    rw [← Option.some.inj h]
    rfl
  | cons b bs ih =>
    intro s cp tr h
    rw [utf8feed] at h
    simp only [Option.bind_eq_bind, Option.pure_def] at h
    rcases hd : utf8decode s cp b with _ | r
    · rw [hd] at h
      exact absurd h (by simp)
    · rw [hd] at h
      simp only [Option.some_bind] at h
      rcases hf : utf8feed r.1 r.2 bs with _ | tr1
      · rw [hf] at h
        exact absurd h (by simp)
      · rw [hf] at h
        simp only [Option.some_bind] at h
        rw [← Option.some.inj h, List.length_cons, List.length_cons, ih _ _ _ hf]

theorem utf8feed_cons_eq (s cp b : Nat) (bs : List Nat) (hs : s % 12 = 0 ∧ s ≤ 96)
    (hb : b < 256) :
    ∃ cp1, utf8decode s cp b = some (specNext s b, cp1) ∧
      utf8feed s cp (b :: bs) =
        (utf8feed (specNext s b) cp1 bs).bind (fun tr => some ((specNext s b, cp1) :: tr)) := by
  refine ⟨_, utf8decode_eq s b cp hs hb, ?_⟩
  rw [utf8feed, utf8decode_eq s b cp hs hb]
  rfl

theorem utf8feed_total (bs : List Nat) :
    ∀ (s cp : Nat), s % 12 = 0 ∧ s ≤ 96 → (∀ b ∈ bs, b < 256) →
      ∃ tr, utf8feed s cp bs = some tr ∧ ∀ p ∈ tr, p.1 % 12 = 0 ∧ p.1 ≤ 96 := by
  induction bs with
  | nil =>
    intro s cp _ _
    exact ⟨[], utf8feed_nil s cp, fun p hp => absurd hp (List.not_mem_nil p)⟩
  | cons b bs ih =>
    intro s cp hs hb
    obtain ⟨cp1, -, h2⟩ := utf8feed_cons_eq s cp b bs hs (hb b (List.mem_cons_self b bs))
    obtain ⟨tr, h3, h4⟩ := ih (specNext s b) cp1 (specNext_state s b)
      (fun x hx => hb x (List.mem_cons_of_mem b hx))
    refine ⟨(specNext s b, cp1) :: tr, ?_, ?_⟩
    · rw [h2, h3]
      rfl
    · intro p hp
      rcases List.mem_cons.mp hp with rfl | hp
      · exact specNext_state s b
      · exact h4 p hp

theorem utf8feed_reject (bs : List Nat) :
    ∀ (cp : Nat), (∀ b ∈ bs, b < 256) →
      ∃ tr, utf8feed 12 cp bs = some tr ∧ ∀ p ∈ tr, p.1 = 12 := by
  induction bs with
  | nil =>
    intro cp _
    exact ⟨[], utf8feed_nil 12 cp, fun p hp => absurd hp (List.not_mem_nil p)⟩
  | cons b bs ih =>
    intro cp hb
    obtain ⟨cp1, -, h2⟩ := utf8feed_cons_eq 12 cp b bs (by decide)
      (hb b (List.mem_cons_self b bs))
    have h12 : specNext 12 b = 12 := rfl
    rw [h12] at h2
    obtain ⟨tr, h3, h4⟩ := ih cp1 (fun x hx => hb x (List.mem_cons_of_mem b hx))
    refine ⟨(12, cp1) :: tr, ?_, ?_⟩
    · rw [h2, h3]
      rfl
    · intro p hp
      rcases List.mem_cons.mp hp with rfl | hp
      · rfl
      · exact h4 p hp

theorem firstAccept_nil (c : Nat) : ¬ FirstAccept [] c := by
  intro h
  exact absurd h.2 (by simp)

theorem firstAccept_cons (x : Nat × Nat) (tr : List (Nat × Nat)) (c : Nat)
    (h : FirstAccept (x :: tr) c) :
    (tr = [] ∧ x = (0, c)) ∨ (tr ≠ [] ∧ x.1 ≠ 0 ∧ FirstAccept tr c) := by
  obtain ⟨h1, h2⟩ := h
  rcases tr with _ | ⟨y, tr⟩
  · left
    refine ⟨rfl, ?_⟩
    simpa [UTF8_ACCEPT] using h2
  · right
    refine ⟨List.cons_ne_nil y tr, ?_, ?_, ?_⟩
    · exact h1 x (by simp)
    · intro p hp
      exact h1 p (by
        rw [List.dropLast_cons₂]
        exact List.mem_cons_of_mem x hp)
    · rw [List.getLast?_cons_cons] at h2
      exact h2

theorem firstAccept_reject (tr : List (Nat × Nat)) (c : Nat) (h : ∀ p ∈ tr, p.1 = 12) :
    ¬ FirstAccept tr c := by
  intro hf
  have hm : (UTF8_ACCEPT, c) ∈ tr := List.mem_of_getLast?_eq_some hf.2
  have h12 := h _ hm
  unfold UTF8_ACCEPT at h12
  dsimp only at h12
  omega

/-- A step from a state inside a character, on a trace that returns to `UTF8_ACCEPT`
at its end only: the byte is a continuation byte the state allows. -/
theorem cont_step (s cp b c : Nat) (bs : List Nat) (tr : List (Nat × Nat))
    (hs : s % 12 = 0 ∧ s ≤ 96) (h0 : s ≠ 0) (hcp : cp < 2 ^ 26)
    (hb : ∀ x ∈ b :: bs, x < 256) (hfeed : utf8feed s cp (b :: bs) = some tr)
    (hfa : FirstAccept tr c) :
    (contLo s ≤ b ∧ b ≤ contHi s) ∧ (0x80 ≤ b ∧ b ≤ 0xBF) ∧ s ≠ 12 ∧
    ((contNext s = 0 ∧ bs = [] ∧ c = cp * 64 + (b - 0x80)) ∨
     (contNext s ≠ 0 ∧ ∃ tr1, utf8feed (contNext s) (cp * 64 + (b - 0x80)) bs = some tr1 ∧
        FirstAccept tr1 c)) := by
  have hb0 : b < 256 := hb b (List.mem_cons_self b bs)
  have hbs : ∀ x ∈ bs, x < 256 := fun x hx => hb x (List.mem_cons_of_mem b hx)
  obtain ⟨cp1, -, h2⟩ := utf8feed_cons_eq s cp b bs hs hb0
  by_cases hr : specNext s b = 12
  · exfalso
    rw [hr] at h2
    obtain ⟨tr1, h3, h4⟩ := utf8feed_reject bs cp1 hbs
    rw [h2, h3] at hfeed
    have e : tr = (12, cp1) :: tr1 := (Option.some.inj hfeed).symm
    refine firstAccept_reject tr c ?_ hfa
    intro p hp
    rw [e] at hp
    rcases List.mem_cons.mp hp with rfl | hp
    · rfl
    · exact h4 p hp
  · obtain ⟨⟨hlo, hhi⟩, -, h12⟩ := specNext_reject s b h0 hr
    have hb1 : 0x80 ≤ b := by
      unfold contLo at hlo
      split_ifs at hlo <;> omega
    have hb2 : b ≤ 0xBF := by
      unfold contHi at hhi
      split_ifs at hhi <;> omega
    refine ⟨⟨hlo, hhi⟩, ⟨hb1, hb2⟩, h12, ?_⟩
    rw [utf8feed_cont s b cp bs hs h0 h12 hlo hhi hcp] at hfeed
    rcases hf : utf8feed (contNext s) (cp * 64 + (b - 0x80)) bs with _ | tr1
    · rw [hf] at hfeed
      exact absurd hfeed (by simp)
    · rw [hf] at hfeed
      have e : tr = (contNext s, cp * 64 + (b - 0x80)) :: tr1 := (Option.some.inj hfeed).symm
      rw [e] at hfa
      rcases firstAccept_cons _ _ _ hfa with ⟨hnil, hx⟩ | ⟨-, hx, hfa1⟩
      · left
        have hlen := utf8feed_length bs _ _ _ hf
        rw [hnil] at hlen
        exact ⟨(Prod.mk.inj hx).1, List.length_eq_zero.mp hlen.symm, (Prod.mk.inj hx).2.symm⟩
      · right
        exact ⟨hx, tr1, rfl, hfa1⟩

theorem segment_one (cp c : Nat) (bs : List Nat) (tr : List (Nat × Nat)) (hcp : cp < 2 ^ 26)
    (hb : ∀ x ∈ bs, x < 256) (hfeed : utf8feed 24 cp bs = some tr) (hfa : FirstAccept tr c) :
    ∃ b1, bs = [b1] ∧ (0x80 ≤ b1 ∧ b1 ≤ 0xBF) ∧ c = cp * 64 + (b1 - 0x80) := by
  rcases bs with _ | ⟨b1, bs⟩
  · rw [utf8feed_nil] at hfeed
    rw [← Option.some.inj hfeed] at hfa
    exact absurd hfa (firstAccept_nil c)
  · obtain ⟨-, hr, -, h⟩ := cont_step 24 cp b1 c bs tr (by decide) (by decide) hcp hb hfeed hfa
    rcases h with ⟨-, hnil, hc⟩ | ⟨hne, -⟩
    · exact ⟨b1, by rw [hnil], hr, hc⟩
    · exact absurd rfl hne

theorem segment_two (s cp c : Nat) (bs : List Nat) (tr : List (Nat × Nat))
    (hs : s % 12 = 0 ∧ s ≤ 96) (h0 : s ≠ 0) (hn : contNext s = 24) (hcp : cp < 2 ^ 20)
    (hb : ∀ x ∈ bs, x < 256) (hfeed : utf8feed s cp bs = some tr) (hfa : FirstAccept tr c) :
    ∃ b1 b2, bs = [b1, b2] ∧ (contLo s ≤ b1 ∧ b1 ≤ contHi s) ∧ (0x80 ≤ b1 ∧ b1 ≤ 0xBF) ∧
      (0x80 ≤ b2 ∧ b2 ≤ 0xBF) ∧ c = (cp * 64 + (b1 - 0x80)) * 64 + (b2 - 0x80) := by
  rcases bs with _ | ⟨b1, bs⟩
  · rw [utf8feed_nil] at hfeed
    rw [← Option.some.inj hfeed] at hfa
    exact absurd hfa (firstAccept_nil c)
  · obtain ⟨hr, hr1, -, h⟩ := cont_step s cp b1 c bs tr hs h0 (by omega) hb hfeed hfa
    rcases h with ⟨hz, -, -⟩ | ⟨-, tr1, hf1, hfa1⟩
    · omega
    · rw [hn] at hf1
      obtain ⟨b2, hbs, hr2, hc⟩ := segment_one (cp * 64 + (b1 - 0x80)) c bs tr1 (by omega)
        (fun x hx => hb x (List.mem_cons_of_mem b1 hx)) hf1 hfa1
      exact ⟨b1, b2, by rw [hbs], hr, hr1, hr2, hc⟩

theorem segment_three (s cp c : Nat) (bs : List Nat) (tr : List (Nat × Nat))
    (hs : s % 12 = 0 ∧ s ≤ 96) (h0 : s ≠ 0) (hn : contNext s = 36) (hcp : cp < 2 ^ 14)
    (hb : ∀ x ∈ bs, x < 256) (hfeed : utf8feed s cp bs = some tr) (hfa : FirstAccept tr c) :
    ∃ b1 b2 b3, bs = [b1, b2, b3] ∧ (contLo s ≤ b1 ∧ b1 ≤ contHi s) ∧
      (0x80 ≤ b1 ∧ b1 ≤ 0xBF) ∧ (0x80 ≤ b2 ∧ b2 ≤ 0xBF) ∧ (0x80 ≤ b3 ∧ b3 ≤ 0xBF) ∧
      c = ((cp * 64 + (b1 - 0x80)) * 64 + (b2 - 0x80)) * 64 + (b3 - 0x80) := by
  rcases bs with _ | ⟨b1, bs⟩
  · rw [utf8feed_nil] at hfeed
    rw [← Option.some.inj hfeed] at hfa
    exact absurd hfa (firstAccept_nil c)
  · obtain ⟨hr, hr1, -, h⟩ := cont_step s cp b1 c bs tr hs h0 (by omega) hb hfeed hfa
    rcases h with ⟨hz, -, -⟩ | ⟨-, tr1, hf1, hfa1⟩
    · omega
    · rw [hn] at hf1
      obtain ⟨b2, b3, hbs, -, hr2, hr3, hc⟩ := segment_two 36 (cp * 64 + (b1 - 0x80)) c bs tr1
        (by decide) (by decide) (by decide) (by omega)
        (fun x hx => hb x (List.mem_cons_of_mem b1 hx)) hf1 hfa1
      exact ⟨b1, b2, b3, by rw [hbs], hr, hr1, hr2, hr3, hc⟩

theorem leadNext_cases (b : Nat) :
    (leadNext b = 0 ∧ b < 0x80) ∨ (leadNext b = 24 ∧ 0xC2 ≤ b ∧ b ≤ 0xDF) ∨
    (leadNext b = 48 ∧ b = 0xE0) ∨ (leadNext b = 60 ∧ b = 0xED) ∨
    (leadNext b = 36 ∧ 0xE1 ≤ b ∧ b ≤ 0xEF ∧ b ≠ 0xED) ∨ (leadNext b = 72 ∧ b = 0xF0) ∨
    (leadNext b = 84 ∧ 0xF1 ≤ b ∧ b ≤ 0xF3) ∨ (leadNext b = 96 ∧ b = 0xF4) ∨
    leadNext b = 12 := by
  unfold leadNext
  split_ifs <;> omega

theorem encode_one (b0 : Nat) (h0 : b0 < 0x80) : isScalar b0 ∧ [b0] = utf8encode b0 := by
  unfold isScalar utf8encode
  rw [if_pos h0]
  exact ⟨by omega, rfl⟩

theorem encode_two (b0 b1 c : Nat) (h0 : 0xC2 ≤ b0 ∧ b0 ≤ 0xDF) (h1 : 0x80 ≤ b1 ∧ b1 ≤ 0xBF)
    (hc : c = (b0 - 0xC0) * 64 + (b1 - 0x80)) : isScalar c ∧ [b0, b1] = utf8encode c := by
  unfold isScalar utf8encode
  rw [if_neg (by omega), if_pos (by omega)]
  refine ⟨by omega, ?_⟩
  have e0 : 0xC0 + c / 64 = b0 := by omega
  have e1 : 0x80 + c % 64 = b1 := by omega
  rw [e0, e1]

theorem encode_three (b0 b1 b2 c : Nat) (h0 : 0xE0 ≤ b0 ∧ b0 ≤ 0xEF)
    (h1 : 0x80 ≤ b1 ∧ b1 ≤ 0xBF) (hlo : b0 = 0xE0 → 0xA0 ≤ b1) (hhi : b0 = 0xED → b1 ≤ 0x9F)
    (h2 : 0x80 ≤ b2 ∧ b2 ≤ 0xBF)
    (hc : c = ((b0 - 0xE0) * 64 + (b1 - 0x80)) * 64 + (b2 - 0x80)) :
    isScalar c ∧ [b0, b1, b2] = utf8encode c := by
  unfold isScalar utf8encode
  have hmin : 0x800 ≤ c := by
    rcases Nat.eq_or_lt_of_le h0.1 with e | e
    · have := hlo e.symm
      omega
    · omega
  rw [if_neg (by omega), if_neg (by omega), if_pos (by omega)]
  have hs : ¬ (0xD800 ≤ c ∧ c ≤ 0xDFFF) := by
    by_cases e : b0 = 0xED
    · have := hhi e
      omega
    · omega
  refine ⟨⟨by omega, hs⟩, ?_⟩
  have e0 : 0xE0 + c / 4096 = b0 := by omega
  have e1 : 0x80 + c / 64 % 64 = b1 := by omega
  have e2 : 0x80 + c % 64 = b2 := by omega
  rw [e0, e1, e2]

theorem encode_four (b0 b1 b2 b3 c : Nat) (h0 : 0xF0 ≤ b0 ∧ b0 ≤ 0xF4)
    (h1 : 0x80 ≤ b1 ∧ b1 ≤ 0xBF) (hlo : b0 = 0xF0 → 0x90 ≤ b1) (hhi : b0 = 0xF4 → b1 ≤ 0x8F)
    (h2 : 0x80 ≤ b2 ∧ b2 ≤ 0xBF) (h3 : 0x80 ≤ b3 ∧ b3 ≤ 0xBF)
    (hc : c = (((b0 - 0xF0) * 64 + (b1 - 0x80)) * 64 + (b2 - 0x80)) * 64 + (b3 - 0x80)) :
    isScalar c ∧ [b0, b1, b2, b3] = utf8encode c := by
  unfold isScalar utf8encode
  have hmin : 0x10000 ≤ c := by
    rcases Nat.eq_or_lt_of_le h0.1 with e | e
    · have := hlo e.symm
      omega
    · omega
  have hmax : c ≤ 0x10FFFF := by
    rcases Nat.eq_or_lt_of_le h0.2 with e | e
    · have := hhi e
      omega
    · omega
  rw [if_neg (by omega), if_neg (by omega), if_neg (by omega)]
  refine ⟨⟨hmax, by omega⟩, ?_⟩
  have e0 : 0xF0 + c / 262144 = b0 := by omega
  have e1 : 0x80 + c / 4096 % 64 = b1 := by omega
  have e2 : 0x80 + c / 64 % 64 = b2 := by omega
  have e3 : 0x80 + c % 64 = b3 := by omega
  rw [e0, e1, e2, e3]

theorem leadNext_groups (b : Nat) :
    (leadNext b = 0 ∧ b < 0x80) ∨ (leadNext b = 24 ∧ 0xC2 ≤ b ∧ b ≤ 0xDF) ∨
    (contNext (leadNext b) = 24 ∧ leadNext b ≠ 0 ∧ (0xE0 ≤ b ∧ b ≤ 0xEF) ∧
      (b = 0xE0 → contLo (leadNext b) = 0xA0) ∧ (b = 0xED → contHi (leadNext b) = 0x9F)) ∨
    (contNext (leadNext b) = 36 ∧ leadNext b ≠ 0 ∧ (0xF0 ≤ b ∧ b ≤ 0xF4) ∧
      (b = 0xF0 → contLo (leadNext b) = 0x90) ∧ (b = 0xF4 → contHi (leadNext b) = 0x8F)) ∨
    leadNext b = 12 := by
  rcases leadNext_cases b with h | h | h | h | h | h | h | h | h
  · exact Or.inl h
  · exact Or.inr (Or.inl h)
  · refine Or.inr (Or.inr (Or.inl ?_))
    rw [h.1]
    exact ⟨rfl, by decide, by omega, fun _ => rfl, fun e => by omega⟩
  · refine Or.inr (Or.inr (Or.inl ?_))
    rw [h.1]
    exact ⟨rfl, by decide, by omega, fun e => by omega, fun _ => rfl⟩
  · refine Or.inr (Or.inr (Or.inl ?_))
    rw [h.1]
    exact ⟨rfl, by decide, by omega, fun e => by omega, fun e => by omega⟩
  · refine Or.inr (Or.inr (Or.inr (Or.inl ?_)))
    rw [h.1]
    exact ⟨rfl, by decide, by omega, fun _ => rfl, fun e => by omega⟩
  · refine Or.inr (Or.inr (Or.inr (Or.inl ?_)))
    rw [h.1]
    exact ⟨rfl, by decide, by omega, fun e => by omega, fun e => by omega⟩
  · refine Or.inr (Or.inr (Or.inr (Or.inl ?_)))
    rw [h.1]
    exact ⟨rfl, by decide, by omega, fun e => by omega, fun _ => rfl⟩
  · exact Or.inr (Or.inr (Or.inr (Or.inr h)))

theorem leadBits_of_ge (b : Nat) (h : 0xC0 ≤ b) (h2 : b ≤ 0xF4) :
    leadBits b = if b < 0xE0 then b - 0xC0 else if b < 0xF0 then b - 0xE0 else b - 0xF0 := by
  unfold leadBits
  rw [if_neg (by omega)]

/-- A segment fed from `UTF8_ACCEPT` whose trace returns to `UTF8_ACCEPT` at its end and
not before is the encoding of the code point it leaves. -/
theorem segment_decode (seg : List Nat) (cp1 c : Nat) (tr : List (Nat × Nat))
    (hb : ∀ x ∈ seg, x < 256) (hfeed : utf8feed 0 cp1 seg = some tr)
    (hfa : FirstAccept tr c) : isScalar c ∧ seg = utf8encode c := by
  rcases seg with _ | ⟨b0, bs⟩
  · rw [utf8feed_nil] at hfeed
    rw [← Option.some.inj hfeed] at hfa
    exact absurd hfa (firstAccept_nil c)
  · have hb0 : b0 < 256 := hb b0 (List.mem_cons_self b0 bs)
    have hbs : ∀ x ∈ bs, x < 256 := fun x hx => hb x (List.mem_cons_of_mem b0 hx)
    by_cases hl : leadNext b0 = 12
    · exfalso
      obtain ⟨cp2, -, h2⟩ := utf8feed_cons_eq 0 cp1 b0 bs (by decide) hb0
      have e0 : specNext 0 b0 = leadNext b0 := rfl
      rw [e0, hl] at h2
      obtain ⟨tr1, h3, h4⟩ := utf8feed_reject bs cp2 hbs
      rw [h2, h3] at hfeed
      have e : tr = (12, cp2) :: tr1 := (Option.some.inj hfeed).symm
      refine firstAccept_reject tr c ?_ hfa
      intro p hp
      rw [e] at hp
      rcases List.mem_cons.mp hp with rfl | hp
      · rfl
      · exact h4 p hp
    · rw [utf8feed_lead b0 cp1 bs hb0 hl] at hfeed
      have hst : leadNext b0 % 12 = 0 ∧ leadNext b0 ≤ 96 := specNext_state 0 b0
      rcases hf : utf8feed (leadNext b0) (leadBits b0) bs with _ | tr1
      · rw [hf] at hfeed
        exact absurd hfeed (by simp)
      · rw [hf] at hfeed
        have e : tr = (leadNext b0, leadBits b0) :: tr1 := (Option.some.inj hfeed).symm
        rw [e] at hfa
        rcases firstAccept_cons _ _ _ hfa with ⟨hnil, hx⟩ | ⟨-, hx, hfa1⟩
        · have hlen := utf8feed_length bs _ _ _ hf
          rw [hnil] at hlen
          have hbs0 : bs = [] := List.length_eq_zero.mp hlen.symm
          have hz : leadNext b0 = 0 := (Prod.mk.inj hx).1
          have hc : leadBits b0 = c := (Prod.mk.inj hx).2
          have hlt : b0 < 0x80 := by
            rcases leadNext_cases b0 with h | h | h | h | h | h | h | h | h <;> omega
          have hbits : leadBits b0 = b0 := by
            unfold leadBits
            rw [if_pos hlt]
          rw [hbs0, ← hc, hbits]
          exact encode_one b0 hlt
        · dsimp only at hx
          rcases leadNext_groups b0 with h | h | h | h | h
          · exact absurd h.1 hx
          · rw [h.1] at hf
            have hbits := leadBits_of_ge b0 (by omega) (by omega)
            rw [if_pos (by omega)] at hbits
            obtain ⟨b1, hbs1, hr1, hc⟩ := segment_one (leadBits b0) c bs tr1 (by omega) hbs hf
              hfa1
            rw [hbs1]
            exact encode_two b0 b1 c h.2 hr1 (by rw [hc, hbits])
          · obtain ⟨hn, -, hr0, hlo, hhi⟩ := h
            have hbits := leadBits_of_ge b0 (by omega) (by omega)
            rw [if_neg (by omega), if_pos (by omega)] at hbits
            obtain ⟨b1, b2, hbs1, hr, hr1, hr2, hc⟩ := segment_two (leadNext b0) (leadBits b0) c
              bs tr1 hst hx hn (by omega) hbs hf hfa1
            rw [hbs1]
            refine encode_three b0 b1 b2 c hr0 hr1 ?_ ?_ hr2 (by rw [hc, hbits])
            · intro e0
              rw [hlo e0] at hr
              exact hr.1
            · intro e0
              rw [hhi e0] at hr
              exact hr.2
          · obtain ⟨hn, -, hr0, hlo, hhi⟩ := h
            have hbits := leadBits_of_ge b0 (by omega) (by omega)
            rw [if_neg (by omega), if_neg (by omega)] at hbits
            obtain ⟨b1, b2, b3, hbs1, hr, hr1, hr2, hr3, hc⟩ := segment_three (leadNext b0)
              (leadBits b0) c bs tr1 hst hx hn (by omega) hbs hf hfa1
            rw [hbs1]
            refine encode_four b0 b1 b2 b3 c hr0 hr1 ?_ ?_ hr2 hr3 (by rw [hc, hbits])
            · intro e0
              rw [hlo e0] at hr
              exact hr.1
            · intro e0
              rw [hhi e0] at hr
              exact hr.2
          · exact absurd h hl

theorem utf8feed_append (pre post : List Nat) :
    ∀ (s cp : Nat) (trPre : List (Nat × Nat)), utf8feed s cp pre = some trPre →
      utf8feed s cp (pre ++ post) =
        (utf8feed (trPre.getLast?.getD (s, cp)).1 (trPre.getLast?.getD (s, cp)).2 post).bind
          (fun tr => some (trPre ++ tr)) := by
  induction pre with
  | nil =>
    intro s cp trPre h
    rw [utf8feed_nil] at h
    rw [← Option.some.inj h]
    simp
  | cons b bs ih =>
    intro s cp trPre h
    rw [utf8feed] at h
    rw [List.cons_append, utf8feed]
    simp only [Option.bind_eq_bind, Option.pure_def] at h ⊢
    rcases hd : utf8decode s cp b with _ | r
    · rw [hd] at h
      exact absurd h (by simp)
    · rw [hd] at h
      simp only [Option.some_bind] at h ⊢
      rcases hf : utf8feed r.1 r.2 bs with _ | tr1
      · rw [hf] at h
        exact absurd h (by simp)
      · rw [hf] at h
        simp only [Option.some_bind] at h
        rw [ih r.1 r.2 tr1 hf, ← Option.some.inj h]
        have e : (r :: tr1).getLast?.getD (s, cp) = tr1.getLast?.getD (r.1, r.2) := by
          rw [List.getLast?_cons]
          rcases tr1.getLast? with _ | y <;> rfl
        rw [e]
        rcases utf8feed (tr1.getLast?.getD (r.1, r.2)).1 (tr1.getLast?.getD (r.1, r.2)).2 post
          with _ | tr2 <;> rfl

/-! ### The sphere field under Marching Cubes -/

theorem axis_upper (s a w ρ c : ℚ) (hw : -c ≤ w ∧ w ≤ c)
    (hρ : 0 ≤ ρ) (hin : s + a ^ 2 < ρ ^ 2) (hs : 0 ≤ s) : s + (a + w) ^ 2 ≤ (ρ + c) ^ 2 := by
  have hc : 0 ≤ c := by linarith [hw.1, hw.2]
  have ha := abs_lt_of_sq_lt_sq' (show a ^ 2 < ρ ^ 2 by nlinarith [sq_nonneg a]) hρ
  have h1 : a * w ≤ ρ * c := by
    rcases le_total 0 a with h | h <;> rcases le_total 0 w with h' | h'
    · nlinarith [mul_nonneg h h', mul_nonneg (sub_nonneg.mpr ha.2.le) hc,
        mul_nonneg h (sub_nonneg.mpr hw.2)]
    · nlinarith [mul_nonneg h (neg_nonneg.mpr h'), mul_nonneg hρ hc]
    · nlinarith [mul_nonneg (neg_nonneg.mpr h) h', mul_nonneg hρ hc]
    · nlinarith [mul_nonneg (neg_nonneg.mpr h) (neg_nonneg.mpr h'),
        mul_nonneg (show 0 ≤ ρ + a by linarith [ha.1]) hc,
        mul_nonneg (neg_nonneg.mpr h) (show 0 ≤ c + w by linarith [hw.1])]
  have h2 : w ^ 2 ≤ c ^ 2 := by nlinarith [hw.1, hw.2]
  nlinarith

theorem axis_lower (s b w ρ c : ℚ) (hw : -c ≤ w ∧ w ≤ c)
    (hρc : 0 < ρ - c) (hout : ρ ^ 2 ≤ s + b ^ 2) (hs : 0 ≤ s) :
    (ρ - c) ^ 2 ≤ s + (b - w) ^ 2 := by
  have hc : 0 ≤ c := by linarith [hw.1, hw.2]
  have hwa : |w| ≤ c := abs_le.mpr hw
  by_cases hb : |b| ≤ ρ
  · have h1 : b * w ≤ ρ * |w| := by
      have h0 : b * w ≤ |b| * |w| := by
        rw [← abs_mul]
        exact le_abs_self _
      exact h0.trans (mul_le_mul_of_nonneg_right hb (abs_nonneg w))
    have h2 : w ^ 2 = |w| ^ 2 := (sq_abs w).symm
    nlinarith [abs_nonneg w,
      mul_nonneg (sub_nonneg.mpr hwa) (show 0 ≤ ρ - c + (ρ - |w|) by linarith)]
  · push_neg at hb
    have h3 : |b| - |w| ≤ |b - w| := abs_sub_abs_le_abs_sub b w
    have h4 : ρ - c ≤ |b - w| := by linarith
    have h5 : (ρ - c) ^ 2 ≤ |b - w| ^ 2 := pow_le_pow_left₀ hρc.le h4 2
    rw [sq_abs] at h5
    linarith

/-- A point of a segment of length `c` along one axis, one end of which lies inside
the sphere of radius `ρ` about the origin and the other not, has a distance to the
origin within `c` of `ρ`. Here `s` is the sum of the squares of the two coordinates
the ends share, `a` the third coordinate of the first end and `a + d` that of the other. -/
theorem axis_within (s a d t ρ c : ℚ) (hs : 0 ≤ s) (hd : d = c ∨ d = -c) (hc : 0 ≤ c)
    (hρ : 0 ≤ ρ) (ht : 0 ≤ t ∧ t ≤ 1)
    (hsides : ¬ (s + a ^ 2 < ρ ^ 2 ↔ s + (a + d) ^ 2 < ρ ^ 2)) :
    s + (a + t * d) ^ 2 ≤ (ρ + c) ^ 2 ∧ (ρ - c ≤ 0 ∨ (ρ - c) ^ 2 ≤ s + (a + t * d) ^ 2) := by
  have hd1 : -c ≤ d ∧ d ≤ c := by
    rcases hd with rfl | rfl
    · exact ⟨by linarith, le_refl _⟩
    · exact ⟨le_refl _, by linarith⟩
  have hw1 : -c ≤ t * d ∧ t * d ≤ c := by
    rcases hd with rfl | rfl
    · constructor <;> nlinarith [mul_nonneg ht.1 hc, mul_nonneg (sub_nonneg.mpr ht.2) hc]
    · constructor <;> nlinarith [mul_nonneg ht.1 hc, mul_nonneg (sub_nonneg.mpr ht.2) hc]
  have hw2 : -c ≤ (1 - t) * d ∧ (1 - t) * d ≤ c := by
    rcases hd with rfl | rfl
    · constructor <;> nlinarith [mul_nonneg ht.1 hc, mul_nonneg (sub_nonneg.mpr ht.2) hc]
    · constructor <;> nlinarith [mul_nonneg ht.1 hc, mul_nonneg (sub_nonneg.mpr ht.2) hc]
  by_cases hin : s + a ^ 2 < ρ ^ 2
  · have hout : ρ ^ 2 ≤ s + (a + d) ^ 2 := by
      by_contra h
      exact hsides ⟨fun _ => not_le.mp h, fun _ => hin⟩
    refine ⟨axis_upper s a (t * d) ρ c hw1 hρ hin hs, ?_⟩
    by_cases hρc : ρ - c ≤ 0
    · exact Or.inl hρc
    · right
      have h := axis_lower s (a + d) ((1 - t) * d) ρ c hw2 (not_le.mp hρc) hout hs
      have e : a + d - (1 - t) * d = a + t * d := by ring
      rw [e] at h
      exact h
  · have hin2 : s + (a + d) ^ 2 < ρ ^ 2 := by
      by_contra h
      exact hsides ⟨fun h1 => absurd h1 hin, fun h1 => absurd h1 h⟩
    have hw3 : -c ≤ -((1 - t) * d) ∧ -((1 - t) * d) ≤ c := ⟨by linarith [hw2.2], by linarith [hw2.1]⟩
    have hw4 : -c ≤ -(t * d) ∧ -(t * d) ≤ c := ⟨by linarith [hw1.2], by linarith [hw1.1]⟩
    have hup := axis_upper s (a + d) (-((1 - t) * d)) ρ c hw3 hρ hin2 hs
    have e : a + d + -((1 - t) * d) = a + t * d := by ring
    rw [e] at hup
    refine ⟨hup, ?_⟩
    by_cases hρc : ρ - c ≤ 0
    · exact Or.inl hρc
    · right
      have h := axis_lower s a (-(t * d)) ρ c hw4 (not_le.mp hρc) (not_lt.mp hin) hs
      have e2 : a - -(t * d) = a + t * d := by ring
      rw [e2] at h
      exact h

theorem edge_axis :
    ∀ i : Fin 12,
      ((vertIndex (edgeIndex i.val 0) 0 + 1 = vertIndex (edgeIndex i.val 1) 0 ∨
          vertIndex (edgeIndex i.val 1) 0 + 1 = vertIndex (edgeIndex i.val 0) 0) ∧
        vertIndex (edgeIndex i.val 0) 1 = vertIndex (edgeIndex i.val 1) 1 ∧
        vertIndex (edgeIndex i.val 0) 2 = vertIndex (edgeIndex i.val 1) 2) ∨
      (vertIndex (edgeIndex i.val 0) 0 = vertIndex (edgeIndex i.val 1) 0 ∧
        (vertIndex (edgeIndex i.val 0) 1 + 1 = vertIndex (edgeIndex i.val 1) 1 ∨
          vertIndex (edgeIndex i.val 1) 1 + 1 = vertIndex (edgeIndex i.val 0) 1) ∧
        vertIndex (edgeIndex i.val 0) 2 = vertIndex (edgeIndex i.val 1) 2) ∨
      (vertIndex (edgeIndex i.val 0) 0 = vertIndex (edgeIndex i.val 1) 0 ∧
        vertIndex (edgeIndex i.val 0) 1 = vertIndex (edgeIndex i.val 1) 1 ∧
        (vertIndex (edgeIndex i.val 0) 2 + 1 = vertIndex (edgeIndex i.val 1) 2 ∨
          vertIndex (edgeIndex i.val 1) 2 + 1 = vertIndex (edgeIndex i.val 0) 2)) := by
  decide

/-- A point `mix p0 p1 t` of a segment of length `c` along one axis, one end of which
lies inside the sphere of radius `ρ` about the origin and the other not, has a distance
to the origin within `c` of `ρ`. -/
theorem edge_within (p0 p1 : Vec3) (c ρ t : ℚ) (hc : 0 ≤ c) (hρ : 0 ≤ ρ)
    (ht : 0 ≤ t ∧ t ≤ 1)
    (hedge : ((p1.x - p0.x = c ∨ p1.x - p0.x = -c) ∧ p1.y = p0.y ∧ p1.z = p0.z) ∨
      (p1.x = p0.x ∧ (p1.y - p0.y = c ∨ p1.y - p0.y = -c) ∧ p1.z = p0.z) ∨
      (p1.x = p0.x ∧ p1.y = p0.y ∧ (p1.z - p0.z = c ∨ p1.z - p0.z = -c)))
    (hsides : ¬ (Vec3.dot p0 p0 < ρ ^ 2 ↔ Vec3.dot p1 p1 < ρ ^ 2)) :
    DistanceWithin (Vec3.mix p0 p1 t) ρ c := by
  obtain ⟨x0, y0, z0⟩ := p0
  obtain ⟨x1, y1, z1⟩ := p1
  simp only [DistanceWithin, Vec3.dot, Vec3.mix] at hedge hsides ⊢
  rcases hedge with ⟨hd, rfl, rfl⟩ | ⟨rfl, hd, rfl⟩ | ⟨rfl, rfl, hd⟩
  · have e0 : x0 * x0 + y1 * y1 + z1 * z1 = (y1 ^ 2 + z1 ^ 2) + x0 ^ 2 := by ring
    have e1 : x1 * x1 + y1 * y1 + z1 * z1 = (y1 ^ 2 + z1 ^ 2) + (x0 + (x1 - x0)) ^ 2 := by ring
    have ev : (x0 + t * (x1 - x0)) * (x0 + t * (x1 - x0)) +
        (y1 + t * (y1 - y1)) * (y1 + t * (y1 - y1)) +
        (z1 + t * (z1 - z1)) * (z1 + t * (z1 - z1)) =
        (y1 ^ 2 + z1 ^ 2) + (x0 + t * (x1 - x0)) ^ 2 := by ring
    rw [e0, e1] at hsides
    rw [ev]
    exact axis_within _ _ _ t ρ c (by positivity) hd hc hρ ht hsides
  · have e0 : x1 * x1 + y0 * y0 + z1 * z1 = (x1 ^ 2 + z1 ^ 2) + y0 ^ 2 := by ring
    have e1 : x1 * x1 + y1 * y1 + z1 * z1 = (x1 ^ 2 + z1 ^ 2) + (y0 + (y1 - y0)) ^ 2 := by ring
    have ev : (x1 + t * (x1 - x1)) * (x1 + t * (x1 - x1)) +
        (y0 + t * (y1 - y0)) * (y0 + t * (y1 - y0)) +
        (z1 + t * (z1 - z1)) * (z1 + t * (z1 - z1)) =
        (x1 ^ 2 + z1 ^ 2) + (y0 + t * (y1 - y0)) ^ 2 := by ring
    rw [e0, e1] at hsides
    rw [ev]
    exact axis_within _ _ _ t ρ c (by positivity) hd hc hρ ht hsides
  · have e0 : x1 * x1 + y1 * y1 + z0 * z0 = (x1 ^ 2 + y1 ^ 2) + z0 ^ 2 := by ring
    have e1 : x1 * x1 + y1 * y1 + z1 * z1 = (x1 ^ 2 + y1 ^ 2) + (z0 + (z1 - z0)) ^ 2 := by ring
    have ev : (x1 + t * (x1 - x1)) * (x1 + t * (x1 - x1)) +
        (y1 + t * (y1 - y1)) * (y1 + t * (y1 - y1)) +
        (z0 + t * (z1 - z0)) * (z0 + t * (z1 - z0)) =
        (x1 ^ 2 + y1 ^ 2) + (z0 + t * (z1 - z0)) ^ 2 := by ring
    rw [e0, e1] at hsides
    rw [ev]
    exact axis_within _ _ _ t ρ c (by positivity) hd hc hρ ht hsides

theorem lattice_edge (min : Vec3) (c : ℚ) (a0 a1 a2 b0 b1 b2 : Nat)
    (hedge : ((a0 + 1 = b0 ∨ b0 + 1 = a0) ∧ a1 = b1 ∧ a2 = b2) ∨
      (a0 = b0 ∧ (a1 + 1 = b1 ∨ b1 + 1 = a1) ∧ a2 = b2) ∨
      (a0 = b0 ∧ a1 = b1 ∧ (a2 + 1 = b2 ∨ b2 + 1 = a2))) :
    (((latticePoint min c b0 b1 b2).x - (latticePoint min c a0 a1 a2).x = c ∨
        (latticePoint min c b0 b1 b2).x - (latticePoint min c a0 a1 a2).x = -c) ∧
      (latticePoint min c b0 b1 b2).y = (latticePoint min c a0 a1 a2).y ∧
      (latticePoint min c b0 b1 b2).z = (latticePoint min c a0 a1 a2).z) ∨
    ((latticePoint min c b0 b1 b2).x = (latticePoint min c a0 a1 a2).x ∧
      ((latticePoint min c b0 b1 b2).y - (latticePoint min c a0 a1 a2).y = c ∨
        (latticePoint min c b0 b1 b2).y - (latticePoint min c a0 a1 a2).y = -c) ∧
      (latticePoint min c b0 b1 b2).z = (latticePoint min c a0 a1 a2).z) ∨
    ((latticePoint min c b0 b1 b2).x = (latticePoint min c a0 a1 a2).x ∧
      (latticePoint min c b0 b1 b2).y = (latticePoint min c a0 a1 a2).y ∧
      ((latticePoint min c b0 b1 b2).z - (latticePoint min c a0 a1 a2).z = c ∨
        (latticePoint min c b0 b1 b2).z - (latticePoint min c a0 a1 a2).z = -c)) := by
  simp only [latticePoint, Vec3.add, Vec3.smul, Vec3.ofNat]
  rcases hedge with ⟨h, rfl, rfl⟩ | ⟨rfl, h, rfl⟩ | ⟨rfl, rfl, h⟩
  · refine Or.inl ⟨?_, rfl, rfl⟩
    rcases h with h | h
    · left
      rw [← h]
      push_cast
      ring
    · right
      rw [← h]
      push_cast
      ring
  · refine Or.inr (Or.inl ⟨rfl, ?_, rfl⟩)
    rcases h with h | h
    · left
      rw [← h]
      push_cast
      ring
    · right
      rw [← h]
      push_cast
      ring
  · refine Or.inr (Or.inr ⟨rfl, rfl, ?_⟩)
    rcases h with h | h
    · left
      rw [← h]
      push_cast
      ring
    · right
      rw [← h]
      push_cast
      ring

theorem cube_scan_vertices (normalize : Vec3 → Vec3) (f : Vec3 → ℚ) (grid : Buf GridVertex)
    (isolevel : ℚ) (min : Vec3) (cubesize : ℚ) (sizeX sizeY sizeZ : Nat)
    (hS : Sampled f min cubesize sizeX sizeY sizeZ grid)
    (l : List (Nat × Nat × Nat))
    (hl : ∀ p ∈ l, p.1 + 1 < sizeX ∧ p.2.1 + 1 < sizeY ∧ p.2.2 + 1 < sizeZ)
    (st : List TerrainVertex × List Nat) :
    ∃ st', l.foldlM
        (fun st p => cubeStep normalize grid isolevel min cubesize sizeX sizeY st p.1 p.2.1 p.2.2)
        st = some st' ∧
      st'.1 = st.1 ++ l.flatMap (cubeVertices normalize f min cubesize isolevel) := by
  induction l generalizing st with
  | nil => exact ⟨st, rfl, by simp⟩
  | cons p l ih =>
    obtain ⟨x, y, z⟩ := p
    obtain ⟨hx, hy, hz⟩ := hl (x, y, z) (List.mem_cons_self _ _)
    have hstep := cubeStep_eq normalize f grid isolevel min cubesize sizeX sizeY sizeZ hS st
      x y z hx hy hz
    rw [generate_eq] at hstep
    obtain ⟨st', hfold, hvb⟩ := ih (fun q hq => hl q (List.mem_cons_of_mem _ hq))
      (st.1 ++ cubeVertices normalize f min cubesize isolevel (x, y, z),
        st.2 ++ (triangleSlots (cubeConfig f min cubesize isolevel x y z)).map
          (fun s => st.1.length + s))
    refine ⟨st', ?_, ?_⟩
    · simp only [List.foldlM_cons, hstep]
      exact hfold
    · rw [hvb, List.flatMap_cons, List.append_assoc]

/-- The vertex buffer of `generateSDF<0>`: the vertices of the flagged edges of the
cubes of the lattice, and nothing else. -/
theorem MarchingCubes.generateSDF0_vertices (normalize : Vec3 → Vec3) (f : Vec3 → ℚ)
    (isolevel : ℚ) (min max : Vec3) (cubesize : ℚ) (v : TerrainVertex) :
    v ∈ (generateSDF0 normalize f isolevel min max cubesize).vb ↔
      ∃ x y z, (x + 1 < (latticeSize min.x max.x cubesize).toNat ∧
        y + 1 < (latticeSize min.y max.y cubesize).toNat ∧
        z + 1 < (latticeSize min.z max.z cubesize).toNat) ∧
        v ∈ cubeVertices normalize f min cubesize isolevel (x, y, z) := by
  by_cases hpos : 0 < latticeSize min.x max.x cubesize ∧ 0 < latticeSize min.y max.y cubesize ∧
      0 < latticeSize min.z max.z cubesize
  · obtain ⟨hx, hy, hz⟩ := hpos
    obtain ⟨grid, tr, vb, ib, hS, hloop, hrun⟩ :=
      MarchingCubes.generateSDF0_run normalize f isolevel min max cubesize hx hy hz
    obtain ⟨st', hscan, hvb⟩ := cube_scan_vertices normalize f grid isolevel min cubesize
      (latticeSize min.x max.x cubesize).toNat (latticeSize min.y max.y cubesize).toNat
      (latticeSize min.z max.z cubesize).toNat hS
      (scanOrder (List.range ((latticeSize min.x max.x cubesize).toNat - 1))
        (List.range ((latticeSize min.y max.y cubesize).toNat - 1))
        (List.range ((latticeSize min.z max.z cubesize).toNat - 1)))
      (fun p hp => by
        rw [mem_scanOrder] at hp
        simp only [List.mem_range] at hp
        omega) ([], [])
    rw [← cubeLoop_eq_scan, hloop] at hscan
    rw [← Option.some.inj hscan] at hvb
    rw [hrun]
    dsimp only at hvb ⊢
    rw [hvb, List.nil_append, List.mem_flatMap]
    constructor
    · rintro ⟨⟨x, y, z⟩, hp, hv⟩
      rw [mem_scanOrder] at hp
      simp only [List.mem_range] at hp
      exact ⟨x, y, z, by omega, hv⟩
    · rintro ⟨x, y, z, hr, hv⟩
      refine ⟨(x, y, z), ?_, hv⟩
      rw [mem_scanOrder]
      simp only [List.mem_range]
      omega
  · have hrun : generateSDF0 normalize f isolevel min max cubesize =
        ⟨[], [], [], Result.assertionFailure⟩ := by
      unfold generateSDF0
      unfold latticeSize at hpos
      simp only [gt_iff_lt]
      rw [if_neg hpos]
    rw [hrun]
    constructor
    · intro h
      exact absurd h (List.not_mem_nil v)
    · rintro ⟨x, y, z, ⟨hx, hy, hz⟩, -⟩
      exfalso
      apply hpos
      refine ⟨?_, ?_, ?_⟩ <;> omega

theorem flagged_of_ends_differ (v000 v100 v110 v010 v001 v101 v111 v011 : GridVertex)
    (isolevel : ℚ) (i : Nat) (hi : i < 12)
    (h : decide ((cornerSample (cornerGrid v000 v100 v110 v010 v001 v101 v111 v011)
        (edgeIndex i 0)).iso < isolevel) ≠
      decide ((cornerSample (cornerGrid v000 v100 v110 v010 v001 v101 v111 v011)
        (edgeIndex i 1)).iso < isolevel)) :
    i ∈ flaggedEdges
      (edgeTable (MarchingCubes.cubeindex v000 v100 v110 v010 v001 v101 v111 v011 isolevel)) := by
  rw [mem_flaggedEdges]
  refine ⟨hi, ?_⟩
  have hc := MarchingCubes.cubeindex_lt v000 v100 v110 v010 v001 v101 v111 v011 isolevel
  apply (tableRows_edge_bits _ (table_row _ hc) ⟨i, hi⟩).mpr
  simp only
  rw [cubeindex_testBit _ _ _ _ _ _ _ _ _ _ (edgeIndex_lt i 0),
    cubeindex_testBit _ _ _ _ _ _ _ _ _ _ (edgeIndex_lt i 1)]
  exact h

theorem lattice_mix (min : Vec3) (c t : ℚ) (x y z a0 a1 a2 b0 b1 b2 : Nat) :
    (latticePoint min c x y z).add
        ((Vec3.mix (Vec3.ofNat a0 a1 a2) (Vec3.ofNat b0 b1 b2) t).smul c) =
      Vec3.mix (latticePoint min c (x + a0) (y + a1) (z + a2))
        (latticePoint min c (x + b0) (y + b1) (z + b2)) t := by
  simp only [latticePoint, Vec3.mix, Vec3.add, Vec3.smul, Vec3.ofNat, Vec3.mk.injEq]
  push_cast
  refine ⟨?_, ?_, ?_⟩ <;> ring

/-- The vertex of a flagged edge of the cube at `(x, y, z)`: the point `mix p0 p1 t` of
the lattice edge, with `t` in `[0, 1]` and the field below the isolevel at exactly one
of the ends `p0`, `p1`. -/
theorem cube_vertex_on_edge (normalize : Vec3 → Vec3) (f : Vec3 → ℚ) (min : Vec3)
    (cubesize isolevel : ℚ) (x y z : Nat) (v : TerrainVertex)
    (hv : v ∈ cubeVertices normalize f min cubesize isolevel (x, y, z)) :
    ∃ i t, i < 12 ∧ (0 ≤ t ∧ t ≤ 1) ∧
      v.position = Vec3.mix
        (latticePoint min cubesize (x + vertIndex (edgeIndex i 0) 0)
          (y + vertIndex (edgeIndex i 0) 1) (z + vertIndex (edgeIndex i 0) 2))
        (latticePoint min cubesize (x + vertIndex (edgeIndex i 1) 0)
          (y + vertIndex (edgeIndex i 1) 1) (z + vertIndex (edgeIndex i 1) 2)) t ∧
      ¬ (f (latticePoint min cubesize (x + vertIndex (edgeIndex i 0) 0)
          (y + vertIndex (edgeIndex i 0) 1) (z + vertIndex (edgeIndex i 0) 2)) < isolevel ↔
        f (latticePoint min cubesize (x + vertIndex (edgeIndex i 1) 0)
          (y + vertIndex (edgeIndex i 1) 1) (z + vertIndex (edgeIndex i 1) 2)) < isolevel) := by
  obtain ⟨i, hi, rfl⟩ := List.mem_map.mp hv
  have h12 := ((mem_flaggedEdges _ _).mp hi).1
  have hd := flagged_ends_differ _ _ _ _ _ _ _ _ isolevel i hi
  have ht := interpolationParameter_unit _ _ _ hd
  rw [cube_sample f min cubesize x y z _ (edgeIndex_lt i 0),
    cube_sample f min cubesize x y z _ (edgeIndex_lt i 1)] at hd
  refine ⟨i, _, h12, ht, ?_, ?_⟩
  · rw [edgeVertex_position]
    exact lattice_mix min cubesize _ x y z _ _ _ _ _ _
  · intro hiff
    apply hd
    exact decide_eq_decide.mpr hiff

theorem dot_self_nonneg (p : Vec3) : 0 ≤ Vec3.dot p p := by
  unfold Vec3.dot
  nlinarith [mul_self_nonneg p.x, mul_self_nonneg p.y, mul_self_nonneg p.z]

/-- The statement on squares is the statement on the Euclidean distance. -/
theorem distanceWithin_sqrt (p : Vec3) (r c : ℚ) (hrc : 0 ≤ r + c) :
    DistanceWithin p r c ↔
      |Real.sqrt ((Vec3.dot p p : ℚ) : ℝ) - (r : ℝ)| ≤ (c : ℝ) := by
  have hrc' : (0 : ℝ) ≤ (r : ℝ) + (c : ℝ) := by exact_mod_cast hrc
  unfold DistanceWithin
  rw [abs_le]
  constructor
  · rintro ⟨hu, hl⟩
    constructor
    · rcases hl with hl | hl
      · have h0 : ((r : ℝ) - (c : ℝ)) ≤ 0 := by exact_mod_cast hl
        linarith [Real.sqrt_nonneg ((Vec3.dot p p : ℚ) : ℝ)]
      · by_cases hpos : 0 < (r : ℝ) - (c : ℝ)
        · have h1 : ((r : ℝ) - (c : ℝ)) ^ 2 ≤ ((Vec3.dot p p : ℚ) : ℝ) := by exact_mod_cast hl
          have := (Real.le_sqrt' hpos).mpr h1
          linarith
        · linarith [Real.sqrt_nonneg ((Vec3.dot p p : ℚ) : ℝ)]
    · have h1 : ((Vec3.dot p p : ℚ) : ℝ) ≤ ((r : ℝ) + (c : ℝ)) ^ 2 := by exact_mod_cast hu
      have := Real.sqrt_le_iff.mpr ⟨hrc', h1⟩
      linarith
  · rintro ⟨hl, hu⟩
    constructor
    · have h1 := (Real.sqrt_le_iff.mp (show Real.sqrt ((Vec3.dot p p : ℚ) : ℝ) ≤ (r : ℝ) + (c : ℝ)
        by linarith)).2
      exact_mod_cast h1
    · by_cases hpos : r - c ≤ 0
      · exact Or.inl hpos
      · right
        have hpos' : 0 < (r : ℝ) - (c : ℝ) := by exact_mod_cast not_le.mp hpos
        have h1 := (Real.le_sqrt' hpos').mp (by linarith)
        exact_mod_cast h1

/-- The vertex of an edge of a cube of the lattice whose ends lie on different sides of
the isolevel is emitted by `generateSDF<0>`, at the interpolated point of the edge. -/
theorem MarchingCubes.generateSDF0_edge_vertex (normalize : Vec3 → Vec3) (f : Vec3 → ℚ)
    (isolevel : ℚ) (min max : Vec3) (cubesize : ℚ) (x y z i : Nat)
    (hx : x + 1 < (latticeSize min.x max.x cubesize).toNat)
    (hy : y + 1 < (latticeSize min.y max.y cubesize).toNat)
    (hz : z + 1 < (latticeSize min.z max.z cubesize).toNat) (hi : i < 12)
    (hsides : ¬ (f (latticePoint min cubesize (x + vertIndex (edgeIndex i 0) 0)
          (y + vertIndex (edgeIndex i 0) 1) (z + vertIndex (edgeIndex i 0) 2)) < isolevel ↔
        f (latticePoint min cubesize (x + vertIndex (edgeIndex i 1) 0)
          (y + vertIndex (edgeIndex i 1) 1) (z + vertIndex (edgeIndex i 1) 2)) < isolevel)) :
    ∃ v ∈ (generateSDF0 normalize f isolevel min max cubesize).vb,
      v.position = Vec3.mix
        (latticePoint min cubesize (x + vertIndex (edgeIndex i 0) 0)
          (y + vertIndex (edgeIndex i 0) 1) (z + vertIndex (edgeIndex i 0) 2))
        (latticePoint min cubesize (x + vertIndex (edgeIndex i 1) 0)
          (y + vertIndex (edgeIndex i 1) 1) (z + vertIndex (edgeIndex i 1) 2))
        (interpolationParameter
          (f (latticePoint min cubesize (x + vertIndex (edgeIndex i 0) 0)
            (y + vertIndex (edgeIndex i 0) 1) (z + vertIndex (edgeIndex i 0) 2)))
          (f (latticePoint min cubesize (x + vertIndex (edgeIndex i 1) 0)
            (y + vertIndex (edgeIndex i 1) 1) (z + vertIndex (edgeIndex i 1) 2))) isolevel) := by
  have hflag : i ∈ flaggedEdges (edgeTable (cubeConfig f min cubesize isolevel x y z)) := by
    apply flagged_of_ends_differ _ _ _ _ _ _ _ _ isolevel i hi
    rw [cube_sample f min cubesize x y z _ (edgeIndex_lt i 0),
      cube_sample f min cubesize x y z _ (edgeIndex_lt i 1)]
    intro h
    exact hsides (decide_eq_decide.mp h)
  refine ⟨_, (MarchingCubes.generateSDF0_vertices normalize f isolevel min max cubesize _).mpr
    ⟨x, y, z, ⟨hx, hy, hz⟩, List.mem_map.mpr ⟨i, hflag, rfl⟩⟩, ?_⟩
  rw [edgeVertex_position, cube_sample f min cubesize x y z _ (edgeIndex_lt i 0),
    cube_sample f min cubesize x y z _ (edgeIndex_lt i 1)]
  exact lattice_mix min cubesize _ x y z _ _ _ _ _ _

/-- A value that is the Euclidean length of `p` (non-negative, with square `p . p`)
lies below a radius `r >= 0` exactly when `p` lies inside the sphere of that radius. -/
theorem World.length_side (length : Vec3 → ℚ) (p : Vec3) (r : ℚ) (h0 : 0 ≤ length p)
    (hsq : length p ^ 2 = Vec3.dot p p) (hr : 0 ≤ r) :
    length p < r ↔ Vec3.dot p p < r ^ 2 := by
  rw [← hsq]
  constructor
  · intro h
    nlinarith
  · intro h
    by_contra hn
    have hle : r ≤ length p := not_lt.mp hn
    nlinarith

/-! ### The claims -/

/-- C1: for every configuration `c` in `0..255` and edge `i` in `0..11`, bit `i` of
`MC_EDGETABLE[c]` is set exactly when the two corners of edge `i` have different
bits in `c`. -/
theorem edgeTable_bit_iff_corners_differ :
    ∀ (c : Fin 256) (i : Fin 12),
      ((edgeTable c).testBit i = true ↔
        Nat.testBit c (edgeIndex i 0) ≠ Nat.testBit c (edgeIndex i 1)) :=
  fun c i => tableRows_edge_bits _ (table_row c c.2) i

/-- C2: every non-negative entry of the row `MC_TRITABLE[c]` is an edge index in
`0..11` whose bit is set in `MC_EDGETABLE[c]`. -/
theorem triTable_entries_flagged (c : Nat) (hc : c < 256) (e : Int) (he : e ∈ triRow c)
    (hpos : 0 ≤ e) : e < 12 ∧ (edgeTable c).testBit e.toNat = true :=
  tableRows_entries _ (table_row c hc) e he hpos

/-- C2 at configuration 1, entry 8. -/
theorem triTable_entries_flagged_witness :
    (1 < 256 ∧ (8 : Int) ∈ triRow 1 ∧ (0 : Int) ≤ 8) ∧
      ((8 : Int) < 12 ∧ (edgeTable 1).testBit (8 : Int).toNat = true) :=
  ⟨⟨by decide, by decide, by decide⟩,
    triTable_entries_flagged 1 (by decide) 8 (by decide) (by decide)⟩

/-- C3: `MC_EDGETABLE[c]` is nonzero exactly when `c` is neither 0 nor 255. -/
theorem edgeTable_ne_zero_iff :
    ∀ c : Fin 256, (edgeTable c ≠ 0 ↔ ((c : Nat) ≠ 0 ∧ (c : Nat) ≠ 255)) := by
  intro c
  rw [Ne, edgeTable_eq_zero_iff c c.2, not_or]

/-- C4 as stated fails: configuration 1 (only corner 0 below the isolevel) has the
nonzero mask `0x109`, which has three set bits. -/
theorem edgeTable_popcount_odd_at_one :
    edgeTable 1 = 0x109 ∧ edgeTable 1 ≠ 0 ∧ popcount (edgeTable 1) = 3 ∧
      ¬ (popcount (edgeTable 1) % 2 = 0) := by
  decide

/-- C4, amended: the number of set bits of `MC_EDGETABLE[c]` has the parity of the
number of set bits of `c`, so it is even exactly when an even number of corners
lies below the isolevel; for a nonzero entry it lies between 3 and 12. -/
theorem edgeTable_popcount_parity :
    ∀ c : Fin 256,
      popcount (edgeTable c) % 2 = popcount c % 2 ∧
        (edgeTable c ≠ 0 → 3 ≤ popcount (edgeTable c) ∧ popcount (edgeTable c) ≤ 12) :=
  fun c => tableRows_popcount _ (table_row c c.2)

/-- C5: the configuration index of both extractors lies in `0..255` and its bit `i`
is set exactly when the iso value of corner `i`, the one at `MC_VERTINDEX[i]`, is
strictly below the isolevel. -/
theorem cubeindex_bits (v000 v100 v110 v010 v001 v101 v111 v011 : GridVertex) (isolevel : ℚ) :
    MarchingCubes.cubeindex v000 v100 v110 v010 v001 v101 v111 v011 isolevel < 256 ∧
    SurfaceNets.cubeindex v000 v100 v110 v010 v001 v101 v111 v011 isolevel =
      MarchingCubes.cubeindex v000 v100 v110 v010 v001 v101 v111 v011 isolevel ∧
    ∀ i : Fin 8,
      ((MarchingCubes.cubeindex v000 v100 v110 v010 v001 v101 v111 v011 isolevel).testBit i
          = true ↔
        (cornerGrid v000 v100 v110 v010 v001 v101 v111 v011
          (vertIndex i 2) (vertIndex i 1) (vertIndex i 0)).iso < isolevel) := by
  have hb := bitsToNat_spec (decide (v000.iso < isolevel)) (decide (v100.iso < isolevel))
    (decide (v110.iso < isolevel)) (decide (v010.iso < isolevel))
    (decide (v001.iso < isolevel)) (decide (v101.iso < isolevel))
    (decide (v111.iso < isolevel)) (decide (v011.iso < isolevel))
  rw [MarchingCubes.cubeindex_eq]
  refine ⟨hb.1, MarchingCubes.cubeindex_eq _ _ _ _ _ _ _ _ _, ?_⟩
  intro i
  rw [hb.2 i]
  fin_cases i <;> simp [cornerGrid, vertIndex, MC_VERTINDEX]

/-- C6: the interpolation parameter of Marching Cubes and of `NaiveTraits::intersect`
is `(isolevel - iso0) / (iso1 - iso0)` when `|iso0 - iso1| > 0.0001` and 0 otherwise;
the quotient is taken only with a denominator of magnitude above `0.0001`, and in the
degenerate case the emitted point is the first endpoint. -/
theorem interpolation_parameter_guarded (normalize : Vec3 → Vec3)
    (grid : Nat → Nat → Nat → GridVertex) (isolevel : ℚ) (offset : Vec3) (scale : ℚ) (i : Nat)
    (g0 g1 : GridVertex) (f : Vec3 → ℚ) (corner v0 v1 : Vec3) :
    edgeVertex normalize grid isolevel offset scale i =
      { position := ((Vec3.mix (cornerPoint (edgeIndex i 0)) (cornerPoint (edgeIndex i 1))
            (interpolationParameter (cornerSample grid (edgeIndex i 0)).iso
              (cornerSample grid (edgeIndex i 1)).iso isolevel)).smul scale).add offset
        normal := normalize (Vec3.mix (cornerSample grid (edgeIndex i 0)).gradient
            (cornerSample grid (edgeIndex i 1)).gradient
            (interpolationParameter (cornerSample grid (edgeIndex i 0)).iso
              (cornerSample grid (edgeIndex i 1)).iso isolevel)) } ∧
    SurfaceNets.NaiveTraits.intersect g0 g1 f isolevel corner v0 v1 =
      (Vec3.mix v0 v1 (interpolationParameter g0.iso g1.iso isolevel),
        Vec3.mix g0.gradient g1.gradient (interpolationParameter g0.iso g1.iso isolevel)) ∧
    (|g0.iso - g1.iso| > 1 / 10000 →
      interpolationParameter g0.iso g1.iso isolevel = (isolevel - g0.iso) / (g1.iso - g0.iso) ∧
        |g1.iso - g0.iso| > 1 / 10000) ∧
    (¬ |g0.iso - g1.iso| > 1 / 10000 →
      interpolationParameter g0.iso g1.iso isolevel = 0 ∧
        (SurfaceNets.NaiveTraits.intersect g0 g1 f isolevel corner v0 v1).1 = v0) ∧
    (¬ |(cornerSample grid (edgeIndex i 0)).iso - (cornerSample grid (edgeIndex i 1)).iso|
          > 1 / 10000 →
      (edgeVertex normalize grid isolevel offset scale i).position =
        ((cornerPoint (edgeIndex i 0)).smul scale).add offset) := by
  refine ⟨?_, rfl, ?_, ?_, ?_⟩
  · simp only [edgeVertex, interpolationParameter, cornerPoint, cornerSample,
      GridVertex.gradient, Vec3.mix, Vec3.smul, Vec3.add, Vec3.ofNat]
    simp only [int_step_cast]
    congr 2
    congr 1 <;> ring
  · intro h
    refine ⟨if_pos h, ?_⟩
    rwa [abs_sub_comm]
  · intro h
    have ht : interpolationParameter g0.iso g1.iso isolevel = 0 := if_neg h
    refine ⟨ht, ?_⟩
    show Vec3.mix v0 v1 (if |g0.iso - g1.iso| > 1 / 10000 then _ else 0) = v0
    rw [if_neg h]
    simp [Vec3.mix]
  · intro h
    simp only [edgeVertex, cornerPoint, cornerSample, Vec3.smul, Vec3.add, Vec3.ofNat] at h ⊢
    rw [if_neg h]
    simp

/-- C7: one call of `CubeGenerator<0>::generate` on a cube with configuration `c`
appends one vertex per flagged edge of `MC_EDGETABLE[c]`, in increasing edge order,
`popcount(MC_EDGETABLE[c])` in all; for every complete triple `(a, b, d)` of
`MC_TRITABLE[c]` before the first `-1` it appends, in table order, the indices of the
vertices created for `a`, `d`, `b`; three indices per triple. -/
theorem MarchingCubes.generate_appends (normalize : Vec3 → Vec3) (vb : List TerrainVertex) (ib : List Nat)
    (v000 v100 v110 v010 v001 v101 v111 v011 : GridVertex)
    (isolevel : ℚ) (offset : Vec3) (scale : ℚ) :
    CubeGenerator0.generate normalize vb ib v000 v100 v110 v010 v001 v101 v111 v011
        isolevel offset scale =
      some
        (vb ++ (flaggedEdges
            (edgeTable (cubeindex v000 v100 v110 v010 v001 v101 v111 v011 isolevel))).map
            (edgeVertex normalize (cornerGrid v000 v100 v110 v010 v001 v101 v111 v011)
              isolevel offset scale),
          ib ++ (completeTriples
            (triRow (cubeindex v000 v100 v110 v010 v001 v101 v111 v011 isolevel))).flatMap
            fun t =>
              [vb.length + edgeSlot
                  (edgeTable (cubeindex v000 v100 v110 v010 v001 v101 v111 v011 isolevel))
                  t.1.toNat,
                vb.length + edgeSlot
                  (edgeTable (cubeindex v000 v100 v110 v010 v001 v101 v111 v011 isolevel))
                  t.2.2.toNat,
                vb.length + edgeSlot
                  (edgeTable (cubeindex v000 v100 v110 v010 v001 v101 v111 v011 isolevel))
                  t.2.1.toNat]) ∧
    (flaggedEdges
        (edgeTable (cubeindex v000 v100 v110 v010 v001 v101 v111 v011 isolevel))).length =
      popcount (edgeTable (cubeindex v000 v100 v110 v010 v001 v101 v111 v011 isolevel)) ∧
    (∀ t ∈ completeTriples
        (triRow (cubeindex v000 v100 v110 v010 v001 v101 v111 v011 isolevel)),
      ∀ e ∈ [t.1, t.2.1, t.2.2],
        (vb ++ (flaggedEdges
            (edgeTable (cubeindex v000 v100 v110 v010 v001 v101 v111 v011 isolevel))).map
            (edgeVertex normalize (cornerGrid v000 v100 v110 v010 v001 v101 v111 v011)
              isolevel offset scale)).get?
          (vb.length + edgeSlot
            (edgeTable (cubeindex v000 v100 v110 v010 v001 v101 v111 v011 isolevel))
            e.toNat) =
        some (edgeVertex normalize (cornerGrid v000 v100 v110 v010 v001 v101 v111 v011)
          isolevel offset scale e.toNat)) ∧
    ((completeTriples
        (triRow (cubeindex v000 v100 v110 v010 v001 v101 v111 v011 isolevel))).flatMap
        fun t =>
          [vb.length + edgeSlot
              (edgeTable (cubeindex v000 v100 v110 v010 v001 v101 v111 v011 isolevel))
              t.1.toNat,
            vb.length + edgeSlot
              (edgeTable (cubeindex v000 v100 v110 v010 v001 v101 v111 v011 isolevel))
              t.2.2.toNat,
            vb.length + edgeSlot
              (edgeTable (cubeindex v000 v100 v110 v010 v001 v101 v111 v011 isolevel))
              t.2.1.toNat]).length =
      3 * (completeTriples
        (triRow (cubeindex v000 v100 v110 v010 v001 v101 v111 v011 isolevel))).length := by
  have hlt := MarchingCubes.cubeindex_lt v000 v100 v110 v010 v001 v101 v111 v011 isolevel
  have hgen := generate_eq normalize vb ib v000 v100 v110 v010 v001 v101 v111 v011
    isolevel offset scale
  rw [triangleSlots_shift] at hgen
  generalize cubeindex v000 v100 v110 v010 v001 v101 v111 v011 isolevel = c at hlt hgen
  refine ⟨hgen, edgeTable_flagged_length ⟨c, hlt⟩, ?_, ?_⟩
  · intro t ht e he
    have hl := triples_slot_lookup ⟨c, hlt⟩ t ht
    simp only [List.mem_cons, List.mem_singleton, List.not_mem_nil, or_false] at he
    apply created_vertex_lookup
    rcases he with rfl | rfl | rfl
    · exact hl.1
    · exact hl.2.1
    · exact hl.2.2
  · induction completeTriples (triRow c) with
    | nil => rfl
    | cons t ts ih => simp only [List.flatMap_cons, List.length_append, ih, List.length_cons,
        List.length_nil]; omega

/-- C8: with positive lattice dimensions the mesh built by
`MarchingCubes::generateSDF<0>` is well formed: the call does not run into undefined
behaviour, the number of indices is a multiple of 3, every index is below the number
of vertices, and the returned geometry holds exactly these buffers; and every call of
`CubeGenerator<0>::generate` succeeds (no read of an unassigned cell of `edges`) and
appends only indices of vertices appended by that same call. -/
theorem MarchingCubes.generateSDF0_wellformed (normalize : Vec3 → Vec3) (f : Vec3 → ℚ)
    (isolevel : ℚ) (min max : Vec3) (cubesize : ℚ)
    (hx : 0 < latticeSize min.x max.x cubesize) (hy : 0 < latticeSize min.y max.y cubesize)
    (hz : 0 < latticeSize min.z max.z cubesize) :
    (generateSDF0 normalize f isolevel min max cubesize).ib.length % 3 = 0 ∧
    (∀ i ∈ (generateSDF0 normalize f isolevel min max cubesize).ib,
      i < (generateSDF0 normalize f isolevel min max cubesize).vb.length) ∧
    ((generateSDF0 normalize f isolevel min max cubesize).result =
      if (generateSDF0 normalize f isolevel min max cubesize).ib = [] then Result.value none 0
      else Result.value
        (some ⟨(generateSDF0 normalize f isolevel min max cubesize).vb,
          (generateSDF0 normalize f isolevel min max cubesize).ib⟩)
        (generateSDF0 normalize f isolevel min max cubesize).ib.length) ∧
    (∀ (vb : List TerrainVertex) (ib : List Nat)
        (v000 v100 v110 v010 v001 v101 v111 v011 : GridVertex) (offset : Vec3) (scale : ℚ),
      ∃ vs is,
        CubeGenerator0.generate normalize vb ib v000 v100 v110 v010 v001 v101 v111 v011
          isolevel offset scale = some (vb ++ vs, ib ++ is) ∧
        is.length % 3 = 0 ∧ ∀ i ∈ is, vb.length ≤ i ∧ i < vb.length + vs.length) := by
  obtain ⟨grid, tr, vb, ib, hS, hloop, hrun⟩ :=
    MarchingCubes.generateSDF0_run normalize f isolevel min max cubesize hx hy hz
  rw [cubeLoop_eq_scan] at hloop
  obtain ⟨st', hfold, hwf, -, -⟩ := cube_scan normalize f grid isolevel min cubesize
    _ _ _ hS
    (scanOrder (List.range ((latticeSize min.x max.x cubesize).toNat - 1))
      (List.range ((latticeSize min.y max.y cubesize).toNat - 1))
      (List.range ((latticeSize min.z max.z cubesize).toNat - 1)))
    (fun p hp => by
      rw [mem_scanOrder] at hp
      simp only [List.mem_range] at hp
      omega) ([], [])
  rw [hloop] at hfold
  cases Option.some.inj hfold
  have hw := hwf ⟨rfl, fun i hi => absurd hi (List.not_mem_nil i)⟩
  rw [hrun]
  refine ⟨hw.1, hw.2, rfl, ?_⟩
  intro vb ib v000 v100 v110 v010 v001 v101 v111 v011 offset scale
  obtain ⟨vs, is, hgen, h3, hrange, -, -⟩ := generate_step normalize vb ib
    v000 v100 v110 v010 v001 v101 v111 v011 isolevel offset scale
  exact ⟨vs, is, hgen, h3, hrange⟩

/-- C8 on the box `[0, 2]^3` with cell size 1 and the field `planeField`. -/
theorem MarchingCubes.generateSDF0_wellformed_witness :
    (0 < latticeSize (0 : ℚ) 2 1) ∧
      (generateSDF0 id planeField 0 ⟨0, 0, 0⟩ ⟨2, 2, 2⟩ 1).ib.length % 3 = 0 ∧
      (∀ i ∈ (generateSDF0 id planeField 0 ⟨0, 0, 0⟩ ⟨2, 2, 2⟩ 1).ib,
        i < (generateSDF0 id planeField 0 ⟨0, 0, 0⟩ ⟨2, 2, 2⟩ 1).vb.length) :=
  ⟨latticeSize_two_pos,
    (MarchingCubes.generateSDF0_wellformed id planeField 0 ⟨0, 0, 0⟩ ⟨2, 2, 2⟩ 1
      latticeSize_two_pos latticeSize_two_pos latticeSize_two_pos).1,
    (MarchingCubes.generateSDF0_wellformed id planeField 0 ⟨0, 0, 0⟩ ⟨2, 2, 2⟩ 1
      latticeSize_two_pos latticeSize_two_pos latticeSize_two_pos).2.1⟩

/-- C9: both extractors fail their assertion exactly when some lattice dimension
`ceil((max - min) / cubesize)` is not positive, and a failing call has allocated
nothing and evaluated the field nowhere. -/
theorem extraction_fails_iff (normalize : Vec3 → Vec3) (traits : SurfaceNets.Traits)
    (f : Vec3 → ℚ) (isolevel : ℚ) (min max : Vec3) (cubesize : ℚ) :
    (((generateSDF0 normalize f isolevel min max cubesize).result = Result.assertionFailure ↔
        (latticeSize min.x max.x cubesize ≤ 0 ∨ latticeSize min.y max.y cubesize ≤ 0 ∨
          latticeSize min.z max.z cubesize ≤ 0)) ∧
      ((generateSDF0 normalize f isolevel min max cubesize).result = Result.assertionFailure →
        (generateSDF0 normalize f isolevel min max cubesize).trace = [])) ∧
    (((SurfaceNets.generateSDF normalize traits f isolevel min max cubesize).result =
          Result.assertionFailure ↔
        (latticeSize min.x max.x cubesize ≤ 0 ∨ latticeSize min.y max.y cubesize ≤ 0 ∨
          latticeSize min.z max.z cubesize ≤ 0)) ∧
      ((SurfaceNets.generateSDF normalize traits f isolevel min max cubesize).result =
          Result.assertionFailure →
        (SurfaceNets.generateSDF normalize traits f isolevel min max cubesize).trace = [])) :=
  ⟨MarchingCubes.generateSDF0_assert normalize f isolevel min max cubesize,
    SurfaceNets.generateSDF_assert normalize traits f isolevel min max cubesize⟩

/-- C10: with positive lattice dimensions, when all lattice samples are below the
isolevel, or all are at or above it, both extractors emit no vertex and no index and
return the empty result; and `MarchingCubes::generateSDF<0>` returns the empty result
only if every processed cube has its eight corners on one side of the isolevel. -/
theorem uniform_side_empty (normalize : Vec3 → Vec3) (traits : SurfaceNets.Traits)
    (f : Vec3 → ℚ) (isolevel : ℚ) (min max : Vec3) (cubesize : ℚ)
    (hx : 0 < latticeSize min.x max.x cubesize) (hy : 0 < latticeSize min.y max.y cubesize)
    (hz : 0 < latticeSize min.z max.z cubesize) :
    (UniformSide f min cubesize isolevel (latticeSize min.x max.x cubesize).toNat
        (latticeSize min.y max.y cubesize).toNat (latticeSize min.z max.z cubesize).toNat →
      ((generateSDF0 normalize f isolevel min max cubesize).vb = [] ∧
        (generateSDF0 normalize f isolevel min max cubesize).ib = [] ∧
        (generateSDF0 normalize f isolevel min max cubesize).result = Result.value none 0) ∧
      ((SurfaceNets.generateSDF normalize traits f isolevel min max cubesize).vb = [] ∧
        (SurfaceNets.generateSDF normalize traits f isolevel min max cubesize).ib = [] ∧
        (SurfaceNets.generateSDF normalize traits f isolevel min max cubesize).result =
          Result.value none 0)) ∧
    ((generateSDF0 normalize f isolevel min max cubesize).result = Result.value none 0 →
      ∀ x y z, x + 1 < (latticeSize min.x max.x cubesize).toNat →
        y + 1 < (latticeSize min.y max.y cubesize).toNat →
        z + 1 < (latticeSize min.z max.z cubesize).toNat →
        ((∀ dx dy dz, dx ≤ 1 → dy ≤ 1 → dz ≤ 1 →
            f (latticePoint min cubesize (x + dx) (y + dy) (z + dz)) < isolevel) ∨
          (∀ dx dy dz, dx ≤ 1 → dy ≤ 1 → dz ≤ 1 →
            ¬ f (latticePoint min cubesize (x + dx) (y + dy) (z + dz)) < isolevel))) := by
  obtain ⟨grid, tr, vb, ib, hS, hloop, hrun⟩ :=
    MarchingCubes.generateSDF0_run normalize f isolevel min max cubesize hx hy hz
  rw [cubeLoop_eq_scan] at hloop
  obtain ⟨st', hfold, -, hempty, hsame⟩ := cube_scan normalize f grid isolevel min cubesize
    _ _ _ hS
    (scanOrder (List.range ((latticeSize min.x max.x cubesize).toNat - 1))
      (List.range ((latticeSize min.y max.y cubesize).toNat - 1))
      (List.range ((latticeSize min.z max.z cubesize).toNat - 1)))
    (fun p hp => by
      rw [mem_scanOrder] at hp
      simp only [List.mem_range] at hp
      omega) ([], [])
  rw [hloop] at hfold
  cases Option.some.inj hfold
  refine ⟨fun hU => ⟨?_, ?_⟩, ?_⟩
  · have hst := hsame (fun p hp => by
      rw [mem_scanOrder] at hp
      simp only [List.mem_range] at hp
      exact cubeConfig_of_uniform f min cubesize isolevel _ _ _ hU _ _ _
        (by omega) (by omega) (by omega))
    cases hst
    rw [hrun]
    exact ⟨rfl, rfl, rfl⟩
  · obtain ⟨tr', hsn⟩ := SurfaceNets.generateSDF_uniform normalize traits f isolevel min max
      cubesize hx hy hz hU
    rw [hsn]
    exact ⟨rfl, rfl, rfl⟩
  · intro hres x y z hx' hy' hz'
    rw [hrun] at hres
    have hib : ib = [] := by
      by_contra hne
      simp only [hne, if_false] at hres
      cases hres
    have h0 := (hempty hib).2 (x, y, z) (by
      rw [mem_scanOrder]
      simp only [List.mem_range]
      omega)
    exact uniform_of_config f min cubesize isolevel x y z h0

/-- C10 on the box `[0, 2]^3` with cell size 1, isolevel 0 and the field that is 1
everywhere: every sample is above the isolevel and both results are empty. -/
theorem uniform_side_empty_witness :
    (0 < latticeSize (0 : ℚ) 2 1) ∧
      UniformSide constantField ⟨0, 0, 0⟩ 1 0 (latticeSize 0 2 1).toNat
        (latticeSize 0 2 1).toNat (latticeSize 0 2 1).toNat ∧
      (generateSDF0 id constantField 0 ⟨0, 0, 0⟩ ⟨2, 2, 2⟩ 1).result = Result.value none 0 ∧
      (SurfaceNets.generateSDF id SurfaceNets.NaiveTraits constantField 0 ⟨0, 0, 0⟩ ⟨2, 2, 2⟩
        1).result = Result.value none 0 :=
  ⟨latticeSize_two_pos, constantField_uniform _ _ _,
    ((uniform_side_empty id SurfaceNets.NaiveTraits constantField 0 ⟨0, 0, 0⟩ ⟨2, 2, 2⟩ 1
      latticeSize_two_pos latticeSize_two_pos latticeSize_two_pos).1
        (constantField_uniform _ _ _)).1.2.2,
    ((uniform_side_empty id SurfaceNets.NaiveTraits constantField 0 ⟨0, 0, 0⟩ ⟨2, 2, 2⟩ 1
      latticeSize_two_pos latticeSize_two_pos latticeSize_two_pos).1
        (constantField_uniform _ _ _)).2.2.2⟩

/-- C11 as stated fails: `generateWorld 0` on a field that is 1 everywhere, which does
not cross the isolevel `0.01` anywhere, and `generateWorld 8`, an index outside
`0..7`, return the same value `(null, 0)`. -/
theorem generateWorld_empty_eq_invalid :
    (∀ p, ¬ constantField p < 1 / 100) ∧
    (generateWorld id constantField SurfaceNets.NaiveTraits SurfaceNets.NaiveTraits
      SurfaceNets.NaiveTraits SurfaceNets.NaiveTraits SurfaceNets.NaiveTraits 0).result =
      Result.value none 0 ∧
    (generateWorld id constantField SurfaceNets.NaiveTraits SurfaceNets.NaiveTraits
      SurfaceNets.NaiveTraits SurfaceNets.NaiveTraits SurfaceNets.NaiveTraits 8).result =
      Result.value none 0 := by
  refine ⟨fun p => by norm_num [constantField], ?_, ?_⟩
  · obtain ⟨tr, hrun⟩ := MarchingCubes.generateSDF0_uniform id constantField (1 / 100)
      ⟨-40, -16, -16⟩ ⟨40, 16, 16⟩ 1 latticeSize_world.1 latticeSize_world.2
      latticeSize_world.2 (constantField_uniform_any _ _ _ (by norm_num) _ _ _)
    have h : generateWorld id constantField SurfaceNets.NaiveTraits SurfaceNets.NaiveTraits
        SurfaceNets.NaiveTraits SurfaceNets.NaiveTraits SurfaceNets.NaiveTraits 0 =
        generateSDF0 id constantField (1 / 100) ⟨-40, -16, -16⟩ ⟨40, 16, 16⟩ 1 := by
      unfold generateWorld
      simp
    rw [h, hrun]
  · rw [generateWorld_out_of_range _ _ _ _ _ _ _ 8 (by decide)]

/-- C11, amended: the empty result `(null, 0)` differs from the outcome of an
extraction whose lattice dimensions are not all positive, which fails its assertion;
but `generateWorld` returns that same value `(null, 0)` for every configuration index
outside `0..7`. -/
theorem generateWorld_invalid_index (normalize : Vec3 → Vec3) (world : Vec3 → ℚ)
    (t3 t4 t5 t6 t7 : SurfaceNets.Traits) (index : Int) (h : index < 0 ∨ 7 < index) :
    generateWorld normalize world t3 t4 t5 t6 t7 index = ⟨[], [], [], Result.value none 0⟩ ∧
    (∀ (traits : SurfaceNets.Traits) (f : Vec3 → ℚ) (isolevel : ℚ) (min max : Vec3)
        (cubesize : ℚ),
      (latticeSize min.x max.x cubesize ≤ 0 ∨ latticeSize min.y max.y cubesize ≤ 0 ∨
        latticeSize min.z max.z cubesize ≤ 0) →
      (generateSDF0 normalize f isolevel min max cubesize).result = Result.assertionFailure ∧
      (SurfaceNets.generateSDF normalize traits f isolevel min max cubesize).result =
        Result.assertionFailure ∧
      Result.assertionFailure ≠ Result.value none 0) := by
  refine ⟨generateWorld_out_of_range normalize world t3 t4 t5 t6 t7 index h, ?_⟩
  intro traits f isolevel min max cubesize hdim
  exact ⟨(MarchingCubes.generateSDF0_assert normalize f isolevel min max cubesize).1.mpr hdim,
    (SurfaceNets.generateSDF_assert normalize traits f isolevel min max cubesize).1.mpr hdim,
    fun e => Result.noConfusion e⟩

/-- C11, amended, at the index 8. -/
theorem generateWorld_invalid_index_witness :
    ((8 : Int) < 0 ∨ 7 < (8 : Int)) ∧
    generateWorld id constantField SurfaceNets.NaiveTraits SurfaceNets.NaiveTraits
      SurfaceNets.NaiveTraits SurfaceNets.NaiveTraits SurfaceNets.NaiveTraits 8 =
      ⟨[], [], [], Result.value none 0⟩ :=
  ⟨by decide,
    (generateWorld_invalid_index id constantField SurfaceNets.NaiveTraits SurfaceNets.NaiveTraits
      SurfaceNets.NaiveTraits SurfaceNets.NaiveTraits SurfaceNets.NaiveTraits 8 (by decide)).1⟩

/-- C12 as stated fails: on the box `[0, 1]^3` with cell size 1 the lattice has one
point per axis; the field `x + y + z - 1/2` is below the isolevel 0 at the corner
`(0, 0, 0)` of the box and at no other corner, and the result is empty. -/
theorem MarchingCubes.one_cell_box_empty :
    latticeSize 0 1 1 = 1 ∧
    (planeField ⟨0, 0, 0⟩ < 0 ∧ ¬ planeField ⟨1, 0, 0⟩ < 0 ∧ ¬ planeField ⟨1, 1, 0⟩ < 0 ∧
      ¬ planeField ⟨0, 1, 0⟩ < 0 ∧ ¬ planeField ⟨0, 0, 1⟩ < 0 ∧ ¬ planeField ⟨1, 0, 1⟩ < 0 ∧
      ¬ planeField ⟨1, 1, 1⟩ < 0 ∧ ¬ planeField ⟨0, 1, 1⟩ < 0) ∧
    (generateSDF0 id planeField 0 ⟨0, 0, 0⟩ ⟨1, 1, 1⟩ 1).vb = [] ∧
    (generateSDF0 id planeField 0 ⟨0, 0, 0⟩ ⟨1, 1, 1⟩ 1).ib = [] ∧
    (generateSDF0 id planeField 0 ⟨0, 0, 0⟩ ⟨1, 1, 1⟩ 1).result = Result.value none 0 := by
  have h1 : latticeSize 0 1 1 = 1 := by norm_num [latticeSize]
  obtain ⟨tr, hrun⟩ := MarchingCubes.generateSDF0_single_point id planeField 0
    ⟨0, 0, 0⟩ ⟨1, 1, 1⟩ 1 h1 h1 h1
  refine ⟨h1, by norm_num [planeField], ?_, ?_, ?_⟩ <;> rw [hrun]

/-- C12, amended: when the lattice has two points per axis (a box of two cell sizes
in each dimension) and the field is below the isolevel at exactly one corner `k` of
its single cube, `generateSDF<0>` produces exactly one triangle: three vertices, one
on each of the three edges at corner `k`, and the three indices 0, 1, 2 in the order
of row `2^k` of the triangle table. -/
theorem MarchingCubes.generateSDF0_single_corner (normalize : Vec3 → Vec3) (f : Vec3 → ℚ)
    (isolevel : ℚ) (min max : Vec3) (cubesize : ℚ) (k : Nat) (hk : k < 8)
    (hx : latticeSize min.x max.x cubesize = 2) (hy : latticeSize min.y max.y cubesize = 2)
    (hz : latticeSize min.z max.z cubesize = 2)
    (h : OnlyCornerBelow f min cubesize isolevel k) :
    (generateSDF0 normalize f isolevel min max cubesize).vb =
      (flaggedEdges (edgeTable (2 ^ k))).map
        (edgeVertex normalize
          (cornerGrid (sampleAt f min cubesize 0 0 0) (sampleAt f min cubesize 1 0 0)
            (sampleAt f min cubesize 1 1 0) (sampleAt f min cubesize 0 1 0)
            (sampleAt f min cubesize 0 0 1) (sampleAt f min cubesize 1 0 1)
            (sampleAt f min cubesize 1 1 1) (sampleAt f min cubesize 0 1 1))
          isolevel (latticePoint min cubesize 0 0 0) cubesize) ∧
    (generateSDF0 normalize f isolevel min max cubesize).ib = triangleSlots (2 ^ k) ∧
    (generateSDF0 normalize f isolevel min max cubesize).vb.length = 3 ∧
    (generateSDF0 normalize f isolevel min max cubesize).ib.length = 3 ∧
    (∀ s, s < 3 → s ∈ (generateSDF0 normalize f isolevel min max cubesize).ib) ∧
    (∀ e ∈ flaggedEdges (edgeTable (2 ^ k)), edgeIndex e 0 = k ∨ edgeIndex e 1 = k) ∧
    (generateSDF0 normalize f isolevel min max cubesize).result =
      Result.value (some ⟨(generateSDF0 normalize f isolevel min max cubesize).vb,
        (generateSDF0 normalize f isolevel min max cubesize).ib⟩) 3 := by
  obtain ⟨tr, hrun⟩ := MarchingCubes.generateSDF0_two_points normalize f isolevel min max
    cubesize k hk hx hy hz h
  obtain ⟨r1, r2, r3, r4⟩ := single_corner_rows ⟨k, hk⟩
  rw [hrun]
  refine ⟨rfl, rfl, ?_, r3, r4, r2, rfl⟩
  simp only [List.length_map]
  exact r1

/-- C12, amended, on the box `[0, 2]^3` with cell size 1 and the field
`x + y + z - 1/2`, which is below the isolevel 0 at the corner `(0, 0, 0)` only. -/
theorem MarchingCubes.generateSDF0_single_corner_witness :
    (0 < 8 ∧ latticeSize 0 2 1 = 2 ∧ OnlyCornerBelow planeField ⟨0, 0, 0⟩ 1 0 0) ∧
    (generateSDF0 id planeField 0 ⟨0, 0, 0⟩ ⟨2, 2, 2⟩ 1).vb.length = 3 ∧
    (generateSDF0 id planeField 0 ⟨0, 0, 0⟩ ⟨2, 2, 2⟩ 1).ib.length = 3 :=
  ⟨⟨by decide, latticeSize_two, planeField_only_corner⟩,
    (MarchingCubes.generateSDF0_single_corner id planeField 0 ⟨0, 0, 0⟩ ⟨2, 2, 2⟩ 1 0
      (by decide) latticeSize_two latticeSize_two latticeSize_two planeField_only_corner).2.2.1,
    (MarchingCubes.generateSDF0_single_corner id planeField 0 ⟨0, 0, 0⟩ ⟨2, 2, 2⟩ 1 0
      (by decide) latticeSize_two latticeSize_two latticeSize_two
      planeField_only_corner).2.2.2.1⟩

/-- C14: for every fine lattice point `(x, y, z)` of `{0, 1, 2}^3` the tessellation
reads only coarse corners with indices in `{0, 1}`; the iso value of `tgrid[z][y][x]`
is the trilinear interpolation of the eight coarse iso values at `(x/2, y/2, z/2)`,
which is the mean of the coarse corners contributing to the point (one, two, four or
eight of them); its normal is that of the coarse corner `(x div 2, y div 2, z div 2)`. -/
theorem MarchingCubes.tgrid_trilinear (grid : Nat → Nat → Nat → GridVertex) (z y x : Fin 3) :
    ∃ g, MarchingCubes.tgridCell grid z y x = some g ∧
      MarchingCubes.tgrid grid z y x = some g ∧
      g.iso = trilinear (fun k j i => (grid k j i).iso)
        ((x : ℚ) / 2) ((y : ℚ) / 2) ((z : ℚ) / 2) ∧
      g.iso = contributingMean grid z y x ∧
      g.nx = (grid (z / 2) (y / 2) (x / 2)).nx ∧
      g.ny = (grid (z / 2) (y / 2) (x / 2)).ny ∧
      g.nz = (grid (z / 2) (y / 2) (x / 2)).nz := by
  refine ⟨tgridValue grid z y x, tgridCell_eq grid z y x, ?_, rfl, ?_, rfl, rfl, rfl⟩
  · unfold MarchingCubes.tgrid
    rw [if_pos ⟨z.2, y.2, x.2⟩]
    exact tgridCell_eq grid z y x
  · fin_cases z <;> fin_cases y <;> fin_cases x <;>
      simp [tgridValue, trilinear, contributingMean, contributing] <;> ring

/-- C15: at depth `Lod + 1` a cube with nonzero edge mask makes its eight recursive
calls at depth `Lod` in the order `z` outermost, `x` innermost; the call for octant
`(x, y, z)` gets `scale / 2`, the offset `offset + (x, y, z) * (scale / 2)` and, in
the order of `MC_VERTINDEX`, the fine lattice points at the octant plus the corner
offset; the eight sub-boxes cover the box `[offset, offset + scale]^3` exactly and
their interiors are pairwise disjoint. -/
theorem MarchingCubes.generate_octants (normalize : Vec3 → Vec3) (Lod : Nat)
    (vb : List TerrainVertex) (ib : List Nat)
    (v000 v100 v110 v010 v001 v101 v111 v011 : GridVertex)
    (isolevel : ℚ) (offset : Vec3) (scale : ℚ) :
    CubeGenerator.generate normalize (Lod + 1) vb ib v000 v100 v110 v010 v001 v101 v111 v011
        isolevel offset scale =
      (if edgeTable (cubeindex v000 v100 v110 v010 v001 v101 v111 v011 isolevel) ≠ 0 then
        [(0, 0, 0), (1, 0, 0), (0, 1, 0), (1, 1, 0),
          (0, 0, 1), (1, 0, 1), (0, 1, 1), (1, 1, 1)].foldlM
          (fun st (o : Nat × Nat × Nat) =>
            CubeGenerator.generate normalize Lod st.1 st.2
              (octantCorner (cornerGrid v000 v100 v110 v010 v001 v101 v111 v011) o 0)
              (octantCorner (cornerGrid v000 v100 v110 v010 v001 v101 v111 v011) o 1)
              (octantCorner (cornerGrid v000 v100 v110 v010 v001 v101 v111 v011) o 2)
              (octantCorner (cornerGrid v000 v100 v110 v010 v001 v101 v111 v011) o 3)
              (octantCorner (cornerGrid v000 v100 v110 v010 v001 v101 v111 v011) o 4)
              (octantCorner (cornerGrid v000 v100 v110 v010 v001 v101 v111 v011) o 5)
              (octantCorner (cornerGrid v000 v100 v110 v010 v001 v101 v111 v011) o 6)
              (octantCorner (cornerGrid v000 v100 v110 v010 v001 v101 v111 v011) o 7)
              isolevel
              (offset.add (Vec3.smul ⟨(o.1 : ℚ), (o.2.1 : ℚ), (o.2.2 : ℚ)⟩ (scale / 2)))
              (scale / 2))
          (vb, ib)
      else some (vb, ib)) ∧
    (∀ o ∈ octants, ∀ i : Fin 8,
      MarchingCubes.tgrid (cornerGrid v000 v100 v110 v010 v001 v101 v111 v011)
          (o.2.2 + vertIndex i 2) (o.2.1 + vertIndex i 1) (o.1 + vertIndex i 0) =
        some (octantCorner (cornerGrid v000 v100 v110 v010 v001 v101 v111 v011) o i)) ∧
    (∀ p, InBox offset scale p ↔
      ∃ o ∈ octants,
        InBox (offset.add (Vec3.smul ⟨(o.1 : ℚ), (o.2.1 : ℚ), (o.2.2 : ℚ)⟩ (scale / 2)))
          (scale / 2) p) ∧
    (∀ p, ∀ o ∈ octants, ∀ o' ∈ octants, o ≠ o' →
      ¬ (InInterior (offset.add (Vec3.smul ⟨(o.1 : ℚ), (o.2.1 : ℚ), (o.2.2 : ℚ)⟩ (scale / 2)))
          (scale / 2) p ∧
        InInterior (offset.add (Vec3.smul ⟨(o'.1 : ℚ), (o'.2.1 : ℚ), (o'.2.2 : ℚ)⟩ (scale / 2)))
          (scale / 2) p)) := by
  refine ⟨?_, ?_, ?_, ?_⟩
  · unfold CubeGenerator.generate
    rw [generateWith_succ]
    rfl
  · intro o ho i
    obtain ⟨hi, hj, hk⟩ := (mem_octants o).mp ho
    have hv : ∀ k, vertIndex i k ≤ 1 := by
      intro k
      fin_cases i <;> simp only [vertIndex, MC_VERTINDEX] <;>
        rcases k with _ | _ | _ | k <;> simp
    have h0 := hv 0
    have h1 := hv 1
    have h2 := hv 2
    exact tgrid_eq _ _ _ _ (by omega) (by omega) (by omega)
  · exact octants_tile offset scale
  · rintro p o ho o' ho' hne ⟨h, h'⟩
    exact octants_disjoint offset scale p o o' ho ho' hne h h'

/-- C16: for every depth `d` and every cube, `CubeGenerator<d>::generate` returns; it
makes at most `8 ^ d` calls of `CubeGenerator<0>::generate`, appends at most
`12 * 8 ^ d` vertices and at most `15 * 8 ^ d` indices, and appends nothing when the
eight corners are all below or all not below the isolevel. -/
theorem MarchingCubes.generate_budget (normalize : Vec3 → Vec3) (d : Nat)
    (vb : List TerrainVertex) (ib : List Nat)
    (v000 v100 v110 v010 v001 v101 v111 v011 : GridVertex)
    (isolevel : ℚ) (offset : Vec3) (scale : ℚ) :
    ∃ vs is calls,
      CubeGenerator.generate normalize d vb ib v000 v100 v110 v010 v001 v101 v111 v011
        isolevel offset scale = some (vb ++ vs, ib ++ is) ∧
      CubeGenerator.leafCalls d 0 v000 v100 v110 v010 v001 v101 v111 v011
        isolevel offset scale = some calls ∧
      calls ≤ 8 ^ d ∧ vs.length ≤ 12 * 8 ^ d ∧ is.length ≤ 15 * 8 ^ d ∧
      (((v000.iso < isolevel ∧ v100.iso < isolevel ∧ v110.iso < isolevel ∧
          v010.iso < isolevel ∧ v001.iso < isolevel ∧ v101.iso < isolevel ∧
          v111.iso < isolevel ∧ v011.iso < isolevel) ∨
        (¬ v000.iso < isolevel ∧ ¬ v100.iso < isolevel ∧ ¬ v110.iso < isolevel ∧
          ¬ v010.iso < isolevel ∧ ¬ v001.iso < isolevel ∧ ¬ v101.iso < isolevel ∧
          ¬ v111.iso < isolevel ∧ ¬ v011.iso < isolevel)) →
        vs = [] ∧ is = [] ∧ calls ≤ 1) := by
  obtain ⟨st', hgen, vs, is, rfl, hv, hi⟩ := generateWith_budget
    (fun st v000 v100 v110 v010 v001 v101 v111 v011 isolevel offset scale =>
      CubeGenerator0.generate normalize st.1 st.2 v000 v100 v110 v010 v001 v101 v111 v011
        isolevel offset scale)
    Appends Appends_zero Appends_trans Appends_mono
    (fun st v000 v100 v110 v010 v001 v101 v111 v011 isolevel offset scale =>
      generate_leaf_budget normalize st v000 v100 v110 v010 v001 v101 v111 v011
        isolevel offset scale)
    d (vb, ib) v000 v100 v110 v010 v001 v101 v111 v011 isolevel offset scale
  obtain ⟨n, hcalls, hn⟩ := generateWith_budget
    (fun (n : Nat) _ _ _ _ _ _ _ _ _ _ _ => some (n + 1))
    (fun k s s' => s' ≤ s + k) (fun s => le_refl _)
    (fun a b s s' s'' h1 h2 => by omega) (fun a b s s' hab h => by omega)
    (fun st _ _ _ _ _ _ _ _ _ _ _ => ⟨st + 1, rfl, le_refl _⟩)
    d 0 v000 v100 v110 v010 v001 v101 v111 v011 isolevel offset scale
  have hcalls' : CubeGenerator.leafCalls d 0 v000 v100 v110 v010 v001 v101 v111 v011
      isolevel offset scale = some n := hcalls
  refine ⟨vs, is, n, hgen, hcalls', by omega, hv, hi, ?_⟩
  intro hside
  have h0 := cubeindex_uniform v000 v100 v110 v010 v001 v101 v111 v011 isolevel hside
  have hsame := generateWith_inactive
    (fun st v000 v100 v110 v010 v001 v101 v111 v011 isolevel offset scale =>
      CubeGenerator0.generate normalize st.1 st.2 v000 v100 v110 v010 v001 v101 v111 v011
        isolevel offset scale)
    (fun st v000 v100 v110 v010 v001 v101 v111 v011 isolevel offset scale h => by
      obtain ⟨vs, is, hg, -, -, -, hz⟩ := generate_step normalize st.1 st.2
        v000 v100 v110 v010 v001 v101 v111 v011 isolevel offset scale
      obtain ⟨e1, e2⟩ := hz h
      beta_reduce
      rw [hg, e1, e2]
      simp)
    d (vb, ib) v000 v100 v110 v010 v001 v101 v111 v011 isolevel offset scale h0
  have hg' : CubeGenerator.generateWith
      (fun st v000 v100 v110 v010 v001 v101 v111 v011 isolevel offset scale =>
        CubeGenerator0.generate normalize st.1 st.2 v000 v100 v110 v010 v001 v101 v111 v011
          isolevel offset scale)
      d (vb, ib) v000 v100 v110 v010 v001 v101 v111 v011 isolevel offset scale =
      some (vb ++ vs, ib ++ is) := hgen
  rw [hsame] at hg'
  have hp := Option.some.inj hg'
  have e1 : vb = vb ++ vs := congrArg Prod.fst hp
  have e2 : ib = ib ++ is := congrArg Prod.snd hp
  refine ⟨List.append_right_eq_self.mp e1.symm, List.append_right_eq_self.mp e2.symm, ?_⟩
  cases d with
  | zero =>
    have : CubeGenerator.leafCalls 0 0 v000 v100 v110 v010 v001 v101 v111 v011
        isolevel offset scale = some 1 := rfl
    rw [this] at hcalls'
    cases hcalls'
    exact le_refl _
  | succ d =>
    have : CubeGenerator.leafCalls (d + 1) 0 v000 v100 v110 v010 v001 v101 v111 v011
        isolevel offset scale = some 0 := by
      unfold CubeGenerator.leafCalls
      rw [generateWith_succ, if_neg (not_not.mpr h0)]
    rw [this] at hcalls'
    cases hcalls'
    exact Nat.zero_le _

/-- C17: in `SurfaceNets::generateSDF` on a lattice with positive dimensions both
passes run; at every lattice point `(x, y, z)` that the stitching pass visits, the
pass emits its quads from the entries of `gv`, and along every axis on which the side
of `(x, y, z)` and of its `+1` neighbour differ, each of the four cubes whose entries
go to `pushQuad` contains both ends of that lattice edge, lies in the range of the
first pass, has a nonzero edge mask, and its entry is the vertex that the first pass
computed for it. -/
theorem SurfaceNets.stitch_reads_computed (normalize : Vec3 → Vec3)
    (traits : SurfaceNets.Traits) (f : Vec3 → ℚ) (isolevel : ℚ) (min max : Vec3) (cubesize : ℚ)
    (hx : 0 < latticeSize min.x max.x cubesize) (hy : 0 < latticeSize min.y max.y cubesize)
    (hz : 0 < latticeSize min.z max.z cubesize) :
    ∃ grid gv,
      Sampled f min cubesize (latticeSize min.x max.x cubesize).toNat
        (latticeSize min.y max.y cubesize).toNat (latticeSize min.z max.z cubesize).toNat grid ∧
      SurfaceNets.cellLoop normalize traits f grid isolevel min cubesize
        (latticeSize min.x max.x cubesize).toNat (latticeSize min.y max.y cubesize).toNat
        (latticeSize min.z max.z cubesize).toNat
        (Buf.allocInit ((latticeSize min.x max.x cubesize).toNat *
          (latticeSize min.y max.y cubesize).toNat * (latticeSize min.z max.z cubesize).toNat)
          (Vec3.zero, { position := Vec3.zero, normal := Vec3.zero })) = some gv ∧
      (∃ tr vb ib,
        SurfaceNets.quadLoop normalize grid gv isolevel (latticeSize min.x max.x cubesize).toNat
          (latticeSize min.y max.y cubesize).toNat (latticeSize min.z max.z cubesize).toNat
          ([], []) = some (vb, ib) ∧
        SurfaceNets.generateSDF normalize traits f isolevel min max cubesize =
          ⟨tr, vb, ib,
            if ib = [] then Result.value none 0
            else Result.value (some ⟨vb, ib⟩) ib.length⟩) ∧
      ∀ x y z, 1 ≤ x → x + 1 < (latticeSize min.x max.x cubesize).toNat →
        1 ≤ y → y + 1 < (latticeSize min.y max.y cubesize).toNat →
        1 ≤ z → z + 1 < (latticeSize min.z max.z cubesize).toNat →
        (∀ st, SurfaceNets.quadStep normalize grid gv isolevel
            (latticeSize min.x max.x cubesize).toNat (latticeSize min.y max.y cubesize).toNat
            st x y z =
          some (SurfaceNets.stitch normalize f min cubesize isolevel gv
            (latticeSize min.x max.x cubesize).toNat (latticeSize min.y max.y cubesize).toNat
            st x y z)) ∧
        (below f min cubesize isolevel x y z ≠ below f min cubesize isolevel (x + 1) y z →
          ∀ c ∈ [(x, y, z), (x, y - 1, z), (x, y - 1, z - 1), (x, y, z - 1)],
            CubeHas c (x, y, z) ∧ CubeHas c (x + 1, y, z) ∧
            SurfaceNets.Computed normalize traits f min cubesize isolevel
              (latticeSize min.x max.x cubesize).toNat (latticeSize min.y max.y cubesize).toNat
              (latticeSize min.z max.z cubesize).toNat gv c) ∧
        (below f min cubesize isolevel x y z ≠ below f min cubesize isolevel x (y + 1) z →
          ∀ c ∈ [(x, y, z), (x - 1, y, z), (x - 1, y, z - 1), (x, y, z - 1)],
            CubeHas c (x, y, z) ∧ CubeHas c (x, y + 1, z) ∧
            SurfaceNets.Computed normalize traits f min cubesize isolevel
              (latticeSize min.x max.x cubesize).toNat (latticeSize min.y max.y cubesize).toNat
              (latticeSize min.z max.z cubesize).toNat gv c) ∧
        (below f min cubesize isolevel x y z ≠ below f min cubesize isolevel x y (z + 1) →
          ∀ c ∈ [(x, y, z), (x - 1, y, z), (x - 1, y - 1, z), (x, y - 1, z)],
            CubeHas c (x, y, z) ∧ CubeHas c (x, y, z + 1) ∧
            SurfaceNets.Computed normalize traits f min cubesize isolevel
              (latticeSize min.x max.x cubesize).toNat (latticeSize min.y max.y cubesize).toNat
              (latticeSize min.z max.z cubesize).toNat gv c) := by
  obtain ⟨grid, tr, gv, vb, ib, hS, hcell, hsize, hfull, hact, hquad, -, hrun⟩ :=
    SurfaceNets.generateSDF_run normalize traits f isolevel min max cubesize hx hy hz
  refine ⟨grid, gv, hS, hcell, ⟨tr, vb, ib, hquad, hrun⟩, ?_⟩
  intro x y z x1 x2 y1 y2 z1 z2
  have key := fun c p q hc hp hq hne =>
    SurfaceNets.computed_of_sides normalize traits f min cubesize isolevel _ _ _ gv hsize hact
      c p q hc hp hq hne
  refine ⟨fun st => SurfaceNets.quadStep_eq normalize f grid gv isolevel min cubesize _ _ _ hS
    hsize hfull st x y z x2 y2 z2, ?_, ?_, ?_⟩
  · intro hne c hc
    simp only [List.mem_cons, List.mem_singleton, List.mem_nil_iff, or_false] at hc
    rcases hc with rfl | rfl | rfl | rfl <;>
      exact key _ (x, y, z) (x + 1, y, z) (by simp only; omega)
        (by simp only [CubeHas]; omega) (by simp only [CubeHas]; omega) hne
  · intro hne c hc
    simp only [List.mem_cons, List.mem_singleton, List.mem_nil_iff, or_false] at hc
    rcases hc with rfl | rfl | rfl | rfl <;>
      exact key _ (x, y, z) (x, y + 1, z) (by simp only; omega)
        (by simp only [CubeHas]; omega) (by simp only [CubeHas]; omega) hne
  · intro hne c hc
    simp only [List.mem_cons, List.mem_singleton, List.mem_nil_iff, or_false] at hc
    rcases hc with rfl | rfl | rfl | rfl <;>
      exact key _ (x, y, z) (x, y, z + 1) (by simp only; omega)
        (by simp only [CubeHas]; omega) (by simp only [CubeHas]; omega) hne

/-- C17 on the box `[0, 3]^3` with cell size 1 and the field `x + y + z - 1/2` at
isolevel 3: the lattice edge from `(1, 1, 1)` to `(2, 1, 1)` crosses the isolevel, and
the four cubes around it hold computed vertices. -/
theorem SurfaceNets.stitch_reads_computed_witness :
    0 < latticeSize 0 3 1 ∧
    below planeField ⟨0, 0, 0⟩ 1 3 1 1 1 ≠ below planeField ⟨0, 0, 0⟩ 1 3 (1 + 1) 1 1 ∧
    ∃ gv, ∀ c ∈ [(1, 1, 1), (1, 1 - 1, 1), (1, 1 - 1, 1 - 1), (1, 1, 1 - 1)],
      SurfaceNets.Computed id SurfaceNets.NaiveTraits planeField ⟨0, 0, 0⟩ 1 3
        (latticeSize 0 3 1).toNat (latticeSize 0 3 1).toNat (latticeSize 0 3 1).toNat gv c := by
  have h3 : 0 < latticeSize 0 3 1 := by
    rw [latticeSize_three]
    decide
  have hn : 1 + 1 < (latticeSize 0 3 1).toNat := by
    rw [latticeSize_three]
    decide
  obtain ⟨grid, gv, -, -, -, h⟩ := SurfaceNets.stitch_reads_computed id SurfaceNets.NaiveTraits
    planeField 3 ⟨0, 0, 0⟩ ⟨3, 3, 3⟩ 1 h3 h3 h3
  exact ⟨h3, planeField_sides, gv, fun c hc =>
    ((h 1 1 1 (le_refl 1) hn (le_refl 1) hn (le_refl 1) hn).2.1 planeField_sides c hc).2.2⟩

/-- C18: `pushQuad` appends exactly four vertices and six indices, the indices being
`o+0, o+1, o+2, o+0, o+2, o+3` when `flip` is false and `o+0, o+2, o+1, o+0, o+3, o+2`
when it is true, with `o` the vertex count before the call; the vectors that
`SurfaceNets::generateSDF` builds, and the geometry it returns, have four vertices and
six indices per quad, every index below the vertex count. -/
theorem SurfaceNets.pushQuad_appends (normalize : Vec3 → Vec3) (traits : SurfaceNets.Traits)
    (f : Vec3 → ℚ) (isolevel : ℚ) (min max : Vec3) (cubesize : ℚ) :
    (∀ (st : List TerrainVertex × List Nat) (v0 v1 v2 v3 : Vec3 × TerrainVertex) (flip : Bool),
      ∃ a b c d, SurfaceNets.pushQuad normalize st v0 v1 v2 v3 flip =
        (st.1 ++ [a, b, c, d],
          st.2 ++
            (if flip = true then
              [st.1.length + 0, st.1.length + 2, st.1.length + 1,
                st.1.length + 0, st.1.length + 3, st.1.length + 2]
            else
              [st.1.length + 0, st.1.length + 1, st.1.length + 2,
                st.1.length + 0, st.1.length + 2, st.1.length + 3]))) ∧
    (∃ q, (SurfaceNets.generateSDF normalize traits f isolevel min max cubesize).vb.length =
        4 * q ∧
      (SurfaceNets.generateSDF normalize traits f isolevel min max cubesize).ib.length = 6 * q ∧
      ∀ i ∈ (SurfaceNets.generateSDF normalize traits f isolevel min max cubesize).ib,
        i < (SurfaceNets.generateSDF normalize traits f isolevel min max cubesize).vb.length) ∧
    (∀ g n, (SurfaceNets.generateSDF normalize traits f isolevel min max cubesize).result =
        Result.value (some g) n →
      n = g.ib.length ∧
      ∃ q, g.vb.length = 4 * q ∧ g.ib.length = 6 * q ∧ ∀ i ∈ g.ib, i < g.vb.length) := by
  refine ⟨fun st v0 v1 v2 v3 flip => ⟨_, _, _, _, SurfaceNets.pushQuad_eq normalize st v0 v1 v2 v3
    flip⟩, ?_⟩
  by_cases hdim : 0 < latticeSize min.x max.x cubesize ∧ 0 < latticeSize min.y max.y cubesize ∧
      0 < latticeSize min.z max.z cubesize
  · obtain ⟨grid, tr, gv, vb, ib, -, -, -, -, -, -, hmesh, hrun⟩ :=
      SurfaceNets.generateSDF_run normalize traits f isolevel min max cubesize hdim.1 hdim.2.1
        hdim.2.2
    rw [hrun]
    refine ⟨hmesh, ?_⟩
    intro g n hg
    by_cases hib : ib = []
    · simp only [hib, if_true] at hg
      exact absurd hg (by simp)
    · simp only [hib, if_false, Result.value.injEq, Option.some.injEq] at hg
      obtain ⟨rfl, rfl⟩ := hg
      exact ⟨rfl, hmesh⟩
  · have hrun : SurfaceNets.generateSDF normalize traits f isolevel min max cubesize =
        ⟨[], [], [], Result.assertionFailure⟩ := by
      unfold latticeSize at hdim
      unfold SurfaceNets.generateSDF
      simp only
      rw [if_neg hdim]
    rw [hrun]
    exact ⟨⟨0, rfl, rfl, fun i hi => absurd hi (List.not_mem_nil i)⟩,
      fun g n hg => absurd hg (by simp)⟩

/-- C19 as stated fails: for the quad `(0,0,0), (1,0,0), (1,1,0), (0,1,1)` the vector
that `pushQuad` normalises is `(0, 0, 1)`, the cross product of the two diagonals is
`(1, -1, 2)`, and no normalisation that rescales its argument makes one a signed
multiple of the other. -/
theorem SurfaceNets.quadNormal_not_diagonals :
    SurfaceNets.quadNormal id (cornerAt ⟨0, 0, 0⟩) (cornerAt ⟨1, 0, 0⟩) (cornerAt ⟨1, 1, 0⟩)
      false = ⟨0, 0, 1⟩ ∧
    Vec3.cross ((⟨1, 1, 0⟩ : Vec3).sub ⟨0, 0, 0⟩) ((⟨0, 1, 1⟩ : Vec3).sub ⟨1, 0, 0⟩) =
      ⟨1, -1, 2⟩ ∧
    ¬ ∃ (normalize : Vec3 → Vec3) (c1 c2 s : ℚ),
      c1 ≠ 0 ∧ normalize ⟨0, 0, 1⟩ = (⟨0, 0, 1⟩ : Vec3).smul c1 ∧
      normalize ⟨1, -1, 2⟩ = (⟨1, -1, 2⟩ : Vec3).smul c2 ∧
      SurfaceNets.quadNormal normalize (cornerAt ⟨0, 0, 0⟩) (cornerAt ⟨1, 0, 0⟩)
        (cornerAt ⟨1, 1, 0⟩) false =
        (normalize (Vec3.cross ((⟨1, 1, 0⟩ : Vec3).sub ⟨0, 0, 0⟩)
          ((⟨0, 1, 1⟩ : Vec3).sub ⟨1, 0, 0⟩))).smul s := by
  have hcode : Vec3.cross ((⟨1, 0, 0⟩ : Vec3).sub ⟨0, 0, 0⟩) ((⟨1, 1, 0⟩ : Vec3).sub ⟨0, 0, 0⟩) =
      ⟨0, 0, 1⟩ := by
    norm_num [Vec3.cross, Vec3.sub]
  have hdiag : Vec3.cross ((⟨1, 1, 0⟩ : Vec3).sub ⟨0, 0, 0⟩) ((⟨0, 1, 1⟩ : Vec3).sub ⟨1, 0, 0⟩) =
      ⟨1, -1, 2⟩ := by
    norm_num [Vec3.cross, Vec3.sub]
  refine ⟨?_, hdiag, ?_⟩
  · simp only [SurfaceNets.quadNormal, cornerAt, hcode, id]
    norm_num [Vec3.smul]
  · rintro ⟨normalize, c1, c2, s, hc1, h1, h2, heq⟩
    simp only [SurfaceNets.quadNormal, cornerAt, hcode, hdiag, h1, h2] at heq
    simp only [Vec3.smul, Vec3.mk.injEq] at heq
    obtain ⟨hx, -, hz⟩ := heq
    norm_num at hx hz
    rcases hx with hx | hx
    · rw [hx] at hz
      norm_num at hz
      exact hc1 hz
    · rw [hx] at hz
      norm_num at hz
      exact hc1 hz

/-- C19, amended: the quad normal that `pushQuad` blends into the four corner normals
is, up to the flip sign and normalisation, the cross product of the edge `p1 - p0` and
the diagonal `p2 - p0`, the normal of the triangle `p0, p1, p2`; it does not depend
on `p3`. -/
theorem SurfaceNets.pushQuad_normal (normalize : Vec3 → Vec3)
    (st : List TerrainVertex × List Nat) (v0 v1 v2 v3 : Vec3 × TerrainVertex) (flip : Bool) :
    (SurfaceNets.pushQuad normalize st v0 v1 v2 v3 flip).1 =
      st.1 ++
        [SurfaceNets.normalLerp normalize v0.2 v0.1
            ((normalize (Vec3.cross (v1.2.position.sub v0.2.position)
              (v2.2.position.sub v0.2.position))).smul (if flip = true then -1 else 1)),
          SurfaceNets.normalLerp normalize v1.2 v1.1
            ((normalize (Vec3.cross (v1.2.position.sub v0.2.position)
              (v2.2.position.sub v0.2.position))).smul (if flip = true then -1 else 1)),
          SurfaceNets.normalLerp normalize v2.2 v2.1
            ((normalize (Vec3.cross (v1.2.position.sub v0.2.position)
              (v2.2.position.sub v0.2.position))).smul (if flip = true then -1 else 1)),
          SurfaceNets.normalLerp normalize v3.2 v3.1
            ((normalize (Vec3.cross (v1.2.position.sub v0.2.position)
              (v2.2.position.sub v0.2.position))).smul (if flip = true then -1 else 1))] := by
  rw [SurfaceNets.pushQuad_eq]
  rfl

/-- C20: `normalLerp` returns the position unchanged and blends the normal toward the
quad normal with weight `k = clamp(1 - (1 - d)^2, 0, 1)`, `d` the squared distance
between the vertex and the averaged intersection point; `k` lies in `[0, 1]`, is 0
exactly when `d ≤ 0` or `d ≥ 2`, and is 1 exactly when `d = 1`. -/
theorem SurfaceNets.normalLerp_weight (normalize : Vec3 → Vec3) (v : TerrainVertex)
    (avgp qn : Vec3) (d : ℚ) :
    SurfaceNets.normalLerp normalize v avgp qn =
      { position := v.position
        normal := normalize (Vec3.mix v.normal qn (blendWeight (distSq v.position avgp))) } ∧
    (SurfaceNets.normalLerp normalize v avgp qn).position = v.position ∧
    (0 ≤ blendWeight d ∧ blendWeight d ≤ 1) ∧
    (blendWeight d = 0 ↔ d ≤ 0 ∨ 2 ≤ d) ∧
    (blendWeight d = 1 ↔ d = 1) ∧
    0 ≤ distSq v.position avgp := by
  refine ⟨?_, rfl, ⟨?_, ?_⟩, ?_, ?_, ?_⟩
  · simp only [SurfaceNets.normalLerp, blendWeight, distSq]
    rw [sq]
  · exact le_min (le_max_right _ _) zero_le_one
  · exact min_le_right _ _
  · unfold blendWeight
    rw [blendWeight_eq]
    constructor
    · intro h
      by_contra hc
      push_neg at hc
      have hpos : 0 < d * (2 - d) := mul_pos hc.1 (by linarith)
      have h1 : 0 < min (max (d * (2 - d)) 0) 1 :=
        lt_min (lt_of_lt_of_le hpos (le_max_left _ _)) zero_lt_one
      linarith
    · intro h
      have hle : d * (2 - d) ≤ 0 := by
        rcases h with h | h
        · exact mul_nonpos_of_nonpos_of_nonneg h (by linarith)
        · exact mul_nonpos_of_nonneg_of_nonpos (by linarith) (by linarith)
      rw [max_eq_right hle, min_eq_left zero_le_one]
  · unfold blendWeight
    constructor
    · intro h
      have h1 : 1 ≤ max (1 - (1 - d) ^ 2) 0 := by
        by_contra hc
        push_neg at hc
        rw [min_eq_left hc.le] at h
        linarith
      have h2 : 1 ≤ 1 - (1 - d) ^ 2 := by
        rcases le_max_iff.mp h1 with h | h
        · exact h
        · linarith
      have h3 : (1 - d) ^ 2 ≤ 0 := by linarith
      have h4 : (1 - d) ^ 2 = 0 := le_antisymm h3 (sq_nonneg _)
      have h5 : 1 - d = 0 := by
        rcases sq_eq_zero_iff.mp h4 with h
        exact h
      linarith
    · intro h
      subst h
      norm_num
  · unfold distSq Vec3.dot
    have := mul_self_nonneg (v.position.sub avgp).x
    have := mul_self_nonneg (v.position.sub avgp).y
    have := mul_self_nonneg (v.position.sub avgp).z
    linarith

/-- C21 as stated fails: on the edge from `(0, 0, 0)` to `(1, 0, 0)` with the field
`x + y + z - 1/2` and the isolevel `-1/4` the first probe is at `t = 1/4`, not at the
midpoint `1/2` of the bracket `[0, 1]`; the bracket after the ten iterations is
`[0, 1/4]`, of width `1/4` and not `2^-10`; and the point returned is at `t = 1/8`. -/
theorem SurfaceNets.DualContouringTraits.probe_not_midpoint :
    SurfaceNets.DualContouringTraits.probe (-1 / 4)
      { mint := 0, miniso := (evaluateSDF planeField ⟨0, 0, 0⟩).iso, maxt := 1,
        maxiso := (evaluateSDF planeField ⟨1, 0, 0⟩).iso } = 1 / 4 ∧
    SurfaceNets.DualContouringTraits.bracketAfter planeField (-1 / 4) Vec3.zero
        ⟨0, 0, 0⟩ ⟨1, 0, 0⟩ (evaluateSDF planeField ⟨0, 0, 0⟩) (evaluateSDF planeField ⟨1, 0, 0⟩)
        10 =
      some { mint := 0, miniso := -1 / 2, maxt := 1 / 4, maxiso := -1 / 4 } ∧
    (1 / 4 : ℚ) - 0 ≠ (1 - 0) / 2 ^ 10 ∧
    ∃ n, SurfaceNets.DualContouringTraits.intersect id (evaluateSDF planeField ⟨0, 0, 0⟩)
        (evaluateSDF planeField ⟨1, 0, 0⟩) planeField (-1 / 4) Vec3.zero ⟨0, 0, 0⟩ ⟨1, 0, 0⟩ =
      some (⟨1 / 8, 0, 0⟩, n) := by
  refine ⟨?_, planeField_bracket 9, by norm_num, ?_⟩
  · norm_num [SurfaceNets.DualContouringTraits.probe, evaluateSDF, planeField]
  · have hord : SurfaceNets.DualContouringTraits.ordered (evaluateSDF planeField ⟨0, 0, 0⟩)
        (evaluateSDF planeField ⟨1, 0, 0⟩) ⟨0, 0, 0⟩ ⟨1, 0, 0⟩ =
        (evaluateSDF planeField ⟨0, 0, 0⟩, evaluateSDF planeField ⟨1, 0, 0⟩, ⟨0, 0, 0⟩,
          ⟨1, 0, 0⟩) := by
      unfold SurfaceNets.DualContouringTraits.ordered
      rw [if_neg]
      norm_num [evaluateSDF, planeField]
    rw [SurfaceNets.DualContouringTraits.intersect_eq, hord,
      SurfaceNets.DualContouringTraits.intersectOrdered_eq id _ _ _ _ _ _ _ _
        (planeField_bracket 9)]
    have hm : Vec3.mix ⟨0, 0, 0⟩ ⟨1, 0, 0⟩ (((0 : ℚ) + 1 / 4) / 2) = ⟨1 / 8, 0, 0⟩ := by
      norm_num [Vec3.mix]
    dsimp only
    rw [hm]
    exact ⟨_, rfl⟩

/-- C21, amended: when the isolevel lies between the two end values, each of the ten
iterations of `DualContouringTraits::intersect` evaluates the field at the parameter
`t = mint + (isolevel - miniso) / (maxiso - miniso) * (maxt - mint)`, where the line
through the two bracket ends meets the isolevel, and moves the end on whose side the
sampled value falls (`mint` when below the isolevel, `maxt` otherwise) to `t`; the
bracket never widens; and the point returned is at the midpoint of the bracket left
by the last iteration. -/
theorem SurfaceNets.DualContouringTraits.intersect_false_position (normalize : Vec3 → Vec3)
    (g0 g1 : GridVertex) (f : Vec3 → ℚ) (isolevel : ℚ) (corner v0 v1 : Vec3)
    (h : min g0.iso g1.iso < isolevel ∧ isolevel ≤ max g0.iso g1.iso) :
    (∀ n, n < 10 →
      ∃ b, SurfaceNets.DualContouringTraits.bracketAfter f isolevel corner
          (SurfaceNets.DualContouringTraits.ordered g0 g1 v0 v1).2.2.1
          (SurfaceNets.DualContouringTraits.ordered g0 g1 v0 v1).2.2.2
          (SurfaceNets.DualContouringTraits.ordered g0 g1 v0 v1).1
          (SurfaceNets.DualContouringTraits.ordered g0 g1 v0 v1).2.1 n = some b ∧
        SurfaceNets.DualContouringTraits.probe isolevel b =
          b.mint + (isolevel - b.miniso) / (b.maxiso - b.miniso) * (b.maxt - b.mint) ∧
        SurfaceNets.DualContouringTraits.bracketAfter f isolevel corner
          (SurfaceNets.DualContouringTraits.ordered g0 g1 v0 v1).2.2.1
          (SurfaceNets.DualContouringTraits.ordered g0 g1 v0 v1).2.2.2
          (SurfaceNets.DualContouringTraits.ordered g0 g1 v0 v1).1
          (SurfaceNets.DualContouringTraits.ordered g0 g1 v0 v1).2.1 (n + 1) =
          some (b.moved isolevel (SurfaceNets.DualContouringTraits.probe isolevel b)
            (f ((Vec3.mix (SurfaceNets.DualContouringTraits.ordered g0 g1 v0 v1).2.2.1
              (SurfaceNets.DualContouringTraits.ordered g0 g1 v0 v1).2.2.2
              (SurfaceNets.DualContouringTraits.probe isolevel b)).add corner))) ∧
        (b.moved isolevel (SurfaceNets.DualContouringTraits.probe isolevel b)
            (f ((Vec3.mix (SurfaceNets.DualContouringTraits.ordered g0 g1 v0 v1).2.2.1
              (SurfaceNets.DualContouringTraits.ordered g0 g1 v0 v1).2.2.2
              (SurfaceNets.DualContouringTraits.probe isolevel b)).add corner))).maxt -
          (b.moved isolevel (SurfaceNets.DualContouringTraits.probe isolevel b)
            (f ((Vec3.mix (SurfaceNets.DualContouringTraits.ordered g0 g1 v0 v1).2.2.1
              (SurfaceNets.DualContouringTraits.ordered g0 g1 v0 v1).2.2.2
              (SurfaceNets.DualContouringTraits.probe isolevel b)).add corner))).mint ≤
          b.maxt - b.mint) ∧
    ∃ b, SurfaceNets.DualContouringTraits.bracketAfter f isolevel corner
        (SurfaceNets.DualContouringTraits.ordered g0 g1 v0 v1).2.2.1
        (SurfaceNets.DualContouringTraits.ordered g0 g1 v0 v1).2.2.2
        (SurfaceNets.DualContouringTraits.ordered g0 g1 v0 v1).1
        (SurfaceNets.DualContouringTraits.ordered g0 g1 v0 v1).2.1 10 = some b ∧
      SurfaceNets.DualContouringTraits.intersect normalize g0 g1 f isolevel corner v0 v1 =
        some (Vec3.mix (SurfaceNets.DualContouringTraits.ordered g0 g1 v0 v1).2.2.1
            (SurfaceNets.DualContouringTraits.ordered g0 g1 v0 v1).2.2.2
            ((b.mint + b.maxt) / 2),
          normalize (evaluateSDF f
            ((Vec3.mix (SurfaceNets.DualContouringTraits.ordered g0 g1 v0 v1).2.2.1
              (SurfaceNets.DualContouringTraits.ordered g0 g1 v0 v1).2.2.2
              ((b.mint + b.maxt) / 2)).add corner)).gradient) := by
  have ho := SurfaceNets.DualContouringTraits.ordered_iso g0 g1 v0 v1 isolevel h
  rw [SurfaceNets.DualContouringTraits.intersect_eq]
  generalize SurfaceNets.DualContouringTraits.ordered g0 g1 v0 v1 = o at ho
  constructor
  · intro n _
    obtain ⟨b, hb, hv⟩ := SurfaceNets.DualContouringTraits.bracketAfter_valid f isolevel corner
      o.2.2.1 o.2.2.2 o.1 o.2.1 ho n
    obtain ⟨-, -, hstep, -, hw⟩ :=
      SurfaceNets.DualContouringTraits.bracketStep_valid f isolevel corner o.2.2.1 o.2.2.2 b hv
    refine ⟨b, hb, ?_, ?_, hw⟩
    · unfold SurfaceNets.DualContouringTraits.probe
      ring
    · rw [SurfaceNets.DualContouringTraits.bracketAfter_succ, hb, Option.some_bind, hstep]
  · obtain ⟨b, hb, -⟩ := SurfaceNets.DualContouringTraits.bracketAfter_valid f isolevel corner
      o.2.2.1 o.2.2.2 o.1 o.2.1 ho 10
    exact ⟨b, hb, SurfaceNets.DualContouringTraits.intersectOrdered_eq normalize _ _ f isolevel
      corner _ _ b hb⟩

/-- C21, amended, on the edge from `(0, 0, 0)` to `(1, 0, 0)` with the field
`x + y + z - 1/2` and the isolevel `-1/4`. -/
theorem SurfaceNets.DualContouringTraits.intersect_false_position_witness :
    (min (evaluateSDF planeField ⟨0, 0, 0⟩).iso (evaluateSDF planeField ⟨1, 0, 0⟩).iso < -1 / 4 ∧
      -1 / 4 ≤ max (evaluateSDF planeField ⟨0, 0, 0⟩).iso
        (evaluateSDF planeField ⟨1, 0, 0⟩).iso) ∧
    ∃ r, SurfaceNets.DualContouringTraits.intersect id (evaluateSDF planeField ⟨0, 0, 0⟩)
        (evaluateSDF planeField ⟨1, 0, 0⟩) planeField (-1 / 4) Vec3.zero ⟨0, 0, 0⟩ ⟨1, 0, 0⟩ =
      some r := by
  have h : min (evaluateSDF planeField ⟨0, 0, 0⟩).iso (evaluateSDF planeField ⟨1, 0, 0⟩).iso <
        -1 / 4 ∧
      -1 / 4 ≤ max (evaluateSDF planeField ⟨0, 0, 0⟩).iso
        (evaluateSDF planeField ⟨1, 0, 0⟩).iso := by
    norm_num [evaluateSDF, planeField]
  obtain ⟨b, -, hb⟩ := (SurfaceNets.DualContouringTraits.intersect_false_position id
    (evaluateSDF planeField ⟨0, 0, 0⟩) (evaluateSDF planeField ⟨1, 0, 0⟩) planeField (-1 / 4)
    Vec3.zero ⟨0, 0, 0⟩ ⟨1, 0, 0⟩ h).2
  exact ⟨h, _, hb⟩

/-- C22: whatever point `mp` the solver yields, the position that
`DualContouringTraits::average` returns lies componentwise between `v0` and `v1`
when `v0 <= v1`, in particular in `[0, cubesize]^3` for the arguments that
`generateSDF` passes; it is `mp` when `mp` already lies there; and the normal is the
one `NaiveTraits::average` returns on the same samples. -/
theorem SurfaceNets.DualContouringTraits.average_clamped
    (calcPoint : SurfaceNets.QEF → Vec3 → Vec3 → Vec3) (points : List (Vec3 × Vec3))
    (v0 v1 corner : Vec3) (cubesize : ℚ) :
    ((v0.x ≤ v1.x ∧ v0.y ≤ v1.y ∧ v0.z ≤ v1.z) →
      Between v0 v1 (SurfaceNets.DualContouringTraits.average calcPoint points v0 v1 corner).1) ∧
    (0 ≤ cubesize →
      Between Vec3.zero (Vec3.splat cubesize)
        (SurfaceNets.DualContouringTraits.average calcPoint points Vec3.zero
          (Vec3.splat cubesize) corner).1) ∧
    (Between v0 v1 (calcPoint (SurfaceNets.DualContouringTraits.solverInput points) v0 v1) →
      (SurfaceNets.DualContouringTraits.average calcPoint points v0 v1 corner).1 =
        calcPoint (SurfaceNets.DualContouringTraits.solverInput points) v0 v1) ∧
    (SurfaceNets.DualContouringTraits.average calcPoint points v0 v1 corner).2 =
      (SurfaceNets.NaiveTraits.average points v0 v1 corner).2 := by
  refine ⟨?_, ?_, ?_, rfl⟩
  · rintro ⟨hx, hy, hz⟩
    exact ⟨clamp_between _ _ _ hx, clamp_between _ _ _ hy, clamp_between _ _ _ hz⟩
  · intro hc
    exact ⟨clamp_between _ _ _ hc, clamp_between _ _ _ hc, clamp_between _ _ _ hc⟩
  · rintro ⟨⟨x0, x1⟩, ⟨y0, y1⟩, z0, z1⟩
    simp only [SurfaceNets.DualContouringTraits.average, Vec3.clamp]
    rw [clamp_inside _ _ _ x0 x1, clamp_inside _ _ _ y0 y1, clamp_inside _ _ _ z0 z1]

/-- C23: for a non-empty list of samples `(p, n)` the data that
`DualContouringTraits::average` hands to the solver are the sums of the specification:
the six entries of the sum of `n n^T`, the sum of `n (n . p)`, the sum of `(n . p)^2`,
and the mean of the points; for every `x` the quadratic `x^T A x - 2 x . atb + btb`
is the sum of the `(n . (x - p))^2`; and the accumulators of a concatenation are the
sums of the accumulators of the parts. -/
theorem SurfaceNets.DualContouringTraits.solverInput_sums (pn : Vec3 × Vec3)
    (ps : List (Vec3 × Vec3)) :
    (pn :: ps).foldl SurfaceNets.DualContouringTraits.accumulate SurfaceNets.QEF.zero =
      qefSums (pn :: ps) ∧
    SurfaceNets.DualContouringTraits.solverInput (pn :: ps) =
      { qefSums (pn :: ps) with
        pt := (qefSums (pn :: ps)).pt.sdiv ((pn :: ps).length : ℚ) } ∧
    (∀ x, QEF.quadratic (SurfaceNets.DualContouringTraits.solverInput (pn :: ps)) x -
        2 * Vec3.dot x (SurfaceNets.DualContouringTraits.solverInput (pn :: ps)).atb +
        (SurfaceNets.DualContouringTraits.solverInput (pn :: ps)).btb =
      planeError (pn :: ps) x) ∧
    (∀ as bs : List (Vec3 × Vec3),
      (as ++ bs).foldl SurfaceNets.DualContouringTraits.accumulate SurfaceNets.QEF.zero =
        SurfaceNets.QEF.add
          (as.foldl SurfaceNets.DualContouringTraits.accumulate SurfaceNets.QEF.zero)
          (bs.foldl SurfaceNets.DualContouringTraits.accumulate SurfaceNets.QEF.zero)) := by
  have hin : SurfaceNets.DualContouringTraits.solverInput (pn :: ps) =
      { qefSums (pn :: ps) with
        pt := (qefSums (pn :: ps)).pt.sdiv ((pn :: ps).length : ℚ) } := by
    unfold SurfaceNets.DualContouringTraits.solverInput
    simp only [accumulate_zero]
    rfl
  refine ⟨accumulate_zero _, hin, ?_, ?_⟩
  · intro x
    rw [hin]
    exact qefSums_planeError (pn :: ps) x
  · intro as bs
    rw [accumulate_zero, accumulate_zero, accumulate_zero, qefSums_append]

/-- C24: whatever the three calls of `rand()` return, `AdjustableLerpKRandom` yields a
point with all components in `[0, 1]`; and when the components of `smoothpt` lie in
`[0, 1]`, so do those of the point `AdjustableLerpKRandomRight` yields. -/
theorem AdjustableLerpK_in_unit_box (randMax r0 r1 r2 : Nat) (corner smoothpt centerpt : Vec3) :
    InUnit (AdjustableLerpKRandom randMax r0 r1 r2 corner smoothpt centerpt) ∧
    (InUnit smoothpt →
      InUnit (AdjustableLerpKRandomRight randMax r0 r1 r2 corner smoothpt centerpt)) := by
  refine ⟨AdjustableLerpKRandom_unit randMax r0 r1 r2 corner smoothpt centerpt, ?_⟩
  intro hs
  have hr := AdjustableLerpKRandom_unit randMax r0 r1 r2 corner smoothpt centerpt
  have ht := smoothstep_unit 3 4 corner.x
  unfold AdjustableLerpKRandomRight
  generalize AdjustableLerpKRandom randMax r0 r1 r2 corner smoothpt centerpt = q at hr
  generalize smoothstep 3 4 corner.x = t at ht
  exact ⟨mix_unit _ _ _ hs.1 hr.1 ht, mix_unit _ _ _ hs.2.1 hr.2.1 ht,
    mix_unit _ _ _ hs.2.2 hr.2.2 ht⟩

/-- C25: `mkunion` is the pointwise minimum, `mkintersect` the pointwise maximum and
`mksubtract(a, b)` the pointwise maximum of `a` and `-b`; hence the side of a
threshold `L` on which each lies, and union and intersection are commutative,
associative and idempotent. -/
theorem World.csg_laws (a b c : Vec3 → ℚ) (p : Vec3) (L : ℚ) :
    (World.mkunion a b p = min (a p) (b p) ∧ World.mkintersect a b p = max (a p) (b p) ∧
      World.mksubtract a b p = max (a p) (-b p)) ∧
    ((World.mkunion a b p < L ↔ a p < L ∨ b p < L) ∧
      (World.mkintersect a b p < L ↔ a p < L ∧ b p < L) ∧
      (World.mksubtract a b p < L ↔ a p < L ∧ b p > -L)) ∧
    (World.mkunion a b = World.mkunion b a ∧ World.mkintersect a b = World.mkintersect b a) ∧
    (World.mkunion (World.mkunion a b) c = World.mkunion a (World.mkunion b c) ∧
      World.mkintersect (World.mkintersect a b) c =
        World.mkintersect a (World.mkintersect b c)) ∧
    (World.mkunion a a = a ∧ World.mkintersect a a = a) := by
  refine ⟨⟨rfl, rfl, rfl⟩, ⟨?_, ?_, ?_⟩, ⟨?_, ?_⟩, ⟨?_, ?_⟩, ⟨?_, ?_⟩⟩
  · exact min_lt_iff
  · exact max_lt_iff
  · unfold World.mksubtract
    rw [max_lt_iff]
    constructor
    · rintro ⟨h1, h2⟩
      exact ⟨h1, by linarith⟩
    · rintro ⟨h1, h2⟩
      exact ⟨h1, by linarith⟩
  · funext q
    exact min_comm _ _
  · funext q
    exact max_comm _ _
  · funext q
    exact min_assoc _ _ _
  · funext q
    exact max_assoc _ _ _
  · funext q
    exact min_self _
  · funext q
    exact max_self _

/-- C27: the index map `(x, y, z) -> x + sizeX * (y + sizeY * z)` is a bijection from
the lattice onto `[0, sizeX * sizeY * sizeZ)`; the sampling loops visit the indices in
the order `0, 1, 2, ...`, so `x` varies fastest and every entry is written exactly
once; afterwards each of the eight corner reads of every cube with `x + 1 < sizeX`,
`y + 1 < sizeY`, `z + 1 < sizeZ` is inside the buffer and yields the sample taken at
`min + (x + dx, y + dy, z + dz) * cubesize`. -/
theorem lattice_index_bijection (f : Vec3 → ℚ) (min : Vec3) (cubesize : ℚ)
    (sizeX sizeY sizeZ : Nat) :
    (∀ x y z, x < sizeX → y < sizeY → z < sizeZ →
      x + sizeX * (y + sizeY * z) < sizeX * sizeY * sizeZ ∧
      (x + sizeX * (y + sizeY * z)) % sizeX = x ∧
      ((x + sizeX * (y + sizeY * z)) / sizeX) % sizeY = y ∧
      ((x + sizeX * (y + sizeY * z)) / sizeX) / sizeY = z) ∧
    (∀ k, k < sizeX * sizeY * sizeZ →
      k % sizeX < sizeX ∧ (k / sizeX) % sizeY < sizeY ∧ (k / sizeX) / sizeY < sizeZ ∧
      k % sizeX + sizeX * ((k / sizeX) % sizeY + sizeY * ((k / sizeX) / sizeY)) = k) ∧
    (∀ st, sampleLattice f min cubesize sizeX sizeY sizeZ st =
      (scanOrder (List.range sizeX) (List.range sizeY) (List.range sizeZ)).foldlM
        (fun st p => sampleStep f min cubesize sizeX sizeY st p.1 p.2.1 p.2.2) st) ∧
    (scanOrder (List.range sizeX) (List.range sizeY) (List.range sizeZ)).map
        (fun p => p.1 + sizeX * (p.2.1 + sizeY * p.2.2)) =
      List.range (sizeX * sizeY * sizeZ) ∧
    (∀ tr, ∃ grid tr',
      sampleLattice f min cubesize sizeX sizeY sizeZ
        (Buf.alloc (sizeX * sizeY * sizeZ), tr) = some (grid, tr') ∧
      ∀ x y z, x + 1 < sizeX → y + 1 < sizeY → z + 1 < sizeZ →
        ∀ dx dy dz, dx ≤ 1 → dy ≤ 1 → dz ≤ 1 →
          (x + dx) + sizeX * ((y + dy) + sizeY * (z + dz)) < grid.size ∧
          grid.read ((x + dx) + sizeX * ((y + dy) + sizeY * (z + dz))) =
            some (evaluateSDF f
              (min.add ((Vec3.ofNat (x + dx) (y + dy) (z + dz)).smul cubesize)))) := by
  refine ⟨?_, lattice_index_encode sizeX sizeY sizeZ, sampleLattice_eq_scan f min cubesize
    sizeX sizeY sizeZ, scan_indices sizeX sizeY sizeZ, ?_⟩
  · intro x y z hx hy hz
    exact ⟨lattice_index_lt hx hy hz, lattice_index_decode hx hy⟩
  · intro tr
    obtain ⟨grid, tr', hrun, hS⟩ := sampleLattice_sampled f min cubesize sizeX sizeY sizeZ
      (Buf.alloc (sizeX * sizeY * sizeZ)) tr rfl
    refine ⟨grid, tr', hrun, ?_⟩
    intro x y z hx hy hz dx dy dz hdx hdy hdz
    have hread := hS (x + dx) (y + dy) (z + dz) (by omega) (by omega) (by omega)
    exact ⟨read_some_lt _ _ _ hread, hread⟩

/-- C28: in the first pass of `SurfaceNets::generateSDF`, for every cube with nonzero
edge mask the edge loop collects `popcount(edgemask)` pairs, between 3 and 12 of them,
so the count by which the sums are divided is not zero; the cube's entry of `gv`
becomes the representative vertex and no other entry changes. A cube with zero edge
mask stores nothing. -/
theorem SurfaceNets.first_pass_counts (normalize : Vec3 → Vec3) (traits : SurfaceNets.Traits)
    (f : Vec3 → ℚ) (isolevel : ℚ) (min max : Vec3) (cubesize : ℚ)
    (hx : 0 < latticeSize min.x max.x cubesize) (hy : 0 < latticeSize min.y max.y cubesize)
    (hz : 0 < latticeSize min.z max.z cubesize) :
    ∃ grid gv,
      Sampled f min cubesize (latticeSize min.x max.x cubesize).toNat
        (latticeSize min.y max.y cubesize).toNat (latticeSize min.z max.z cubesize).toNat grid ∧
      SurfaceNets.cellLoop normalize traits f grid isolevel min cubesize
        (latticeSize min.x max.x cubesize).toNat (latticeSize min.y max.y cubesize).toNat
        (latticeSize min.z max.z cubesize).toNat
        (Buf.allocInit ((latticeSize min.x max.x cubesize).toNat *
          (latticeSize min.y max.y cubesize).toNat * (latticeSize min.z max.z cubesize).toNat)
          (Vec3.zero, { position := Vec3.zero, normal := Vec3.zero })) = some gv ∧
      ∀ x y z, x + 1 < (latticeSize min.x max.x cubesize).toNat →
        y + 1 < (latticeSize min.y max.y cubesize).toNat →
        z + 1 < (latticeSize min.z max.z cubesize).toNat →
        (edgeTable (cubeConfig f min cubesize isolevel x y z) ≠ 0 →
          (List.range 12).foldlM
              (SurfaceNets.edgeStep traits f grid
                (edgeTable (cubeConfig f min cubesize isolevel x y z)) isolevel
                (((Vec3.ofNat x y z).smul cubesize).add min) cubesize
                (latticeSize min.x max.x cubesize).toNat
                (latticeSize min.y max.y cubesize).toNat x y z)
              ([], Vec3.zero) =
            some (SurfaceNets.edgePairs traits f min cubesize isolevel x y z,
              (SurfaceNets.edgePairs traits f min cubesize isolevel x y z).foldl
                (fun acc gt => acc.add gt.1) Vec3.zero) ∧
          (SurfaceNets.edgePairs traits f min cubesize isolevel x y z).length =
            popcount (edgeTable (cubeConfig f min cubesize isolevel x y z)) ∧
          3 ≤ (SurfaceNets.edgePairs traits f min cubesize isolevel x y z).length ∧
          (SurfaceNets.edgePairs traits f min cubesize isolevel x y z).length ≤ 12 ∧
          ((SurfaceNets.edgePairs traits f min cubesize isolevel x y z).length : ℚ) ≠ 0 ∧
          gv.read (x + (latticeSize min.x max.x cubesize).toNat *
              (y + (latticeSize min.y max.y cubesize).toNat * z)) =
            some (SurfaceNets.cellVertex normalize traits f min cubesize isolevel x y z) ∧
          ∀ gv0 : Buf (Vec3 × TerrainVertex),
            gv0.size = (latticeSize min.x max.x cubesize).toNat *
              (latticeSize min.y max.y cubesize).toNat *
              (latticeSize min.z max.z cubesize).toNat →
            ∃ gv1, SurfaceNets.cellStep normalize traits f grid isolevel min cubesize
                (latticeSize min.x max.x cubesize).toNat
                (latticeSize min.y max.y cubesize).toNat gv0 x y z = some gv1 ∧
              gv1.size = gv0.size ∧
              gv1.cells (x + (latticeSize min.x max.x cubesize).toNat *
                  (y + (latticeSize min.y max.y cubesize).toNat * z)) =
                some (SurfaceNets.cellVertex normalize traits f min cubesize isolevel x y z) ∧
              ∀ k, k ≠ x + (latticeSize min.x max.x cubesize).toNat *
                  (y + (latticeSize min.y max.y cubesize).toNat * z) →
                gv1.cells k = gv0.cells k) ∧
        (edgeTable (cubeConfig f min cubesize isolevel x y z) = 0 →
          ∀ gv0, SurfaceNets.cellStep normalize traits f grid isolevel min cubesize
            (latticeSize min.x max.x cubesize).toNat
            (latticeSize min.y max.y cubesize).toNat gv0 x y z = some gv0) := by
  obtain ⟨grid, tr, gv, vb, ib, hS, hcell, hsize, -, hact, -, -, -⟩ :=
    SurfaceNets.generateSDF_run normalize traits f isolevel min max cubesize hx hy hz
  refine ⟨grid, gv, hS, hcell, ?_⟩
  intro x y z x1 y1 z1
  constructor
  · intro ha
    obtain ⟨l1, l2, l3⟩ := SurfaceNets.edgePairs_length traits f min cubesize isolevel x y z ha
    have hlt : x + (latticeSize min.x max.x cubesize).toNat *
        (y + (latticeSize min.y max.y cubesize).toNat * z) <
        (latticeSize min.x max.x cubesize).toNat * (latticeSize min.y max.y cubesize).toNat *
          (latticeSize min.z max.z cubesize).toNat :=
      lattice_index_lt (by omega) (by omega) (by omega)
    refine ⟨SurfaceNets.edgeLoop_eq traits f grid _ isolevel min cubesize _ _ _ hS x y z
      x1 y1 z1 12, l1, l2, l3, ?_, ?_, ?_⟩
    · have : (0 : ℚ) < ((SurfaceNets.edgePairs traits f min cubesize isolevel x y z).length : ℚ) := by
        exact_mod_cast (by omega : 0 < (SurfaceNets.edgePairs traits f min cubesize isolevel
          x y z).length)
      exact ne_of_gt this
    · unfold Buf.read
      rw [if_pos (by rw [hsize]; exact hlt)]
      exact hact x y z x1 y1 z1 ha
    · intro gv0 h0
      rw [SurfaceNets.cellStep_eq normalize traits f grid isolevel min cubesize _ _ _ hS gv0
        x y z x1 y1 z1, if_pos ha]
      unfold Buf.write
      rw [if_pos (by rw [h0]; exact hlt)]
      refine ⟨_, rfl, rfl, ?_, ?_⟩
      · simp only [if_true]
      · intro k hk
        simp only [if_neg hk]
  · intro h0 gv0
    exact SurfaceNets.cellStep_inactive normalize traits f grid isolevel min cubesize _ _ _ hS
      gv0 x y z x1 y1 z1 h0

/-- C28 on the box `[0, 3]^3` with cell size 1 and the field `x + y + z - 1/2` at
isolevel 3: the cube at `(1, 1, 0)` is crossed by the surface and holds its
representative vertex after the first pass. -/
theorem SurfaceNets.first_pass_counts_witness :
    0 < latticeSize 0 3 1 ∧
    edgeTable (cubeConfig planeField ⟨0, 0, 0⟩ 1 3 1 1 0) ≠ 0 ∧
    ∃ gv : Buf (Vec3 × TerrainVertex),
      gv.read (1 + (latticeSize 0 3 1).toNat * (1 + (latticeSize 0 3 1).toNat * 0)) =
        some (SurfaceNets.cellVertex id SurfaceNets.NaiveTraits planeField ⟨0, 0, 0⟩ 1 3
          1 1 0) := by
  have h3 : 0 < latticeSize 0 3 1 := by
    rw [latticeSize_three]
    decide
  have hn : 1 + 1 < (latticeSize 0 3 1).toNat := by
    rw [latticeSize_three]
    decide
  have hn0 : 0 + 1 < (latticeSize 0 3 1).toNat := by
    rw [latticeSize_three]
    decide
  have ha : edgeTable (cubeConfig planeField ⟨0, 0, 0⟩ 1 3 1 1 0) ≠ 0 := by
    refine active_of_sides planeField ⟨0, 0, 0⟩ 1 3 (1, 1, 0) (1, 1, 0) (2, 2, 1)
      (by simp [CubeHas]) (by simp [CubeHas]) ?_
    have e : ∀ a b d : Nat, below planeField ⟨0, 0, 0⟩ 1 3 a b d =
        decide (planeField (latticePoint ⟨0, 0, 0⟩ 1 a b d) < 3) := fun _ _ _ => rfl
    rw [e, e]
    norm_num [planeField, latticePoint, Vec3.add, Vec3.smul, Vec3.ofNat]
  obtain ⟨grid, gv, -, -, h⟩ := SurfaceNets.first_pass_counts id SurfaceNets.NaiveTraits
    planeField 3 ⟨0, 0, 0⟩ ⟨3, 3, 3⟩ 1 h3 h3 h3
  exact ⟨h3, ha, gv, ((h 1 1 0 hn hn hn0).1 ha).2.2.2.2.2.1⟩

/-- C29: when the isolevel lies between the two end values,
`DualContouringTraits::intersect` exchanges its ends at most once; at the start of each
of the ten iterations, and after the last, `0 <= mint <= maxt <= 1` and
`miniso < isolevel <= maxiso`, so the divisor `maxiso - miniso` is positive and the
probe parameter lies in `[mint, maxt]`; and the call returns a point `mix(v0, v1, t)`
with `t` in `[0, 1]`. -/
theorem SurfaceNets.DualContouringTraits.intersect_bracket (normalize : Vec3 → Vec3)
    (g0 g1 : GridVertex) (f : Vec3 → ℚ) (isolevel : ℚ) (corner v0 v1 : Vec3)
    (h : min g0.iso g1.iso < isolevel ∧ isolevel ≤ max g0.iso g1.iso) :
    SurfaceNets.DualContouringTraits.intersect normalize g0 g1 f isolevel corner v0 v1 =
      (if g0.iso > g1.iso then
        SurfaceNets.DualContouringTraits.intersectOrdered normalize g1 g0 f isolevel corner v1 v0
      else
        SurfaceNets.DualContouringTraits.intersectOrdered normalize g0 g1 f isolevel corner
          v0 v1) ∧
    (∀ n, n ≤ 10 →
      ∃ b, (if g0.iso > g1.iso then
          SurfaceNets.DualContouringTraits.bracketAfter f isolevel corner v1 v0 g1 g0 n
        else SurfaceNets.DualContouringTraits.bracketAfter f isolevel corner v0 v1 g0 g1 n) =
          some b ∧
        ((0 ≤ b.mint ∧ b.mint ≤ b.maxt ∧ b.maxt ≤ 1) ∧
          b.miniso < isolevel ∧ isolevel ≤ b.maxiso) ∧
        0 < b.maxiso - b.miniso ∧
        b.mint ≤ SurfaceNets.DualContouringTraits.probe isolevel b ∧
        SurfaceNets.DualContouringTraits.probe isolevel b ≤ b.maxt) ∧
    ∃ t n, (0 ≤ t ∧ t ≤ 1) ∧
      SurfaceNets.DualContouringTraits.intersect normalize g0 g1 f isolevel corner v0 v1 =
        some (Vec3.mix v0 v1 t, n) := by
  have ho := SurfaceNets.DualContouringTraits.ordered_iso g0 g1 v0 v1 isolevel h
  have heq := SurfaceNets.DualContouringTraits.intersect_eq normalize g0 g1 f isolevel corner
    v0 v1
  have key : ∀ (a0 a1 : GridVertex) (w0 w1 : Vec3),
      SurfaceNets.DualContouringTraits.ordered g0 g1 v0 v1 = (a0, a1, w0, w1) →
      (∀ n, n ≤ 10 →
        ∃ b, SurfaceNets.DualContouringTraits.bracketAfter f isolevel corner w0 w1 a0 a1 n =
            some b ∧
          ((0 ≤ b.mint ∧ b.mint ≤ b.maxt ∧ b.maxt ≤ 1) ∧
            b.miniso < isolevel ∧ isolevel ≤ b.maxiso) ∧
          0 < b.maxiso - b.miniso ∧
          b.mint ≤ SurfaceNets.DualContouringTraits.probe isolevel b ∧
          SurfaceNets.DualContouringTraits.probe isolevel b ≤ b.maxt) ∧
      ∃ t n, (0 ≤ t ∧ t ≤ 1) ∧
        SurfaceNets.DualContouringTraits.intersect normalize g0 g1 f isolevel corner v0 v1 =
          some (Vec3.mix w0 w1 t, n) := by
    intro a0 a1 w0 w1 hord
    rw [hord] at ho heq
    constructor
    · intro n _
      obtain ⟨b, hb, hv⟩ := SurfaceNets.DualContouringTraits.bracketAfter_valid f isolevel
        corner w0 w1 a0 a1 ho n
      obtain ⟨hden, hp, -, -, -⟩ :=
        SurfaceNets.DualContouringTraits.bracketStep_valid f isolevel corner w0 w1 b hv
      exact ⟨b, hb, hv, hden, hp.1, hp.2⟩
    · obtain ⟨b, hb, hv⟩ := SurfaceNets.DualContouringTraits.bracketAfter_valid f isolevel
        corner w0 w1 a0 a1 ho 10
      obtain ⟨⟨h0, h1, h2⟩, -, -⟩ := hv
      refine ⟨(b.mint + b.maxt) / 2,
        normalize (evaluateSDF f
          ((Vec3.mix w0 w1 ((b.mint + b.maxt) / 2)).add corner)).gradient,
        ⟨by linarith, by linarith⟩, ?_⟩
      rw [heq]
      exact SurfaceNets.DualContouringTraits.intersectOrdered_eq normalize _ _ f isolevel
        corner _ _ b hb
  by_cases hgt : g0.iso > g1.iso
  · have hord : SurfaceNets.DualContouringTraits.ordered g0 g1 v0 v1 = (g1, g0, v1, v0) := by
      unfold SurfaceNets.DualContouringTraits.ordered
      rw [if_pos hgt]
    obtain ⟨k1, t, n, ht, hres⟩ := key g1 g0 v1 v0 hord
    simp only [if_pos hgt]
    refine ⟨by rw [heq, hord], k1, 1 - t, n, ⟨by linarith, by linarith⟩, ?_⟩
    rw [hres, mix_swap]
  · have hord : SurfaceNets.DualContouringTraits.ordered g0 g1 v0 v1 = (g0, g1, v0, v1) := by
      unfold SurfaceNets.DualContouringTraits.ordered
      rw [if_neg hgt]
    obtain ⟨k1, k2⟩ := key g0 g1 v0 v1 hord
    simp only [if_neg hgt]
    exact ⟨by rw [heq, hord], k1, k2⟩

/-- C29 on the edge from `(0, 0, 0)` to `(1, 0, 0)` with the field `x + y + z - 1/2`,
its ends given in descending order, and the isolevel `-1/4`. -/
theorem SurfaceNets.DualContouringTraits.intersect_bracket_witness :
    (min (evaluateSDF planeField ⟨1, 0, 0⟩).iso (evaluateSDF planeField ⟨0, 0, 0⟩).iso < -1 / 4 ∧
      -1 / 4 ≤ max (evaluateSDF planeField ⟨1, 0, 0⟩).iso
        (evaluateSDF planeField ⟨0, 0, 0⟩).iso) ∧
    ∃ t n, (0 ≤ t ∧ t ≤ 1) ∧
      SurfaceNets.DualContouringTraits.intersect id (evaluateSDF planeField ⟨1, 0, 0⟩)
          (evaluateSDF planeField ⟨0, 0, 0⟩) planeField (-1 / 4) Vec3.zero ⟨1, 0, 0⟩ ⟨0, 0, 0⟩ =
        some (Vec3.mix ⟨1, 0, 0⟩ ⟨0, 0, 0⟩ t, n) := by
  have h : min (evaluateSDF planeField ⟨1, 0, 0⟩).iso (evaluateSDF planeField ⟨0, 0, 0⟩).iso <
        -1 / 4 ∧
      -1 / 4 ≤ max (evaluateSDF planeField ⟨1, 0, 0⟩).iso
        (evaluateSDF planeField ⟨0, 0, 0⟩).iso := by
    norm_num [evaluateSDF, planeField]
  exact ⟨h, (SurfaceNets.DualContouringTraits.intersect_bracket id
    (evaluateSDF planeField ⟨1, 0, 0⟩) (evaluateSDF planeField ⟨0, 0, 0⟩) planeField (-1 / 4)
    Vec3.zero ⟨1, 0, 0⟩ ⟨0, 0, 0⟩ h).2.2⟩

/-- C30: for `scale >= 0`, every vertex that `CubeGenerator<d>::generate` appends lies
in the closed box `[offset, offset + scale]^3`, at every depth `d`; at depth 0 the
vertices appended are those of the flagged edges, and the vertex of edge `i` is the
point `offset + scale * mix(p0, p1, t)` of that edge, its interpolation parameter `t`
lying in `[0, 1]`. -/
theorem MarchingCubes.generate_in_box (normalize : Vec3 → Vec3) (d : Nat)
    (vb : List TerrainVertex) (ib : List Nat)
    (v000 v100 v110 v010 v001 v101 v111 v011 : GridVertex)
    (isolevel : ℚ) (offset : Vec3) (scale : ℚ) (hs : 0 ≤ scale) :
    (∃ vs is, CubeGenerator.generate normalize d vb ib v000 v100 v110 v010 v001 v101 v111 v011
        isolevel offset scale = some (vb ++ vs, ib ++ is) ∧
      ∀ v ∈ vs, InBox offset scale v.position) ∧
    (∃ is, CubeGenerator.generate normalize 0 vb ib v000 v100 v110 v010 v001 v101 v111 v011
        isolevel offset scale =
        some (vb ++ (flaggedEdges
            (edgeTable (cubeindex v000 v100 v110 v010 v001 v101 v111 v011 isolevel))).map
            (edgeVertex normalize (cornerGrid v000 v100 v110 v010 v001 v101 v111 v011)
              isolevel offset scale), ib ++ is)) ∧
    ∀ i ∈ flaggedEdges
        (edgeTable (cubeindex v000 v100 v110 v010 v001 v101 v111 v011 isolevel)),
      (0 ≤ interpolationParameter
          (cornerSample (cornerGrid v000 v100 v110 v010 v001 v101 v111 v011)
            (edgeIndex i 0)).iso
          (cornerSample (cornerGrid v000 v100 v110 v010 v001 v101 v111 v011)
            (edgeIndex i 1)).iso isolevel ∧
        interpolationParameter
          (cornerSample (cornerGrid v000 v100 v110 v010 v001 v101 v111 v011)
            (edgeIndex i 0)).iso
          (cornerSample (cornerGrid v000 v100 v110 v010 v001 v101 v111 v011)
            (edgeIndex i 1)).iso isolevel ≤ 1) ∧
      (edgeVertex normalize (cornerGrid v000 v100 v110 v010 v001 v101 v111 v011)
          isolevel offset scale i).position =
        offset.add ((Vec3.mix (cornerPoint (edgeIndex i 0)) (cornerPoint (edgeIndex i 1))
          (interpolationParameter
            (cornerSample (cornerGrid v000 v100 v110 v010 v001 v101 v111 v011)
              (edgeIndex i 0)).iso
            (cornerSample (cornerGrid v000 v100 v110 v010 v001 v101 v111 v011)
              (edgeIndex i 1)).iso isolevel)).smul scale) := by
  refine ⟨generate_in_box_aux normalize d (vb, ib) v000 v100 v110 v010 v001 v101 v111 v011
    isolevel offset scale hs, ⟨_, generate_eq normalize vb ib v000 v100 v110 v010 v001 v101 v111
    v011 isolevel offset scale⟩, ?_⟩
  intro i hi
  exact ⟨interpolationParameter_unit _ _ _
    (flagged_ends_differ v000 v100 v110 v010 v001 v101 v111 v011 isolevel i hi),
    edgeVertex_position normalize _ isolevel offset scale i⟩

/-- C30 at depth 1 on the unit cube at the origin whose corner `(0, 0, 0)` alone is
below the isolevel 0. -/
theorem MarchingCubes.generate_in_box_witness :
    (0 : ℚ) ≤ 1 ∧
    ∃ vs is, CubeGenerator.generate id 1 [] [] ⟨-1, 0, 0, 0⟩ ⟨1, 0, 0, 0⟩ ⟨1, 0, 0, 0⟩
        ⟨1, 0, 0, 0⟩ ⟨1, 0, 0, 0⟩ ⟨1, 0, 0, 0⟩ ⟨1, 0, 0, 0⟩ ⟨1, 0, 0, 0⟩ 0 Vec3.zero 1 =
        some ([] ++ vs, [] ++ is) ∧
      ∀ v ∈ vs, InBox Vec3.zero 1 v.position :=
  ⟨zero_le_one, (MarchingCubes.generate_in_box id 1 [] [] ⟨-1, 0, 0, 0⟩ ⟨1, 0, 0, 0⟩
    ⟨1, 0, 0, 0⟩ ⟨1, 0, 0, 0⟩ ⟨1, 0, 0, 0⟩ ⟨1, 0, 0, 0⟩ ⟨1, 0, 0, 0⟩ ⟨1, 0, 0, 0⟩ 0 Vec3.zero 1
    zero_le_one).1⟩

/-- C32: with `NaiveTraits` the two positions stored for a cube coincide, so the
squared distance that `normalLerp` measures is 0 and its blend weight is 0; the normal
emitted for a quad corner is `normalize` applied to the normal stored for the cube,
which is the normalised averaged normal, whatever the quad normal and the flip flag, and
it is the stored normal itself where `normalize` leaves a normalised vector unchanged;
`pushQuad` on four such entries appends their positions with these normals. -/
theorem SurfaceNets.naive_blend_weight_zero (normalize : Vec3 → Vec3) (f : Vec3 → ℚ)
    (min : Vec3) (cubesize isolevel : ℚ) (x y z : Nat) (qn : Vec3) :
    (SurfaceNets.cellVertex normalize SurfaceNets.NaiveTraits f min cubesize isolevel x y z).1 =
      (SurfaceNets.cellVertex normalize SurfaceNets.NaiveTraits f min cubesize isolevel
        x y z).2.position ∧
    distSq
      (SurfaceNets.cellVertex normalize SurfaceNets.NaiveTraits f min cubesize isolevel
        x y z).2.position
      (SurfaceNets.cellVertex normalize SurfaceNets.NaiveTraits f min cubesize isolevel
        x y z).1 = 0 ∧
    blendWeight (distSq
      (SurfaceNets.cellVertex normalize SurfaceNets.NaiveTraits f min cubesize isolevel
        x y z).2.position
      (SurfaceNets.cellVertex normalize SurfaceNets.NaiveTraits f min cubesize isolevel
        x y z).1) = 0 ∧
    (SurfaceNets.cellVertex normalize SurfaceNets.NaiveTraits f min cubesize isolevel
        x y z).2.normal =
      normalize (SurfaceNets.NaiveTraits.average
        (SurfaceNets.edgePairs SurfaceNets.NaiveTraits f min cubesize isolevel x y z)
        Vec3.zero (Vec3.splat cubesize) (((Vec3.ofNat x y z).smul cubesize).add min)).2 ∧
    SurfaceNets.normalLerp normalize
        (SurfaceNets.cellVertex normalize SurfaceNets.NaiveTraits f min cubesize isolevel
          x y z).2
        (SurfaceNets.cellVertex normalize SurfaceNets.NaiveTraits f min cubesize isolevel
          x y z).1 qn =
      { position := (SurfaceNets.cellVertex normalize SurfaceNets.NaiveTraits f min cubesize
          isolevel x y z).2.position
        normal := normalize (SurfaceNets.cellVertex normalize SurfaceNets.NaiveTraits f min
          cubesize isolevel x y z).2.normal } ∧
    (normalize (SurfaceNets.cellVertex normalize SurfaceNets.NaiveTraits f min cubesize
        isolevel x y z).2.normal =
      (SurfaceNets.cellVertex normalize SurfaceNets.NaiveTraits f min cubesize isolevel
        x y z).2.normal →
      SurfaceNets.normalLerp normalize
          (SurfaceNets.cellVertex normalize SurfaceNets.NaiveTraits f min cubesize isolevel
            x y z).2
          (SurfaceNets.cellVertex normalize SurfaceNets.NaiveTraits f min cubesize isolevel
            x y z).1 qn =
        (SurfaceNets.cellVertex normalize SurfaceNets.NaiveTraits f min cubesize isolevel
          x y z).2) ∧
    (∀ (st : List TerrainVertex × List Nat) (v0 v1 v2 v3 : Vec3 × TerrainVertex) (flip : Bool),
      v0.1 = v0.2.position → v1.1 = v1.2.position → v2.1 = v2.2.position →
      v3.1 = v3.2.position →
      (SurfaceNets.pushQuad normalize st v0 v1 v2 v3 flip).1 =
        st.1 ++ [{ position := v0.2.position, normal := normalize v0.2.normal },
          { position := v1.2.position, normal := normalize v1.2.normal },
          { position := v2.2.position, normal := normalize v2.2.normal },
          { position := v3.2.position, normal := normalize v3.2.normal }]) := by
  have h1 := SurfaceNets.naive_cellVertex_fst normalize f min cubesize isolevel x y z
  have hd : distSq
      (SurfaceNets.cellVertex normalize SurfaceNets.NaiveTraits f min cubesize isolevel
        x y z).2.position
      (SurfaceNets.cellVertex normalize SurfaceNets.NaiveTraits f min cubesize isolevel
        x y z).1 = 0 := by
    rw [h1]
    simp [distSq, Vec3.sub, Vec3.dot]
  refine ⟨h1, hd, ?_, rfl, ?_, ?_, ?_⟩
  · rw [hd]
    norm_num [blendWeight]
  · rw [h1]
    exact SurfaceNets.normalLerp_at_position normalize _ qn
  · intro hfix
    rw [h1, SurfaceNets.normalLerp_at_position, hfix]
  · intro st v0 v1 v2 v3 flip e0 e1 e2 e3
    rw [SurfaceNets.pushQuad_eq, e0, e1, e2, e3, SurfaceNets.normalLerp_at_position,
      SurfaceNets.normalLerp_at_position, SurfaceNets.normalLerp_at_position,
      SurfaceNets.normalLerp_at_position]

/-- C33: on a fresh 100 x 300 atlas, `layoutBitmap(1, 250)` followed by `flush()` passes
the assertions and moves `layoutBegin` to 50 while `layoutLineBegin` stays 0; at a second
`flush()` the assertion `layoutLineBegin >= layoutBegin` fails. -/
theorem FontAtlas.flush_assert_fails :
    ∃ a1 a2 : FontAtlas,
      (FontAtlas.create (2 ^ 64) 100 300).layoutBitmap (2 ^ 32) (2 ^ 64) 1 250 =
        some (a1, some (0, 0)) ∧
      a1.flush (2 ^ 64) = some a2 ∧
      a2.layoutBegin = 50 ∧ a2.layoutLineBegin = 0 ∧
      ¬ (a2.layoutBegin ≤ a2.layoutLineBegin) ∧
      ¬ FontAtlas.flushAsserts (2 ^ 64) a2 ∧
      a2.flush (2 ^ 64) = none := by
  refine ⟨⟨100, 300, 0, 300, 0, 250, 1⟩, ⟨100, 300, 50, 350, 0, 250, 1⟩, ?_, ?_, ?_⟩
  · decide
  · decide
  · decide

/-- C34: on a fresh 100 x 300 atlas with a 32-bit `layoutPosition`, after
`layoutBitmap(10, 1)` the call `layoutBitmap(4294967291, 1)` succeeds on the current line
with `x = 10`, because `layoutPosition + width` wraps to 5; the rectangle ends far
outside the 100 columns of the texture. -/
theorem FontAtlas.layoutBitmap_wraps_width :
    ∃ (a1 a2 : FontAtlas) (r : Nat × Nat),
      (FontAtlas.create (2 ^ 64) 100 300).layoutBitmap (2 ^ 32) (2 ^ 64) 10 1 =
        some (a1, some (0, 0)) ∧
      a1.layoutBitmap (2 ^ 32) (2 ^ 64) 4294967291 1 = some (a2, some r) ∧
      r = (10, 0) ∧ a2.layoutPosition = 5 ∧
      (1 ≤ 4294967291 ∧ 4294967291 < 2 ^ 32) ∧
      ¬ (r.1 + 4294967291 ≤ a1.atlasWidth) := by
  refine ⟨⟨100, 300, 0, 300, 0, 1, 10⟩, ⟨100, 300, 0, 300, 0, 1, 5⟩, (10, 0), ?_, ?_, ?_⟩
  · decide
  · decide
  · decide

/-- C35: on a fresh 100 x 300 atlas, `layoutBitmap(1, 250)`, `flush()`, then
`layoutBitmap(1, 10)`, `layoutBitmap(100, 50)` and `layoutBitmap(100, 50)` all succeed;
the last three calls follow the only flush, and the rectangles of the first and the
third of them both contain the texel in column 1 of row 0. -/
theorem FontAtlas.rectangles_overlap :
    ∃ a1 a2 a3 a4 a5 : FontAtlas,
      (FontAtlas.create (2 ^ 64) 100 300).layoutBitmap (2 ^ 32) (2 ^ 64) 1 250 =
        some (a1, some (0, 0)) ∧
      a1.flush (2 ^ 64) = some a2 ∧
      a2.layoutBitmap (2 ^ 32) (2 ^ 64) 1 10 = some (a3, some (1, 0)) ∧
      a3.layoutBitmap (2 ^ 32) (2 ^ 64) 100 50 = some (a4, some (0, 250)) ∧
      a4.layoutBitmap (2 ^ 32) (2 ^ 64) 100 50 = some (a5, some (0, 300)) ∧
      FontAtlas.texels 300 (1, 0) 1 10 1 0 ∧
      FontAtlas.texels 300 (0, 300) 100 50 1 0 := by
  refine ⟨⟨100, 300, 0, 300, 0, 250, 1⟩, ⟨100, 300, 50, 350, 0, 250, 1⟩,
    ⟨100, 300, 50, 350, 0, 250, 2⟩, ⟨100, 300, 50, 350, 250, 300, 100⟩,
    ⟨100, 300, 50, 350, 300, 350, 100⟩, ?_, ?_, ?_, ?_, ?_, ?_, ?_⟩
  · decide
  · decide
  · decide
  · decide
  · decide
  · decide
  · decide

/-- C36: in a state that satisfies the assertions of `flush`, with counters of an
unsigned type at least as wide as `unsigned int`, `flush` returns; afterwards
`layoutEnd - layoutLineEnd` is at least a third of the texture height, `layoutEnd -
layoutBegin`, `layoutLineBegin`, `layoutLineEnd` and `layoutPosition` are as before, and
when `layoutEnd - layoutLineEnd` was at least a third of the height already, the state
is unchanged. The differences are those of the unsigned type; they are plain
differences when `layoutEnd` plus a third of the height does not wrap. -/
theorem FontAtlas.flush_free_space (lineMod : Nat) (a : FontAtlas)
    (hH : a.atlasHeight < 2 ^ 32) (hM : 2 ^ 32 ≤ lineMod) (hE : a.layoutEnd < lineMod)
    (hasserts : FontAtlas.flushAsserts lineMod a) :
    ∃ b : FontAtlas, a.flush lineMod = some b ∧
      a.atlasHeight / 3 ≤ wrapSub lineMod b.layoutEnd b.layoutLineEnd ∧
      wrapSub lineMod b.layoutEnd b.layoutBegin = wrapSub lineMod a.layoutEnd a.layoutBegin ∧
      b.layoutLineBegin = a.layoutLineBegin ∧ b.layoutLineEnd = a.layoutLineEnd ∧
      b.layoutPosition = a.layoutPosition ∧
      b.atlasWidth = a.atlasWidth ∧ b.atlasHeight = a.atlasHeight ∧
      (a.atlasHeight / 3 ≤ wrapSub lineMod a.layoutEnd a.layoutLineEnd → b = a) ∧
      (a.layoutEnd + a.atlasHeight / 3 < lineMod →
        a.atlasHeight / 3 ≤ b.layoutEnd - b.layoutLineEnd ∧ b.layoutLineEnd ≤ b.layoutEnd ∧
        b.layoutEnd - b.layoutBegin = a.layoutEnd - a.layoutBegin ∧
        b.layoutBegin ≤ b.layoutEnd) := by
  obtain ⟨h1, h2, ⟨h3, h4⟩, h5⟩ := hasserts
  have hfl : a.flush lineMod = some (a.flushBody lineMod) := by
    unfold FontAtlas.flush
    rw [if_pos ⟨h1, h2, ⟨h3, h4⟩, h5⟩]
  have hs : wrapSub lineMod a.layoutEnd a.layoutLineEnd = a.layoutEnd - a.layoutLineEnd :=
    wrapSub_of_le _ _ _ h4 hE
  have hb : wrapSub lineMod a.layoutEnd a.layoutBegin = a.layoutEnd - a.layoutBegin :=
    wrapSub_of_le _ _ _ h1.le hE
  rw [hb] at h5
  have hsmall : (a.layoutEnd - a.layoutLineEnd) % 2 ^ 32 = a.layoutEnd - a.layoutLineEnd :=
    Nat.mod_eq_of_lt (by omega)
  refine ⟨a.flushBody lineMod, hfl, ?_⟩
  unfold FontAtlas.flushBody
  simp only [hs, hsmall]
  by_cases hlt : a.layoutEnd - a.layoutLineEnd < a.atlasHeight / 3
  · rw [if_pos hlt]
    dsimp only
    have e1 := wrapSub_add_mod lineMod a.layoutEnd
      (a.atlasHeight / 3 - (a.layoutEnd - a.layoutLineEnd)) a.layoutLineEnd h4 hE
    have e2 := wrapSub_shift lineMod a.layoutEnd a.layoutBegin
      (a.atlasHeight / 3 - (a.layoutEnd - a.layoutLineEnd)) h1.le hE
    have e3 : a.layoutEnd - a.layoutLineEnd +
        (a.atlasHeight / 3 - (a.layoutEnd - a.layoutLineEnd)) = a.atlasHeight / 3 := by omega
    rw [e3, Nat.mod_eq_of_lt (show a.atlasHeight / 3 < lineMod by omega)] at e1
    refine ⟨e1.ge, e2.trans hb.symm, rfl, rfl, rfl, rfl, rfl, fun h => absurd h (by omega), ?_⟩
    intro hw
    rw [Nat.mod_eq_of_lt (by omega), Nat.mod_eq_of_lt (by omega)]
    omega
  · rw [if_neg hlt]
    refine ⟨by omega, rfl, rfl, rfl, rfl, rfl, rfl, fun _ => rfl, fun _ => by omega⟩

/-- C36 on the 100 x 300 atlas after `layoutBitmap(1, 250)`: the assertions hold, and
`flush` moves the window by 50 rows so that 100 rows are free. -/
theorem FontAtlas.flush_free_space_witness :
    ((300 : Nat) < 2 ^ 32 ∧ FontAtlas.flushAsserts (2 ^ 64) ⟨100, 300, 0, 300, 0, 250, 1⟩) ∧
    ∃ b : FontAtlas, FontAtlas.flush (2 ^ 64) ⟨100, 300, 0, 300, 0, 250, 1⟩ = some b ∧
      300 / 3 ≤ wrapSub (2 ^ 64) b.layoutEnd b.layoutLineEnd := by
  have h : FontAtlas.flushAsserts (2 ^ 64) ⟨100, 300, 0, 300, 0, 250, 1⟩ := by decide
  obtain ⟨b, hb, hfree, -⟩ := FontAtlas.flush_free_space (2 ^ 64) ⟨100, 300, 0, 300, 0, 250, 1⟩
    (by decide) (by decide) (by decide) h
  exact ⟨⟨by decide, h⟩, b, hb, hfree⟩

/-- C37: a call of `layoutBitmap` that returns no position leaves the state as it was,
for every width of the counters; but on a fresh 64 x 64 atlas with a 32-bit
`layoutPosition`, after `layoutBitmap(1, 1)` the call `layoutBitmap(4294967295, 1)`
returns the position `(1, 0)` although its width exceeds the 64 columns of the texture,
because `layoutPosition + width` wraps to 0. -/
theorem FontAtlas.layoutBitmap_failure_frame :
    (∀ (posMod lineMod : Nat) (a b : FontAtlas) (width height : Nat),
      a.layoutBitmap posMod lineMod width height = some (b, none) → b = a) ∧
    ∃ a1 a2 : FontAtlas,
      (FontAtlas.create (2 ^ 64) 64 64).layoutBitmap (2 ^ 32) (2 ^ 64) 1 1 =
        some (a1, some (0, 0)) ∧
      a1.atlasWidth < 4294967295 ∧ 4294967295 < 2 ^ 32 ∧
      a1.layoutBitmap (2 ^ 32) (2 ^ 64) 4294967295 1 = some (a2, some (1, 0)) ∧
      a2.layoutPosition = 0 := by
  constructor
  · intro posMod lineMod a b width height h
    unfold FontAtlas.layoutBitmap at h
    simp only [Option.bind_eq_bind, Option.pure_def] at h
    rcases h1 : isRangeValid a.layoutLineBegin height a.atlasHeight with _ | v1 <;>
      rcases h2 : isRangeValid a.layoutLineEnd height a.atlasHeight with _ | v2 <;>
      simp only [h1, h2, Option.none_bind, Option.some_bind] at h <;>
      split_ifs at h <;>
      first
        | exact (Prod.mk.inj (Option.some.inj h)).1.symm
        | exact absurd (Prod.mk.inj (Option.some.inj h)).2 (by simp)
  · refine ⟨⟨64, 64, 0, 64, 0, 1, 1⟩, ⟨64, 64, 0, 64, 0, 1, 0⟩, ?_, ?_, ?_, ?_, ?_⟩
    · decide
    · decide
    · decide
    · decide
    · decide

/-- C38: for a Unicode scalar value `c` and any value `cp0` in `*codep`, `utf8decode`
accepts every byte of the UTF-8 encoding of `c` fed from `UTF8_ACCEPT`; the state it
returns is neither `UTF8_ACCEPT` nor `UTF8_REJECT` after each byte but the last, and
after the last byte it is `UTF8_ACCEPT` with `*codep` equal to `c`. -/
theorem utf8decode_encoding (c cp0 : Nat) (hc : isScalar c) :
    ∃ tr, utf8feed UTF8_ACCEPT cp0 (utf8encode c) = some tr ∧
      tr.length = (utf8encode c).length ∧
      (∀ p ∈ tr.dropLast, p.1 ≠ UTF8_ACCEPT ∧ p.1 ≠ UTF8_REJECT) ∧
      tr.getLast? = some (UTF8_ACCEPT, c) := by
  obtain ⟨hmax, hsur⟩ := hc
  unfold utf8encode UTF8_ACCEPT UTF8_REJECT
  by_cases c1 : c < 0x80
  · rw [if_pos c1]
    have hl : leadNext c = 0 := by
      unfold leadNext
      rw [if_pos c1]
    have hb : leadBits c = c := by
      unfold leadBits
      rw [if_pos c1]
    refine ⟨[(0, c)], ?_, rfl, ?_, rfl⟩
    · rw [utf8feed_lead c cp0 [] (by omega) (by omega), utf8feed_nil, hl, hb]
      rfl
    · intro p hp
      simp at hp
  · rw [if_neg c1]
    by_cases c2 : c < 0x800
    · rw [if_pos c2]
      have hl : leadNext (0xC0 + c / 64) = 24 := by
        unfold leadNext
        split_ifs <;> omega
      have hb : leadBits (0xC0 + c / 64) = c / 64 := by
        unfold leadBits
        split_ifs <;> omega
      have e : c / 64 * 64 + (0x80 + c % 64 - 0x80) = c := by omega
      refine ⟨[(24, c / 64), (0, c)], ?_, rfl, ?_, rfl⟩
      · rw [utf8feed_lead _ cp0 _ (by omega) (by omega), hl, hb,
          utf8feed_cont 24 _ _ [] (by decide) (by decide) (by decide)
            (by unfold contLo; split_ifs <;> omega) (by unfold contHi; split_ifs <;> omega)
            (by omega),
          utf8feed_nil, e]
        rfl
      · intro p hp
        simp only [List.dropLast_cons₂, List.dropLast_single, List.mem_singleton] at hp
        subst hp
        dsimp only
        omega
    · rw [if_neg c2]
      by_cases c3 : c < 0x10000
      · rw [if_pos c3]
        have hl := leadNext_three (0xE0 + c / 4096) (by omega) (by omega)
        have hb : leadBits (0xE0 + c / 4096) = c / 4096 := by
          unfold leadBits
          split_ifs <;> omega
        have hs : (leadNext (0xE0 + c / 4096) = 36 ∨ leadNext (0xE0 + c / 4096) = 48 ∨
            leadNext (0xE0 + c / 4096) = 60) ∧
            contLo (leadNext (0xE0 + c / 4096)) ≤ 0x80 + c / 64 % 64 ∧
            0x80 + c / 64 % 64 ≤ contHi (leadNext (0xE0 + c / 4096)) := by
          rw [hl]
          unfold contLo contHi
          split_ifs <;> omega
        obtain ⟨hs1, hlo, hhi⟩ := hs
        have hn : contNext (leadNext (0xE0 + c / 4096)) = 24 := by
          unfold contNext
          split_ifs <;> omega
        have e1 : c / 4096 * 64 + (0x80 + c / 64 % 64 - 0x80) = c / 64 := by omega
        have e2 : c / 64 * 64 + (0x80 + c % 64 - 0x80) = c := by omega
        refine ⟨[(leadNext (0xE0 + c / 4096), c / 4096), (24, c / 64), (0, c)], ?_, rfl, ?_,
          rfl⟩
        · rw [utf8feed_lead _ cp0 _ (by omega) (by omega), hb,
            utf8feed_cont (leadNext (0xE0 + c / 4096)) _ _ _ (by omega) (by omega) (by omega)
              hlo hhi (by omega),
            hn, e1,
            utf8feed_cont 24 _ _ [] (by decide) (by decide) (by decide)
              (by unfold contLo; split_ifs <;> omega) (by unfold contHi; split_ifs <;> omega)
              (by omega),
            utf8feed_nil, e2]
          rfl
        · intro p hp
          simp only [List.dropLast_cons₂, List.dropLast_single, List.mem_cons,
            List.mem_singleton, List.not_mem_nil, or_false] at hp
          rcases hp with rfl | rfl
          · dsimp only
            omega
          · dsimp only
            omega
      · rw [if_neg c3]
        have hl := leadNext_four (0xF0 + c / 262144) (by omega) (by omega)
        have hb : leadBits (0xF0 + c / 262144) = c / 262144 := by
          unfold leadBits
          split_ifs <;> omega
        have hs : (leadNext (0xF0 + c / 262144) = 72 ∨ leadNext (0xF0 + c / 262144) = 84 ∨
            leadNext (0xF0 + c / 262144) = 96) ∧
            contLo (leadNext (0xF0 + c / 262144)) ≤ 0x80 + c / 4096 % 64 ∧
            0x80 + c / 4096 % 64 ≤ contHi (leadNext (0xF0 + c / 262144)) := by
          rw [hl]
          unfold contLo contHi
          split_ifs <;> omega
        obtain ⟨hs1, hlo, hhi⟩ := hs
        have hn : contNext (leadNext (0xF0 + c / 262144)) = 36 := by
          unfold contNext
          split_ifs <;> omega
        have e0 : c / 262144 * 64 + (0x80 + c / 4096 % 64 - 0x80) = c / 4096 := by omega
        have e1 : c / 4096 * 64 + (0x80 + c / 64 % 64 - 0x80) = c / 64 := by omega
        have e2 : c / 64 * 64 + (0x80 + c % 64 - 0x80) = c := by omega
        refine ⟨[(leadNext (0xF0 + c / 262144), c / 262144), (36, c / 4096), (24, c / 64),
          (0, c)], ?_, rfl, ?_, rfl⟩
        · rw [utf8feed_lead _ cp0 _ (by omega) (by omega), hb,
            utf8feed_cont (leadNext (0xF0 + c / 262144)) _ _ _ (by omega) (by omega)
              (by omega) hlo hhi (by omega),
            hn, e0,
            utf8feed_cont 36 _ _ _ (by decide) (by decide) (by decide)
              (by unfold contLo; split_ifs <;> omega) (by unfold contHi; split_ifs <;> omega)
              (by omega),
            (by decide : contNext 36 = 24), e1,
            utf8feed_cont 24 _ _ [] (by decide) (by decide) (by decide)
              (by unfold contLo; split_ifs <;> omega) (by unfold contHi; split_ifs <;> omega)
              (by omega),
            utf8feed_nil, e2]
          rfl
        · intro p hp
          simp only [List.dropLast_cons₂, List.dropLast_single, List.mem_cons,
            List.mem_singleton, List.not_mem_nil, or_false] at hp
          rcases hp with rfl | rfl | rfl
          · dsimp only
            omega
          · dsimp only
            omega
          · dsimp only
            omega

/-- C38 at the euro sign `0x20AC`, encoded as `E2 82 AC`. -/
theorem utf8decode_encoding_witness :
    isScalar 0x20AC ∧ utf8encode 0x20AC = [0xE2, 0x82, 0xAC] ∧
    ∃ tr, utf8feed UTF8_ACCEPT 0 (utf8encode 0x20AC) = some tr ∧
      tr.getLast? = some (UTF8_ACCEPT, 0x20AC) := by
  obtain ⟨tr, h1, -, -, h2⟩ := utf8decode_encoding 0x20AC 0 (by decide)
  exact ⟨by decide, by decide, tr, h1, h2⟩

/-- C39: for bytes fed to `utf8decode` from `UTF8_ACCEPT`, every call returns, each
state is a multiple of 12 up to 96, and the index `256 + state + type` of the next
lookup is inside `utf8d`; once a prefix ends in `UTF8_REJECT`, every later state is
`UTF8_REJECT`; and when a prefix ends in `UTF8_ACCEPT` (or is empty) and the trace of
the segment after it returns to `UTF8_ACCEPT` at its last byte and not before, with
code point `c`, then `c` is a scalar value and the segment is its UTF-8 encoding. -/
theorem utf8decode_automaton :
    (∀ (bytes : List Nat) (cp0 : Nat), (∀ b ∈ bytes, b < 256) →
      ∃ tr, utf8feed UTF8_ACCEPT cp0 bytes = some tr ∧ tr.length = bytes.length ∧
        ∀ p ∈ (UTF8_ACCEPT, cp0) :: tr, (p.1 % 12 = 0 ∧ p.1 ≤ 96) ∧
          ∀ b, b < 256 → ∃ t, utf8d[b]? = some t ∧ 256 + p.1 + t < utf8d.length) ∧
    (∀ (pre post : List Nat) (cp0 cp : Nat) (trPre tr : List (Nat × Nat)),
      (∀ b ∈ pre ++ post, b < 256) →
      utf8feed UTF8_ACCEPT cp0 pre = some trPre →
      trPre.getLast? = some (UTF8_REJECT, cp) →
      utf8feed UTF8_ACCEPT cp0 (pre ++ post) = some tr →
      ∃ trPost, tr = trPre ++ trPost ∧ trPost.length = post.length ∧
        ∀ p ∈ trPost, p.1 = UTF8_REJECT) ∧
    (∀ (pre seg : List Nat) (cp0 c : Nat) (trPre tr : List (Nat × Nat)),
      (∀ b ∈ pre ++ seg, b < 256) →
      utf8feed UTF8_ACCEPT cp0 pre = some trPre →
      (trPre.getLast?.getD (UTF8_ACCEPT, cp0)).1 = UTF8_ACCEPT →
      utf8feed UTF8_ACCEPT cp0 (pre ++ seg) = some tr →
      ∃ trSeg, tr = trPre ++ trSeg ∧ trSeg.length = seg.length ∧
        (FirstAccept trSeg c → isScalar c ∧ seg = utf8encode c)) := by
  refine ⟨?_, ?_, ?_⟩
  · intro bytes cp0 hb
    obtain ⟨tr, h1, h2⟩ := utf8feed_total bytes UTF8_ACCEPT cp0 (by decide) hb
    refine ⟨tr, h1, utf8feed_length bytes _ _ _ h1, ?_⟩
    intro p hp
    have hst : p.1 % 12 = 0 ∧ p.1 ≤ 96 := by
      rcases List.mem_cons.mp hp with rfl | hp
      · exact ⟨rfl, Nat.zero_le 96⟩
      · exact h2 p hp
    refine ⟨hst, ?_⟩
    intro b hb1
    have ht := byteClass_lt ⟨b, hb1⟩
    dsimp only at ht
    refine ⟨byteClass b, utf8d_class b hb1, ?_⟩
    rw [utf8d_length]
    omega
  · intro pre post cp0 cp trPre tr hb hpre hlast hfeed
    rw [utf8feed_append pre post _ _ trPre hpre, hlast] at hfeed
    obtain ⟨trPost, h1, h2⟩ := utf8feed_reject post cp
      (fun x hx => hb x (List.mem_append_right pre hx))
    have e : ((some (UTF8_REJECT, cp)).getD (UTF8_ACCEPT, cp0)) = (12, cp) := rfl
    rw [e, h1] at hfeed
    exact ⟨trPost, (Option.some.inj hfeed).symm, utf8feed_length post _ _ _ h1, h2⟩
  · intro pre seg cp0 c trPre tr hb hpre hlast hfeed
    rw [utf8feed_append pre seg _ _ trPre hpre, hlast] at hfeed
    rcases hf : utf8feed UTF8_ACCEPT (trPre.getLast?.getD (UTF8_ACCEPT, cp0)).2 seg
      with _ | trSeg
    · rw [hf] at hfeed
      exact absurd hfeed (by simp)
    · rw [hf] at hfeed
      refine ⟨trSeg, (Option.some.inj hfeed).symm, utf8feed_length seg _ _ _ hf, ?_⟩
      intro hfa
      exact segment_decode seg _ c trSeg (fun x hx => hb x (List.mem_append_right pre hx)) hf
        hfa
